import Mathlib

/-! # Analysis of Means (ANOM) engine of the DOE sources

Shallow embedding of `Anom_Utils.h` (namespace `stat_util`, `AnomOptions`,
`AnomGroupResult`, class `Anom`).

Modelling conventions.

* A C++ `double` is an element of a type `α` that carries the operations the
  source uses on it: `+ - * /`, negation, the comparisons, the conversion of an
  `int` and decimal literals.  The definitions perform the operations of the
  source in the order of the source and assume nothing else about `α`.  They
  are read in two ways: over a linearly ordered field, where every operation
  is exact (statements about the computation without rounding), and over
  `Binary64`, the model of the IEEE 754 format at the end of the definitions
  (statements about the values the program computes).
* The functions of `<cmath>` used by the source, `std::sqrt`, `std::log` and
  `std::fabs`, are parameters `sqrt log fabs : α → α`; over the reals they are
  `Real.sqrt`, `Real.log` and the absolute value, over `Binary64` the square
  root and absolute value of the format, `std::log` staying arbitrary.
* A `double` variable that the source initialises with `quiet_NaN` has type
  `Option α`, `none` being the NaN; `std::isnan` is `Option.isNone`, arithmetic
  is `Option.map` and a comparison with a NaN is `false`.
* `int` is `Int` (the sizes involved are container sizes, far from overflow).
  In every state reached through the member functions the groups are non-empty
  (`add_group` rejects an empty sequence), so no division by a group size
  divides by zero there.
* `throw std::runtime_error(msg)` is `Except.error msg`.  A member function
  that mutates the object returns the outcome together with the state of the
  object at the point of return or throw.
-/

namespace stat_util

variable {α : Type} [Add α] [Sub α] [Mul α] [Div α] [Neg α] [OfScientific α] [IntCast α]
  [LT α] [LE α] [∀ a b : α, Decidable (a < b)] [∀ a b : α, Decidable (a ≤ b)]

/-- Standard normal quantile approximation `normal_quantile_approx(p)`. -/
def normal_quantile_approx (sqrt log : α → α) (p : α) : Except String α :=
  if p ≤ 0.0 ∨ p ≥ 1.0 then
    .error "normal_quantile_approx: p must be in (0,1)"
  else
    let a1 : α := -3.969683028665376e+01
    let a2 : α := 2.209460984245205e+02
    let a3 : α := -2.759285104469687e+02
    let a4 : α := 1.383577518672690e+02
    let a5 : α := -3.066479806614716e+01
    let a6 : α := 2.506628277459239e+00
    let b1 : α := -5.447609879822406e+01
    let b2 : α := 1.615858368580409e+02
    let b3 : α := -1.556989798598866e+02
    let b4 : α := 6.680131188771972e+01
    let b5 : α := -1.328068155288572e+01
    let c1 : α := -7.784894002430293e-03
    let c2 : α := -3.223964580411365e-01
    let c3 : α := -2.400758277161838e+00
    let c4 : α := -2.549732539343734e+00
    let c5 : α := 4.374664141464968e+00
    let c6 : α := 2.938163982698783e+00
    let d1 : α := 7.784695709041462e-03
    let d2 : α := 3.224671290700398e-01
    let d3 : α := 2.445134137142996e+00
    let d4 : α := 3.754408661907416e+00
    if p < 0.02425 then
      let q := sqrt (-2.0 * log p)
      .ok ((((((c1*q + c2)*q + c3)*q + c4)*q + c5)*q + c6) /
        ((((d1*q + d2)*q + d3)*q + d4)*q + 1.0))
    else if p > 1.0 - 0.02425 then
      let q := sqrt (-2.0 * log (1.0 - p))
      .ok (-(((((c1*q + c2)*q + c3)*q + c4)*q + c5)*q + c6) /
        ((((d1*q + d2)*q + d3)*q + d4)*q + 1.0))
    else
      let q := p - 0.5
      let r := q * q
      .ok ((((((a1*r + a2)*r + a3)*r + a4)*r + a5)*r + a6) * q /
        (((((b1*r + b2)*r + b3)*r + b4)*r + b5)*r + 1.0))

/-- Student t quantile approximation `student_t_quantile_approx(p, df)`. -/
def student_t_quantile_approx (sqrt log : α → α) (p df : α) : Except String α :=
  if df ≤ 0.0 then
    .error "student_t_quantile_approx: df must be > 0"
  else
    match normal_quantile_approx sqrt log p with
    | .error e => .error e
    | .ok z =>
      if df > 30.0 then
        .ok z
      else
        let z3 := z * z * z
        .ok (z + (z3 + z) / (4.0 * df))

/-- Bonferroni-based ANOM factor `anom_h_bonferroni_equal_n(alpha, a, n, df)`
for the equal-n case. -/
def anom_h_bonferroni_equal_n (sqrt log : α → α) (alpha : α) (a n df : Int) :
    Except String α :=
  if alpha ≤ 0.0 ∨ alpha ≥ 1.0 then
    .error "anom_h_bonferroni_equal_n: alpha in (0,1)"
  else if a ≤ 1 ∨ n ≤ 0 ∨ df ≤ 0 then
    .error "anom_h_bonferroni_equal_n: invalid a/n/df"
  else
    let alpha_per_group := alpha / (a : α)
    let p := 1.0 - alpha_per_group / 2.0
    match student_t_quantile_approx sqrt log p (df : α) with
    | .error e => .error e
    | .ok tcrit => .ok (tcrit * sqrt (((a - 1 : Int) : α) / (a : α)))

/-- Bonferroni-based t critical value `anom_tcrit_bonferroni(alpha, a, df)`
for the unequal-n case. -/
def anom_tcrit_bonferroni (sqrt log : α → α) (alpha : α) (a df : Int) :
    Except String α :=
  if alpha ≤ 0.0 ∨ alpha ≥ 1.0 then
    .error "anom_tcrit_bonferroni: alpha in (0,1)"
  else if a ≤ 1 ∨ df ≤ 0 then
    .error "anom_tcrit_bonferroni: invalid a/df"
  else
    let alpha_per_group := alpha / (a : α)
    let p := 1.0 - alpha_per_group / 2.0
    student_t_quantile_approx sqrt log p (df : α)

end stat_util

/-- The options record `AnomOptions`, with the defaults of the source. -/
structure AnomOptions (α : Type) [OfScientific α] where
  alpha : α := 0.05
  assume_equal_n : Bool := true
  bonferroni : Bool := true
  svg_width : α := 900.0
  svg_height : α := 500.0
  svg_margin : α := 60.0

/-- The per-group output record `AnomGroupResult`; the `double` members start
as NaN. -/
structure AnomGroupResult (α : Type) where
  name : String := ""
  n : Int := 0
  mean : Option α := none
  margin : Option α := none
  UDL : Option α := none
  LDL : Option α := none
  significant_high : Bool := false
  significant_low : Bool := false

/-- The private record `Anom::Group`. -/
structure Anom.Group (α : Type) where
  name : String
  values : List α

/-- The data members of class `Anom`. -/
structure Anom (α : Type) [OfScientific α] where
  opt_ : AnomOptions α
  groups_ : List (Anom.Group α) := []
  computed_ : Bool := false
  grand_mean_ : Option α := none
  mse_ : Option α := none
  s_within_ : Option α := none
  results_ : List (AnomGroupResult α) := []

namespace Anom

variable {α : Type} [Add α] [Sub α] [Mul α] [Div α] [Neg α] [OfScientific α] [IntCast α]
  [LT α] [LE α] [∀ a b : α, Decidable (a < b)] [∀ a b : α, Decidable (a ≤ b)]

/-- The constructor `Anom(AnomOptions opt)`. -/
def new (opt : AnomOptions α) : Anom α := { opt_ := opt }

/-- The member `add_group(name, values)`. -/
def add_group (self : Anom α) (name : String) (values : List α) :
    Except String Unit × Anom α :=
  if values.isEmpty then
    (.error ("Anom::add_group: group has no values: " ++ name), self)
  else
    (.ok (), { self with
      groups_ := self.groups_ ++ [{ name := name, values := values }],
      computed_ := false })

/-- The member `clear()`. -/
def clear (self : Anom α) : Except String Unit × Anom α :=
  (.ok (), { self with
    groups_ := [], results_ := [], computed_ := false,
    grand_mean_ := none, mse_ := none, s_within_ := none })

/-- The private helper `all_equal(ns)`. -/
def all_equal (ns : List Int) : Bool :=
  match ns with
  | [] => true
  | n0 :: rest => rest.all (fun n => !(n != n0))

/-- The critical values `(h, tcrit)` chosen by `fit()`; the one that is not
assigned stays NaN. -/
def critical_values (sqrt log : α → α) (opt : AnomOptions α) (equal_n : Bool)
    (a n0 df_within : Int) : Except String (Option α × Option α) :=
  if opt.bonferroni then
    if equal_n then
      match stat_util.anom_h_bonferroni_equal_n sqrt log opt.alpha a n0 df_within with
      | .error e => .error e
      | .ok h => .ok (some h, none)
    else
      match stat_util.anom_tcrit_bonferroni sqrt log opt.alpha a df_within with
      | .error e => .error e
      | .ok tcrit => .ok (none, some tcrit)
  else
    let p := 1.0 - opt.alpha / 2.0
    match stat_util.student_t_quantile_approx sqrt log p (df_within : α) with
    | .error e => .error e
    | .ok tcrit => .ok (none, some tcrit)

/-- The body of the last loop of `fit()`: the result record of one group. -/
def group_result (sqrt : α → α) (grand_mean s_within : α) (equal_n : Bool)
    (h tcrit : Option α) (name : String) (n : Int) (mean : α) : AnomGroupResult α :=
  let margin_i : Option α :=
    if equal_n && !h.isNone then
      h.map (fun hv => hv * s_within * sqrt (1.0 / (n : α)))
    else
      tcrit.map (fun tv => tv * s_within * sqrt (1.0 / (n : α)))
  let UDL := margin_i.map (fun m => grand_mean + m)
  let LDL := margin_i.map (fun m => grand_mean - m)
  { name := name
    n := n
    mean := some mean
    margin := margin_i
    UDL := UDL
    LDL := LDL
    significant_high := match UDL with
      | some u => decide (mean > u)
      | none => false
    significant_low := match LDL with
      | some l => decide (mean < l)
      | none => false }

/-- The member `fit()`. -/
def fit (sqrt log : α → α) (self : Anom α) : Except String Unit × Anom α :=
  if self.groups_.isEmpty then
    (.error "Anom::fit: no groups to fit", self)
  else
    let a : Int := self.groups_.length
    let ns : List Int := self.groups_.map (fun g => (g.values.length : Int))
    let N : Int := ns.foldl (fun acc n => acc + n) 0
    let means : List α := self.groups_.map
      (fun g => g.values.foldl (fun s x => s + x) 0.0 / ((g.values.length : Int) : α))
    let grand_sum : α := (means.zip ns).foldl (fun acc p => acc + p.1 * (p.2 : α)) 0.0
    let grand_mean := grand_sum / (N : α)
    let s1 : Anom α := { self with grand_mean_ := some grand_mean }
    let ss_within : α := (self.groups_.zip means).foldl
      (fun acc p => p.1.values.foldl (fun acc x => acc + (x - p.2) * (x - p.2)) acc) 0.0
    let df_within : Int := ns.foldl (fun acc n => acc + (n - 1)) 0
    if df_within ≤ 0 then
      (.error "Anom::fit: insufficient degrees of freedom", s1)
    else
      let mse := ss_within / (df_within : α)
      let s_within := sqrt mse
      let s2 : Anom α := { s1 with mse_ := some mse, s_within_ := some s_within, results_ := [] }
      let equal_n := self.opt_.assume_equal_n && all_equal ns
      match critical_values sqrt log self.opt_ equal_n a (ns.headD 0) df_within with
      | .error e => (.error e, s2)
      | .ok (h, tcrit) =>
        let results := (self.groups_.zip (ns.zip means)).map
          (fun p => group_result sqrt grand_mean s_within equal_n h tcrit p.1.name p.2.1 p.2.2)
        (.ok (), { s2 with results_ := results, computed_ := true })

/-- The private helper `ensure_computed()`. -/
def ensure_computed (self : Anom α) : Except String Unit :=
  if !self.computed_ then
    .error "Anom: fit() has not been called"
  else
    .ok ()

/-- The accessor `grand_mean()`. -/
def grand_mean (self : Anom α) : Except String (Option α) :=
  match self.ensure_computed with
  | .error e => .error e
  | .ok _ => .ok self.grand_mean_

/-- The accessor `s_within()`. -/
def s_within (self : Anom α) : Except String (Option α) :=
  match self.ensure_computed with
  | .error e => .error e
  | .ok _ => .ok self.s_within_

/-- The accessor `results()`. -/
def results (self : Anom α) : Except String (List (AnomGroupResult α)) :=
  match self.ensure_computed with
  | .error e => .error e
  | .ok _ => .ok self.results_

end Anom

/-! ## Call sequences on an engine -/

/-- One call of a mutating member function of `Anom`. -/
inductive AnomCall (α : Type) where
  | add_group (name : String) (values : List α)
  | clear
  | fit

namespace Anom

section calls

variable {α : Type} [Add α] [Sub α] [Mul α] [Div α] [Neg α] [OfScientific α] [IntCast α]
  [LT α] [LE α] [∀ a b : α, Decidable (a < b)] [∀ a b : α, Decidable (a ≤ b)]

/-- Performs one call on the engine: the outcome and the state it leaves. -/
def call (sqrt log : α → α) (self : Anom α) : AnomCall α → Except String Unit × Anom α
  | .add_group name values => self.add_group name values
  | .clear => self.clear
  | .fit => self.fit sqrt log

/-- Performs a sequence of calls, a throwing call being caught by the caller;
returns the final state together with the most recent call that succeeded,
starting from `last`. -/
def exec (sqrt log : α → α) (self : Anom α) (last : Option (AnomCall α)) :
    List (AnomCall α) → Anom α × Option (AnomCall α)
  | [] => (self, last)
  | c :: cs =>
    match self.call sqrt log c with
    | (.ok _, s) => exec sqrt log s (some c) cs
    | (.error _, s) => exec sqrt log s last cs

/-- The state of a freshly constructed engine after a sequence of calls. -/
def after (sqrt log : α → α) (opt : AnomOptions α) (cs : List (AnomCall α)) : Anom α :=
  (exec sqrt log (new opt) none cs).1

/-- The most recent successful call of a sequence on a fresh engine. -/
def last_ok (sqrt log : α → α) (opt : AnomOptions α) (cs : List (AnomCall α)) :
    Option (AnomCall α) :=
  (exec sqrt log (new opt) none cs).2

end calls

variable {α : Type} [LinearOrderedField α]

/-- Arithmetic mean of a group: sum of its values over their number. -/
def Group.mean (g : Group α) : α := g.values.sum / (g.values.length : α)

/-- Sum of the squared deviations of a group's values from the group mean. -/
def Group.sq_dev (g : Group α) : α := (g.values.map (fun x => (x - g.mean) ^ 2)).sum

/-- Total number of observations, `Σ n_i`. -/
def n_total (gs : List (Group α)) : Int := (gs.map (fun g => (g.values.length : Int))).sum

/-- Pooled within-group degrees of freedom, `Σ (n_i - 1)`. -/
def df_pooled (gs : List (Group α)) : Int := (gs.map (fun g => (g.values.length : Int) - 1)).sum

/-- Pooled within-group sum of squares, `Σ_i Σ_x (x - mean_i)^2`. -/
def ss_pooled (gs : List (Group α)) : α := (gs.map Group.sq_dev).sum

/-- Size-weighted average of the group means, `Σ mean_i n_i / Σ n_i`. -/
def weighted_mean (gs : List (Group α)) : α :=
  (gs.map (fun g => g.mean * (g.values.length : α))).sum / ((n_total gs : Int) : α)

/-- All groups have the same number of observations. -/
def same_sizes (gs : List (Group α)) : Prop :=
  ∀ g ∈ gs, ∀ g' ∈ gs, g.values.length = g'.values.length

/-- Invariant of every engine state: groups are non-empty, and a state with
`computed_` set is the state a successful `fit()` leaves. -/
def Inv (sqrt log : α → α) (s : Anom α) : Prop :=
  (∀ g ∈ s.groups_, g.values ≠ []) ∧ (s.computed_ = true → s.fit sqrt log = (.ok (), s))

/-- The options of `test_anom_equal_n_basic` and `test_anom_unequal_n`. -/
def test_options (α : Type) [OfScientific α] : AnomOptions α :=
  { alpha := 0.05, assume_equal_n := true, bonferroni := true }

/-- The calls of `test_anom_equal_n_basic` before `fit()`. -/
def test_equal_n_calls (α : Type) [OfScientific α] : List (AnomCall α) :=
  [.add_group "G1" [10.0, 10.1, 9.9, 10.0], .add_group "G2" [10.5, 10.6, 10.4, 10.5],
    .add_group "G3" [9.7, 9.8, 9.6, 9.7]]

/-- The engine of `test_anom_equal_n_basic` before `fit()`. -/
def test_equal_n (α : Type) [OfScientific α] : Anom α :=
  { opt_ := test_options α
    groups_ := [⟨"G1", [10.0, 10.1, 9.9, 10.0]⟩, ⟨"G2", [10.5, 10.6, 10.4, 10.5]⟩,
      ⟨"G3", [9.7, 9.8, 9.6, 9.7]⟩] }

/-- The calls of `test_anom_unequal_n` before `fit()`. -/
def test_unequal_n_calls (α : Type) [OfScientific α] : List (AnomCall α) :=
  [.add_group "A" [9.9, 10.1, 10.0, 9.8], .add_group "B" [10.5, 10.6, 10.4, 10.7, 10.3, 10.6],
    .add_group "C" [9.7, 9.6, 9.9]]

/-- The engine of `test_anom_unequal_n` before `fit()`. -/
def test_unequal_n (α : Type) [OfScientific α] : Anom α :=
  { opt_ := test_options α
    groups_ := [⟨"A", [9.9, 10.1, 10.0, 9.8]⟩, ⟨"B", [10.5, 10.6, 10.4, 10.7, 10.3, 10.6]⟩,
      ⟨"C", [9.7, 9.6, 9.9]⟩] }

/-- The effect of one call on the list of groups held by the engine. -/
def groups_step (gs : List (Group α)) : AnomCall α → List (Group α)
  | .add_group name values => if values.isEmpty then gs else gs ++ [{ name := name, values := values }]
  | .clear => []
  | .fit => gs

/-- The groups added by a call sequence and not cleared since, in the order
they were added. -/
def groups_added (cs : List (AnomCall α)) : List (Group α) := cs.foldl groups_step []

/-- An engine holding two groups of one observation each, not yet fitted. -/
def single_observation_groups (α : Type) [OfScientific α] : Anom α :=
  { opt_ := test_options α
    groups_ := [⟨"A", [1.0]⟩, ⟨"B", [2.0]⟩] }

end Anom

namespace stat_util

variable {α : Type} [LinearOrderedField α]

/-- The rational function of the two tail branches of `normal_quantile_approx`,
in `q = sqrt(-2 log p)`. -/
def tail_ratio (q : α) : α :=
  (((((-7.784894002430293e-03*q + -3.223964580411365e-01)*q + -2.400758277161838e+00)*q
      + -2.549732539343734e+00)*q + 4.374664141464968e+00)*q + 2.938163982698783e+00) /
    ((((7.784695709041462e-03*q + 3.224671290700398e-01)*q + 2.445134137142996e+00)*q
      + 3.754408661907416e+00)*q + 1.0)

/-- The rational function of the central branch of `normal_quantile_approx`,
in `q = p - 0.5`. -/
def central_ratio (q : α) : α :=
  (((((-3.969683028665376e+01*(q*q) + 2.209460984245205e+02)*(q*q) + -2.759285104469687e+02)*(q*q)
      + 1.383577518672690e+02)*(q*q) + -3.066479806614716e+01)*(q*q) + 2.506628277459239e+00) * q /
    (((((-5.447609879822406e+01*(q*q) + 1.615858368580409e+02)*(q*q) + -1.556989798598866e+02)*(q*q)
      + 6.680131188771972e+01)*(q*q) + -1.328068155288572e+01)*(q*q) + 1.0)

end stat_util

namespace Anom

variable {α : Type} [LinearOrderedField α]

/-- The groups of `test_anom_equal_n_basic` in an engine whose options have
`alpha = 1.5` and `bonferroni` off. -/
def alpha_out_of_range (α : Type) [OfScientific α] : Anom α :=
  { opt_ := { alpha := 1.5, assume_equal_n := true, bonferroni := false }
    groups_ := [⟨"G1", [10.0, 10.1, 9.9, 10.0]⟩, ⟨"G2", [10.5, 10.6, 10.4, 10.5]⟩,
      ⟨"G3", [9.7, 9.8, 9.6, 9.7]⟩] }

end Anom

/-! # Orthogonal arrays and design matrices (`orthogonal_array.hpp`)

An exception or fault of these functions is a `Fault`: the
`std::runtime_error` thrown by the code with its message, the
`std::length_error` of a `std::vector` constructed with a negative size, or an
element access outside a container (undefined behaviour in the source). -/

/-- The ways a function of `orthogonal_array.hpp` can end without a value. -/
inductive Fault where
  | runtime_error (msg : String)
  | length_error
  | out_of_bounds
deriving DecidableEq

/-- The unchecked element access `v[i]` of a `std::vector`. -/
def subscript {β : Type} (v : List β) (i : Int) : Except Fault β :=
  if i < 0 then .error .out_of_bounds
  else
    match v[i.toNat]? with
    | some x => .ok x
    | none => .error .out_of_bounds

/-- A counted loop whose body can throw: the values produced for the elements
of `l` in order, or the first fault. -/
def for_each {β γ : Type} (body : β → Except Fault γ) : List β → Except Fault (List γ)
  | [] => .ok []
  | x :: xs =>
    match body x with
    | .error e => .error e
    | .ok y =>
      match for_each body xs with
      | .error e => .error e
      | .ok ys => .ok (y :: ys)

/-- The record `OrthogonalArray`; `data` is row-major. -/
structure OrthogonalArray where
  runs : Int := 0
  factors : Int := 0
  levels : Int := 0
  data : List Int := []

/-- The member `OrthogonalArray::at(run, factor)`. -/
def OrthogonalArray.at_ (oa : OrthogonalArray) (run factor : Int) : Except Fault Int :=
  subscript oa.data (run * oa.factors + factor)

/-- The record `FactorLevels`. -/
structure FactorLevels (α : Type) where
  levels : List α

/-- The catalog array `OA_L4_2_3()`. -/
def OA_L4_2_3 : OrthogonalArray :=
  { runs := 4, factors := 3, levels := 2
    data := [0, 0, 0,
             0, 1, 1,
             1, 0, 1,
             1, 1, 0] }

/-- The body of the inner loop of both builders: the design entry of run `r`
for the factor with index `f`. -/
def design_entry {α : Type} (msg : String) (oa : OrthogonalArray)
    (factors : List (FactorLevels α)) (r f : Int) : Except Fault α :=
  match oa.at_ r f with
  | .error e => .error e
  | .ok level_index =>
    match subscript factors f with
    | .error e => .error e
    | .ok fl =>
      if level_index < 0 ∨ level_index ≥ (fl.levels.length : Int) then
        .error (.runtime_error msg)
      else
        subscript fl.levels level_index

/-- The function `build_design_from_orthogonal_array(oa, factors)`. -/
def build_design_from_orthogonal_array {α : Type} (oa : OrthogonalArray)
    (factors : List (FactorLevels α)) : Except Fault (List (List α)) :=
  if (factors.length : Int) < oa.factors then
    .error (.runtime_error "build_design_from_orthogonal_array: not enough FactorLevels")
  else if oa.factors < 0 ∨ oa.runs < 0 then
    .error .length_error
  else
    for_each (fun r : Nat =>
      for_each (fun f : Nat =>
        design_entry "build_design_from_orthogonal_array: level index out of range"
          oa factors (r : Int) (f : Int))
        (List.range oa.factors.toNat))
      (List.range oa.runs.toNat)

/-- The value of `*std::max_element(begin, end)` on a non-empty sequence that
starts with `x`. -/
def max_element (x : Int) (rest : List Int) : Int :=
  rest.foldl (fun largest i => if largest < i then i else largest) x

/-- The function `build_design_from_orthogonal_array_for_factors(oa,
all_levels, factor_indices)`. -/
def build_design_from_orthogonal_array_for_factors {α : Type} (oa : OrthogonalArray)
    (all_levels : List (FactorLevels α)) (factor_indices : List Int) :
    Except Fault (List (List α)) :=
  match factor_indices with
  | [] =>
    .error (.runtime_error "build_design_from_orthogonal_array_for_factors: no factor_indices")
  | i0 :: rest =>
    let max_idx := max_element i0 rest
    if max_idx ≥ oa.factors then
      .error (.runtime_error
        "build_design_from_orthogonal_array_for_factors: factor index out of OA range")
    else if max_idx ≥ (all_levels.length : Int) then
      .error (.runtime_error
        "build_design_from_orthogonal_array_for_factors: factor index out of level size")
    else if oa.runs < 0 then
      .error .length_error
    else
      for_each (fun r : Nat =>
        for_each (fun f_idx : Int =>
          design_entry "build_design_from_orthogonal_array_for_factors: level index out of range"
            oa all_levels (r : Int) f_idx)
          factor_indices)
        (List.range oa.runs.toNat)

/-- An orthogonal array whose table has the declared shape: non-negative
`runs` and `factors` and `runs * factors` entries. -/
def OrthogonalArray.well_formed (oa : OrthogonalArray) : Prop :=
  0 ≤ oa.runs ∧ 0 ≤ oa.factors ∧ (oa.data.length : Int) = oa.runs * oa.factors

/-- The level tables of `test_orthogonal_array_design`: every factor coded
`{-1, +1}`. -/
def test_levels (α : Type) [LinearOrderedField α] : List (FactorLevels α) :=
  [⟨[-1.0, 1.0]⟩, ⟨[-1.0, 1.0]⟩, ⟨[-1.0, 1.0]⟩]



/-! # Quadratic response surface (`response_surface_quadratic.hpp`)

The Eigen library is not part of the repository.  Its matrices and vectors
are lists (of rows, of entries); the call `ColPivHouseholderQR(Phi).solve(Y)`
is a parameter `qr_solve` of `fit`, and what it has to return is stated from
the spec by `is_least_squares`.  A dot product of two vectors of different
sizes (an assertion failure or undefined behaviour in Eigen) is the fault
`out_of_bounds`. -/

/-- The data members of class `ResponseSurfaceQuadratic`. -/
structure ResponseSurfaceQuadratic (α : Type) where
  k_ : Int := 0
  fitted_ : Bool := false
  beta_ : List α := []

namespace ResponseSurfaceQuadratic

variable {α : Type} [LinearOrderedField α]

/-- The number of columns `m = 1 + k_ + k_ + k_ * (k_ - 1) / 2` computed by
`fit` and by `predict` (integer division truncates). -/
def num_columns (k_ : Int) : Int :=
  1 + k_ + k_ + Int.tdiv (k_ * (k_ - 1)) 2

/-- The four loops of `fit` that fill row `r` of `Phi` from the design point
`x`, writing at `col++`: constant, linear, squared and interaction terms. -/
def basis_row (k_ : Int) (x : List α) : Except Fault (List α) :=
  (for_each (fun i : Nat => subscript x (i : Int)) (List.range k_.toNat)).bind fun linear =>
  (for_each (fun i : Nat => (subscript x (i : Int)).map (fun xi => xi * xi))
    (List.range k_.toNat)).bind fun squared =>
  (for_each (fun i : Nat =>
    for_each (fun j : Nat =>
      (subscript x (i : Int)).bind fun xi => (subscript x (j : Int)).map (fun xj => xi * xj))
      (List.range' (i + 1) (k_.toNat - (i + 1))))
    (List.range k_.toNat)).map fun interaction =>
  1.0 :: (linear ++ squared ++ interaction.flatten)

/-- The four loops of `predict` that fill the vector `phi` from the point
`x`. -/
def predict_basis (k_ : Int) (x : List α) : Except Fault (List α) :=
  (for_each (fun i : Nat => subscript x (i : Int)) (List.range k_.toNat)).bind fun linear =>
  (for_each (fun i : Nat => (subscript x (i : Int)).map (fun xi => xi * xi))
    (List.range k_.toNat)).bind fun squared =>
  (for_each (fun i : Nat =>
    for_each (fun j : Nat =>
      (subscript x (i : Int)).bind fun xi => (subscript x (j : Int)).map (fun xj => xi * xj))
      (List.range' (i + 1) (k_.toNat - (i + 1))))
    (List.range k_.toNat)).map fun interaction =>
  1.0 :: (linear ++ squared ++ interaction.flatten)

/-- The member `fit(design, y)`: the value returned (or a fault) and the state
of the object afterwards. -/
def fit (qr_solve : List (List α) → List α → List α) (self : ResponseSurfaceQuadratic α)
    (design : List (List α)) (y : List α) : Except Fault Bool × ResponseSurfaceQuadratic α :=
  let N : Int := design.length
  if N = 0 then (.ok false, self)
  else if (y.length : Int) ≠ N then (.ok false, self)
  else
    let s1 : ResponseSurfaceQuadratic α := { self with k_ := ((design.headD []).length : Int) }
    if design.tail.any (fun row => (row.length : Int) != s1.k_) then (.ok false, s1)
    else
      match for_each (basis_row s1.k_) design with
      | .error e => (.error e, s1)
      | .ok Phi => (.ok true, { s1 with beta_ := qr_solve Phi y, fitted_ := true })

/-- The dot product `beta_.dot(phi)` of Eigen. -/
def dot (u v : List α) : Except Fault α :=
  if u.length ≠ v.length then .error .out_of_bounds
  else .ok (List.zipWith (fun a b => a * b) u v).sum

/-- The member `predict(x)`. -/
def predict (self : ResponseSurfaceQuadratic α) (x : List α) : Except Fault α :=
  if !self.fitted_ then
    .error (.runtime_error "ResponseSurfaceQuadratic::predict: model not fitted yet")
  else if (x.length : Int) ≠ self.k_ then
    .error (.runtime_error "ResponseSurfaceQuadratic::predict: dimension mismatch")
  else
    match predict_basis self.k_ x with
    | .error e => .error e
    | .ok phi => dot self.beta_ phi

/-- The accessor `num_factors()`. -/
def num_factors (self : ResponseSurfaceQuadratic α) : Int := self.k_

/-- The accessor `coefficients()`. -/
def coefficients (self : ResponseSurfaceQuadratic α) : List α := self.beta_

/-- The interaction terms `x_i * x_j`, `i < j`, in lexicographic order. -/
def cross_terms : List α → List α
  | [] => []
  | a :: rest => rest.map (fun b => a * b) ++ cross_terms rest

/-- The quadratic basis of a point in the fixed order: the constant 1, the
linear terms, the squared terms, the interaction terms. -/
def quadratic_basis (x : List α) : List α :=
  1 :: (x ++ x.map (fun v => v * v) ++ cross_terms x)

/-- The sum `Σ u_i v_i`. -/
def dot_sum (u v : List α) : α := (List.zipWith (fun a b => a * b) u v).sum

/-- The squared residual `||Phi * beta - y||₂²`. -/
def residual_sq (Phi : List (List α)) (y beta : List α) : α :=
  ((Phi.zip y).map (fun p => (dot_sum p.1 beta - p.2) ^ 2)).sum

/-- Modelled from the spec: the result of the least-squares solve
`ColPivHouseholderQR(Phi).solve(Y)` of Eigen, which is not part of the
repository.  The spec asks for a solution of "minimize ||basis·beta - y||₂",
also when the rank is below `m`: `beta` has one entry per column of `Phi` and
no vector of that size has a smaller residual. -/
def is_least_squares (Phi : List (List α)) (y beta : List α) : Prop :=
  beta.length = (Phi.headD []).length ∧
    ∀ beta' : List α, beta'.length = beta.length →
      residual_sq Phi y beta ≤ residual_sq Phi y beta'

/-- The basis matrix has full column rank `m`: only the zero vector is mapped
to zero. -/
def full_column_rank (Phi : List (List α)) : Prop :=
  ∀ v : List α, v.length = (Phi.headD []).length →
    (∀ row ∈ Phi, dot_sum row v = 0) → ∀ c ∈ v, c = 0

end ResponseSurfaceQuadratic

namespace ResponseSurfaceQuadratic

variable {α : Type} [LinearOrderedField α]

/-- The true coefficients `(b0, b1, b2, b11, b22, b12)` of
`test_response_surface_quadratic_fit`. -/
def test_coefficients (α : Type) [LinearOrderedField α] : List α :=
  [10.0, 2.0, -1.0, 0.5, -0.3, 1.2]

/-- The design of `test_response_surface_quadratic_fit`: the grid of the points
`(i * 0.5, j * 0.5)` for `i, j = -2 .. 2`. -/
def test_grid (α : Type) [LinearOrderedField α] : List (List α) :=
  List.flatMap [-2, -1, 0, 1, 2] fun i : Int =>
    List.map (fun j : Int => [(i : α) * 0.5, (j : α) * 0.5]) [-2, -1, 0, 1, 2]

end ResponseSurfaceQuadratic

/-! # Factor-wise ANOM and the combined analysis (`doe_anom_response.hpp`, `doe_full_analysis.hpp`)

An exception of `Anom` that leaves one of these functions (always a
`std::runtime_error`) is the fault `runtime_error` with the same message. -/

/-- The catalog array `OA_L8_2_7()`. -/
def OA_L8_2_7 : OrthogonalArray :=
  { runs := 8, factors := 7, levels := 2
    data := [0, 0, 0, 0, 0, 0, 0,
             0, 0, 0, 1, 1, 1, 1,
             0, 1, 1, 0, 0, 1, 1,
             0, 1, 1, 1, 1, 0, 0,
             1, 0, 1, 0, 1, 0, 1,
             1, 0, 1, 1, 0, 1, 0,
             1, 1, 0, 0, 1, 1, 0,
             1, 1, 0, 1, 0, 0, 1] }

section doe_analysis

variable {α : Type} [Add α] [Sub α] [Mul α] [Div α] [Neg α] [OfScientific α] [IntCast α]
  [LT α] [LE α] [∀ a b : α, Decidable (a < b)] [∀ a b : α, Decidable (a ≤ b)]

/-- The first loop of `build_anom_for_factor`, over the runs still to visit:
`level_values[lev].push_back(y[r])` for the level `lev` of run `r`. -/
def collect_level_values (oa : OrthogonalArray) (y : List α) (factor_idx L : Int) :
    List Nat → List (List α) → Except Fault (List (List α))
  | [], level_values => .ok level_values
  | r :: rest, level_values =>
    match oa.at_ (r : Int) factor_idx with
    | .error e => .error e
    | .ok lev =>
      if lev < 0 ∨ lev ≥ L then
        .error (.runtime_error "build_anom_for_factor: level index out of range")
      else
        match subscript level_values lev with
        | .error e => .error e
        | .ok values =>
          match subscript y (r : Int) with
          | .error e => .error e
          | .ok v =>
            collect_level_values oa y factor_idx L rest
              (level_values.set lev.toNat (values ++ [v]))

/-- The second loop of `build_anom_for_factor`, over the levels still to
visit: one `add_group` per level that holds a value. -/
def add_level_groups (factor_name : String) (level_values : List (List α)) :
    List Nat → Anom α → Except Fault (Anom α)
  | [], anom => .ok anom
  | lev :: rest, anom =>
    match subscript level_values (lev : Int) with
    | .error e => .error e
    | .ok values =>
      if values.isEmpty then add_level_groups factor_name level_values rest anom
      else
        match anom.add_group (factor_name ++ "_L" ++ toString ((lev : Int) + 1)) values with
        | (.error msg, _) => .error (.runtime_error msg)
        | (.ok _, anom') => add_level_groups factor_name level_values rest anom'

/-- The body of `build_anom_for_factor` up to its last statement
`anom.fit()`: the engine with the groups added. -/
def build_anom_groups (oa : OrthogonalArray) (y : List α) (factor_idx : Int)
    (factor_name : String) (opt : AnomOptions α) : Except Fault (Anom α) :=
  if factor_idx < 0 ∨ factor_idx ≥ oa.factors then
    .error (.runtime_error "build_anom_for_factor: factor_idx out of range")
  else if (y.length : Int) ≠ oa.runs then
    .error (.runtime_error "build_anom_for_factor: y size must match oa.runs")
  else if oa.levels < 0 then
    .error .length_error
  else
    match collect_level_values oa y factor_idx oa.levels (List.range oa.runs.toNat)
        (List.replicate oa.levels.toNat []) with
    | .error e => .error e
    | .ok level_values =>
      add_level_groups factor_name level_values (List.range oa.levels.toNat) (Anom.new opt)

/-- The function `build_anom_for_factor(oa, y, factor_idx, factor_name, opt)`. -/
def build_anom_for_factor (sqrt log : α → α) (oa : OrthogonalArray) (y : List α)
    (factor_idx : Int) (factor_name : String) (opt : AnomOptions α) : Except Fault (Anom α) :=
  match build_anom_groups oa y factor_idx factor_name opt with
  | .error e => .error e
  | .ok anom =>
    match anom.fit sqrt log with
    | (.error msg, _) => .error (.runtime_error msg)
    | (.ok _, anom') => .ok anom'

/-- The record `FactorAnomResult`. -/
structure FactorAnomResult (α : Type) [OfScientific α] where
  factor_name : String
  anom : Anom α

/-- The name `std::string(1, static_cast<char>('A' + i))` given to factor `i`
when no names are supplied. -/
def default_factor_name (i : Nat) : String :=
  String.singleton (Char.ofNat ((65 + i) % 256))

/-- The function `build_anom_for_all_factors(oa, y, factor_names, opt)`. -/
def build_anom_for_all_factors (sqrt log : α → α) (oa : OrthogonalArray) (y : List α)
    (factor_names : List String) (opt : AnomOptions α) :
    Except Fault (List (FactorAnomResult α)) :=
  if (y.length : Int) ≠ oa.runs then
    .error (.runtime_error "build_anom_for_all_factors: y size must match oa.runs")
  else if oa.factors < 0 then
    .error .length_error
  else if !factor_names.isEmpty ∧ (factor_names.length : Int) ≠ oa.factors then
    .error (.runtime_error "build_anom_for_all_factors: factor_names size mismatch")
  else
    let names : List String :=
      if !factor_names.isEmpty then factor_names
      else (List.range oa.factors.toNat).map default_factor_name
    for_each (fun j : Nat =>
      match subscript names (j : Int) with
      | .error e => .error e
      | .ok name =>
        match build_anom_for_factor sqrt log oa y (j : Int) name opt with
        | .error e => .error e
        | .ok anom_j => .ok { factor_name := name, anom := anom_j })
      (List.range oa.factors.toNat)

end doe_analysis

section doe_analysis

variable {α : Type} [LinearOrderedField α]

/-- The record `DoeFullAnalysis`. -/
structure DoeFullAnalysis (α : Type) [LinearOrderedField α] where
  rs_model : ResponseSurfaceQuadratic α
  factor_anoms : List (FactorAnomResult α)

/-- The function `run_doe_full_analysis(oa, all_levels, factor_indices_for_rs,
y, factor_names, anom_opt)`. -/
def run_doe_full_analysis (qr_solve : List (List α) → List α → List α) (sqrt log : α → α)
    (oa : OrthogonalArray) (all_levels : List (FactorLevels α))
    (factor_indices_for_rs : List Int) (y : List α) (factor_names : List String)
    (anom_opt : AnomOptions α) : Except Fault (DoeFullAnalysis α) :=
  if (y.length : Int) ≠ oa.runs then
    .error (.runtime_error "run_doe_full_analysis: y size must match oa.runs")
  else
    match build_design_from_orthogonal_array_for_factors oa all_levels factor_indices_for_rs with
    | .error e => .error e
    | .ok design =>
      match ResponseSurfaceQuadratic.fit qr_solve {} design y with
      | (.error e, _) => .error e
      | (.ok false, _) =>
        .error (.runtime_error "run_doe_full_analysis: ResponseSurfaceQuadratic::fit failed")
      | (.ok true, rs) =>
        match build_anom_for_all_factors sqrt log oa y factor_names anom_opt with
        | .error e => .error e
        | .ok all_factor_anoms => .ok { rs_model := rs, factor_anoms := all_factor_anoms }

/-- The responses of the runs of the array at level `l` of the factor, in run
order. -/
def level_responses (oa : OrthogonalArray) (y : List α) (factor_idx : Int) (l : Nat)
    (runs : List Nat) : List α :=
  runs.filterMap fun r : Nat =>
    match oa.at_ (r : Int) factor_idx with
    | .ok lev => if lev = (l : Int) then y[r]? else none
    | .error _ => none

/-- One group for every level of the factor that has at least one run, in
increasing level order: the group of the 0-based level `l` is named
`<factor_name>_L<l+1>` and holds the responses of the runs at that level in
run order. -/
def level_groups (oa : OrthogonalArray) (y : List α) (factor_idx : Int)
    (factor_name : String) : List (Anom.Group α) :=
  (List.range oa.levels.toNat).filterMap fun l : Nat =>
    if (level_responses oa y factor_idx l (List.range oa.runs.toNat)).isEmpty then none
    else some { name := factor_name ++ "_L" ++ toString ((l : Int) + 1),
                values := level_responses oa y factor_idx l (List.range oa.runs.toNat) }

/-- Responses for the eight runs of `OA_L8_2_7` in the manner of
`test_build_anom_for_factor`: about 10 at level 0 of factor A and about 12 at
level 1. -/
def test_responses (α : Type) [OfScientific α] : List α :=
  [10.1, 9.9, 10.2, 9.8, 12.1, 11.9, 12.2, 11.8]

/-- The level tables of `test_doe_full_analysis`: every factor of
`OA_L8_2_7` coded `{-1, +1}`. -/
def test_levels_L8 (α : Type) [LinearOrderedField α] : List (FactorLevels α) :=
  List.replicate 7 ⟨[-1.0, 1.0]⟩

end doe_analysis

/-! # The catalog of orthogonal arrays (`orthogonal_array.hpp`) -/

/-- The catalog array `OA_L9_3_4()`. -/
def OA_L9_3_4 : OrthogonalArray :=
  { runs := 9, factors := 4, levels := 3
    data := [0, 0, 0, 0,
             0, 1, 1, 1,
             0, 2, 2, 2,
             1, 0, 1, 2,
             1, 1, 2, 0,
             1, 2, 0, 1,
             2, 0, 2, 1,
             2, 1, 0, 2,
             2, 2, 1, 0] }

/-- The catalog array `OA_L18_2_1_3_7()`. -/
def OA_L18_2_1_3_7 : OrthogonalArray :=
  { runs := 18, factors := 8, levels := 3
    data := [0, 0, 0, 0, 0, 0, 0, 0,
             0, 0, 1, 1, 1, 1, 1, 1,
             0, 0, 2, 2, 2, 2, 2, 2,
             0, 1, 0, 0, 1, 1, 2, 2,
             0, 1, 1, 1, 2, 2, 0, 0,
             0, 1, 2, 2, 0, 0, 1, 1,
             0, 2, 0, 1, 0, 2, 1, 2,
             0, 2, 1, 2, 1, 0, 2, 0,
             0, 2, 2, 0, 2, 1, 0, 1,
             1, 0, 0, 2, 2, 1, 1, 0,
             1, 0, 1, 0, 0, 2, 2, 1,
             1, 0, 2, 1, 1, 0, 0, 2,
             1, 1, 0, 1, 2, 0, 2, 1,
             1, 1, 1, 2, 0, 1, 0, 2,
             1, 1, 2, 0, 1, 2, 1, 0,
             1, 2, 0, 2, 1, 2, 0, 1,
             1, 2, 1, 0, 2, 0, 1, 2,
             1, 2, 2, 1, 0, 1, 2, 0] }

/-- The runs of the array in which factor `f` is at level `l`. -/
def OrthogonalArray.runs_at (oa : OrthogonalArray) (f l : Int) : List Nat :=
  (List.range oa.runs.toNat).filter fun r : Nat =>
    match oa.at_ (r : Int) f with
    | .ok v => v == l
    | .error _ => false

/-- The number of runs of the array in which factor `f1` is at level `l1` and
factor `f2` is at level `l2`. -/
def OrthogonalArray.pair_count (oa : OrthogonalArray) (f1 f2 l1 l2 : Int) : Nat :=
  ((oa.runs_at f1 l1).filter fun r : Nat =>
    match oa.at_ (r : Int) f2 with
    | .ok v => v == l2
    | .error _ => false).length

/-- Pairwise balance of an orthogonal array: for every two distinct factor
columns, all combinations of a level used in the first with a level used in
the second occur in the same number of runs. -/
def OrthogonalArray.balanced (oa : OrthogonalArray) : Prop :=
  ∀ f1 ∈ List.range oa.factors.toNat, ∀ f2 ∈ List.range oa.factors.toNat, f1 ≠ f2 →
    ∀ l1 : Int, ∀ l2 : Int, ∀ l1' : Int, ∀ l2' : Int,
      oa.runs_at f1 l1 ≠ [] → oa.runs_at f2 l2 ≠ [] →
      oa.runs_at f1 l1' ≠ [] → oa.runs_at f2 l2' ≠ [] →
      oa.pair_count f1 f2 l1 l2 = oa.pair_count f1 f2 l1' l2'

/-- The check of `balanced` over the declared levels `0 .. levels - 1`. -/
def OrthogonalArray.balanced_check (oa : OrthogonalArray) : Bool :=
  (List.range oa.factors.toNat).all fun f1 : Nat =>
    (List.range oa.factors.toNat).all fun f2 : Nat =>
      f1 == f2 ||
      ((List.range oa.levels.toNat).all fun l1 : Nat =>
        (List.range oa.levels.toNat).all fun l2 : Nat =>
          (oa.runs_at f1 l1).isEmpty || (oa.runs_at f2 l2).isEmpty ||
          (match oa.at_ 0 f1, oa.at_ 0 f2 with
           | .ok a, .ok b => oa.pair_count f1 f2 l1 l2 == oa.pair_count f1 f2 a b
           | _, _ => false))

/-- Every entry of the table is a 0-based level index below `levels`. -/
def OrthogonalArray.entries_in_range (oa : OrthogonalArray) : Prop :=
  ∀ v ∈ oa.data, 0 ≤ v ∧ v < oa.levels

namespace Anom

/-- The engine `build_anom_for_factor` holds before `fit()` for factor A of
`OA_L8_2_7` on the responses 10.1, 9.9, 10.2, 9.8 at level 0 and 12.1, 11.9,
12.2, 11.8 at level 1. -/
def test_two_level (α : Type) [OfScientific α] : Anom α :=
  { opt_ := test_options α,
    groups_ := [{ name := "A_L1", values := [10.1, 9.9, 10.2, 9.8] },
                { name := "A_L2", values := [12.1, 11.9, 12.2, 11.8] }] }

end Anom

/-- A two-run array with one two-level factor, each level used by a single
run. -/
def test_two_run_array : OrthogonalArray :=
  { runs := 2, factors := 1, levels := 2, data := [0, 1] }

namespace ResponseSurfaceQuadratic

/-- The design `test_doe_full_analysis` gives to the response surface: the
columns A and B of `OA_L8_2_7` coded `{-1, +1}`. -/
def test_design_L8 (α : Type) [LinearOrderedField α] : List (List α) :=
  [[-1.0, -1.0], [-1.0, -1.0], [-1.0, 1.0], [-1.0, 1.0],
   [1.0, -1.0], [1.0, -1.0], [1.0, 1.0], [1.0, 1.0]]

/-- The coefficient vector with 1 at the constant term, -1 at the first
squared term and 0 elsewhere, for `k` factors and `c` interaction terms. -/
def alias_vector (α : Type) [LinearOrderedField α] (k c : Nat) : List α :=
  1 :: (List.replicate k 0 ++ ((-1) :: List.replicate (k - 1) 0) ++ List.replicate c 0)

end ResponseSurfaceQuadratic

/-! # The simple two-factor response surface (`ResponseSurface.hpp`)

A `linalg::Mat` is a list of rows.  The functions of `linalg` fill a freshly
sized result entry by entry; here the result is built row by row from the same
entry expressions, every read `M[i][j]` being an unchecked access.  The
in-place elimination of `inverse` reads, in the step of pivot `i`, only row
`i` (already scaled) and the row it updates, so each step is the map from the
matrices before the step to the matrices after it, restricted to the `n`
columns the function uses.  `std::fabs` is the parameter `fabs`. -/

namespace linalg

variable {α : Type} [Add α] [Sub α] [Mul α] [Div α] [Neg α] [OfScientific α] [IntCast α]
  [LT α] [LE α] [∀ a b : α, Decidable (a < b)] [∀ a b : α, Decidable (a ≤ b)]

/-- The read `M[i][j]`. -/
def read (M : List (List α)) (i j : Nat) : Except Fault α :=
  (subscript M (i : Int)).bind fun row => subscript row (j : Int)

/-- The function `linalg::transpose(A)`. -/
def transpose (A : List (List α)) : Except Fault (List (List α)) :=
  (subscript A 0).bind fun row0 =>
    for_each (fun j : Nat => for_each (fun i : Nat => read A i j) (List.range A.length))
      (List.range row0.length)

/-- The function `linalg::multiply(A, B)`: `C[i][k]` starts at 0.0 and
receives `A[i][j] * B[j][k]` for `j = 0 .. n-1` in turn. -/
def multiply (A B : List (List α)) : Except Fault (List (List α)) :=
  (subscript A 0).bind fun a0 =>
  (subscript B 0).bind fun b0 =>
    for_each (fun i : Nat =>
      for_each (fun k : Nat =>
        (for_each (fun j : Nat =>
            (read A i j).bind fun aij => (read B j k).map fun bjk => aij * bjk)
          (List.range a0.length)).map fun products =>
            products.foldl (fun c t => c + t) 0.0)
        (List.range b0.length))
      (List.range A.length)

/-- One pass of the outer loop of `linalg::inverse` for the pivot index `i`:
the singularity test, the scaling of row `i` and the elimination in the other
rows, on both matrices. -/
def inverse_step (fabs : α → α) (n i : Nat) (A I : List (List α)) :
    Except Fault (List (List α) × List (List α)) :=
  (read A i i).bind fun pivot =>
    if fabs pivot < 1e-12 then .error (.runtime_error "Singular matrix")
    else
      (for_each (fun j : Nat => (read A i j).map fun a => a / pivot) (List.range n)).bind
        fun rowA =>
      (for_each (fun j : Nat => (read I i j).map fun b => b / pivot) (List.range n)).bind
        fun rowI =>
      (for_each (fun k : Nat =>
          if k = i then .ok (rowA, rowI)
          else
            (read A k i).bind fun factor =>
            (for_each (fun j : Nat =>
                (read A k j).bind fun akj =>
                  (subscript rowA (j : Int)).map fun aij => akj - factor * aij)
              (List.range n)).bind fun rowAk =>
            (for_each (fun j : Nat =>
                (read I k j).bind fun ikj =>
                  (subscript rowI (j : Int)).map fun iij => ikj - factor * iij)
              (List.range n)).map fun rowIk => (rowAk, rowIk))
        (List.range n)).map fun rows => (rows.map Prod.fst, rows.map Prod.snd)

/-- The outer loop of `linalg::inverse` over the pivot indices still to
visit. -/
def inverse_loop (fabs : α → α) (n : Nat) :
    List Nat → List (List α) × List (List α) → Except Fault (List (List α) × List (List α))
  | [], state => .ok state
  | i :: rest, state => (inverse_step fabs n i state.1 state.2).bind (inverse_loop fabs n rest)

/-- The function `linalg::inverse(A)` (Gauss-Jordan without row exchange). -/
def inverse (fabs : α → α) (A : List (List α)) : Except Fault (List (List α)) :=
  let n := A.length
  let I : List (List α) :=
    (List.range n).map fun i : Nat => (List.range n).map fun j : Nat => if i = j then 1.0 else 0.0
  (inverse_loop fabs n (List.range n) (A, I)).map Prod.snd

end linalg

namespace linalg

variable {α : Type} [LinearOrderedField α]

/-- Entry `(i, j)` of a matrix given as a list of rows (0 outside it). -/
def entry (M : List (List α)) (i j : Nat) : α := (M.getD i []).getD j 0

/-- A list of rows with `r` rows of `c` entries each. -/
def is_mat (r c : Nat) (M : List (List α)) : Prop :=
  M.length = r ∧ ∀ row ∈ M, row.length = c

/-- The `r` by `c` list of rows with the entries `f i j`. -/
def table (r c : Nat) (f : Nat → Nat → α) : List (List α) :=
  (List.range r).map fun i : Nat => (List.range c).map fun j : Nat => f i j

/-- A list of rows read as an `r` by `c` matrix. -/
def to_matrix (r c : Nat) (M : List (List α)) : Matrix (Fin r) (Fin c) α :=
  fun i j => entry M i j

end linalg

/-- The private record `ResponseSurface::Point`. -/
structure ResponseSurface.Point (α : Type) where
  x : List α
  y : α

/-- The data members of class `ResponseSurface`. -/
structure ResponseSurface (α : Type) where
  data_ : List (ResponseSurface.Point α) := []
  beta_ : List α := []

namespace ResponseSurface

section members

variable {α : Type} [Add α] [Sub α] [Mul α] [Div α] [Neg α] [OfScientific α] [IntCast α]
  [LT α] [LE α] [∀ a b : α, Decidable (a < b)] [∀ a b : α, Decidable (a ≤ b)]

/-- The member `add_point(x, y)`. -/
def add_point (self : ResponseSurface α) (x : List α) (y : α) :
    Except Fault Unit × ResponseSurface α :=
  if x.length ≠ 2 then
    (.error (.runtime_error "This example supports 2 factors only"), self)
  else
    (.ok (), { self with data_ := self.data_ ++ [{ x := x, y := y }] })

/-- The rows `X[i]` and `Y[i]` that `fit()` builds from one data point. -/
def design_rows (pt : Point α) : Except Fault (List α × List α) :=
  (subscript pt.x 0).bind fun x1 =>
  (subscript pt.x 1).map fun x2 =>
    ([1.0, x1, x2, x1 * x1, x2 * x2, x1 * x2], [pt.y])

/-- The member `fit()`. -/
def fit (fabs : α → α) (self : ResponseSurface α) : Except Fault Unit × ResponseSurface α :=
  if self.data_.length = 0 then
    (.error (.runtime_error "No data"), self)
  else
    match (for_each design_rows self.data_).bind fun rows =>
        let X := rows.map Prod.fst
        let Y := rows.map Prod.snd
        (linalg.transpose X).bind fun Xt =>
        (linalg.multiply Xt X).bind fun XtX =>
        (linalg.multiply Xt Y).bind fun XtY =>
        (linalg.inverse fabs XtX).bind fun XtX_inv =>
        (linalg.multiply XtX_inv XtY).bind fun B =>
          for_each (fun i : Nat => linalg.read B i 0) (List.range 6) with
    | .error e => (.error e, self)
    | .ok beta => (.ok (), { self with beta_ := beta })

/-- The state after `add_point` calls with the given arguments on a fresh
object, a throwing call being caught by the caller. -/
def after_points (pts : List (List α × α)) : ResponseSurface α :=
  pts.foldl (fun s p => (s.add_point p.1 p.2).2) {}

end members

variable {α : Type} [LinearOrderedField α]

/-- The row of the design matrix `X` of the spec for a data point: the basis
`(1, x1, x2, x1^2, x2^2, x1*x2)`. -/
def design_row (pt : Point α) : List α :=
  [1, pt.x.getD 0 0, pt.x.getD 1 0, pt.x.getD 0 0 * pt.x.getD 0 0,
    pt.x.getD 1 0 * pt.x.getD 1 0, pt.x.getD 0 0 * pt.x.getD 1 0]

/-- Entry `i` of the basis of a data point. -/
def basis (pt : Point α) (i : Fin 6) : α := (design_row pt).getD i.val 0

/-- The normal-equations matrix `X'X` of the data points. -/
def normal_matrix (data : List (Point α)) : Matrix (Fin 6) (Fin 6) α :=
  fun i j => (data.map fun pt => basis pt i * basis pt j).sum

/-- The right-hand side `X'y` of the normal equations. -/
def normal_rhs (data : List (Point α)) : Fin 6 → α :=
  fun i => (data.map fun pt => basis pt i * pt.y).sum

/-- The matrix `X'X` as a list of rows. -/
def normal_table (data : List (Point α)) : List (List α) :=
  linalg.table 6 6 fun i k =>
    (data.map fun pt => (design_row pt).getD i 0 * (design_row pt).getD k 0).sum

/-- The one-column matrix `X'y` as a list of rows. -/
def rhs_table (data : List (Point α)) : List (List α) :=
  linalg.table 6 1 fun i _ => (data.map fun pt => (design_row pt).getD i 0 * pt.y).sum

/-- The six data points of the usage example in the comment at the head of
`main.cpp`. -/
def test_points (α : Type) [OfScientific α] : List (List α × α) :=
  [([50.0, 100.0], 12.3), ([60.0, 100.0], 13.1), ([50.0, 120.0], 11.9), ([60.0, 120.0], 13.5),
   ([55.0, 110.0], 12.8), ([65.0, 115.0], 13.7)]

end ResponseSurface


namespace linalg

variable {α : Type} [LinearOrderedField α]

/-- What holds of the two matrices of `inverse` before the step of pivot `i`:
both are `n` by `n`, the second times the input matrix is the first, and the
columns before `i` of the first are unit columns. -/
def elimination_invariant (n i : Nat) (A0 : Matrix (Fin n) (Fin n) α)
    (A I : List (List α)) : Prop :=
  is_mat n n A ∧ is_mat n n I ∧ to_matrix n n I * A0 = to_matrix n n A ∧
    ∀ k c : Fin n, c.val < i → to_matrix n n A k c = if k = c then 1 else 0

end linalg

namespace ResponseSurface

variable {α : Type} [LinearOrderedField α]

/-- The normal-equations matrix `X'X` of the data points is not invertible. -/
def singular (data : List (Point α)) : Prop := (normal_matrix data).det = 0

/-- The coefficients `beta` satisfy the normal equations `X'X * beta = X'y`
of the data points. -/
def solves_normal_equations (data : List (Point α)) (beta : List α) : Prop :=
  (normal_matrix data).mulVec (fun i : Fin 6 => beta.getD i.val 0) = normal_rhs data

end ResponseSurface

/-! # Binary64 arithmetic

The source computes with C++ `double`, the IEEE 754 binary64 format.  The
definitions above are written over an arbitrary type `α` carrying the
operations the source uses, so they can be read both over an ordered field
(the computation without rounding) and over `Binary64`, the model below of
the format itself: every operation returns the exact result rounded to the
nearest representable value, ties to the even significand, as the default
rounding mode does; `std::sqrt` and `std::fabs` are the operations of the
standard; `std::log`, whose rounding the standard does not fix, stays a
parameter.  Every operation of the source is rounded on its own (no fused
multiply-add, no wider intermediate format).

A finite datum is a sign and a magnitude counted in units of `2^-1074`, the
smallest positive value; the representable magnitudes are the `m * 2^k` with
`m < 2^53` that are below `2^2098` units (`= 2^1024`). -/

/-- A binary64 datum: a signed finite magnitude in units of `2^-1074`, a
signed infinity or a NaN. -/
inductive Binary64 where
  | finite (negative : Bool) (units : Nat)
  | infinite (negative : Bool)
  | nan
deriving DecidableEq

namespace Binary64

/-- One step of `log2_floor`: when `2^w` fits below the first component, it
is divided out and `w` is added to the exponent found so far. -/
def log2_step (s : Nat × Nat) (w : Nat) : Nat × Nat :=
  if 2 ^ w ≤ s.1 then (s.1 / 2 ^ w, s.2 + w) else s

/-- The position of the leading bit of `q`, `⌊log₂ q⌋` (0 for `q = 0`), found by
halving the range of the exponent; exact below `2^4096`, which exceeds every
magnitude the operations below pass. -/
def log2_floor (q : Nat) : Nat :=
  ([2048, 1024, 512, 256, 128, 64, 32, 16, 8, 4, 2, 1].foldl log2_step (q, 0)).2

/-- Rounds the magnitude `num / den` (in units of `2^-1074`, `den > 0`) to
the nearest representable magnitude, ties to the even significand; a result of
`2^1024` or more is an infinity. -/
def round (negative : Bool) (num den : Nat) : Binary64 :=
  let k := log2_floor (num / den) - 52
  let ulp := den * 2 ^ k
  let m := num / ulp
  let rem := num % ulp
  let m1 := if 2 * rem < ulp then m else if ulp < 2 * rem then m + 1
    else if m % 2 = 0 then m else m + 1
  if 2 ^ 2098 ≤ m1 * 2 ^ k then .infinite negative else .finite negative (m1 * 2 ^ k)

/-- Negation: the sign is flipped. -/
def neg : Binary64 → Binary64
  | .finite s u => .finite (!s) u
  | .infinite s => .infinite (!s)
  | .nan => .nan

/-- The function `std::fabs`: the sign is cleared. -/
def abs : Binary64 → Binary64
  | .finite _ u => .finite false u
  | .infinite _ => .infinite false
  | .nan => .nan

/-- Addition. -/
def add : Binary64 → Binary64 → Binary64
  | .finite s u, .finite t v =>
    if s = t then round s (u + v) 1
    else if v < u then round s (u - v) 1
    else if u < v then round t (v - u) 1
    else .finite false 0
  | .finite _ _, .infinite t => .infinite t
  | .infinite s, .finite _ _ => .infinite s
  | .infinite s, .infinite t => if s = t then .infinite s else .nan
  | _, _ => .nan

/-- Multiplication. -/
def mul : Binary64 → Binary64 → Binary64
  | .finite s u, .finite t v => round (s != t) (u * v) (2 ^ 1074)
  | .finite s u, .infinite t => if u = 0 then .nan else .infinite (s != t)
  | .infinite s, .finite t v => if v = 0 then .nan else .infinite (s != t)
  | .infinite s, .infinite t => .infinite (s != t)
  | _, _ => .nan

/-- Division. -/
def div : Binary64 → Binary64 → Binary64
  | .finite s u, .finite t v =>
    if v = 0 then (if u = 0 then .nan else .infinite (s != t))
    else round (s != t) (u * 2 ^ 1074) v
  | .finite s _, .infinite t => .finite (s != t) 0
  | .infinite s, .finite t _ => .infinite (s != t)
  | _, _ => .nan

/-- Integer square root, bit by bit: `r` is the part found so far and the
`i` lowest bits are still to be decided. -/
def isqrt_bits (n : Nat) : Nat → Nat → Nat
  | 0, r => r
  | i + 1, r =>
    if (r + 2 ^ i) * (r + 2 ^ i) ≤ n then isqrt_bits n i (r + 2 ^ i) else isqrt_bits n i r

/-- The integer square root `⌊√n⌋`. -/
def isqrt (n : Nat) : Nat := isqrt_bits n (log2_floor n / 2 + 1) 0

/-- The function `std::sqrt`: the root of the magnitude is taken to two more
binary places than a unit, with one further bit that records whether it is
inexact, and rounded. -/
def sqrt : Binary64 → Binary64
  | .finite s u =>
    if u = 0 then .finite s 0
    else if s then .nan
    else
      round false (2 * isqrt (u * 2 ^ 1078) +
        (if isqrt (u * 2 ^ 1078) * isqrt (u * 2 ^ 1078) = u * 2 ^ 1078 then 0 else 1)) 8
  | .infinite s => if s then .nan else .infinite false
  | .nan => .nan

/-- The comparison `a < b`; false when an operand is a NaN. -/
def lt : Binary64 → Binary64 → Bool
  | .finite s u, .finite t v =>
    if s then (if t then decide (v < u) else decide (0 < u ∨ 0 < v))
    else (if t then false else decide (u < v))
  | .finite _ _, .infinite t => !t
  | .infinite s, .finite _ _ => s
  | .infinite s, .infinite t => s && !t
  | _, _ => false

/-- The comparison `a <= b`; false when an operand is a NaN. -/
def le : Binary64 → Binary64 → Bool
  | .finite s u, .finite t v =>
    if s then (if t then decide (v ≤ u) else true)
    else (if t then decide (u = 0 ∧ v = 0) else decide (u ≤ v))
  | .finite _ _, .infinite t => !t
  | .infinite s, .finite _ _ => s
  | .infinite s, .infinite t => s || !t
  | _, _ => false

/-- The conversion of a natural number. -/
def of_nat (n : Nat) : Binary64 := round false (n * 2 ^ 1074) 1

/-- The conversion of an `int`. -/
def of_int : Int → Binary64
  | .ofNat n => of_nat n
  | .negSucc n => round true ((n + 1) * 2 ^ 1074) 1

/-- The value of a decimal literal `mantissa * 10^(±exponent)`, correctly
rounded. -/
def of_scientific (mantissa : Nat) (exponent_sign : Bool) (exponent : Nat) : Binary64 :=
  if exponent_sign then round false (mantissa * 2 ^ 1074) (10 ^ exponent)
  else round false (mantissa * 10 ^ exponent * 2 ^ 1074) 1

instance : Add Binary64 := ⟨add⟩

instance : Neg Binary64 := ⟨neg⟩

instance : Sub Binary64 := ⟨fun a b => add a (neg b)⟩

instance : Mul Binary64 := ⟨mul⟩

instance : Div Binary64 := ⟨div⟩

instance : LT Binary64 := ⟨fun a b => lt a b = true⟩

instance : LE Binary64 := ⟨fun a b => le a b = true⟩

instance decidable_lt (a b : Binary64) : Decidable (a < b) :=
  inferInstanceAs (Decidable (lt a b = true))

instance decidable_le (a b : Binary64) : Decidable (a ≤ b) :=
  inferInstanceAs (Decidable (le a b = true))

instance : IntCast Binary64 := ⟨of_int⟩

instance : OfScientific Binary64 := ⟨of_scientific⟩

instance (n : Nat) : OfNat Binary64 n := ⟨of_nat n⟩

end Binary64

deriving instance DecidableEq for Except

namespace Anom

/-- The probability whose quantile `fit()` takes for `a` groups. -/
def critical_probability {α : Type} [Sub α] [Div α] [OfScientific α] [IntCast α]
    (opt : AnomOptions α) (a : Int) : α :=
  if opt.bonferroni then 1.0 - opt.alpha / (a : α) / 2.0 else 1.0 - opt.alpha / 2.0

end Anom

/-! ## Inputs on which rounding shows -/

namespace Anom

/-- The groups of `test_anom_unequal_n` (sizes 4, 6 and 3) in binary64, with
`assume_equal_n` and `bonferroni` on and `alpha = 0.15`, for which the
quantile is taken in the central region. -/
def rounding_unequal_n : Anom Binary64 :=
  { opt_ := { alpha := 0.15, assume_equal_n := true, bonferroni := true }
    groups_ := (test_unequal_n Binary64).groups_ }

/-- Two groups of two observations each in binary64: twice `1`, and twice the
next value above `1`. -/
def rounding_two_groups : Anom Binary64 :=
  { opt_ := { alpha := 0.05, assume_equal_n := true, bonferroni := false }
    groups_ := [⟨"lower", [1.0, 1.0]⟩,
      ⟨"higher", [1.0000000000000002, 1.0000000000000002]⟩] }

end Anom

/-- The responses `0.1, 0.2, ..., 0.8` for the eight runs of `OA_L8_2_7`, in
binary64. -/
def rounding_responses : List Binary64 := [0.1, 0.2, 0.3, 0.4, 0.5, 0.6, 0.7, 0.8]

/-- Options with `alpha = 0.05` and `bonferroni` off, in binary64. -/
def rounding_options : AnomOptions Binary64 :=
  { alpha := 0.05, assume_equal_n := true, bonferroni := false }
/-! ## Auxiliary lemmas on the loops -/

section loops

variable {α : Type} [LinearOrderedField α]

theorem foldl_add_eq_sum (l : List α) (acc : α) :
    l.foldl (fun s x => s + x) acc = acc + l.sum := by
  induction l generalizing acc with
  | nil => simp
  | cons x xs ih => simp [ih, add_assoc]

theorem foldl_add_map_eq_sum {β : Type} (f : β → α) (l : List β) (acc : α) :
    l.foldl (fun s x => s + f x) acc = acc + (l.map f).sum := by
  induction l generalizing acc with
  | nil => simp
  | cons x xs ih => simp [ih, add_assoc]

theorem int_foldl_add_map_eq_sum {β : Type} (f : β → Int) (l : List β) (acc : Int) :
    l.foldl (fun s x => s + f x) acc = acc + (l.map f).sum := by
  induction l generalizing acc with
  | nil => simp
  | cons x xs ih => simp [ih, add_assoc]

theorem foldl_nested_eq_sum {β : Type} (vals : β → List α) (f : β → α → α)
    (l : List β) (acc : α) :
    l.foldl (fun s p => (vals p).foldl (fun s x => s + f p x) s) acc
      = acc + (l.map (fun p => ((vals p).map (f p)).sum)).sum := by
  induction l generalizing acc with
  | nil => simp
  | cons x xs ih => simp [ih, foldl_add_map_eq_sum, add_assoc]

theorem zip_map_map {β γ δ : Type} (f : β → γ) (g : β → δ) (l : List β) :
    (l.map f).zip (l.map g) = l.map (fun x => (f x, g x)) := by
  induction l with
  | nil => rfl
  | cons x xs ih => simp [ih]

theorem zip_self_map {β γ : Type} (g : β → γ) (l : List β) :
    l.zip (l.map g) = l.map (fun x => (x, g x)) := by
  induction l with
  | nil => rfl
  | cons x xs ih => simp [ih]

end loops

/-! ## The steps of `fit()` -/

namespace Anom

variable {α : Type} [LinearOrderedField α]

/-- The member `fit()` with its loops written as sums over the groups. -/
theorem fit_eq (sqrt log : α → α) (s : Anom α) :
    s.fit sqrt log =
      if s.groups_.isEmpty then (.error "Anom::fit: no groups to fit", s)
      else if df_pooled s.groups_ ≤ 0 then
        (.error "Anom::fit: insufficient degrees of freedom",
          { s with grand_mean_ := some (weighted_mean s.groups_) })
      else
        match critical_values sqrt log s.opt_
            (s.opt_.assume_equal_n && all_equal (s.groups_.map (fun g => (g.values.length : Int))))
            (s.groups_.length : Int) ((s.groups_.map (fun g => (g.values.length : Int))).headD 0)
            (df_pooled s.groups_) with
        | .error e => (.error e,
            { s with grand_mean_ := some (weighted_mean s.groups_),
                     mse_ := some (ss_pooled s.groups_ / ((df_pooled s.groups_ : Int) : α)),
                     s_within_ := some (sqrt (ss_pooled s.groups_ / ((df_pooled s.groups_ : Int) : α))),
                     results_ := [] })
        | .ok (h, tcrit) => (.ok (),
            { s with grand_mean_ := some (weighted_mean s.groups_),
                     mse_ := some (ss_pooled s.groups_ / ((df_pooled s.groups_ : Int) : α)),
                     s_within_ := some (sqrt (ss_pooled s.groups_ / ((df_pooled s.groups_ : Int) : α))),
                     results_ := s.groups_.map (fun g =>
                       group_result sqrt (weighted_mean s.groups_)
                         (sqrt (ss_pooled s.groups_ / ((df_pooled s.groups_ : Int) : α)))
                         (s.opt_.assume_equal_n && all_equal (s.groups_.map (fun g => (g.values.length : Int))))
                         h tcrit g.name (g.values.length : Int) g.mean),
                     computed_ := true }) := by
  unfold fit
  by_cases hg : s.groups_.isEmpty = true
  · simp [hg]
  · have hdf : List.foldl (fun acc n => acc + (n - 1)) 0
        (s.groups_.map (fun g => (g.values.length : Int))) = df_pooled s.groups_ := by
      rw [int_foldl_add_map_eq_sum (fun n => n - 1)]
      simp [df_pooled, List.map_map, Function.comp_def]
    have hN : List.foldl (fun acc n => acc + n) 0
        (s.groups_.map (fun g => (g.values.length : Int))) = n_total s.groups_ := by
      rw [int_foldl_add_map_eq_sum (fun n => n)]
      simp [n_total, Function.comp_def]
    have h0 : (0.0 : α) = 0 := by norm_num
    have hmeans : s.groups_.map (fun g => List.foldl (fun s x => s + x) 0.0 g.values
        / (((g.values.length : Int)) : α)) = s.groups_.map Group.mean := by
      apply List.map_congr_left
      intro g _
      rw [foldl_add_eq_sum, h0, zero_add, Group.mean, Int.cast_natCast]
    have hsum : List.foldl (fun acc (p : α × Int) => acc + p.1 * (p.2 : α)) 0.0
        ((s.groups_.map Group.mean).zip (s.groups_.map (fun g => (g.values.length : Int))))
        = (s.groups_.map (fun g => g.mean * (g.values.length : α))).sum := by
      rw [zip_map_map, foldl_add_map_eq_sum (fun (p : α × Int) => p.1 * (p.2 : α)), h0, zero_add,
        List.map_map]
      simp [Function.comp_def]
    have hss : List.foldl (fun acc (p : Group α × α) =>
          List.foldl (fun acc x => acc + (x - p.2) * (x - p.2)) acc p.1.values) 0.0
        (s.groups_.zip (s.groups_.map Group.mean)) = ss_pooled s.groups_ := by
      rw [zip_self_map, foldl_nested_eq_sum (fun (p : Group α × α) => p.1.values)
        (fun p x => (x - p.2) * (x - p.2)), h0, zero_add, List.map_map]
      simp only [ss_pooled, Function.comp_def]
      congr 1
      apply List.map_congr_left
      intro g _
      simp [Group.sq_dev, pow_two]
    have hres : ∀ (f : String → Int → α → AnomGroupResult α),
        List.map (fun (p : Group α × Int × α) => f p.1.name p.2.1 p.2.2)
          (s.groups_.zip ((s.groups_.map (fun g => (g.values.length : Int))).zip
            (s.groups_.map Group.mean)))
        = s.groups_.map (fun g => f g.name (g.values.length : Int) g.mean) := by
      intro f
      rw [zip_map_map, zip_self_map, List.map_map]
      rfl
    simp only [hg, hdf, hN, hmeans, hsum, hss, hres, weighted_mean]
/-- The four ways `fit()` can end. -/
theorem fit_cases (sqrt log : α → α) (s : Anom α) :
    (s.groups_ = [] ∧ s.fit sqrt log = (.error "Anom::fit: no groups to fit", s)) ∨
    (s.groups_ ≠ [] ∧ df_pooled s.groups_ ≤ 0 ∧
      s.fit sqrt log = (.error "Anom::fit: insufficient degrees of freedom",
          { s with grand_mean_ := some (weighted_mean s.groups_) })) ∨
    (s.groups_ ≠ [] ∧ 0 < df_pooled s.groups_ ∧ ∃ e,
      critical_values sqrt log s.opt_
            (s.opt_.assume_equal_n && all_equal (s.groups_.map (fun g => (g.values.length : Int))))
            (s.groups_.length : Int) ((s.groups_.map (fun g => (g.values.length : Int))).headD 0)
            (df_pooled s.groups_) = .error e ∧
      s.fit sqrt log = (.error e,
            { s with grand_mean_ := some (weighted_mean s.groups_),
                     mse_ := some (ss_pooled s.groups_ / ((df_pooled s.groups_ : Int) : α)),
                     s_within_ := some (sqrt (ss_pooled s.groups_ / ((df_pooled s.groups_ : Int) : α))),
                     results_ := [] })) ∨
    (s.groups_ ≠ [] ∧ 0 < df_pooled s.groups_ ∧ ∃ h tcrit,
      critical_values sqrt log s.opt_
            (s.opt_.assume_equal_n && all_equal (s.groups_.map (fun g => (g.values.length : Int))))
            (s.groups_.length : Int) ((s.groups_.map (fun g => (g.values.length : Int))).headD 0)
            (df_pooled s.groups_) = .ok (h, tcrit) ∧
      s.fit sqrt log = (.ok (),
            { s with grand_mean_ := some (weighted_mean s.groups_),
                     mse_ := some (ss_pooled s.groups_ / ((df_pooled s.groups_ : Int) : α)),
                     s_within_ := some (sqrt (ss_pooled s.groups_ / ((df_pooled s.groups_ : Int) : α))),
                     results_ := s.groups_.map (fun g =>
                       group_result sqrt (weighted_mean s.groups_)
                         (sqrt (ss_pooled s.groups_ / ((df_pooled s.groups_ : Int) : α)))
                         (s.opt_.assume_equal_n && all_equal (s.groups_.map (fun g => (g.values.length : Int))))
                         h tcrit g.name (g.values.length : Int) g.mean),
                     computed_ := true })) := by
  rw [fit_eq]
  by_cases hg : s.groups_ = []
  · left
    simp [hg]
  · have hg' : s.groups_.isEmpty = false := by
      cases hgs : s.groups_ with
      | nil => exact absurd hgs hg
      | cons _ _ => rfl
    right
    by_cases hdf : df_pooled s.groups_ ≤ 0
    · left
      refine ⟨hg, hdf, ?_⟩
      simp only [hg', hdf, Bool.false_eq_true, if_false, if_true]
    · right
      have hpos : 0 < df_pooled s.groups_ := not_le.mp hdf
      cases hc : critical_values sqrt log s.opt_
            (s.opt_.assume_equal_n && all_equal (s.groups_.map (fun g => (g.values.length : Int))))
            (s.groups_.length : Int) ((s.groups_.map (fun g => (g.values.length : Int))).headD 0)
            (df_pooled s.groups_) with
      | error e =>
        left
        refine ⟨hg, hpos, e, rfl, ?_⟩
        simp only [hg', hdf, Bool.false_eq_true, if_false]
      | ok p =>
        right
        obtain ⟨h, tcrit⟩ := p
        refine ⟨hg, hpos, h, tcrit, rfl, ?_⟩
        simp only [hg', hdf, Bool.false_eq_true, if_false]

theorem fit_groups (sqrt log : α → α) (s : Anom α) :
    (s.fit sqrt log).2.groups_ = s.groups_ ∧ (s.fit sqrt log).2.opt_ = s.opt_ := by
  rcases fit_cases sqrt log s with ⟨_, h⟩ | ⟨_, _, h⟩ | ⟨_, _, _, _, h⟩ | ⟨_, _, _, _, _, h⟩ <;>
    simp [h]

theorem fit_error_computed (sqrt log : α → α) (s : Anom α) (e : String)
    (he : (s.fit sqrt log).1 = .error e) : (s.fit sqrt log).2.computed_ = s.computed_ := by
  rcases fit_cases sqrt log s with ⟨_, h⟩ | ⟨_, _, h⟩ | ⟨_, _, _, _, h⟩ | ⟨_, _, _, _, _, h⟩ <;>
    simp_all

theorem fit_ok_computed (sqrt log : α → α) (s : Anom α)
    (he : (s.fit sqrt log).1 = .ok ()) : (s.fit sqrt log).2.computed_ = true := by
  rcases fit_cases sqrt log s with ⟨_, h⟩ | ⟨_, _, h⟩ | ⟨_, _, _, _, h⟩ | ⟨_, _, _, _, _, h⟩ <;>
    simp_all

theorem fit_idem (sqrt log : α → α) (s : Anom α)
    (he : (s.fit sqrt log).1 = .ok ()) :
    (s.fit sqrt log).2.fit sqrt log = (.ok (), (s.fit sqrt log).2) := by
  rcases fit_cases sqrt log s with ⟨_, h⟩ | ⟨_, _, h⟩ | ⟨_, _, _, _, h⟩ | ⟨hg, hdf, hh, ht, hc, h⟩
  · simp [h] at he
  · simp [h] at he
  · simp [h] at he
  · rcases fit_cases sqrt log (s.fit sqrt log).2 with
      ⟨hg2, _⟩ | ⟨_, hdf2, _⟩ | ⟨_, _, e, hc2, _⟩ | ⟨_, _, hh2, ht2, hc2, h2⟩
    · rw [(fit_groups sqrt log s).1] at hg2
      exact absurd hg2 hg
    · rw [(fit_groups sqrt log s).1] at hdf2
      exact absurd hdf (not_lt.mpr hdf2)
    · rw [(fit_groups sqrt log s).1, (fit_groups sqrt log s).2, hc] at hc2
      cases hc2
    · rw [(fit_groups sqrt log s).1, (fit_groups sqrt log s).2, hc] at hc2
      cases hc2
      rw [h2, (fit_groups sqrt log s).1, h]
theorem inv_new (sqrt log : α → α) (opt : AnomOptions α) : Inv sqrt log (new opt) := by
  constructor
  · intro g hg
    simp [new] at hg
  · intro h
    simp [new] at h

theorem inv_add_group (sqrt log : α → α) (s : Anom α) (name : String) (values : List α)
    (hs : Inv sqrt log s) : Inv sqrt log (s.add_group name values).2 := by
  unfold add_group
  cases values with
  | nil => simpa using hs
  | cons x xs =>
    constructor
    · intro g hg
      simp only [List.isEmpty_cons, Bool.false_eq_true, if_false, List.mem_append,
        List.mem_singleton] at hg
      rcases hg with hg | hg
      · exact hs.1 g hg
      · subst hg
        simp
    · intro h
      simp at h

theorem inv_clear (sqrt log : α → α) (s : Anom α) : Inv sqrt log s.clear.2 := by
  constructor
  · intro g hg
    simp [clear] at hg
  · intro h
    simp [clear] at h

theorem inv_fit (sqrt log : α → α) (s : Anom α) (hs : Inv sqrt log s) :
    Inv sqrt log (s.fit sqrt log).2 := by
  constructor
  · rw [(fit_groups sqrt log s).1]
    exact hs.1
  · intro hc
    cases he : (s.fit sqrt log).1 with
    | error e =>
      rw [fit_error_computed sqrt log s e he] at hc
      rw [hs.2 hc] at he
      cases he
    | ok u => exact fit_idem sqrt log s he

theorem inv_call (sqrt log : α → α) (s : Anom α) (c : AnomCall α) (hs : Inv sqrt log s) :
    Inv sqrt log (s.call sqrt log c).2 := by
  cases c with
  | add_group name values => exact inv_add_group sqrt log s name values hs
  | clear => exact inv_clear sqrt log s
  | fit => exact inv_fit sqrt log s hs

theorem inv_exec (sqrt log : α → α) (cs : List (AnomCall α)) :
    ∀ (s : Anom α) (last : Option (AnomCall α)), Inv sqrt log s →
      Inv sqrt log (exec sqrt log s last cs).1 := by
  induction cs with
  | nil => intro s last hs; exact hs
  | cons c cs ih =>
    intro s last hs
    have hc := inv_call sqrt log s c hs
    unfold exec
    rcases hcall : s.call sqrt log c with ⟨r, s'⟩
    rw [hcall] at hc
    cases r with
    | error e => exact ih s' last hc
    | ok u => exact ih s' (some c) hc

theorem inv_after (sqrt log : α → α) (opt : AnomOptions α) (cs : List (AnomCall α)) :
    Inv sqrt log (after sqrt log opt cs) :=
  inv_exec sqrt log cs (new opt) none (inv_new sqrt log opt)

theorem call_opt (sqrt log : α → α) (s : Anom α) (c : AnomCall α) :
    (s.call sqrt log c).2.opt_ = s.opt_ := by
  cases c with
  | add_group name values =>
    simp only [call, add_group]
    split <;> rfl
  | clear => rfl
  | fit => exact (fit_groups sqrt log s).2

theorem exec_opt (sqrt log : α → α) (cs : List (AnomCall α)) :
    ∀ (s : Anom α) (last : Option (AnomCall α)), (exec sqrt log s last cs).1.opt_ = s.opt_ := by
  induction cs with
  | nil => intro s last; rfl
  | cons c cs ih =>
    intro s last
    have hc := call_opt sqrt log s c
    unfold exec
    rcases hcall : s.call sqrt log c with ⟨r, s'⟩
    rw [hcall] at hc
    cases r with
    | error e => simp only []; rw [ih s' last, hc]
    | ok u => simp only []; rw [ih s' (some c), hc]

theorem after_opt (sqrt log : α → α) (opt : AnomOptions α) (cs : List (AnomCall α)) :
    (after sqrt log opt cs).opt_ = opt :=
  exec_opt sqrt log cs (new opt) none

theorem fit_ok_state (sqrt log : α → α) (s : Anom α) (hfit : (s.fit sqrt log).1 = .ok ()) :
    s.groups_ ≠ [] ∧ 0 < df_pooled s.groups_ ∧ ∃ h tcrit,
      critical_values sqrt log s.opt_
            (s.opt_.assume_equal_n && all_equal (s.groups_.map (fun g => (g.values.length : Int))))
            (s.groups_.length : Int) ((s.groups_.map (fun g => (g.values.length : Int))).headD 0)
            (df_pooled s.groups_) = .ok (h, tcrit) ∧
      (s.fit sqrt log).2.computed_ = true ∧
      (s.fit sqrt log).2.grand_mean_ = some (weighted_mean s.groups_) ∧
      (s.fit sqrt log).2.s_within_
        = some (sqrt (ss_pooled s.groups_ / ((df_pooled s.groups_ : Int) : α))) ∧
      (s.fit sqrt log).2.results_ = s.groups_.map (fun g =>
                       group_result sqrt (weighted_mean s.groups_)
                         (sqrt (ss_pooled s.groups_ / ((df_pooled s.groups_ : Int) : α)))
                         (s.opt_.assume_equal_n && all_equal (s.groups_.map (fun g => (g.values.length : Int))))
                         h tcrit g.name (g.values.length : Int) g.mean) := by
  rcases fit_cases sqrt log s with ⟨_, h⟩ | ⟨_, _, h⟩ | ⟨_, _, _, _, h⟩ | ⟨hg, hdf, hh, ht, hc, h⟩
  · simp [h] at hfit
  · simp [h] at hfit
  · simp [h] at hfit
  · exact ⟨hg, hdf, hh, ht, hc, by simp [h]⟩

theorem n_total_cast (gs : List (Group α)) :
    ((n_total gs : Int) : α) = (((gs.map (fun g => g.values.length)).sum : ℕ) : α) := by
  unfold n_total
  push_cast
  simp [List.map_map, Function.comp_def]

theorem mean_mul_length (g : Group α) (hg : g.values ≠ []) :
    g.mean * (g.values.length : α) = g.values.sum := by
  have hn : (g.values.length : α) ≠ 0 := by
    have : g.values.length ≠ 0 := fun h => hg (List.length_eq_zero.mp h)
    exact_mod_cast this
  unfold Group.mean
  field_simp

theorem weighted_sum_eq_pooled_sum (gs : List (Group α)) (hgs : ∀ g ∈ gs, g.values ≠ []) :
    (gs.map (fun g => g.mean * (g.values.length : α))).sum
      = (gs.map (fun g => g.values)).flatten.sum := by
  rw [List.sum_flatten, List.map_map]
  congr 1
  apply List.map_congr_left
  intro g hg
  simpa using mean_mul_length g (hgs g hg)

end Anom

/-! ## Success of the critical-value functions -/

namespace stat_util
variable {α : Type} [LinearOrderedField α]

theorem normal_quantile_approx_ok (sqrt log : α → α) (p : α) (h0 : 0 < p) (h1 : p < 1) :
    ∃ z, normal_quantile_approx sqrt log p = .ok z := by
  have hc : ¬(p ≤ 0.0 ∨ p ≥ 1.0) := by
    norm_num
    exact ⟨h0, h1⟩
  unfold normal_quantile_approx
  rw [if_neg hc]
  simp only []
  split
  · exact ⟨_, rfl⟩
  · split
    · exact ⟨_, rfl⟩
    · exact ⟨_, rfl⟩

theorem student_t_quantile_approx_ok (sqrt log : α → α) (p df : α) (h0 : 0 < p) (h1 : p < 1)
    (hdf : 0 < df) : ∃ t, student_t_quantile_approx sqrt log p df = .ok t := by
  obtain ⟨z, hz⟩ := normal_quantile_approx_ok sqrt log p h0 h1
  have hc : ¬(df ≤ 0.0) := by
    norm_num
    exact hdf
  unfold student_t_quantile_approx
  rw [if_neg hc, hz]
  simp only []
  split
  · exact ⟨_, rfl⟩
  · exact ⟨_, rfl⟩

theorem bonferroni_p_range (alpha : α) (a : Int) (h0 : 0 < alpha) (h1 : alpha < 1) (ha : 1 < a) :
    0 < 1.0 - alpha / (a : α) / 2.0 ∧ 1.0 - alpha / (a : α) / 2.0 < (1 : α) := by
  have ha' : (1 : α) < (a : α) := by exact_mod_cast ha
  have hapos : (0 : α) < (a : α) := lt_trans one_pos ha'
  have hq : alpha / (a : α) < 1 := by
    rw [div_lt_one hapos]
    exact lt_trans h1 ha'
  have hq0 : 0 < alpha / (a : α) := div_pos h0 hapos
  norm_num
  constructor <;> linarith

theorem anom_tcrit_bonferroni_ok (sqrt log : α → α) (alpha : α) (a df : Int)
    (h0 : 0 < alpha) (h1 : alpha < 1) (ha : 1 < a) (hdf : 0 < df) :
    ∃ t, anom_tcrit_bonferroni sqrt log alpha a df = .ok t := by
  have hc1 : ¬(alpha ≤ 0.0 ∨ alpha ≥ 1.0) := by
    norm_num
    exact ⟨h0, h1⟩
  have hc2 : ¬(a ≤ 1 ∨ df ≤ 0) := by
    push_neg
    exact ⟨ha, hdf⟩
  have hp := bonferroni_p_range alpha a h0 h1 ha
  have hdf' : (0 : α) < (df : α) := by exact_mod_cast hdf
  unfold anom_tcrit_bonferroni
  rw [if_neg hc1, if_neg hc2]
  exact student_t_quantile_approx_ok sqrt log _ _ hp.1 hp.2 hdf'

theorem anom_h_bonferroni_equal_n_ok (sqrt log : α → α) (alpha : α) (a n df : Int)
    (h0 : 0 < alpha) (h1 : alpha < 1) (ha : 1 < a) (hn : 0 < n) (hdf : 0 < df) :
    ∃ h, anom_h_bonferroni_equal_n sqrt log alpha a n df = .ok h := by
  have hc1 : ¬(alpha ≤ 0.0 ∨ alpha ≥ 1.0) := by
    norm_num
    exact ⟨h0, h1⟩
  have hc2 : ¬(a ≤ 1 ∨ n ≤ 0 ∨ df ≤ 0) := by
    push_neg
    exact ⟨ha, hn, hdf⟩
  have hp := bonferroni_p_range alpha a h0 h1 ha
  have hdf' : (0 : α) < (df : α) := by exact_mod_cast hdf
  obtain ⟨t, ht⟩ := student_t_quantile_approx_ok sqrt log _ _ hp.1 hp.2 hdf'
  unfold anom_h_bonferroni_equal_n
  rw [if_neg hc1, if_neg hc2]
  simp only [ht]
  exact ⟨_, rfl⟩

end stat_util

namespace Anom

variable {α : Type} [LinearOrderedField α]

theorem critical_values_ok (sqrt log : α → α) (opt : AnomOptions α) (equal_n : Bool)
    (a n0 df : Int) (h0 : 0 < opt.alpha) (h1 : opt.alpha < 1) (ha : 1 < a) (hn : 0 < n0)
    (hdf : 0 < df) : ∃ p, critical_values sqrt log opt equal_n a n0 df = .ok p := by
  unfold critical_values
  cases hb : opt.bonferroni with
  | true =>
    cases equal_n with
    | true =>
      obtain ⟨h, hh⟩ := stat_util.anom_h_bonferroni_equal_n_ok sqrt log opt.alpha a n0 df
        h0 h1 ha hn hdf
      simp [hh]
    | false =>
      obtain ⟨t, ht⟩ := stat_util.anom_tcrit_bonferroni_ok sqrt log opt.alpha a df h0 h1 ha hdf
      simp [ht]
  | false =>
    have hp0 : (0 : α) < 1.0 - opt.alpha / 2.0 := by norm_num; linarith
    have hp1 : 1.0 - opt.alpha / 2.0 < (1 : α) := by norm_num; linarith
    have hdf' : (0 : α) < (df : α) := by exact_mod_cast hdf
    obtain ⟨t, ht⟩ := stat_util.student_t_quantile_approx_ok sqrt log _ _ hp0 hp1 hdf'
    simp [ht]

/-- Sufficient conditions for `fit()` to succeed. -/
theorem fit_ok_of (sqrt log : α → α) (s : Anom α) (hg : 2 ≤ s.groups_.length)
    (hne : ∀ g ∈ s.groups_, g.values ≠ []) (hdf : 0 < df_pooled s.groups_)
    (h0 : 0 < s.opt_.alpha) (h1 : s.opt_.alpha < 1) : (s.fit sqrt log).1 = .ok () := by
  have ha : (1 : Int) < (s.groups_.length : Int) := by exact_mod_cast hg
  have hn : (0 : Int) < (s.groups_.map (fun g => (g.values.length : Int))).headD 0 := by
    cases hgs : s.groups_ with
    | nil => rw [hgs] at hg; simp at hg
    | cons g gs =>
      have : g.values ≠ [] := hne g (by rw [hgs]; simp)
      simp only [List.map_cons, List.headD_cons]
      exact_mod_cast List.length_pos.mpr this
  obtain ⟨p, hp⟩ := critical_values_ok sqrt log s.opt_
    (s.opt_.assume_equal_n && all_equal (s.groups_.map (fun g => (g.values.length : Int))))
    (s.groups_.length : Int) ((s.groups_.map (fun g => (g.values.length : Int))).headD 0)
    (df_pooled s.groups_) h0 h1 ha hn hdf
  rcases fit_cases sqrt log s with ⟨hg', _⟩ | ⟨_, hdf', _⟩ | ⟨_, _, e, hc, _⟩ | ⟨_, _, _, _, _, h⟩
  · rw [hg'] at hg; simp at hg
  · exact absurd hdf (not_lt.mpr hdf')
  · rw [hp] at hc; cases hc
  · rw [h]

theorem test_equal_n_reached (sqrt log : α → α) :
    test_equal_n α = after sqrt log (test_options α) (test_equal_n_calls α) := rfl

theorem test_equal_n_fit_ok (sqrt log : α → α) :
    ((test_equal_n α).fit sqrt log).1 = .ok () := by
  apply fit_ok_of
  · simp [test_equal_n]
  · simp [test_equal_n]
  · simp [test_equal_n, df_pooled]
  · norm_num [test_equal_n, test_options]
  · norm_num [test_equal_n, test_options]

end Anom

/-! ## Margins, limits and flags -/

namespace Anom

variable {α : Type} [LinearOrderedField α]

omit [LinearOrderedField α] in
theorem all_equal_iff_same_sizes (gs : List (Group α)) :
    all_equal (gs.map (fun g => (g.values.length : Int))) = true ↔ same_sizes gs := by
  cases gs with
  | nil => simp [all_equal, same_sizes]
  | cons g0 rest =>
    simp only [all_equal, same_sizes, List.map_cons, List.all_eq_true, List.mem_map,
      List.mem_cons]
    constructor
    · intro h
      have hr : ∀ g ∈ rest, g.values.length = g0.values.length := by
        intro g hg
        have := h (g.values.length : Int) ⟨g, hg, rfl⟩
        simp at this
        exact_mod_cast this
      intro g hg g' hg'
      have e1 : g.values.length = g0.values.length := by
        rcases hg with rfl | hg
        · rfl
        · exact hr g hg
      have e2 : g'.values.length = g0.values.length := by
        rcases hg' with rfl | hg'
        · rfl
        · exact hr g' hg'
      rw [e1, e2]
    · intro h n hn
      obtain ⟨g, hg, rfl⟩ := hn
      have := h g (Or.inr hg) g0 (Or.inl rfl)
      simp [this]

/-- The margin computed for a group is the chosen critical value times
`s_within * sqrt(1/n)`; it is never NaN after a successful choice. -/
theorem critical_values_margin (sqrt log : α → α) (opt : AnomOptions α) (equal_n : Bool)
    (a n0 df : Int) (h tcrit : Option α)
    (hc : critical_values sqrt log opt equal_n a n0 df = .ok (h, tcrit)) :
    ∃ c, (if opt.bonferroni = true then
            (if equal_n = true then stat_util.anom_h_bonferroni_equal_n sqrt log opt.alpha a n0 df
             else stat_util.anom_tcrit_bonferroni sqrt log opt.alpha a df)
          else stat_util.student_t_quantile_approx sqrt log (1 - opt.alpha / 2) (df : α)) = .ok c ∧
      ∀ (gm sw : α) (name : String) (n : Int) (mean : α),
        (group_result sqrt gm sw equal_n h tcrit name n mean).margin
          = some (c * sw * sqrt (1 / (n : α))) := by
  have h1 : (1.0 : α) = 1 := by norm_num
  have h2 : (2.0 : α) = 2 := by norm_num
  unfold critical_values at hc
  cases hb : opt.bonferroni with
  | true =>
    cases equal_n with
    | true =>
      simp only [hb, if_true] at hc ⊢
      cases hh : stat_util.anom_h_bonferroni_equal_n sqrt log opt.alpha a n0 df with
      | error e => rw [hh] at hc; cases hc
      | ok c =>
        rw [hh] at hc
        cases hc
        exact ⟨c, rfl, by intros; simp [group_result, h1]⟩
    | false =>
      simp only [hb, if_true, Bool.false_eq_true, if_false] at hc ⊢
      cases hh : stat_util.anom_tcrit_bonferroni sqrt log opt.alpha a df with
      | error e => rw [hh] at hc; cases hc
      | ok c =>
        rw [hh] at hc
        cases hc
        exact ⟨c, rfl, by intros; simp [group_result, h1]⟩
  | false =>
    simp only [hb, Bool.false_eq_true, if_false, h1, h2] at hc ⊢
    cases hh : stat_util.student_t_quantile_approx sqrt log (1 - opt.alpha / 2) (df : α) with
    | error e => rw [hh] at hc; cases hc
    | ok c =>
      rw [hh] at hc
      cases hc
      exact ⟨c, rfl, by intros; simp [group_result, h1]⟩

/-- The limits and flags of a result record in terms of its margin. -/
theorem group_result_fields (sqrt : α → α) (gm sw : α) (equal_n : Bool) (h tcrit : Option α)
    (name : String) (n : Int) (mean m : α)
    (hm : (group_result sqrt gm sw equal_n h tcrit name n mean).margin = some m) :
    (group_result sqrt gm sw equal_n h tcrit name n mean).UDL = some (gm + m) ∧
    (group_result sqrt gm sw equal_n h tcrit name n mean).LDL = some (gm - m) ∧
    ((group_result sqrt gm sw equal_n h tcrit name n mean).significant_high = true
      ↔ mean > gm + m) ∧
    ((group_result sqrt gm sw equal_n h tcrit name n mean).significant_low = true
      ↔ mean < gm - m) := by
  unfold group_result at hm ⊢
  simp only [] at hm ⊢
  rw [hm]
  simp

theorem call_groups (sqrt log : α → α) (s : Anom α) (c : AnomCall α) :
    (s.call sqrt log c).2.groups_ = groups_step s.groups_ c := by
  cases c with
  | add_group name values =>
    simp only [call, add_group, groups_step]
    split <;> rfl
  | clear => rfl
  | fit => exact (fit_groups sqrt log s).1

theorem exec_groups (sqrt log : α → α) (cs : List (AnomCall α)) :
    ∀ (s : Anom α) (last : Option (AnomCall α)),
      (exec sqrt log s last cs).1.groups_ = cs.foldl groups_step s.groups_ := by
  induction cs with
  | nil => intro s last; rfl
  | cons c cs ih =>
    intro s last
    have hc := call_groups sqrt log s c
    unfold exec
    rcases hcall : s.call sqrt log c with ⟨r, s'⟩
    rw [hcall] at hc
    cases r with
    | error e => simp only [List.foldl_cons]; rw [ih s' last, hc]
    | ok u => simp only [List.foldl_cons]; rw [ih s' (some c), hc]

theorem after_groups (sqrt log : α → α) (opt : AnomOptions α) (cs : List (AnomCall α)) :
    (after sqrt log opt cs).groups_ = groups_added cs :=
  exec_groups sqrt log cs (new opt) none

theorem test_unequal_n_reached (sqrt log : α → α) :
    test_unequal_n α = after sqrt log (test_options α) (test_unequal_n_calls α) := rfl

theorem test_unequal_n_fit_ok (sqrt log : α → α) :
    ((test_unequal_n α).fit sqrt log).1 = .ok () := by
  apply fit_ok_of
  · simp [test_unequal_n]
  · simp [test_unequal_n]
  · simp [test_unequal_n, df_pooled]
  · norm_num [test_unequal_n, test_options]
  · norm_num [test_unequal_n, test_options]

theorem sqrt_inv_mul_sqrt (n : ℕ) (hn : 0 < n) :
    Real.sqrt (1 / (n : ℝ)) * Real.sqrt (n : ℝ) = 1 := by
  have hpos : (0 : ℝ) < (n : ℝ) := by exact_mod_cast hn
  rw [← Real.sqrt_mul (by positivity), one_div, inv_mul_cancel₀ (ne_of_gt hpos), Real.sqrt_one]

theorem exec_computed_iff (sqrt log : α → α) (cs : List (AnomCall α)) :
    ∀ (s : Anom α) (last : Option (AnomCall α)), Inv sqrt log s →
      (s.computed_ = true ↔ last = some .fit) →
      ((exec sqrt log s last cs).1.computed_ = true ↔
        (exec sqrt log s last cs).2 = some .fit) := by
  induction cs with
  | nil => intro s last _ h; exact h
  | cons c cs ih =>
    intro s last hinv h
    have hinv' := inv_call sqrt log s c hinv
    unfold exec
    cases c with
    | add_group name values =>
      cases values with
      | nil =>
        have : s.call sqrt log (.add_group name []) =
            (.error ("Anom::add_group: group has no values: " ++ name), s) := rfl
        rw [this]
        exact ih s last hinv h
      | cons x xs =>
        have : s.call sqrt log (.add_group name (x :: xs)) =
            (.ok (), { s with groups_ := s.groups_ ++ [{ name := name, values := x :: xs }],
                              computed_ := false }) := rfl
        rw [this] at hinv' ⊢
        exact ih _ _ hinv' (by simp)
    | clear =>
      have : s.call sqrt log .clear = (.ok (), s.clear.2) := rfl
      rw [this] at hinv' ⊢
      exact ih _ _ hinv' (by simp [clear])
    | fit =>
      have hcall : s.call sqrt log .fit = s.fit sqrt log := rfl
      rw [hcall] at hinv' ⊢
      rcases hf : s.fit sqrt log with ⟨r, s'⟩
      have h1 : (s.fit sqrt log).1 = r := by rw [hf]
      have h2 : (s.fit sqrt log).2 = s' := by rw [hf]
      rw [h2] at hinv'
      cases r with
      | error e =>
        have hcomp := fit_error_computed sqrt log s e h1
        rw [h2] at hcomp
        exact ih s' last hinv' (by rw [hcomp]; exact h)
      | ok u =>
        have hcomp := fit_ok_computed sqrt log s h1
        rw [h2] at hcomp
        exact ih s' (some .fit) hinv' (by simp [hcomp])

theorem after_computed_iff (sqrt log : α → α) (opt : AnomOptions α) (cs : List (AnomCall α)) :
    (after sqrt log opt cs).computed_ = true ↔ last_ok sqrt log opt cs = some .fit :=
  exec_computed_iff sqrt log cs (new opt) none (inv_new sqrt log opt) (by simp [new])

theorem fit_error_not_computed (sqrt log : α → α) (s : Anom α) (hinv : Inv sqrt log s)
    (e : String) (he : (s.fit sqrt log).1 = .error e) :
    (s.fit sqrt log).2.computed_ = false := by
  rw [fit_error_computed sqrt log s e he]
  cases hc : s.computed_ with
  | false => rfl
  | true =>
    rw [hinv.2 hc] at he
    cases he

omit [LinearOrderedField α] in
theorem df_pooled_nonpos_iff (gs : List (Group α)) (hgs : ∀ g ∈ gs, g.values ≠ []) :
    0 ≤ df_pooled gs ∧ (df_pooled gs ≤ 0 ↔ ∀ g ∈ gs, g.values.length = 1) := by
  induction gs with
  | nil => simp [df_pooled]
  | cons g gs ih =>
    obtain ⟨ih0, ih1⟩ := ih (fun g' hg' => hgs g' (List.mem_cons_of_mem _ hg'))
    have hg : 1 ≤ g.values.length := List.length_pos.mpr (hgs g (List.mem_cons_self _ _))
    have hg' : (1 : Int) ≤ (g.values.length : Int) := by exact_mod_cast hg
    have hcons : df_pooled (g :: gs) = ((g.values.length : Int) - 1) + df_pooled gs := by
      simp [df_pooled]
    rw [hcons]
    refine ⟨by omega, ?_⟩
    simp only [List.mem_cons, forall_eq_or_imp]
    constructor
    · intro h
      have h1 : df_pooled gs ≤ 0 := by omega
      exact ⟨by omega, ih1.mp h1⟩
    · intro ⟨h1, h2⟩
      have := ih1.mpr h2
      omega

end Anom

/-! ## The quantile approximations -/

namespace stat_util

variable {α : Type} [LinearOrderedField α]

/-- The three branches of `normal_quantile_approx` on `(0,1)`. -/
theorem normal_quantile_approx_eq (sqrt log : α → α) (p : α) (h0 : 0 < p) (h1 : p < 1) :
    normal_quantile_approx sqrt log p =
      .ok (if p < 0.02425 then tail_ratio (sqrt (-2 * log p))
        else if p > 1 - 0.02425 then -tail_ratio (sqrt (-2 * log (1 - p)))
        else central_ratio (p - 0.5)) := by
  have hc : ¬(p ≤ 0.0 ∨ p ≥ 1.0) := by
    norm_num
    exact ⟨h0, h1⟩
  have e1 : (1.0 : α) = 1 := by norm_num
  have e2 : (2.0 : α) = 2 := by norm_num
  unfold normal_quantile_approx
  rw [if_neg hc]
  simp only [tail_ratio, central_ratio, e1, e2]
  split
  · rfl
  · split
    · rw [neg_div]
    · rfl

theorem normal_quantile_approx_error (sqrt log : α → α) (p : α) (h : p ≤ 0 ∨ p ≥ 1) :
    normal_quantile_approx sqrt log p = .error "normal_quantile_approx: p must be in (0,1)" := by
  have hc : p ≤ 0.0 ∨ p ≥ 1.0 := by
    norm_num
    exact h
  unfold normal_quantile_approx
  rw [if_pos hc]

end stat_util

namespace stat_util

variable {α : Type} [LinearOrderedField α]

theorem central_ratio_neg (q : α) : central_ratio (-q) = -central_ratio q := by
  unfold central_ratio
  rw [← neg_div]
  congr 1
  · ring
  · ring

theorem central_ratio_zero : central_ratio (0 : α) = 0 := by
  unfold central_ratio
  simp

/-- The value of `student_t_quantile_approx` in terms of the normal quantile. -/
theorem student_t_quantile_approx_eq (sqrt log : α → α) (p df z : α) (hdf : 0 < df)
    (hz : normal_quantile_approx sqrt log p = .ok z) :
    student_t_quantile_approx sqrt log p df
      = .ok (if df > 30 then z else z + (z ^ 3 + z) / (4 * df)) := by
  have hc : ¬(df ≤ 0.0) := by
    norm_num
    exact hdf
  have e30 : (30.0 : α) = 30 := by norm_num
  have e4 : (4.0 : α) = 4 := by norm_num
  unfold student_t_quantile_approx
  rw [if_neg hc, hz]
  simp only [e30, e4]
  split
  · rfl
  · congr 3
    ring

theorem student_t_quantile_approx_df_error (sqrt log : α → α) (p df : α) (hdf : df ≤ 0) :
    student_t_quantile_approx sqrt log p df
      = .error "student_t_quantile_approx: df must be > 0" := by
  have hc : df ≤ 0.0 := by
    norm_num
    exact hdf
  unfold student_t_quantile_approx
  rw [if_pos hc]

theorem student_t_quantile_approx_p_error (sqrt log : α → α) (p df : α) (hdf : 0 < df)
    (hp : p ≤ 0 ∨ p ≥ 1) :
    student_t_quantile_approx sqrt log p df
      = .error "normal_quantile_approx: p must be in (0,1)" := by
  have hc : ¬(df ≤ 0.0) := by
    norm_num
    exact hdf
  unfold student_t_quantile_approx
  rw [if_neg hc, normal_quantile_approx_error sqrt log p hp]

end stat_util

namespace Anom

variable {α : Type} [LinearOrderedField α]

/-- Without `bonferroni` the only check on `alpha` made by `fit()` is the one
of `normal_quantile_approx` on `p = 1 - alpha/2`: the critical value exists
exactly when `0 < alpha < 2`. -/
theorem critical_values_no_bonferroni (sqrt log : α → α) (opt : AnomOptions α)
    (equal_n : Bool) (a n0 df : Int) (hb : opt.bonferroni = false) (hdf : 0 < df) :
    (∃ p, critical_values sqrt log opt equal_n a n0 df = .ok p) ↔
      0 < opt.alpha ∧ opt.alpha < 2 := by
  have hdf' : (0 : α) < (df : α) := by exact_mod_cast hdf
  have e1 : (1.0 : α) = 1 := by norm_num
  have e2 : (2.0 : α) = 2 := by norm_num
  unfold critical_values
  simp only [hb, Bool.false_eq_true, if_false, e1, e2]
  by_cases h : 0 < opt.alpha ∧ opt.alpha < 2
  · obtain ⟨t, ht⟩ := stat_util.student_t_quantile_approx_ok sqrt log (1 - opt.alpha / 2)
      (df : α) (by linarith [h.2]) (by linarith [h.1]) hdf'
    simp [ht, h]
  · have hp : 1 - opt.alpha / 2 ≤ 0 ∨ 1 - opt.alpha / 2 ≥ 1 := by
      by_cases h0 : 0 < opt.alpha
      · left
        have : 2 ≤ opt.alpha := by
          by_contra hlt
          exact h ⟨h0, not_le.mp hlt⟩
        linarith
      · right
        have : opt.alpha ≤ 0 := not_lt.mp h0
        linarith
    rw [stat_util.student_t_quantile_approx_p_error sqrt log _ _ hdf' hp]
    simp [h]

/-- With `bonferroni` on, no critical value is produced when `alpha` is outside
`(0,1)`. -/
theorem critical_values_bonferroni_alpha (sqrt log : α → α) (opt : AnomOptions α)
    (equal_n : Bool) (a n0 df : Int) (hb : opt.bonferroni = true)
    (hα : opt.alpha ≤ 0 ∨ opt.alpha ≥ 1) :
    ∃ e, critical_values sqrt log opt equal_n a n0 df = .error e := by
  have hc : opt.alpha ≤ 0.0 ∨ opt.alpha ≥ 1.0 := by
    norm_num
    exact hα
  unfold critical_values
  cases equal_n with
  | true =>
    simp only [hb, if_true, stat_util.anom_h_bonferroni_equal_n, if_pos hc]
    exact ⟨_, rfl⟩
  | false =>
    simp only [hb, if_true, Bool.false_eq_true, if_false, stat_util.anom_tcrit_bonferroni,
      if_pos hc]
    exact ⟨_, rfl⟩

/-- `fit()` succeeds as soon as groups are held, the pooled degrees of freedom
are positive and a critical value is produced. -/
theorem fit_ok_of_critical (sqrt log : α → α) (s : Anom α) (hg : s.groups_ ≠ [])
    (hdf : 0 < df_pooled s.groups_)
    (hc : ∃ p, critical_values sqrt log s.opt_
        (s.opt_.assume_equal_n && all_equal (s.groups_.map (fun g => (g.values.length : Int))))
        (s.groups_.length : Int) ((s.groups_.map (fun g => (g.values.length : Int))).headD 0)
        (df_pooled s.groups_) = .ok p) :
    (s.fit sqrt log).1 = .ok () := by
  obtain ⟨p, hp⟩ := hc
  rcases fit_cases sqrt log s with ⟨hg', _⟩ | ⟨_, hdf', _⟩ | ⟨_, _, e, hc', _⟩ | ⟨_, _, _, _, _, h⟩
  · exact absurd hg' hg
  · exact absurd hdf (not_lt.mpr hdf')
  · rw [hp] at hc'; cases hc'
  · rw [h]

end Anom

/-! ## Loops that can throw, and the design builders -/

section design

theorem for_each_ok_iff {β γ : Type} (body : β → Except Fault γ) (l : List β)
    (ys : List γ) :
    for_each body l = .ok ys ↔ List.Forall₂ (fun x y => body x = .ok y) l ys := by
  induction l generalizing ys with
  | nil =>
    constructor
    · intro h
      simp only [for_each, Except.ok.injEq] at h
      subst h
      exact List.Forall₂.nil
    · intro h
      cases h
      rfl
  | cons x xs ih =>
    constructor
    · intro h
      unfold for_each at h
      cases hx : body x with
      | error e => rw [hx] at h; cases h
      | ok y =>
        rw [hx] at h
        cases hxs : for_each body xs with
        | error e => rw [hxs] at h; cases h
        | ok ys' =>
          rw [hxs] at h
          simp only [Except.ok.injEq] at h
          subst h
          exact List.Forall₂.cons hx ((ih ys').mp hxs)
    · intro h
      cases h with
      | cons hx hrest =>
        unfold for_each
        rw [hx, (ih _).mpr hrest]

theorem for_each_error_mem {β γ : Type} (body : β → Except Fault γ) (l : List β) (e : Fault)
    (h : for_each body l = .error e) : ∃ x ∈ l, body x = .error e := by
  induction l with
  | nil => simp [for_each] at h
  | cons x xs ih =>
    unfold for_each at h
    cases hx : body x with
    | error e' =>
      rw [hx] at h
      simp only [Except.error.injEq] at h
      subst h
      exact ⟨x, List.mem_cons_self _ _, hx⟩
    | ok y =>
      rw [hx] at h
      cases hxs : for_each body xs with
      | error e' =>
        rw [hxs] at h
        simp only [Except.error.injEq] at h
        subst h
        obtain ⟨x', hx', hb⟩ := ih hxs
        exact ⟨x', List.mem_cons_of_mem _ hx', hb⟩
      | ok ys => rw [hxs] at h; cases h

theorem for_each_ok_of_forall {β γ : Type} (body : β → Except Fault γ) (l : List β)
    (h : ∀ x ∈ l, ∃ y, body x = .ok y) : ∃ ys, for_each body l = .ok ys := by
  induction l with
  | nil => exact ⟨[], rfl⟩
  | cons x xs ih =>
    obtain ⟨y, hy⟩ := h x (List.mem_cons_self _ _)
    obtain ⟨ys, hys⟩ := ih (fun x' hx' => h x' (List.mem_cons_of_mem _ hx'))
    exact ⟨y :: ys, by unfold for_each; rw [hy, hys]⟩

theorem for_each_ok_length {β γ : Type} (body : β → Except Fault γ) (l : List β)
    (ys : List γ) (h : for_each body l = .ok ys) : ys.length = l.length :=
  ((for_each_ok_iff body l ys).mp h).length_eq.symm

theorem for_each_ok_get {β γ : Type} (body : β → Except Fault γ) (l : List β)
    (ys : List γ) (h : for_each body l = .ok ys) (i : Nat) (x : β) (hx : l[i]? = some x) :
    ∃ y, ys[i]? = some y ∧ body x = .ok y := by
  have hf := (for_each_ok_iff body l ys).mp h
  clear h
  induction hf generalizing i with
  | nil => simp at hx
  | cons hxy _ ih =>
    cases i with
    | zero =>
      simp only [List.getElem?_cons_zero, Option.some.injEq] at hx
      subst hx
      exact ⟨_, by simp, hxy⟩
    | succ i =>
      simp only [List.getElem?_cons_succ] at hx
      obtain ⟨y, hy, hb⟩ := ih i hx
      exact ⟨y, by simpa using hy, hb⟩

theorem for_each_ok_mem {β γ : Type} (body : β → Except Fault γ) (l : List β)
    (ys : List γ) (h : for_each body l = .ok ys) (y : γ) (hy : y ∈ ys) :
    ∃ x ∈ l, body x = .ok y := by
  have hf := (for_each_ok_iff body l ys).mp h
  clear h
  induction hf with
  | nil => simp at hy
  | cons hxy _ ih =>
    rcases List.mem_cons.mp hy with rfl | hy'
    · exact ⟨_, List.mem_cons_self _ _, hxy⟩
    · obtain ⟨x, hx, hb⟩ := ih hy'
      exact ⟨x, List.mem_cons_of_mem _ hx, hb⟩

theorem subscript_ok_iff {β : Type} (v : List β) (i : Int) (x : β) :
    subscript v i = .ok x ↔ 0 ≤ i ∧ v[i.toNat]? = some x := by
  unfold subscript
  by_cases hi : i < 0
  · rw [if_pos hi]
    constructor
    · intro h; cases h
    · intro h; exact absurd hi (not_lt.mpr h.1)
  · rw [if_neg hi]
    cases hv : v[i.toNat]? with
    | none => simp
    | some y => simp [not_lt.mp hi]

theorem subscript_ok_of_lt {β : Type} (v : List β) (i : Int) (h0 : 0 ≤ i)
    (h1 : i < (v.length : Int)) : ∃ x, subscript v i = .ok x := by
  have hlt : i.toNat < v.length := by omega
  exact ⟨v[i.toNat], (subscript_ok_iff v i _).mpr ⟨h0, List.getElem?_eq_getElem hlt⟩⟩

end design

section design_entries

variable {α : Type}

theorem design_entry_ok_iff (msg : String) (oa : OrthogonalArray)
    (factors : List (FactorLevels α)) (r f : Int) (v : α) :
    design_entry msg oa factors r f = .ok v ↔
      ∃ li fl, oa.at_ r f = .ok li ∧ subscript factors f = .ok fl ∧
        subscript fl.levels li = .ok v := by
  unfold design_entry
  cases hat : oa.at_ r f with
  | error e => simp
  | ok li =>
    cases hfl : subscript factors f with
    | error e => simp
    | ok fl =>
      have hex : (∃ li' fl', Except.ok li = (Except.ok li' : Except Fault Int) ∧
          Except.ok fl = (Except.ok fl' : Except Fault (FactorLevels α)) ∧
          subscript fl'.levels li' = .ok v) ↔ subscript fl.levels li = .ok v := by
        constructor
        · rintro ⟨li', fl', h1, h2, h3⟩
          cases h1
          cases h2
          exact h3
        · intro h
          exact ⟨li, fl, rfl, rfl, h⟩
      rw [hex]
      simp only []
      by_cases hbad : li < 0 ∨ li ≥ (fl.levels.length : Int)
      · rw [if_pos hbad]
        constructor
        · intro h; cases h
        · intro h
          obtain ⟨h0, hget⟩ := (subscript_ok_iff fl.levels li v).mp h
          have hlt : li.toNat < fl.levels.length := by
            by_contra hge
            rw [List.getElem?_eq_none (not_lt.mp hge)] at hget
            cases hget
          rcases hbad with hb | hb
          · omega
          · omega
      · rw [if_neg hbad]

theorem design_entry_cases (msg : String) (oa : OrthogonalArray)
    (factors : List (FactorLevels α)) (r f li : Int) (fl : FactorLevels α)
    (hat : oa.at_ r f = .ok li) (hfl : subscript factors f = .ok fl) :
    (li < 0 ∨ li ≥ (fl.levels.length : Int)) ∧
        design_entry msg oa factors r f = .error (.runtime_error msg) ∨
      ¬(li < 0 ∨ li ≥ (fl.levels.length : Int)) ∧
        ∃ v, design_entry msg oa factors r f = .ok v := by
  unfold design_entry
  rw [hat, hfl]
  by_cases hbad : li < 0 ∨ li ≥ (fl.levels.length : Int)
  · left
    exact ⟨hbad, by simp only [if_pos hbad]⟩
  · right
    refine ⟨hbad, ?_⟩
    simp only [if_neg hbad]
    push_neg at hbad
    exact subscript_ok_of_lt fl.levels li hbad.1 hbad.2

theorem at_ok_of_well_formed (oa : OrthogonalArray) (hwf : oa.well_formed) (r f : Nat)
    (hr : (r : Int) < oa.runs) (hf : (f : Int) < oa.factors) :
    ∃ li, oa.at_ (r : Int) (f : Int) = .ok li := by
  obtain ⟨_, _, hlen⟩ := hwf
  unfold OrthogonalArray.at_
  apply subscript_ok_of_lt
  · positivity
  · rw [hlen]
    have h1 : ((r : Int) + 1) * oa.factors ≤ oa.runs * oa.factors :=
      Int.mul_le_mul_of_nonneg_right (by omega) (by omega)
    nlinarith

end design_entries

/-! ## Monotonicity of the normal quantile approximation over the reals -/

namespace stat_util

/-- The tail ratio with the literal `1.0` of its denominator written `1`. -/
theorem tail_ratio_eq (q : ℝ) :
    tail_ratio q =
      (((((-7.784894002430293e-03*q + -3.223964580411365e-01)*q + -2.400758277161838e+00)*q
        + -2.549732539343734e+00)*q + 4.374664141464968e+00)*q + 2.938163982698783e+00) /
      ((((7.784695709041462e-03*q + 3.224671290700398e-01)*q + 2.445134137142996e+00)*q
        + 3.754408661907416e+00)*q + 1) := by
  unfold tail_ratio
  norm_num

/-- The tail ratio is strictly decreasing on `[0, ∞)`. -/
theorem tail_ratio_strict_anti (x y : ℝ) (hx : 0 ≤ x) (hxy : x < y) :
    tail_ratio y < tail_ratio x := by
  obtain ⟨t, ht, rfl⟩ : ∃ t, 0 < t ∧ y = x + t := ⟨y - x, by linarith, by ring⟩
  have hy : 0 ≤ x + t := by linarith
  rw [tail_ratio_eq, tail_ratio_eq, div_lt_div_iff₀ (by positivity) (by positivity), ← sub_pos]
  ring_nf
  positivity

theorem central_den_hom_pos (a b : ℝ) (ha : 0 ≤ a) (hb : 0 < b) :
    0 < (((((-5.447609879822406e+01*(a/4) + 1.615858368580409e+02*(a+b))*(a/4) + -1.556989798598866e+02*(a+b)^2)*(a/4) + 6.680131188771972e+01*(a+b)^3)*(a/4) + -1.328068155288572e+01*(a+b)^4)*(a/4) + 1*(a+b)^5) := by
  ring_nf
  positivity

theorem central_deriv_hom_pos (a b : ℝ) (ha : 0 ≤ a) (hb : 0 < b) :
    0 < ((((((-3.969683028665376e+01*(a/4) + 2.209460984245205e+02*(a+b))*(a/4) + -2.759285104469687e+02*(a+b)^2)*(a/4) + 1.383577518672690e+02*(a+b)^3)*(a/4) + -3.066479806614716e+01*(a+b)^4)*(a/4) + 2.506628277459239e+00*(a+b)^5) + 2 * (a/4) * ((((5 * -3.969683028665376e+01*(a/4) + 4 * 2.209460984245205e+02*(a+b))*(a/4) + 3 * -2.759285104469687e+02*(a+b)^2)*(a/4) + 2 * 1.383577518672690e+02*(a+b)^3)*(a/4) + -3.066479806614716e+01*(a+b)^4)) * (((((-5.447609879822406e+01*(a/4) + 1.615858368580409e+02*(a+b))*(a/4) + -1.556989798598866e+02*(a+b)^2)*(a/4) + 6.680131188771972e+01*(a+b)^3)*(a/4) + -1.328068155288572e+01*(a+b)^4)*(a/4) + 1*(a+b)^5) - 2 * (a/4) * (((((-3.969683028665376e+01*(a/4) + 2.209460984245205e+02*(a+b))*(a/4) + -2.759285104469687e+02*(a+b)^2)*(a/4) + 1.383577518672690e+02*(a+b)^3)*(a/4) + -3.066479806614716e+01*(a+b)^4)*(a/4) + 2.506628277459239e+00*(a+b)^5) * ((((5 * -5.447609879822406e+01*(a/4) + 4 * 1.615858368580409e+02*(a+b))*(a/4) + 3 * -1.556989798598866e+02*(a+b)^2)*(a/4) + 2 * 6.680131188771972e+01*(a+b)^3)*(a/4) + -1.328068155288572e+01*(a+b)^4) := by
  ring_nf
  positivity

theorem central_den_pos (q : ℝ) (h1 : -(1 / 2) < q) (h2 : q < 1 / 2) :
    0 < (((((-5.447609879822406e+01*(q*q) + 1.615858368580409e+02)*(q*q) + -1.556989798598866e+02)*(q*q) + 6.680131188771972e+01)*(q*q) + -1.328068155288572e+01)*(q*q) + 1) := by
  have hb : 0 < 1 - 4 * (q * q) := by nlinarith
  have h := central_den_hom_pos (4 * (q * q)) (1 - 4 * (q * q))
    (mul_nonneg (by norm_num) (mul_self_nonneg q)) hb
  have e : (((((-5.447609879822406e+01*(q*q) + 1.615858368580409e+02)*(q*q) + -1.556989798598866e+02)*(q*q) + 6.680131188771972e+01)*(q*q) + -1.328068155288572e+01)*(q*q) + 1) = (((((-5.447609879822406e+01*((4 * (q * q))/4) + 1.615858368580409e+02*((4 * (q * q))+(1 - 4 * (q * q))))*((4 * (q * q))/4) + -1.556989798598866e+02*((4 * (q * q))+(1 - 4 * (q * q)))^2)*((4 * (q * q))/4) + 6.680131188771972e+01*((4 * (q * q))+(1 - 4 * (q * q)))^3)*((4 * (q * q))/4) + -1.328068155288572e+01*((4 * (q * q))+(1 - 4 * (q * q)))^4)*((4 * (q * q))/4) + 1*((4 * (q * q))+(1 - 4 * (q * q)))^5) := by
    ring
  rw [e]
  exact h

theorem central_deriv_num_pos (q : ℝ) (h1 : -(1 / 2) < q) (h2 : q < 1 / 2) :
    0 < ((((((-3.969683028665376e+01*(q*q) + 2.209460984245205e+02)*(q*q) + -2.759285104469687e+02)*(q*q) + 1.383577518672690e+02)*(q*q) + -3.066479806614716e+01)*(q*q) + 2.506628277459239e+00) + 2 * (q*q) * ((((5 * -3.969683028665376e+01*(q*q) + 4 * 2.209460984245205e+02)*(q*q) + 3 * -2.759285104469687e+02)*(q*q) + 2 * 1.383577518672690e+02)*(q*q) + -3.066479806614716e+01)) * (((((-5.447609879822406e+01*(q*q) + 1.615858368580409e+02)*(q*q) + -1.556989798598866e+02)*(q*q) + 6.680131188771972e+01)*(q*q) + -1.328068155288572e+01)*(q*q) + 1) - 2 * (q*q) * (((((-3.969683028665376e+01*(q*q) + 2.209460984245205e+02)*(q*q) + -2.759285104469687e+02)*(q*q) + 1.383577518672690e+02)*(q*q) + -3.066479806614716e+01)*(q*q) + 2.506628277459239e+00) * ((((5 * -5.447609879822406e+01*(q*q) + 4 * 1.615858368580409e+02)*(q*q) + 3 * -1.556989798598866e+02)*(q*q) + 2 * 6.680131188771972e+01)*(q*q) + -1.328068155288572e+01) := by
  have hb : 0 < 1 - 4 * (q * q) := by nlinarith
  have h := central_deriv_hom_pos (4 * (q * q)) (1 - 4 * (q * q))
    (mul_nonneg (by norm_num) (mul_self_nonneg q)) hb
  have e : ((((((-3.969683028665376e+01*(q*q) + 2.209460984245205e+02)*(q*q) + -2.759285104469687e+02)*(q*q) + 1.383577518672690e+02)*(q*q) + -3.066479806614716e+01)*(q*q) + 2.506628277459239e+00) + 2 * (q*q) * ((((5 * -3.969683028665376e+01*(q*q) + 4 * 2.209460984245205e+02)*(q*q) + 3 * -2.759285104469687e+02)*(q*q) + 2 * 1.383577518672690e+02)*(q*q) + -3.066479806614716e+01)) * (((((-5.447609879822406e+01*(q*q) + 1.615858368580409e+02)*(q*q) + -1.556989798598866e+02)*(q*q) + 6.680131188771972e+01)*(q*q) + -1.328068155288572e+01)*(q*q) + 1) - 2 * (q*q) * (((((-3.969683028665376e+01*(q*q) + 2.209460984245205e+02)*(q*q) + -2.759285104469687e+02)*(q*q) + 1.383577518672690e+02)*(q*q) + -3.066479806614716e+01)*(q*q) + 2.506628277459239e+00) * ((((5 * -5.447609879822406e+01*(q*q) + 4 * 1.615858368580409e+02)*(q*q) + 3 * -1.556989798598866e+02)*(q*q) + 2 * 6.680131188771972e+01)*(q*q) + -1.328068155288572e+01) = ((((((-3.969683028665376e+01*((4 * (q * q))/4) + 2.209460984245205e+02*((4 * (q * q))+(1 - 4 * (q * q))))*((4 * (q * q))/4) + -2.759285104469687e+02*((4 * (q * q))+(1 - 4 * (q * q)))^2)*((4 * (q * q))/4) + 1.383577518672690e+02*((4 * (q * q))+(1 - 4 * (q * q)))^3)*((4 * (q * q))/4) + -3.066479806614716e+01*((4 * (q * q))+(1 - 4 * (q * q)))^4)*((4 * (q * q))/4) + 2.506628277459239e+00*((4 * (q * q))+(1 - 4 * (q * q)))^5) + 2 * ((4 * (q * q))/4) * ((((5 * -3.969683028665376e+01*((4 * (q * q))/4) + 4 * 2.209460984245205e+02*((4 * (q * q))+(1 - 4 * (q * q))))*((4 * (q * q))/4) + 3 * -2.759285104469687e+02*((4 * (q * q))+(1 - 4 * (q * q)))^2)*((4 * (q * q))/4) + 2 * 1.383577518672690e+02*((4 * (q * q))+(1 - 4 * (q * q)))^3)*((4 * (q * q))/4) + -3.066479806614716e+01*((4 * (q * q))+(1 - 4 * (q * q)))^4)) * (((((-5.447609879822406e+01*((4 * (q * q))/4) + 1.615858368580409e+02*((4 * (q * q))+(1 - 4 * (q * q))))*((4 * (q * q))/4) + -1.556989798598866e+02*((4 * (q * q))+(1 - 4 * (q * q)))^2)*((4 * (q * q))/4) + 6.680131188771972e+01*((4 * (q * q))+(1 - 4 * (q * q)))^3)*((4 * (q * q))/4) + -1.328068155288572e+01*((4 * (q * q))+(1 - 4 * (q * q)))^4)*((4 * (q * q))/4) + 1*((4 * (q * q))+(1 - 4 * (q * q)))^5) - 2 * ((4 * (q * q))/4) * (((((-3.969683028665376e+01*((4 * (q * q))/4) + 2.209460984245205e+02*((4 * (q * q))+(1 - 4 * (q * q))))*((4 * (q * q))/4) + -2.759285104469687e+02*((4 * (q * q))+(1 - 4 * (q * q)))^2)*((4 * (q * q))/4) + 1.383577518672690e+02*((4 * (q * q))+(1 - 4 * (q * q)))^3)*((4 * (q * q))/4) + -3.066479806614716e+01*((4 * (q * q))+(1 - 4 * (q * q)))^4)*((4 * (q * q))/4) + 2.506628277459239e+00*((4 * (q * q))+(1 - 4 * (q * q)))^5) * ((((5 * -5.447609879822406e+01*((4 * (q * q))/4) + 4 * 1.615858368580409e+02*((4 * (q * q))+(1 - 4 * (q * q))))*((4 * (q * q))/4) + 3 * -1.556989798598866e+02*((4 * (q * q))+(1 - 4 * (q * q)))^2)*((4 * (q * q))/4) + 2 * 6.680131188771972e+01*((4 * (q * q))+(1 - 4 * (q * q)))^3)*((4 * (q * q))/4) + -1.328068155288572e+01*((4 * (q * q))+(1 - 4 * (q * q)))^4) := by
    ring
  rw [e]
  exact h

/-- The derivative of the central ratio, cleared of its denominator. -/
theorem central_ratio_hasDerivAt (q : ℝ)
    (hden : (((((-5.447609879822406e+01*(q*q) + 1.615858368580409e+02)*(q*q) + -1.556989798598866e+02)*(q*q) + 6.680131188771972e+01)*(q*q) + -1.328068155288572e+01)*(q*q) + 1) ≠ (0 : ℝ)) :
    ∃ d : ℝ, HasDerivAt (central_ratio : ℝ → ℝ) d q ∧
      d * (((((-5.447609879822406e+01*(q*q) + 1.615858368580409e+02)*(q*q) + -1.556989798598866e+02)*(q*q) + 6.680131188771972e+01)*(q*q) + -1.328068155288572e+01)*(q*q) + 1) ^ 2 =
        ((((((-3.969683028665376e+01*(q*q) + 2.209460984245205e+02)*(q*q) + -2.759285104469687e+02)*(q*q) + 1.383577518672690e+02)*(q*q) + -3.066479806614716e+01)*(q*q) + 2.506628277459239e+00) + 2 * (q*q) * ((((5 * -3.969683028665376e+01*(q*q) + 4 * 2.209460984245205e+02)*(q*q) + 3 * -2.759285104469687e+02)*(q*q) + 2 * 1.383577518672690e+02)*(q*q) + -3.066479806614716e+01)) * (((((-5.447609879822406e+01*(q*q) + 1.615858368580409e+02)*(q*q) + -1.556989798598866e+02)*(q*q) + 6.680131188771972e+01)*(q*q) + -1.328068155288572e+01)*(q*q) + 1) - 2 * (q*q) * (((((-3.969683028665376e+01*(q*q) + 2.209460984245205e+02)*(q*q) + -2.759285104469687e+02)*(q*q) + 1.383577518672690e+02)*(q*q) + -3.066479806614716e+01)*(q*q) + 2.506628277459239e+00) * ((((5 * -5.447609879822406e+01*(q*q) + 4 * 1.615858368580409e+02)*(q*q) + 3 * -1.556989798598866e+02)*(q*q) + 2 * 6.680131188771972e+01)*(q*q) + -1.328068155288572e+01) := by
  have e1 : (1.0 : ℝ) = 1 := by norm_num
  have hden' : (((((-5.447609879822406e+01*(q*q) + 1.615858368580409e+02)*(q*q) + -1.556989798598866e+02)*(q*q) + 6.680131188771972e+01)*(q*q) + -1.328068155288572e+01)*(q*q) + 1.0) ≠ (0 : ℝ) := by
    rw [e1]
    exact hden
  have hid : HasDerivAt (fun q : ℝ => q) 1 q := hasDerivAt_id' q
  have hr : HasDerivAt (fun q : ℝ => q * q) (1 * q + q * 1) q := hid.mul hid
  have n1 := (hr.const_mul (-3.969683028665376e+01 : ℝ)).add_const (2.209460984245205e+02 : ℝ)
  have n2 := (n1.mul hr).add_const (-2.759285104469687e+02 : ℝ)
  have n3 := (n2.mul hr).add_const (1.383577518672690e+02 : ℝ)
  have n4 := (n3.mul hr).add_const (-3.066479806614716e+01 : ℝ)
  have n5 := (n4.mul hr).add_const (2.506628277459239e+00 : ℝ)
  have hN := n5.mul hid
  have d1 := (hr.const_mul (-5.447609879822406e+01 : ℝ)).add_const (1.615858368580409e+02 : ℝ)
  have d2 := (d1.mul hr).add_const (-1.556989798598866e+02 : ℝ)
  have d3 := (d2.mul hr).add_const (6.680131188771972e+01 : ℝ)
  have d4 := (d3.mul hr).add_const (-1.328068155288572e+01 : ℝ)
  have d5 := (d4.mul hr).add_const (1.0 : ℝ)
  have h := hN.div d5 hden'
  refine ⟨_, h, ?_⟩
  rw [← e1, div_mul_cancel₀ _ (pow_ne_zero 2 hden')]
  norm_num
  ring

/-- The central ratio is strictly increasing on `(-1/2, 1/2)`. -/
theorem central_ratio_strict_mono (x y : ℝ) (hx : -(1 / 2) < x) (hxy : x < y)
    (hy : y < 1 / 2) : central_ratio x < central_ratio y := by
  have hmono : StrictMonoOn (central_ratio : ℝ → ℝ) (Set.Ioo (-(1 / 2)) (1 / 2)) := by
    apply strictMonoOn_of_deriv_pos (convex_Ioo _ _)
    · intro q hq
      obtain ⟨d, hd, _⟩ := central_ratio_hasDerivAt q (ne_of_gt (central_den_pos q hq.1 hq.2))
      exact hd.continuousAt.continuousWithinAt
    · intro q hq
      rw [interior_Ioo] at hq
      have hpos := central_den_pos q hq.1 hq.2
      obtain ⟨d, hd, he⟩ := central_ratio_hasDerivAt q (ne_of_gt hpos)
      rw [hd.deriv]
      have hP := central_deriv_num_pos q hq.1 hq.2
      rw [← he] at hP
      exact pos_of_mul_pos_left hP (le_of_lt (pow_pos hpos 2))
  exact hmono ⟨hx, lt_trans hxy hy⟩ ⟨lt_trans hx hxy, hy⟩ hxy

/-- An upper bound on `exp 0.929834665` from fourteen terms of the series. -/
theorem exp_quarter_bound : Real.exp (0.929834665 : ℝ) ≤ 2.5340901692 := by
  have h := Real.exp_bound' (x := (0.929834665 : ℝ)) (by norm_num) (by norm_num)
    (n := 14) (by norm_num)
  refine le_trans h ?_
  simp only [Finset.sum_range_succ, Finset.sum_range_zero, Nat.factorial]
  norm_num

/-- The boundary `p = 0.02425` of the lower tail: `log 0.02425 ≤ -3.71933866`. -/
theorem log_boundary_le : Real.log (0.02425 : ℝ) ≤ -3.71933866 := by
  rw [Real.log_le_iff_le_exp (by norm_num)]
  have h4 : Real.exp (3.71933866 : ℝ) = Real.exp (0.929834665 : ℝ) ^ 4 := by
    rw [← Real.exp_nat_mul]
    norm_num
  have hle : Real.exp (3.71933866 : ℝ) ≤ (2.5340901692 : ℝ) ^ 4 := by
    rw [h4]
    exact pow_le_pow_left₀ (le_of_lt (Real.exp_pos _)) exp_quarter_bound 4
  have hpos : 0 < Real.exp (3.71933866 : ℝ) := Real.exp_pos _
  rw [Real.exp_neg, le_inv_comm₀ (by norm_num) hpos]
  refine le_trans hle ?_
  norm_num

/-- At `q = 2.727393869`, just below `sqrt(-2 log 0.02425)`, the tail ratio is
already below the value of the central ratio at the region boundary. -/
theorem tail_below_central_at_boundary :
    tail_ratio (2.727393869 : ℝ) < central_ratio (-0.47575 : ℝ) := by
  unfold tail_ratio central_ratio
  norm_num

/-- In the lower tail `q = sqrt(-2 log p)` exceeds `2.727393869`. -/
theorem lower_tail_q_gt (p : ℝ) (h0 : 0 < p) (h1 : p < 0.02425) :
    (2.727393869 : ℝ) < Real.sqrt (-2 * Real.log p) := by
  have hlog : Real.log p < Real.log (0.02425 : ℝ) := Real.log_lt_log h0 h1
  have hb := log_boundary_le
  rw [Real.lt_sqrt (by norm_num)]
  have : (2.727393869 : ℝ) ^ 2 ≤ 2 * 3.71933866 := by norm_num
  linarith

/-- The lower-tail branch as a function of `p` is strictly increasing. -/
theorem lower_tail_strict_mono (p1 p2 : ℝ) (h0 : 0 < p1) (h12 : p1 < p2)
    (h2 : p2 < 0.02425) :
    tail_ratio (Real.sqrt (-2 * Real.log p1)) < tail_ratio (Real.sqrt (-2 * Real.log p2)) := by
  have hlog : Real.log p1 < Real.log p2 := Real.log_lt_log h0 h12
  have hneg : Real.log p2 < 0 := Real.log_neg (lt_trans h0 h12) (by linarith)
  apply tail_ratio_strict_anti _ _ (Real.sqrt_nonneg _)
  apply Real.sqrt_lt_sqrt
  · linarith
  · linarith

/-- Every lower-tail value is below the central value at the boundary. -/
theorem lower_tail_lt_boundary (p : ℝ) (h0 : 0 < p) (h1 : p < 0.02425) :
    tail_ratio (Real.sqrt (-2 * Real.log p)) < central_ratio (-0.47575 : ℝ) :=
  lt_trans (tail_ratio_strict_anti _ _ (by norm_num) (lower_tail_q_gt p h0 h1))
    tail_below_central_at_boundary

/-- The three branches of the quantile, joined, are strictly increasing on
`(0,1)`. -/
theorem quantile_branches_strict_mono (p1 p2 : ℝ) (h0 : 0 < p1) (h12 : p1 < p2)
    (h1 : p2 < 1) :
    (if p1 < 0.02425 then tail_ratio (Real.sqrt (-2 * Real.log p1))
      else if p1 > 1 - 0.02425 then -tail_ratio (Real.sqrt (-2 * Real.log (1 - p1)))
      else central_ratio (p1 - 0.5))
    < (if p2 < 0.02425 then tail_ratio (Real.sqrt (-2 * Real.log p2))
      else if p2 > 1 - 0.02425 then -tail_ratio (Real.sqrt (-2 * Real.log (1 - p2)))
      else central_ratio (p2 - 0.5)) := by
  have hM : central_ratio (-0.47575 : ℝ) < central_ratio (0.47575 : ℝ) :=
    central_ratio_strict_mono _ _ (by norm_num) (by norm_num) (by norm_num)
  have hodd : central_ratio (0.47575 : ℝ) = -central_ratio (-0.47575 : ℝ) := by
    rw [← central_ratio_neg]
    norm_num
  have hcentral_ge : ∀ p : ℝ, ¬(p < 0.02425) → ¬(p > 1 - 0.02425) →
      central_ratio (-0.47575 : ℝ) ≤ central_ratio (p - 0.5) ∧
      central_ratio (p - 0.5) ≤ central_ratio (0.47575 : ℝ) := by
    intro p hlo hup
    have hlo' : (0.02425 : ℝ) ≤ p := not_lt.mp hlo
    have hup' : p ≤ 1 - 0.02425 := not_lt.mp hup
    constructor
    · rcases eq_or_lt_of_le (show (-0.47575 : ℝ) ≤ p - 0.5 by linarith) with h | h
      · rw [h]
      · exact le_of_lt (central_ratio_strict_mono _ _ (by norm_num) h (by linarith))
    · rcases eq_or_lt_of_le (show p - 0.5 ≤ (0.47575 : ℝ) by linarith) with h | h
      · rw [h]
      · exact le_of_lt (central_ratio_strict_mono _ _ (by linarith) h (by norm_num))
  have hupper : ∀ p : ℝ, p > 1 - 0.02425 → p < 1 →
      central_ratio (0.47575 : ℝ) < -tail_ratio (Real.sqrt (-2 * Real.log (1 - p))) := by
    intro p hup hp1
    have := lower_tail_lt_boundary (1 - p) (by linarith) (by linarith)
    rw [hodd]
    linarith
  by_cases hlo1 : p1 < 0.02425
  · rw [if_pos hlo1]
    by_cases hlo2 : p2 < 0.02425
    · rw [if_pos hlo2]
      exact lower_tail_strict_mono p1 p2 h0 h12 hlo2
    · rw [if_neg hlo2]
      have hb := lower_tail_lt_boundary p1 h0 hlo1
      by_cases hup2 : p2 > 1 - 0.02425
      · rw [if_pos hup2]
        exact lt_trans hb (lt_trans hM (hupper p2 hup2 h1))
      · rw [if_neg hup2]
        exact lt_of_lt_of_le hb (hcentral_ge p2 hlo2 hup2).1
  · rw [if_neg hlo1]
    have hlo2 : ¬(p2 < 0.02425) := fun h => hlo1 (lt_trans h12 h)
    rw [if_neg hlo2]
    by_cases hup1 : p1 > 1 - 0.02425
    · have hup2 : p2 > 1 - 0.02425 := lt_trans hup1 h12
      rw [if_pos hup1, if_pos hup2, neg_lt_neg_iff]
      exact lower_tail_strict_mono (1 - p2) (1 - p1) (by linarith) (by linarith) (by linarith)
    · rw [if_neg hup1]
      by_cases hup2 : p2 > 1 - 0.02425
      · rw [if_pos hup2]
        exact lt_of_le_of_lt (hcentral_ge p1 hlo1 hup1).2 (hupper p2 hup2 h1)
      · rw [if_neg hup2]
        have hlo1' : (0.02425 : ℝ) ≤ p1 := not_lt.mp hlo1
        have hup2' : p2 ≤ 1 - 0.02425 := not_lt.mp hup2
        exact central_ratio_strict_mono _ _ (by linarith) (by linarith) (by linarith)

end stat_util


/-! ## The quadratic basis -/

section basis

theorem for_each_map_list {β β' γ : Type} (body : β' → Except Fault γ) (g : β → β')
    (l : List β) : for_each body (l.map g) = for_each (fun x => body (g x)) l := by
  induction l with
  | nil => rfl
  | cons x xs ih => simp only [List.map_cons, for_each, ih]

theorem for_each_congr {β γ : Type} (f g : β → Except Fault γ) (l : List β)
    (h : ∀ x ∈ l, f x = g x) : for_each f l = for_each g l := by
  induction l with
  | nil => rfl
  | cons x xs ih =>
    simp only [for_each, h x (List.mem_cons_self _ _),
      ih (fun x' hx' => h x' (List.mem_cons_of_mem _ hx'))]

theorem subscript_cons_zero {β : Type} (a : β) (rest : List β) :
    subscript (a :: rest) ((0 : Nat) : Int) = .ok a := by
  simp [subscript]

theorem subscript_cons_succ {β : Type} (a : β) (rest : List β) (i : Nat) :
    subscript (a :: rest) ((i + 1 : Nat) : Int) = subscript rest (i : Int) := by
  unfold subscript
  have h1 : ¬(((i + 1 : Nat) : Int) < 0) := by omega
  have h2 : ¬((i : Int) < 0) := by omega
  rw [if_neg h1, if_neg h2]
  simp

/-- A loop reading `x[0]`, ..., `x[n-1]` of a vector of size `n` visits the
entries of `x` in order. -/
theorem for_each_range_subscript {β γ : Type} (x : List β)
    (body : Except Fault β → Except Fault γ) (f : β → γ) (hb : ∀ v, body (.ok v) = .ok (f v)) :
    for_each (fun i : Nat => body (subscript x (i : Int))) (List.range x.length)
      = .ok (x.map f) := by
  induction x with
  | nil => rfl
  | cons a rest ih =>
    rw [List.length_cons, List.range_succ_eq_map, for_each]
    simp only [subscript_cons_zero, hb, for_each_map_list, subscript_cons_succ, ih,
      List.map_cons]

end basis

namespace ResponseSurfaceQuadratic

variable {α : Type} [LinearOrderedField α]

/-- The double loop over `i < j` produces the interaction terms in
lexicographic order. -/
theorem interaction_loop (x : List α) :
    ∃ rows, for_each (fun i : Nat =>
        for_each (fun j : Nat =>
          (subscript x (i : Int)).bind fun xi => (subscript x (j : Int)).map (fun xj => xi * xj))
          (List.range' (i + 1) (x.length - (i + 1))))
        (List.range x.length) = .ok rows ∧ rows.flatten = cross_terms x := by
  induction x with
  | nil => exact ⟨[], rfl, rfl⟩
  | cons a rest ih =>
    obtain ⟨rows, hrows, hflat⟩ := ih
    have h0 : for_each (fun j : Nat =>
          (subscript (a :: rest) ((0 : Nat) : Int)).bind fun xi =>
            (subscript (a :: rest) (j : Int)).map (fun xj => xi * xj))
          (List.range' (0 + 1) ((a :: rest).length - (0 + 1)))
        = .ok (rest.map (fun b => a * b)) := by
      have hr : List.range' (0 + 1) ((a :: rest).length - (0 + 1))
          = (List.range rest.length).map (fun j => j + 1) := by
        rw [List.range'_eq_map_range]
        simp [Nat.add_comm]
      rw [hr, for_each_map_list, subscript_cons_zero]
      rw [for_each_congr _ (fun j : Nat => Except.map (fun xj => a * xj) (subscript rest (j : Int)))]
      · exact for_each_range_subscript rest (Except.map (fun xj => a * xj)) (fun b => a * b)
          (fun v => rfl)
      · intro j _
        rw [subscript_cons_succ]
        rfl
    have hs : ∀ i : Nat, for_each (fun j : Nat =>
          (subscript (a :: rest) ((i + 1 : Nat) : Int)).bind fun xi =>
            (subscript (a :: rest) (j : Int)).map (fun xj => xi * xj))
          (List.range' (i + 1 + 1) ((a :: rest).length - (i + 1 + 1)))
        = for_each (fun j : Nat =>
          (subscript rest (i : Int)).bind fun xi =>
            (subscript rest (j : Int)).map (fun xj => xi * xj))
          (List.range' (i + 1) (rest.length - (i + 1))) := by
      intro i
      have hr : List.range' (i + 1 + 1) ((a :: rest).length - (i + 1 + 1))
          = (List.range' (i + 1) (rest.length - (i + 1))).map (fun j => j + 1) := by
        rw [List.range'_eq_map_range, List.range'_eq_map_range, List.map_map]
        have hlen : (a :: rest).length - (i + 1 + 1) = rest.length - (i + 1) := by
          simp
        rw [hlen]
        apply List.map_congr_left
        intro j _
        simp only [Function.comp_apply]
        omega
      rw [hr, for_each_map_list]
      apply for_each_congr
      intro j _
      rw [subscript_cons_succ, subscript_cons_succ]
    refine ⟨rest.map (fun b => a * b) :: rows, ?_, ?_⟩
    · rw [List.length_cons, List.range_succ_eq_map, for_each]
      have h0' := h0
      rw [List.length_cons] at h0'
      rw [h0', for_each_map_list]
      have hs' : for_each (fun i : Nat =>
          for_each (fun j : Nat =>
            (subscript (a :: rest) ((i + 1 : Nat) : Int)).bind fun xi =>
              (subscript (a :: rest) (j : Int)).map (fun xj => xi * xj))
            (List.range' (i + 1 + 1) (rest.length + 1 - (i + 1 + 1))))
          (List.range rest.length) = .ok rows := by
        rw [← hrows]
        apply for_each_congr
        intro i _
        have := hs i
        rw [List.length_cons] at this
        exact this
      simp only [Nat.succ_eq_add_one]
      rw [hs']
    · simp only [List.flatten_cons, hflat, cross_terms]

theorem basis_row_eq (x : List α) :
    basis_row (x.length : Int) x = .ok (quadratic_basis x) := by
  obtain ⟨rows, hrows, hflat⟩ := interaction_loop x
  have hlin := for_each_range_subscript x (fun e => e) (fun v => v) (fun v => rfl)
  have hsq := for_each_range_subscript x (Except.map (fun xi : α => xi * xi))
    (fun v => v * v) (fun v => rfl)
  have e1 : (1.0 : α) = 1 := by norm_num
  unfold basis_row
  rw [Int.toNat_ofNat, hlin, hsq, hrows]
  simp only [Except.bind, Except.map, List.map_id', hflat, quadratic_basis, e1]

theorem predict_basis_eq (x : List α) :
    predict_basis (x.length : Int) x = .ok (quadratic_basis x) := by
  obtain ⟨rows, hrows, hflat⟩ := interaction_loop x
  have hlin := for_each_range_subscript x (fun e => e) (fun v => v) (fun v => rfl)
  have hsq := for_each_range_subscript x (Except.map (fun xi : α => xi * xi))
    (fun v => v * v) (fun v => rfl)
  have e1 : (1.0 : α) = 1 := by norm_num
  unfold predict_basis
  rw [Int.toNat_ofNat, hlin, hsq, hrows]
  simp only [Except.bind, Except.map, List.map_id', hflat, quadratic_basis, e1]

theorem cross_terms_length (x : List α) :
    2 * (cross_terms x).length + x.length = x.length * x.length := by
  induction x with
  | nil => rfl
  | cons a rest ih =>
    simp only [cross_terms, List.length_append, List.length_map, List.length_cons]
    nlinarith

/-- The basis row has `m = 1 + k + k + k (k - 1) / 2` entries. -/
theorem quadratic_basis_length (x : List α) :
    ((quadratic_basis x).length : Int) = num_columns (x.length : Int) := by
  have h := cross_terms_length x
  have hc : (x.length : Int) * ((x.length : Int) - 1) = 2 * ((cross_terms x).length : Int) := by
    have : (2 * (cross_terms x).length + x.length : Int) = (x.length : Int) * (x.length : Int) := by
      exact_mod_cast h
    linarith
  unfold num_columns
  rw [hc, Int.mul_tdiv_cancel_left _ (by norm_num)]
  simp only [quadratic_basis, List.length_cons, List.length_append, List.length_map]
  push_cast
  ring

end ResponseSurfaceQuadratic

namespace ResponseSurfaceQuadratic

variable {α : Type} [LinearOrderedField α]

theorem for_each_ok_map {β γ : Type} (body : β → Except Fault γ) (f : β → γ) (l : List β)
    (h : ∀ x ∈ l, body x = .ok (f x)) : for_each body l = .ok (l.map f) := by
  induction l with
  | nil => rfl
  | cons x xs ih =>
    simp only [for_each, h x (List.mem_cons_self _ _),
      ih (fun x' hx' => h x' (List.mem_cons_of_mem _ hx')), List.map_cons]

/-- The three ways `fit` returns `false`, and the state it then leaves; in
every other case it returns `true` with the solve of the basis matrix. -/
theorem rsq_fit_cases (qr_solve : List (List α) → List α → List α)
    (s : ResponseSurfaceQuadratic α) (design : List (List α)) (y : List α) :
    (design = [] ∧ fit qr_solve s design y = (.ok false, s)) ∨
    (design ≠ [] ∧ y.length ≠ design.length ∧ fit qr_solve s design y = (.ok false, s)) ∨
    (design ≠ [] ∧ y.length = design.length ∧
      (∃ row ∈ design, row.length ≠ (design.headD []).length) ∧
      fit qr_solve s design y
        = (.ok false, { s with k_ := ((design.headD []).length : Int) })) ∨
    (design ≠ [] ∧ y.length = design.length ∧
      (∀ row ∈ design, row.length = (design.headD []).length) ∧
      fit qr_solve s design y
        = (.ok true, { k_ := ((design.headD []).length : Int), fitted_ := true,
                       beta_ := qr_solve (design.map quadratic_basis) y })) := by
  cases design with
  | nil =>
    left
    exact ⟨rfl, rfl⟩
  | cons x0 rest =>
    right
    have hN : ¬(((x0 :: rest).length : Int) = 0) := by
      simp only [List.length_cons]
      omega
    by_cases hy : y.length = (x0 :: rest).length
    · right
      have hy' : ¬((y.length : Int) ≠ ((x0 :: rest).length : Int)) := by
        rw [hy]
        simp
      by_cases hrect : ∀ row ∈ x0 :: rest, row.length = ((x0 :: rest).headD []).length
      · right
        refine ⟨by simp, hy, hrect, ?_⟩
        have hany : (x0 :: rest).tail.any
            (fun row => (row.length : Int) != (((x0 :: rest).headD []).length : Int)) = false := by
          rw [List.any_eq_false]
          intro row hrow
          have := hrect row (List.mem_cons_of_mem _ hrow)
          simp [this]
        have hphi : for_each (basis_row (((x0 :: rest).headD []).length : Int)) (x0 :: rest)
            = .ok ((x0 :: rest).map quadratic_basis) := by
          apply for_each_ok_map
          intro row hrow
          rw [← hrect row hrow]
          exact basis_row_eq row
        unfold fit
        simp only [if_neg hN, if_neg hy', hany, hphi, Bool.false_eq_true, if_false]
      · left
        push_neg at hrect
        refine ⟨by simp, hy, hrect, ?_⟩
        have hany : (x0 :: rest).tail.any
            (fun row => (row.length : Int) != (((x0 :: rest).headD []).length : Int)) = true := by
          rw [List.any_eq_true]
          obtain ⟨row, hrow, hne⟩ := hrect
          rcases List.mem_cons.mp hrow with h | h
          · rw [h] at hne
            exact absurd rfl hne
          · refine ⟨row, h, ?_⟩
            simp only [bne_iff_ne, ne_eq, Nat.cast_inj]
            exact hne
        unfold fit
        simp only [if_neg hN, if_neg hy', hany, if_true]
    · left
      refine ⟨by simp, hy, ?_⟩
      have hy' : (y.length : Int) ≠ ((x0 :: rest).length : Int) := by
        intro h
        exact hy (by exact_mod_cast h)
      unfold fit
      simp only [if_neg hN, if_pos hy']

/-- The successful case of `fit`. -/
theorem rsq_fit_ok (qr_solve : List (List α) → List α → List α)
    (s : ResponseSurfaceQuadratic α) (design : List (List α)) (y : List α)
    (hne : design ≠ []) (hy : y.length = design.length)
    (hrect : ∀ row ∈ design, row.length = (design.headD []).length) :
    fit qr_solve s design y
      = (.ok true, { k_ := ((design.headD []).length : Int), fitted_ := true,
                     beta_ := qr_solve (design.map quadratic_basis) y }) := by
  rcases rsq_fit_cases qr_solve s design y with ⟨h0, _⟩ | ⟨_, hy', _⟩ | ⟨_, _, hrow, _⟩ |
    ⟨_, _, _, h⟩
  · exact absurd h0 hne
  · exact absurd hy hy'
  · obtain ⟨row, hmem, hlen⟩ := hrow
    exact absurd (hrect row hmem) hlen
  · exact h

end ResponseSurfaceQuadratic

namespace ResponseSurfaceQuadratic

variable {α : Type} [LinearOrderedField α]

theorem dot_eq (u v : List α) (h : u.length = v.length) : dot u v = .ok (dot_sum u v) := by
  unfold dot dot_sum
  rw [if_neg (by simpa using h)]

theorem dot_length_error (u v : List α) (h : u.length ≠ v.length) :
    dot u v = .error .out_of_bounds := by
  unfold dot
  rw [if_pos h]

theorem dot_sum_comm (u v : List α) : dot_sum u v = dot_sum v u := by
  unfold dot_sum
  induction u generalizing v with
  | nil => cases v <;> rfl
  | cons a u ih =>
    cases v with
    | nil => rfl
    | cons b v =>
      simp only [List.zipWith_cons_cons, List.sum_cons, ih v, mul_comm a b]

/-- What `predict` does once both of its guards are passed. -/
theorem predict_eq (s : ResponseSurfaceQuadratic α) (x : List α) (hf : s.fitted_ = true)
    (hx : (x.length : Int) = s.k_) : predict s x = dot s.beta_ (quadratic_basis x) := by
  unfold predict
  rw [← hx, predict_basis_eq]
  simp [hf]

theorem predict_not_fitted (s : ResponseSurfaceQuadratic α) (x : List α)
    (hf : s.fitted_ = false) :
    predict s x
      = .error (.runtime_error "ResponseSurfaceQuadratic::predict: model not fitted yet") := by
  unfold predict
  simp [hf]

theorem predict_dimension_mismatch (s : ResponseSurfaceQuadratic α) (x : List α)
    (hf : s.fitted_ = true) (hx : (x.length : Int) ≠ s.k_) :
    predict s x
      = .error (.runtime_error "ResponseSurfaceQuadratic::predict: dimension mismatch") := by
  unfold predict
  simp [hf, hx]

theorem dot_sum_sub (row beta b : List α) (h : beta.length = b.length) :
    dot_sum row (List.zipWith (fun u v => u - v) beta b) = dot_sum row beta - dot_sum row b := by
  unfold dot_sum
  induction row generalizing beta b with
  | nil => simp
  | cons a row ih =>
    cases beta with
    | nil =>
      cases b with
      | nil => simp
      | cons _ _ => simp at h
    | cons c beta =>
      cases b with
      | nil => simp at h
      | cons d b =>
        simp only [List.zipWith_cons_cons, List.sum_cons,
          ih beta b (by simpa using h)]
        ring

theorem eq_of_zipWith_sub_zero (beta b : List α) (h : beta.length = b.length)
    (hz : ∀ c ∈ List.zipWith (fun u v => u - v) beta b, c = 0) : beta = b := by
  induction beta generalizing b with
  | nil =>
    cases b with
    | nil => rfl
    | cons _ _ => simp at h
  | cons c beta ih =>
    cases b with
    | nil => simp at h
    | cons d b =>
      simp only [List.zipWith_cons_cons, List.mem_cons, forall_eq_or_imp] at hz
      rw [ih b (by simpa using h) hz.2, sub_eq_zero.mp hz.1]

theorem residual_sq_nonneg (Phi : List (List α)) (y beta : List α) :
    0 ≤ residual_sq Phi y beta := by
  unfold residual_sq
  apply List.sum_nonneg
  intro t ht
  obtain ⟨p, _, rfl⟩ := List.mem_map.mp ht
  positivity

theorem residual_sq_cons (row : List α) (Phi : List (List α)) (t : α) (y beta : List α) :
    residual_sq (row :: Phi) (t :: y) beta
      = (dot_sum row beta - t) ^ 2 + residual_sq Phi y beta := by
  simp [residual_sq]

/-- The residual of the generating coefficients on noiseless responses is
zero. -/
theorem residual_sq_noiseless (Phi : List (List α)) (b : List α) :
    residual_sq Phi (Phi.map (fun row => dot_sum row b)) b = 0 := by
  induction Phi with
  | nil => simp [residual_sq]
  | cons row Phi ih =>
    rw [List.map_cons, residual_sq_cons, ih]
    simp

theorem residual_sq_zero_noiseless (Phi : List (List α)) (b beta : List α)
    (h : residual_sq Phi (Phi.map (fun row => dot_sum row b)) beta = 0) :
    ∀ row ∈ Phi, dot_sum row beta = dot_sum row b := by
  induction Phi with
  | nil => simp
  | cons row Phi ih =>
    rw [List.map_cons, residual_sq_cons] at h
    have h1 : 0 ≤ (dot_sum row beta - dot_sum row b) ^ 2 := by positivity
    have h2 := residual_sq_nonneg Phi (Phi.map (fun row => dot_sum row b)) beta
    have h3 : (dot_sum row beta - dot_sum row b) ^ 2 = 0 := by linarith
    have h4 : residual_sq Phi (Phi.map (fun row => dot_sum row b)) beta = 0 := by linarith
    intro r hr
    rcases List.mem_cons.mp hr with rfl | hr
    · exact sub_eq_zero.mp (pow_eq_zero_iff (by norm_num) |>.mp h3)
    · exact ih h4 r hr

/-- A least-squares solution of a full-column-rank system with noiseless
responses is the generating coefficient vector. -/
theorem least_squares_noiseless (Phi : List (List α)) (b beta : List α)
    (hb : b.length = (Phi.headD []).length) (hrank : full_column_rank Phi)
    (hls : is_least_squares Phi (Phi.map (fun row => dot_sum row b)) beta) : beta = b := by
  obtain ⟨hlen, hmin⟩ := hls
  have h0 := hmin b (by rw [hb, hlen])
  rw [residual_sq_noiseless] at h0
  have hz : residual_sq Phi (Phi.map (fun row => dot_sum row b)) beta = 0 :=
    le_antisymm h0 (residual_sq_nonneg _ _ _)
  have hrows := residual_sq_zero_noiseless Phi b beta hz
  have hbl : beta.length = b.length := by rw [hb, hlen]
  apply eq_of_zipWith_sub_zero beta b hbl
  apply hrank
  · simp [List.length_zipWith, hbl, hb]
  · intro row hrow
    rw [dot_sum_sub row beta b hbl, hrows row hrow, sub_self]

/-- The generating coefficients are a least-squares solution for noiseless
responses. -/
theorem is_least_squares_noiseless (design : List (List α)) (b : List α)
    (hb : b.length = ((design.map quadratic_basis).headD []).length) :
    is_least_squares (design.map quadratic_basis)
      (design.map (fun x_r => dot_sum (quadratic_basis x_r) b)) b := by
  have hy : design.map (fun x_r => dot_sum (quadratic_basis x_r) b)
      = (design.map quadratic_basis).map (fun row => dot_sum row b) := by
    rw [List.map_map]
    rfl
  refine ⟨hb, fun beta _ => ?_⟩
  rw [hy, residual_sq_noiseless]
  exact residual_sq_nonneg _ _ _

end ResponseSurfaceQuadratic

section subset_claims

theorem le_max_element (x : Int) (rest : List Int) :
    x ≤ max_element x rest ∧ ∀ i ∈ rest, i ≤ max_element x rest := by
  unfold max_element
  induction rest generalizing x with
  | nil => simp
  | cons a rest ih =>
    simp only [List.foldl_cons, List.mem_cons, forall_eq_or_imp]
    obtain ⟨h1, h2⟩ := ih (if x < a then a else x)
    refine ⟨?_, ?_, h2⟩
    · refine le_trans ?_ h1
      split_ifs with h
      · exact le_of_lt h
      · exact le_refl _
    · refine le_trans ?_ h1
      split_ifs with h
      · exact le_refl _
      · exact not_lt.mp h

end subset_claims

/-! ## Factor-wise ANOM -/

section doe_analysis_lemmas

variable {α : Type} [LinearOrderedField α]

omit [LinearOrderedField α] in
theorem level_responses_cons (oa : OrthogonalArray) (y : List α) (f : Int) (l r : Nat)
    (rest : List Nat) (lev : Int) (v : α) (hat : oa.at_ (r : Int) f = .ok lev)
    (hv : y[r]? = some v) :
    level_responses oa y f l (r :: rest)
      = if lev = (l : Int) then v :: level_responses oa y f l rest
        else level_responses oa y f l rest := by
  unfold level_responses
  rw [List.filterMap_cons]
  simp only [hat]
  by_cases h : lev = (l : Int)
  · simp only [if_pos h, hv]
  · simp only [if_neg h]

omit [LinearOrderedField α] in
/-- The first loop of `build_anom_for_factor` appends to every level the
responses of the visited runs at that level, in run order. -/
theorem collect_level_values_ok (oa : OrthogonalArray) (y : List α) (f L : Int)
    (runs : List Nat) (lv : List (List α)) (hL : (lv.length : Int) = L)
    (hat : ∀ r ∈ runs, ∃ lev, oa.at_ (r : Int) f = .ok lev ∧ 0 ≤ lev ∧ lev < L)
    (hy : ∀ r ∈ runs, r < y.length) :
    ∃ lv', collect_level_values oa y f L runs lv = .ok lv' ∧ lv'.length = lv.length ∧
      ∀ l : Nat, lv'[l]? = (lv[l]?).map (fun vs => vs ++ level_responses oa y f l runs) := by
  induction runs generalizing lv with
  | nil =>
    refine ⟨lv, rfl, rfl, fun l => ?_⟩
    cases lv[l]? <;> simp [level_responses]
  | cons r rest ih =>
    obtain ⟨lev, hlev, h0, h1⟩ := hat r (List.mem_cons_self _ _)
    have hr : r < y.length := hy r (List.mem_cons_self _ _)
    have hn : lev.toNat < lv.length := by omega
    have hsub : subscript lv lev = .ok lv[lev.toNat] :=
      (subscript_ok_iff lv lev _).mpr ⟨h0, List.getElem?_eq_getElem hn⟩
    have hsuby : subscript y (r : Int) = .ok y[r] :=
      (subscript_ok_iff y (r : Int) _).mpr ⟨by positivity, by
        rw [Int.toNat_ofNat]
        exact List.getElem?_eq_getElem hr⟩
    obtain ⟨lv', hlv', hlen, hget⟩ := ih (lv.set lev.toNat (lv[lev.toNat] ++ [y[r]]))
      (by rw [List.length_set]; exact hL)
      (fun r' hr' => hat r' (List.mem_cons_of_mem _ hr'))
      (fun r' hr' => hy r' (List.mem_cons_of_mem _ hr'))
    refine ⟨lv', ?_, ?_, ?_⟩
    · unfold collect_level_values
      have hng : ¬(lev < 0 ∨ lev ≥ L) := by
        push_neg
        exact ⟨h0, h1⟩
      simp only [hlev, if_neg hng, hsub, hsuby]
      exact hlv'
    · rw [hlen, List.length_set]
    · intro l
      rw [hget l, level_responses_cons oa y f l r rest lev y[r] hlev
        (List.getElem?_eq_getElem hr)]
      by_cases hl : lev = (l : Int)
      · have hl' : lev.toNat = l := by omega
        subst hl'
        rw [if_pos hl, List.getElem?_set_self hn, List.getElem?_eq_getElem hn]
        simp
      · have hl' : lev.toNat ≠ l := by omega
        rw [if_neg hl, List.getElem?_set_ne hl']

/-- The second loop of `build_anom_for_factor` appends one group for every
visited level that holds a value, in the order of the visit. -/
theorem add_level_groups_ok (factor_name : String) (lv : List (List α)) (levs : List Nat)
    (anom : Anom α) (hlev : ∀ l ∈ levs, l < lv.length) (hc : anom.computed_ = false) :
    add_level_groups factor_name lv levs anom
      = .ok { anom with groups_ := anom.groups_ ++ levs.filterMap (fun l =>
          if (lv.getD l []).isEmpty then none
          else some { name := factor_name ++ "_L" ++ toString ((l : Int) + 1),
                      values := lv.getD l [] }) } := by
  induction levs generalizing anom with
  | nil =>
    simp [add_level_groups]
  | cons l rest ih =>
    have hl : l < lv.length := hlev l (List.mem_cons_self _ _)
    have hsub : subscript lv (l : Int) = .ok (lv.getD l []) :=
      (subscript_ok_iff lv (l : Int) _).mpr ⟨by positivity, by
        rw [Int.toNat_ofNat, List.getD_eq_getElem?_getD, List.getElem?_eq_getElem hl]
        rfl⟩
    unfold add_level_groups
    rw [hsub]
    by_cases he : (lv.getD l []).isEmpty = true
    · simp only [he, if_true, List.filterMap_cons]
      exact ih anom (fun l' hl' => hlev l' (List.mem_cons_of_mem _ hl')) hc
    · simp only [he, Bool.false_eq_true, if_false, List.filterMap_cons, Anom.add_group]
      rw [ih _ (fun l' hl' => hlev l' (List.mem_cons_of_mem _ hl')) rfl]
      simp [hc]

omit [LinearOrderedField α] in
theorem at_mem_data (oa : OrthogonalArray) (r f lev : Int) (h : oa.at_ r f = .ok lev) :
    lev ∈ oa.data := by
  unfold OrthogonalArray.at_ at h
  obtain ⟨hlt, hget⟩ := List.getElem?_eq_some_iff.mp ((subscript_ok_iff _ _ _).mp h).2
  rw [← hget]
  exact List.getElem_mem _

/-- The engine `build_anom_for_factor` holds before its last statement
`anom.fit()`, for a factor of an array of the declared shape whose entries are
level indices. -/
theorem build_anom_groups_ok (oa : OrthogonalArray) (y : List α) (f : Nat)
    (factor_name : String) (opt : AnomOptions α) (hwf : oa.well_formed)
    (hL : 0 ≤ oa.levels) (hdata : ∀ v ∈ oa.data, 0 ≤ v ∧ v < oa.levels)
    (hf : (f : Int) < oa.factors) (hy : (y.length : Int) = oa.runs) :
    build_anom_groups oa y (f : Int) factor_name opt
      = .ok { opt_ := opt, groups_ := level_groups oa y (f : Int) factor_name } := by
  have hidx : ¬((f : Int) < 0 ∨ (f : Int) ≥ oa.factors) := by
    push_neg
    exact ⟨by positivity, hf⟩
  obtain ⟨lv', hlv', hlen, hget⟩ := collect_level_values_ok oa y (f : Int) oa.levels
    (List.range oa.runs.toNat) (List.replicate oa.levels.toNat [])
    (by rw [List.length_replicate]; omega)
    (by
      intro r hr
      have hr' : (r : Int) < oa.runs := by
        have := List.mem_range.mp hr
        omega
      obtain ⟨lev, hlev⟩ := at_ok_of_well_formed oa hwf r f hr' hf
      exact ⟨lev, hlev, hdata lev (at_mem_data oa _ _ lev hlev)⟩)
    (by
      intro r hr
      have := List.mem_range.mp hr
      omega)
  rw [List.length_replicate] at hlen
  have hgetD : ∀ l ∈ List.range oa.levels.toNat,
      lv'.getD l [] = level_responses oa y (f : Int) l (List.range oa.runs.toNat) := by
    intro l hl
    have hl' : l < oa.levels.toNat := List.mem_range.mp hl
    rw [List.getD_eq_getElem?_getD, hget l, List.getElem?_replicate, if_pos hl']
    simp
  unfold build_anom_groups
  rw [if_neg hidx, if_neg (by simpa using hy), if_neg (not_lt.mpr hL)]
  simp only [hlv']
  rw [add_level_groups_ok factor_name lv' (List.range oa.levels.toNat) (Anom.new opt)
    (fun l hl => by rw [hlen]; exact List.mem_range.mp hl) rfl]
  have hfm : (List.range oa.levels.toNat).filterMap (fun l =>
        if (lv'.getD l []).isEmpty then none
        else some ({ name := factor_name ++ "_L" ++ toString ((l : Int) + 1),
                     values := lv'.getD l [] } : Anom.Group α))
      = (List.range oa.levels.toNat).filterMap (fun l =>
        if (level_responses oa y (f : Int) l (List.range oa.runs.toNat)).isEmpty then none
        else some { name := factor_name ++ "_L" ++ toString ((l : Int) + 1),
                    values := level_responses oa y (f : Int) l
                      (List.range oa.runs.toNat) }) := by
    apply List.filterMap_congr
    intro l hl
    rw [hgetD l hl]
  rw [hfm]
  simp [Anom.new, level_groups]

omit [LinearOrderedField α] in
theorem level_groups_nonempty (oa : OrthogonalArray) (y : List α) (f : Int)
    (factor_name : String) : ∀ g ∈ level_groups oa y f factor_name, g.values ≠ [] := by
  intro g hg
  unfold level_groups at hg
  obtain ⟨l, _, hl⟩ := List.mem_filterMap.mp hg
  split_ifs at hl with he
  cases hl
  intro h
  have h' : level_responses oa y f l (List.range oa.runs.toNat) = [] := h
  rw [h'] at he
  exact he rfl

/-- The function `build_anom_for_factor` returns an engine exactly when the
groups are built and `fit()` then succeeds. -/
theorem build_anom_for_factor_ok_iff (sqrt log : α → α) (oa : OrthogonalArray) (y : List α)
    (f : Int) (factor_name : String) (opt : AnomOptions α) (anom : Anom α) :
    build_anom_for_factor sqrt log oa y f factor_name opt = .ok anom ↔
      ∃ anom0, build_anom_groups oa y f factor_name opt = .ok anom0 ∧
        anom0.fit sqrt log = (.ok (), anom) := by
  unfold build_anom_for_factor
  cases hg : build_anom_groups oa y f factor_name opt with
  | error e => simp
  | ok anom0 =>
    simp only [Except.ok.injEq, exists_eq_left']
    rcases hfit : anom0.fit sqrt log with ⟨r, a⟩
    cases r with
    | error msg => simp
    | ok u => simp

omit [LinearOrderedField α] in
/-- Every row of a design built for a factor subset has one entry per
requested index. -/
theorem for_factors_row_length (oa : OrthogonalArray) (all_levels : List (FactorLevels α))
    (factor_indices : List Int) (design : List (List α))
    (h : build_design_from_orthogonal_array_for_factors oa all_levels factor_indices
      = .ok design) : ∀ row ∈ design, row.length = factor_indices.length := by
  unfold build_design_from_orthogonal_array_for_factors at h
  cases factor_indices with
  | nil => cases h
  | cons i0 rest =>
    simp only at h
    split_ifs at h
    intro row hrow
    obtain ⟨r, _, hr⟩ := for_each_ok_mem _ _ _ h row hrow
    exact for_each_ok_length _ _ _ hr

end doe_analysis_lemmas

section doe_test_data

/-- On the responses `test_responses`, `build_anom_for_factor` returns an engine
for every factor of `OA_L8_2_7`. -/
theorem test_L8_factor_ok (j : Nat) (hj : j < 7) (factor_name : String) :
    ∃ anom, build_anom_for_factor Real.sqrt Real.log OA_L8_2_7 (test_responses ℝ) (j : Int)
      factor_name (Anom.test_options ℝ) = .ok anom := by
  have hwf : OA_L8_2_7.well_formed := by
    unfold OrthogonalArray.well_formed
    decide
  have hg := build_anom_groups_ok OA_L8_2_7 (test_responses ℝ) j factor_name
    (Anom.test_options ℝ) hwf (by decide) (by decide)
    (by
      have : ((7 : Nat) : Int) = OA_L8_2_7.factors := rfl
      rw [← this]
      exact_mod_cast hj) rfl
  have hfit : (Anom.fit Real.sqrt Real.log
      ({ opt_ := Anom.test_options ℝ,
         groups_ := level_groups OA_L8_2_7 (test_responses ℝ) (j : Int) factor_name }
        : Anom ℝ)).1 = .ok () := by
    apply Anom.fit_ok_of
    · interval_cases j <;> exact le_of_eq rfl
    · exact level_groups_nonempty _ _ _ _
    · interval_cases j <;> exact lt_of_lt_of_eq (by decide : (0 : Int) < 6) (Eq.symm rfl)
    · norm_num [Anom.test_options]
    · norm_num [Anom.test_options]
  exact ⟨(Anom.fit Real.sqrt Real.log
      ({ opt_ := Anom.test_options ℝ,
         groups_ := level_groups OA_L8_2_7 (test_responses ℝ) (j : Int) factor_name }
        : Anom ℝ)).2,
    (build_anom_for_factor_ok_iff _ _ _ _ _ _ _ _).mpr ⟨_, hg, Prod.ext hfit rfl⟩⟩

end doe_test_data

section all_factors_lemmas

variable {α : Type} [LinearOrderedField α]

/-- What a returned list of `build_anom_for_all_factors` holds. -/
theorem build_anom_for_all_factors_ok (sqrt log : α → α) (oa : OrthogonalArray) (y : List α)
    (factor_names : List String) (opt : AnomOptions α) (all : List (FactorAnomResult α))
    (h : build_anom_for_all_factors sqrt log oa y factor_names opt = .ok all) :
    (y.length : Int) = oa.runs ∧ 0 ≤ oa.factors ∧ (all.length : Int) = oa.factors ∧
    ∀ j : Nat, (j : Int) < oa.factors → ∃ fa, all[j]? = some fa ∧
      fa.factor_name
        = (if factor_names.isEmpty then default_factor_name j else factor_names.getD j "") ∧
      build_anom_for_factor sqrt log oa y (j : Int) fa.factor_name opt = .ok fa.anom := by
  unfold build_anom_for_all_factors at h
  by_cases hy : (y.length : Int) ≠ oa.runs
  · rw [if_pos hy] at h
    cases h
  rw [if_neg hy] at h
  by_cases hf : oa.factors < 0
  · rw [if_pos hf] at h
    cases h
  rw [if_neg hf] at h
  by_cases hn : (!factor_names.isEmpty) = true ∧ (factor_names.length : Int) ≠ oa.factors
  · rw [if_pos hn] at h
    cases h
  rw [if_neg hn] at h
  simp only at h
  have hy' : (y.length : Int) = oa.runs := not_not.mp hy
  have hf' : 0 ≤ oa.factors := not_lt.mp hf
  refine ⟨hy', hf', ?_, ?_⟩
  · rw [for_each_ok_length _ _ _ h, List.length_range]
    omega
  · intro j hj
    have hjr : (List.range oa.factors.toNat)[j]? = some j := by
      rw [List.getElem?_range]
      omega
    obtain ⟨fa, hfa, hbody⟩ := for_each_ok_get _ _ _ h j j hjr
    refine ⟨fa, hfa, ?_⟩
    cases hs : subscript (if (!factor_names.isEmpty) = true then factor_names
        else (List.range oa.factors.toNat).map default_factor_name) (j : Int) with
    | error e =>
      rw [hs] at hbody
      cases hbody
    | ok name =>
      rw [hs] at hbody
      simp only at hbody
      cases hb : build_anom_for_factor sqrt log oa y (j : Int) name opt with
      | error e =>
        rw [hb] at hbody
        cases hbody
      | ok anom_j =>
        rw [hb] at hbody
        simp only [Except.ok.injEq] at hbody
        subst hbody
        refine ⟨?_, hb⟩
        have hget := ((subscript_ok_iff _ _ _).mp hs).2
        rw [Int.toNat_ofNat] at hget
        show name = _
        by_cases he : factor_names.isEmpty = true
        · rw [if_pos he]
          simp only [he, Bool.not_true, Bool.false_eq_true, if_false] at hget
          rw [List.getElem?_map, List.getElem?_range (by omega)] at hget
          simpa using hget.symm
        · rw [if_neg he]
          simp only [he, Bool.not_false, if_true] at hget
          rw [List.getD_eq_getElem?_getD, hget]
          rfl

/-- The function `build_anom_for_all_factors` returns a list as soon as the
sizes fit and `build_anom_for_factor` returns an engine for every factor. -/
theorem build_anom_for_all_factors_ok_of (sqrt log : α → α) (oa : OrthogonalArray)
    (y : List α) (factor_names : List String) (opt : AnomOptions α)
    (hy : (y.length : Int) = oa.runs) (hf : 0 ≤ oa.factors)
    (hn : factor_names = [] ∨ (factor_names.length : Int) = oa.factors)
    (hall : ∀ j : Nat, (j : Int) < oa.factors → ∀ name : String,
      ∃ anom, build_anom_for_factor sqrt log oa y (j : Int) name opt = .ok anom) :
    ∃ all, build_anom_for_all_factors sqrt log oa y factor_names opt = .ok all := by
  unfold build_anom_for_all_factors
  have hn' : ¬((!factor_names.isEmpty) = true ∧ (factor_names.length : Int) ≠ oa.factors) := by
    rintro ⟨h1, h2⟩
    rcases hn with h | h
    · rw [h] at h1
      simp at h1
    · exact h2 h
  rw [if_neg (by simpa using hy), if_neg (not_lt.mpr hf), if_neg hn']
  apply for_each_ok_of_forall
  intro j hj
  have hj' : (j : Int) < oa.factors := by
    have := List.mem_range.mp hj
    omega
  have hlen : ((if (!factor_names.isEmpty) = true then factor_names
      else (List.range oa.factors.toNat).map default_factor_name).length : Int)
        = oa.factors := by
    by_cases he : factor_names.isEmpty = true
    · simp only [he, Bool.not_true, Bool.false_eq_true, if_false, List.length_map,
        List.length_range]
      omega
    · simp only [he, Bool.not_false, if_true]
      rcases hn with h | h
      · rw [h] at he
        simp at he
      · exact h
  obtain ⟨name, hname⟩ := subscript_ok_of_lt _ (j : Int) (by positivity) (by rw [hlen]; exact hj')
  obtain ⟨anom, hanom⟩ := hall j hj' name
  exact ⟨{ factor_name := name, anom := anom }, by simp only [hname, hanom]⟩

end all_factors_lemmas

/-! ## The catalog arrays -/

section catalog

theorem runs_at_ne_nil (oa : OrthogonalArray) (f l : Int) (h : oa.runs_at f l ≠ []) :
    ∃ r : Nat, oa.at_ (r : Int) f = .ok l := by
  obtain ⟨r, hr⟩ := List.exists_mem_of_ne_nil _ h
  unfold OrthogonalArray.runs_at at hr
  have h2 := (List.mem_filter.mp hr).2
  refine ⟨r, ?_⟩
  cases hat : oa.at_ (r : Int) f with
  | error e =>
    rw [hat] at h2
    cases h2
  | ok v =>
    rw [hat] at h2
    simp only [beq_iff_eq] at h2
    rw [h2]

/-- The check over the declared levels settles pairwise balance for a table
whose entries are level indices. -/
theorem balanced_of_check (oa : OrthogonalArray) (hr : oa.entries_in_range)
    (hc : oa.balanced_check = true) : oa.balanced := by
  intro f1 hf1 f2 hf2 hne l1 l2 l1' l2' h1 h2 h1' h2'
  unfold OrthogonalArray.balanced_check at hc
  rw [List.all_eq_true] at hc
  have hc1 := hc f1 hf1
  rw [List.all_eq_true] at hc1
  have hc2 := hc1 f2 hf2
  simp only [Bool.or_eq_true, beq_iff_eq] at hc2
  rcases hc2 with hc2 | hc2
  · exact absurd hc2 hne
  rw [List.all_eq_true] at hc2
  have key : ∀ m1 m2 : Int, oa.runs_at f1 m1 ≠ [] → oa.runs_at f2 m2 ≠ [] →
      ∃ a b, oa.at_ 0 (f1 : Int) = .ok a ∧ oa.at_ 0 (f2 : Int) = .ok b ∧
        oa.pair_count f1 f2 m1 m2 = oa.pair_count f1 f2 a b := by
    intro m1 m2 hm1 hm2
    obtain ⟨r1, hr1⟩ := runs_at_ne_nil oa f1 m1 hm1
    obtain ⟨r2, hr2⟩ := runs_at_ne_nil oa f2 m2 hm2
    have hb1 := hr m1 (at_mem_data oa _ _ _ hr1)
    have hb2 := hr m2 (at_mem_data oa _ _ _ hr2)
    have e1 : ((m1.toNat : Nat) : Int) = m1 := Int.toNat_of_nonneg hb1.1
    have e2 : ((m2.toNat : Nat) : Int) = m2 := Int.toNat_of_nonneg hb2.1
    have hk := hc2 m1.toNat (List.mem_range.mpr (by omega))
    rw [List.all_eq_true] at hk
    have hk2 := hk m2.toNat (List.mem_range.mpr (by omega))
    rw [e1, e2] at hk2
    simp only [Bool.or_eq_true, List.isEmpty_iff] at hk2
    rcases hk2 with (hk2 | hk2) | hk2
    · exact absurd hk2 hm1
    · exact absurd hk2 hm2
    · cases ha : oa.at_ 0 (f1 : Int) with
      | error e =>
        rw [ha] at hk2
        cases hk2
      | ok a =>
        cases hb : oa.at_ 0 (f2 : Int) with
        | error e =>
          rw [ha, hb] at hk2
          cases hk2
        | ok b =>
          rw [ha, hb] at hk2
          exact ⟨a, b, rfl, rfl, by simpa using hk2⟩
  obtain ⟨a, b, ha, hb, e⟩ := key l1 l2 h1 h2
  obtain ⟨a', b', ha', hb', e'⟩ := key l1' l2' h1' h2'
  rw [ha] at ha'
  rw [hb] at hb'
  cases ha'
  cases hb'
  rw [e, e']

end catalog

/-! ## Signs of the critical values -/

namespace stat_util

end stat_util

namespace Anom

variable {α : Type} [LinearOrderedField α]

/-- With `bonferroni` on, no critical value is produced for a single group. -/
theorem critical_values_single_group (sqrt log : α → α) (opt : AnomOptions α)
    (equal_n : Bool) (n0 df : Int) (hb : opt.bonferroni = true) :
    ∃ e, critical_values sqrt log opt equal_n 1 n0 df = .error e ∧
      (0 < opt.alpha → opt.alpha < 1 →
        e = if equal_n = true then "anom_h_bonferroni_equal_n: invalid a/n/df"
            else "anom_tcrit_bonferroni: invalid a/df") := by
  unfold critical_values
  rw [hb]
  simp only [if_true]
  cases equal_n with
  | true =>
    simp only [if_true]
    unfold stat_util.anom_h_bonferroni_equal_n
    by_cases hc1 : opt.alpha ≤ 0.0 ∨ opt.alpha ≥ 1.0
    · rw [if_pos hc1]
      refine ⟨_, rfl, ?_⟩
      intro h0 h1
      norm_num at hc1
      rcases hc1 with hc1 | hc1 <;> linarith
    · rw [if_neg hc1, if_pos (Or.inl (le_refl _))]
      exact ⟨_, rfl, fun _ _ => rfl⟩
  | false =>
    simp only [Bool.false_eq_true, if_false]
    unfold stat_util.anom_tcrit_bonferroni
    by_cases hc1 : opt.alpha ≤ 0.0 ∨ opt.alpha ≥ 1.0
    · rw [if_pos hc1]
      refine ⟨_, rfl, ?_⟩
      intro h0 h1
      norm_num at hc1
      rcases hc1 with hc1 | hc1 <;> linarith
    · rw [if_neg hc1, if_pos (Or.inl (le_refl _))]
      exact ⟨_, rfl, fun _ _ => rfl⟩

end Anom

/-! ## Propagation of failures and the partition of the responses -/

section propagation

variable {α : Type} [LinearOrderedField α]

/-- A returned analysis holds the list `build_anom_for_all_factors` returned. -/
theorem run_doe_full_analysis_ok_all (qr_solve : List (List α) → List α → List α)
    (sqrt log : α → α) (oa : OrthogonalArray) (all_levels : List (FactorLevels α))
    (factor_indices_for_rs : List Int) (y : List α) (factor_names : List String)
    (anom_opt : AnomOptions α) (out : DoeFullAnalysis α)
    (hrun : run_doe_full_analysis qr_solve sqrt log oa all_levels factor_indices_for_rs y
      factor_names anom_opt = .ok out) :
    build_anom_for_all_factors sqrt log oa y factor_names anom_opt = .ok out.factor_anoms := by
  unfold run_doe_full_analysis at hrun
  by_cases hy : (y.length : Int) ≠ oa.runs
  · rw [if_pos hy] at hrun
    cases hrun
  rw [if_neg hy] at hrun
  cases hd : build_design_from_orthogonal_array_for_factors oa all_levels
      factor_indices_for_rs with
  | error e =>
    rw [hd] at hrun
    cases hrun
  | ok design =>
    rw [hd] at hrun
    simp only at hrun
    rcases ResponseSurfaceQuadratic.rsq_fit_cases qr_solve {} design y with
      ⟨_, h⟩ | ⟨_, _, h⟩ | ⟨_, _, _, h⟩ | ⟨_, _, _, h⟩
    · rw [h] at hrun
      cases hrun
    · rw [h] at hrun
      cases hrun
    · rw [h] at hrun
      cases hrun
    · rw [h] at hrun
      simp only at hrun
      cases ha : build_anom_for_all_factors sqrt log oa y factor_names anom_opt with
      | error e =>
        rw [ha] at hrun
        cases hrun
      | ok all =>
        rw [ha] at hrun
        simp only [Except.ok.injEq] at hrun
        rw [← hrun]

omit [LinearOrderedField α] in
/-- Adding a value in front of one list of a family indexed without repetition
adds it to the concatenation, up to order. -/
theorem flatten_cons_at_perm (v : α) (lev : Nat) (g : Nat → List α) (ls : List Nat)
    (hnd : ls.Nodup) (hmem : lev ∈ ls) :
    List.Perm (ls.map (fun l => if lev = l then v :: g l else g l)).flatten
      (v :: (ls.map g).flatten) := by
  induction ls with
  | nil => simp at hmem
  | cons l rest ih =>
    have hnd' := List.nodup_cons.mp hnd
    by_cases hl : lev = l
    · subst hl
      have hrest : rest.map (fun l => if lev = l then v :: g l else g l) = rest.map g := by
        apply List.map_congr_left
        intro l' hl'
        have : lev ≠ l' := fun h => hnd'.1 (h ▸ hl')
        rw [if_neg this]
      simp only [List.map_cons, List.flatten_cons, if_true, hrest, List.cons_append]
      exact List.Perm.refl _
    · have hmem' : lev ∈ rest := by
        rcases List.mem_cons.mp hmem with h | h
        · exact absurd h hl
        · exact h
      simp only [List.map_cons, List.flatten_cons, if_neg hl]
      exact (List.Perm.append_left (g l) (ih hnd'.2 hmem')).trans
        (List.perm_middle)

omit [LinearOrderedField α] in
/-- The level lists of a factor, concatenated, are the responses of the runs
up to order. -/
theorem level_responses_perm (oa : OrthogonalArray) (y : List α) (f : Int) (L : Nat)
    (runs : List Nat)
    (hat : ∀ r ∈ runs, ∃ lev, oa.at_ (r : Int) f = .ok lev ∧ 0 ≤ lev ∧ lev < (L : Int))
    (hy : ∀ r ∈ runs, r < y.length) :
    List.Perm ((List.range L).map (fun l => level_responses oa y f l runs)).flatten
      (runs.filterMap (fun r => y[r]?)) := by
  induction runs with
  | nil =>
    have : (List.range L).map (fun l => level_responses oa y f l []) = (List.range L).map
        (fun _ => ([] : List α)) := rfl
    rw [this]
    simp
  | cons r rest ih =>
    obtain ⟨lev, hlev, h0, h1⟩ := hat r (List.mem_cons_self _ _)
    have hr : r < y.length := hy r (List.mem_cons_self _ _)
    have hv : y[r]? = some y[r] := List.getElem?_eq_getElem hr
    have hmap : (List.range L).map (fun l => level_responses oa y f l (r :: rest))
        = (List.range L).map (fun l => if lev.toNat = l then y[r] :: level_responses oa y f l rest
            else level_responses oa y f l rest) := by
      apply List.map_congr_left
      intro l _
      rw [level_responses_cons oa y f l r rest lev y[r] hlev hv]
      by_cases hl : lev = (l : Int)
      · rw [if_pos hl, if_pos (by omega)]
      · rw [if_neg hl, if_neg (by omega)]
    rw [hmap, List.filterMap_cons, hv]
    exact (flatten_cons_at_perm y[r] lev.toNat _ (List.range L) (List.nodup_range L)
      (List.mem_range.mpr (by omega))).trans
      (List.Perm.cons _ (ih (fun r' hr' => hat r' (List.mem_cons_of_mem _ hr'))
        (fun r' hr' => hy r' (List.mem_cons_of_mem _ hr'))))

omit [LinearOrderedField α] in
theorem filterMap_getElem?_range (y : List α) :
    (List.range y.length).filterMap (fun r => y[r]?) = y := by
  apply List.ext_getElem?
  intro i
  induction y using List.reverseRecOn generalizing i with
  | nil => simp
  | append_singleton ys a ih =>
    rw [List.length_append, List.length_singleton, List.range_succ, List.filterMap_append]
    have h1 : (List.range ys.length).filterMap (fun r => (ys ++ [a])[r]?) = ys := by
      have : (List.range ys.length).filterMap (fun r => (ys ++ [a])[r]?)
          = (List.range ys.length).filterMap (fun r => ys[r]?) := by
        apply List.filterMap_congr
        intro r hr
        rw [List.getElem?_append_left (List.mem_range.mp hr)]
      rw [this]
      exact List.ext_getElem? ih
    rw [h1]
    simp

omit [LinearOrderedField α] in
/-- The values of the groups built for a factor are the responses up to
order. -/
theorem level_groups_perm (oa : OrthogonalArray) (y : List α) (f : Nat) (factor_name : String)
    (hwf : oa.well_formed) (hL : 0 ≤ oa.levels) (hdata : oa.entries_in_range)
    (hf : (f : Int) < oa.factors) (hy : (y.length : Int) = oa.runs) :
    List.Perm ((level_groups oa y (f : Int) factor_name).map (fun g => g.values)).flatten y := by
  have h1 : ((level_groups oa y (f : Int) factor_name).map (fun g => g.values)).flatten
      = ((List.range oa.levels.toNat).map
          (fun l => level_responses oa y (f : Int) l (List.range oa.runs.toNat))).flatten := by
    unfold level_groups
    induction List.range oa.levels.toNat with
    | nil => rfl
    | cons l rest ih =>
      rw [List.filterMap_cons, List.map_cons, List.flatten_cons, ← ih]
      by_cases he : (level_responses oa y (f : Int) l (List.range oa.runs.toNat)).isEmpty = true
      · simp only [he, if_true]
        rw [List.isEmpty_iff.mp he, List.nil_append]
      · simp only [he, Bool.false_eq_true, if_false, List.map_cons, List.flatten_cons]
  rw [h1]
  have hruns : oa.runs.toNat = y.length := by omega
  have h2 := level_responses_perm oa y (f : Int) oa.levels.toNat (List.range oa.runs.toNat)
    (by
      intro r hr
      have hr' : (r : Int) < oa.runs := by
        have := List.mem_range.mp hr
        omega
      obtain ⟨lev, hlev⟩ := at_ok_of_well_formed oa hwf r f hr' hf
      have hb := hdata lev (at_mem_data oa _ _ lev hlev)
      exact ⟨lev, hlev, hb.1, by omega⟩)
    (by
      intro r hr
      have := List.mem_range.mp hr
      omega)
  rw [hruns, filterMap_getElem?_range] at h2
  rw [hruns]
  exact h2

end propagation

/-! ## Aliasing of the squared terms on two-level designs -/

namespace ResponseSurfaceQuadratic

variable {α : Type} [LinearOrderedField α]

theorem dot_sum_nil_left (v : List α) : dot_sum [] v = 0 := by
  simp [dot_sum]

theorem dot_sum_nil_right (u : List α) : dot_sum u [] = 0 := by
  cases u <;> simp [dot_sum]

theorem dot_sum_cons (a b : α) (u v : List α) :
    dot_sum (a :: u) (b :: v) = a * b + dot_sum u v := by
  simp [dot_sum]

theorem dot_sum_replicate_zero (u : List α) (n : Nat) :
    dot_sum u (List.replicate n 0) = 0 := by
  induction u generalizing n with
  | nil => exact dot_sum_nil_left _
  | cons a u ih =>
    cases n with
    | zero => exact dot_sum_nil_right _
    | succ n =>
      rw [List.replicate_succ, dot_sum_cons, ih, mul_zero, add_zero]

theorem dot_sum_append (a b c d : List α) (h : a.length = c.length) :
    dot_sum (a ++ b) (c ++ d) = dot_sum a c + dot_sum b d := by
  induction a generalizing c with
  | nil =>
    cases c with
    | nil => simp [dot_sum_nil_left]
    | cons _ _ => simp at h
  | cons x a ih =>
    cases c with
    | nil => simp at h
    | cons z c =>
      rw [List.cons_append, List.cons_append, dot_sum_cons, dot_sum_cons,
        ih c (by simpa using h), add_assoc]

theorem dot_sum_add (row beta v : List α) (h : beta.length = v.length) :
    dot_sum row (List.zipWith (fun u w => u + w) beta v) = dot_sum row beta + dot_sum row v := by
  induction row generalizing beta v with
  | nil => simp [dot_sum_nil_left]
  | cons a row ih =>
    cases beta with
    | nil =>
      cases v with
      | nil => simp [dot_sum_nil_right]
      | cons _ _ => simp at h
    | cons c beta =>
      cases v with
      | nil => simp at h
      | cons d v =>
        rw [List.zipWith_cons_cons, dot_sum_cons, dot_sum_cons, dot_sum_cons,
          ih beta v (by simpa using h)]
        ring

theorem residual_sq_congr (Phi : List (List α)) (y b1 b2 : List α)
    (h : ∀ row ∈ Phi, dot_sum row b1 = dot_sum row b2) :
    residual_sq Phi y b1 = residual_sq Phi y b2 := by
  unfold residual_sq
  congr 1
  apply List.map_congr_left
  intro p hp
  rw [h p.1 (List.of_mem_zip hp).1]

/-- On a point whose first coordinate is -1 or +1 the alias vector is
orthogonal to the basis row. -/
theorem dot_sum_alias_vector (x0 : α) (xs : List α) (c : Nat) (hx : x0 = -1 ∨ x0 = 1) :
    dot_sum (quadratic_basis (x0 :: xs)) (alias_vector α (xs.length + 1) c) = 0 := by
  have hsq : x0 * x0 = 1 := by
    rcases hx with rfl | rfl <;> norm_num
  unfold quadratic_basis alias_vector
  rw [dot_sum_cons, dot_sum_append _ _ _ _ (by simp; omega), dot_sum_append _ _ _ _ (by simp),
    dot_sum_replicate_zero, dot_sum_replicate_zero, List.map_cons, dot_sum_cons,
    Nat.add_sub_cancel, dot_sum_replicate_zero, hsq]
  ring

theorem alias_vector_length (k c : Nat) (hk : 1 ≤ k) :
    (alias_vector α k c).length = 1 + k + k + c := by
  simp only [alias_vector, List.length_cons, List.length_append, List.length_replicate]
  omega

/-- The squared-term columns of the basis row of a point with entries -1 or +1
repeat the constant column. -/
theorem quadratic_basis_squared_entry (x : List α) (hpm : ∀ v ∈ x, v = -1 ∨ v = 1) (i : Nat)
    (hi : i < x.length) :
    (quadratic_basis x)[0]? = some 1 ∧ (quadratic_basis x)[1 + x.length + i]? = some 1 := by
  refine ⟨by simp [quadratic_basis], ?_⟩
  unfold quadratic_basis
  rw [show 1 + x.length + i = (x.length + i) + 1 by omega, List.getElem?_cons_succ,
    List.append_assoc, List.getElem?_append_right (by omega),
    show x.length + i - x.length = i by omega,
    List.getElem?_append_left (by simpa using hi), List.getElem?_map,
    List.getElem?_eq_getElem hi]
  have hv := hpm x[i] (List.getElem_mem _)
  rcases hv with hv | hv <;> rw [hv] <;> norm_num

end ResponseSurfaceQuadratic

/-! ## The matrix functions of `ResponseSurface.hpp` -/

namespace linalg

variable {α : Type} [LinearOrderedField α]

omit [LinearOrderedField α] in
theorem bind_ok {β γ : Type} (x : β) (f : β → Except Fault γ) :
    (Except.ok x : Except Fault β).bind f = f x := rfl

omit [LinearOrderedField α] in
theorem map_ok {β γ : Type} (x : β) (f : β → γ) :
    (Except.ok x : Except Fault β).map f = .ok (f x) := rfl

omit [LinearOrderedField α] in
theorem is_mat_table (r c : Nat) (f : Nat → Nat → α) : is_mat r c (table r c f) := by
  refine ⟨by simp [table], ?_⟩
  intro row hrow
  obtain ⟨i, _, rfl⟩ := List.mem_map.mp hrow
  simp

theorem entry_table (r c : Nat) (f : Nat → Nat → α) (i j : Nat) (hi : i < r) (hj : j < c) :
    entry (table r c f) i j = f i j := by
  simp [entry, table, List.getD_eq_getElem?_getD, List.getElem?_map, List.getElem?_range, hi, hj]

theorem read_ok (r c : Nat) (M : List (List α)) (hM : is_mat r c M) (i j : Nat) (hi : i < r)
    (hj : j < c) : read M i j = .ok (entry M i j) := by
  obtain ⟨hlen, hrows⟩ := hM
  have hi' : i < M.length := by rw [hlen]; exact hi
  have hrow : M[i].length = c := hrows _ (List.getElem_mem _)
  have hj' : j < M[i].length := by rw [hrow]; exact hj
  have h1 : subscript M (i : Int) = .ok M[i] :=
    (subscript_ok_iff M (i : Int) _).mpr ⟨by positivity, by
      rw [Int.toNat_ofNat]
      exact List.getElem?_eq_getElem hi'⟩
  have h2 : subscript M[i] (j : Int) = .ok M[i][j] :=
    (subscript_ok_iff M[i] (j : Int) _).mpr ⟨by positivity, by
      rw [Int.toNat_ofNat]
      exact List.getElem?_eq_getElem hj'⟩
  unfold read
  rw [h1]
  simp only [Except.bind, h2]
  simp [entry, List.getD_eq_getElem?_getD, List.getElem?_eq_getElem hi',
    List.getElem?_eq_getElem hj']

omit [LinearOrderedField α] in
/-- A doubly nested loop whose body succeeds builds the table of its
values. -/
theorem for_each_table (r c : Nat) (body : Nat → Nat → Except Fault α) (f : Nat → Nat → α)
    (h : ∀ i < r, ∀ j < c, body i j = .ok (f i j)) :
    for_each (fun i : Nat => for_each (fun j : Nat => body i j) (List.range c)) (List.range r)
      = .ok (table r c f) := by
  unfold table
  apply ResponseSurfaceQuadratic.for_each_ok_map
  intro i hi
  apply ResponseSurfaceQuadratic.for_each_ok_map
  intro j hj
  exact h i (List.mem_range.mp hi) j (List.mem_range.mp hj)

omit [LinearOrderedField α] in
theorem subscript_zero_ok (r c : Nat) (M : List (List α)) (hM : is_mat r c M) (hr : 0 < r) :
    ∃ row0, subscript M 0 = .ok row0 ∧ row0.length = c := by
  obtain ⟨hlen, hrows⟩ := hM
  have h0 : 0 < M.length := by rw [hlen]; exact hr
  exact ⟨M[0], (subscript_ok_iff M 0 _).mpr ⟨le_refl _, List.getElem?_eq_getElem h0⟩,
    hrows _ (List.getElem_mem _)⟩

theorem transpose_ok (r c : Nat) (A : List (List α)) (hA : is_mat r c A) (hr : 0 < r) :
    transpose A = .ok (table c r fun j i => entry A i j) := by
  obtain ⟨row0, h0, hc⟩ := subscript_zero_ok r c A hA hr
  unfold transpose
  rw [h0]
  simp only [Except.bind, hc, hA.1]
  exact for_each_table c r (fun j i => read A i j) _
    (fun j hj i hi => read_ok r c A hA i j hi hj)

theorem multiply_ok (m n p : Nat) (A B : List (List α)) (hA : is_mat m n A)
    (hB : is_mat n p B) (hm : 0 < m) (hn : 0 < n) :
    multiply A B = .ok (table m p fun i k =>
      ((List.range n).map fun j => entry A i j * entry B j k).sum) := by
  obtain ⟨a0, ha0, hna⟩ := subscript_zero_ok m n A hA hm
  obtain ⟨b0, hb0, hpb⟩ := subscript_zero_ok n p B hB hn
  unfold multiply
  rw [ha0, hb0]
  simp only [Except.bind, hna, hpb, hA.1]
  apply for_each_table m p
  intro i hi k hk
  rw [ResponseSurfaceQuadratic.for_each_ok_map _ (fun j => entry A i j * entry B j k)]
  · simp only [Except.map]
    congr 1
    have h00 : (0.0 : α) = 0 := by norm_num
    rw [h00, foldl_add_eq_sum, zero_add]
  · intro j hj
    have hj' := List.mem_range.mp hj
    rw [read_ok m n A hA i j hi hj', read_ok n p B hB j k hj' hk]
    rfl

end linalg

namespace linalg

variable {α : Type} [LinearOrderedField α]

/-- The matrices after the step of `inverse` for pivot `i`, as tables. -/
theorem inverse_step_ok (n i : Nat) (A I : List (List α)) (hA : is_mat n n A)
    (hI : is_mat n n I) (hi : i < n) (hp : ¬ |entry A i i| < 1e-12) :
    inverse_step abs n i A I
      = .ok (table n n (fun k j => if k = i then entry A i j / entry A i i
                else entry A k j - entry A k i * (entry A i j / entry A i i)),
             table n n (fun k j => if k = i then entry I i j / entry A i i
                else entry I k j - entry A k i * (entry I i j / entry A i i))) := by
  have hrowA : for_each (fun j : Nat => (read A i j).map fun a => a / entry A i i)
      (List.range n) = .ok ((List.range n).map fun j => entry A i j / entry A i i) := by
    apply ResponseSurfaceQuadratic.for_each_ok_map
    intro j hj
    rw [read_ok n n A hA i j hi (List.mem_range.mp hj)]
    rfl
  have hrowI : for_each (fun j : Nat => (read I i j).map fun b => b / entry A i i)
      (List.range n) = .ok ((List.range n).map fun j => entry I i j / entry A i i) := by
    apply ResponseSurfaceQuadratic.for_each_ok_map
    intro j hj
    rw [read_ok n n I hI i j hi (List.mem_range.mp hj)]
    rfl
  have hsub : ∀ (g : Nat → α) (j : Nat), j < n →
      subscript ((List.range n).map g) (j : Int) = .ok (g j) := by
    intro g j hj
    refine (subscript_ok_iff _ _ _).mpr ⟨by positivity, ?_⟩
    rw [Int.toNat_ofNat, List.getElem?_map, List.getElem?_range hj]
    rfl
  have hrows : for_each (fun k : Nat =>
      if k = i then
        (.ok ((List.range n).map (fun j => entry A i j / entry A i i),
          (List.range n).map (fun j => entry I i j / entry A i i)) :
            Except Fault (List α × List α))
      else
        (read A k i).bind fun factor =>
        (for_each (fun j : Nat =>
            (read A k j).bind fun akj =>
              (subscript ((List.range n).map fun j => entry A i j / entry A i i) (j : Int)).map
                fun aij => akj - factor * aij)
          (List.range n)).bind fun rowAk =>
        (for_each (fun j : Nat =>
            (read I k j).bind fun ikj =>
              (subscript ((List.range n).map fun j => entry I i j / entry A i i) (j : Int)).map
                fun iij => ikj - factor * iij)
          (List.range n)).map fun rowIk => (rowAk, rowIk))
      (List.range n)
      = .ok ((List.range n).map fun k =>
          ((List.range n).map (fun j => if k = i then entry A i j / entry A i i
              else entry A k j - entry A k i * (entry A i j / entry A i i)),
           (List.range n).map (fun j => if k = i then entry I i j / entry A i i
              else entry I k j - entry A k i * (entry I i j / entry A i i)))) := by
    apply ResponseSurfaceQuadratic.for_each_ok_map
    intro k hk
    have hk' := List.mem_range.mp hk
    by_cases hki : k = i
    · simp only [hki, if_true]
    · simp only [hki, if_false]
      rw [read_ok n n A hA k i hk' hi]
      simp only [Except.bind]
      rw [ResponseSurfaceQuadratic.for_each_ok_map _
        (fun j => entry A k j - entry A k i * (entry A i j / entry A i i))]
      · simp only [Except.bind]
        rw [ResponseSurfaceQuadratic.for_each_ok_map _
          (fun j => entry I k j - entry A k i * (entry I i j / entry A i i))]
        · rfl
        · intro j hj
          have hj' := List.mem_range.mp hj
          rw [read_ok n n I hI k j hk' hj', hsub _ j hj']
          rfl
      · intro j hj
        have hj' := List.mem_range.mp hj
        rw [read_ok n n A hA k j hk' hj', hsub _ j hj']
        rfl
  unfold inverse_step
  rw [read_ok n n A hA i i hi hi]
  simp only [bind_ok, if_neg hp, hrowA, hrowI, hrows, map_ok, table, List.map_map]
  rfl

/-- The step of `inverse` throws when the pivot is below the threshold. -/
theorem inverse_step_singular (n i : Nat) (A I : List (List α)) (hA : is_mat n n A)
    (hi : i < n) (hp : |entry A i i| < 1e-12) :
    inverse_step abs n i A I = .error (.runtime_error "Singular matrix") := by
  unfold inverse_step
  rw [read_ok n n A hA i i hi hi]
  simp only [bind_ok, if_pos hp]

end linalg

namespace linalg

variable {α : Type} [LinearOrderedField α]

theorem to_matrix_table (r c : Nat) (f : Nat → Nat → α) (i : Fin r) (j : Fin c) :
    to_matrix r c (table r c f) i j = f i.val j.val :=
  entry_table r c f i.val j.val i.isLt j.isLt

/-- One step of `inverse` with a non-zero pivot keeps the invariant. -/
theorem elimination_step (n i : Nat) (A0 : Matrix (Fin n) (Fin n) α) (A I : List (List α))
    (hinv : elimination_invariant n i A0 A I) (hi : i < n) (hp : entry A i i ≠ 0) :
    elimination_invariant n (i + 1) A0
      (table n n (fun k j => if k = i then entry A i j / entry A i i
          else entry A k j - entry A k i * (entry A i j / entry A i i)))
      (table n n (fun k j => if k = i then entry I i j / entry A i i
          else entry I k j - entry A k i * (entry I i j / entry A i i))) := by
  obtain ⟨_, _, hprod, hcols⟩ := hinv
  have hrow : ∀ (k : Fin n) (j : Fin n),
      (Finset.univ.sum fun l : Fin n => entry I k.val l.val * A0 l j) = entry A k.val j.val := by
    intro k j
    have := congrFun (congrFun hprod k) j
    rw [Matrix.mul_apply] at this
    exact this
  refine ⟨is_mat_table _ _ _, is_mat_table _ _ _, ?_, ?_⟩
  · ext k j
    rw [Matrix.mul_apply, to_matrix_table]
    simp only [to_matrix_table]
    by_cases hk : k.val = i
    · simp only [hk, if_true]
      rw [← hrow ⟨i, hi⟩ j, Finset.sum_div]
      apply Finset.sum_congr rfl
      intro l _
      ring
    · simp only [hk, if_false]
      rw [← hrow k j, ← hrow ⟨i, hi⟩ j, Finset.sum_div, Finset.mul_sum,
        ← Finset.sum_sub_distrib]
      apply Finset.sum_congr rfl
      intro l _
      ring
  · intro k c hc
    rw [to_matrix_table]
    have hkc : (k = c) ↔ (k.val = c.val) := Fin.ext_iff
    by_cases hci : c.val = i
    · by_cases hk : k.val = i
      · simp only [hk, if_true, hci]
        rw [div_self hp, if_pos (Fin.ext (by rw [hk, hci]))]
      · simp only [hk, if_false, hci]
        rw [div_self hp, mul_one, sub_self, if_neg (fun h => hk (by rw [h, hci]))]
    · have hc' : c.val < i := by omega
      have hic : entry A i c.val = 0 := by
        have := hcols ⟨i, hi⟩ c hc'
        rw [if_neg (fun h => hci (by rw [← h]))] at this
        exact this
      by_cases hk : k.val = i
      · simp only [hk, if_true, hic, zero_div]
        rw [if_neg (fun h => hci (by rw [← h, hk]))]
      · simp only [hk, if_false, hic, zero_div, mul_zero, sub_zero]
        exact hcols k c hc'

theorem abs_lt_threshold_of_zero (p : α) (hp : p = 0) : |p| < 1e-12 := by
  rw [hp, abs_zero]
  norm_num

/-- The outer loop of `inverse` from pivot `i` on: it ends with the
singular-matrix error or with matrices for which the invariant holds at
`n`. -/
theorem inverse_loop_cases (n : Nat) (A0 : Matrix (Fin n) (Fin n) α) (m : Nat) :
    ∀ (i : Nat) (A I : List (List α)), i + m = n → elimination_invariant n i A0 A I →
      inverse_loop abs n (List.range' i m) (A, I) = .error (.runtime_error "Singular matrix") ∨
      ∃ A' I', inverse_loop abs n (List.range' i m) (A, I) = .ok (A', I') ∧
        elimination_invariant n n A0 A' I' := by
  induction m with
  | zero =>
    intro i A I him hinv
    right
    have : i = n := by omega
    subst this
    exact ⟨A, I, rfl, hinv⟩
  | succ m ih =>
    intro i A I him hinv
    have hi : i < n := by omega
    rw [List.range'_succ]
    unfold inverse_loop
    by_cases hp : |entry A i i| < 1e-12
    · left
      rw [inverse_step_singular n i A I hinv.1 hi hp]
      rfl
    · have hp0 : entry A i i ≠ 0 := fun h => hp (abs_lt_threshold_of_zero _ h)
      rw [inverse_step_ok n i A I hinv.1 hinv.2.1 hi hp, bind_ok]
      exact ih (i + 1) _ _ (by omega) (elimination_step n i A0 A I hinv hi hp0)

/-- The function `inverse` on an `n` by `n` matrix throws the singular-matrix
error or returns an `n` by `n` left inverse. -/
theorem inverse_cases (n : Nat) (A : List (List α)) (hA : is_mat n n A) :
    inverse abs A = .error (.runtime_error "Singular matrix") ∨
    ∃ Iv, inverse abs A = .ok Iv ∧ is_mat n n Iv ∧ to_matrix n n Iv * to_matrix n n A = 1 := by
  have hinit : elimination_invariant n 0 (to_matrix n n A) A
      (table n n (fun i j => if i = j then 1.0 else 0.0)) := by
    refine ⟨hA, is_mat_table _ _ _, ?_, fun _ c hc => absurd hc (Nat.not_lt_zero _)⟩
    have h1 : to_matrix n n (table n n (fun i j => if i = j then (1.0 : α) else 0.0))
        = (1 : Matrix (Fin n) (Fin n) α) := by
      ext i j
      rw [to_matrix_table, Matrix.one_apply]
      by_cases h : i = j
      · rw [if_pos h, if_pos (by rw [h])]
        norm_num
      · rw [if_neg h, if_neg (fun h' => h (Fin.ext h'))]
        norm_num
    rw [h1, Matrix.one_mul]
  have hl := inverse_loop_cases n (to_matrix n n A) n 0 A _ (by omega) hinit
  rw [← List.range_eq_range'] at hl
  have hinv_eq : inverse abs A = (inverse_loop abs n (List.range n)
      (A, table n n (fun i j => if i = j then 1.0 else 0.0))).map Prod.snd := by
    unfold inverse table
    simp only [hA.1]
  rw [hinv_eq]
  rcases hl with h | ⟨A', I', h, hinv⟩
  · left
    rw [h]
    rfl
  · right
    rw [h]
    refine ⟨I', rfl, hinv.2.1, ?_⟩
    rw [hinv.2.2.1]
    ext k c
    rw [hinv.2.2.2 k c c.isLt, Matrix.one_apply]

end linalg

namespace ResponseSurface

variable {α : Type} [LinearOrderedField α]

open linalg

/-- The rows `fit()` builds from a data point with two coordinates. -/
theorem design_rows_ok (pt : Point α) (hx : pt.x.length = 2) :
    design_rows pt = .ok (design_row pt, [pt.y]) := by
  obtain ⟨x, y⟩ := pt
  match x, hx with
  | [x1, x2], _ =>
    simp [design_rows, design_row, subscript, Except.bind, Except.map]
    norm_num

theorem sum_range_eq_sum_fin (n : Nat) (f : Nat → α) :
    ((List.range n).map f).sum = Finset.univ.sum fun i : Fin n => f i.val := by
  induction n with
  | zero => simp
  | succ n ih =>
    rw [List.range_succ, List.map_append, List.sum_append, ih, Fin.sum_univ_castSucc]
    simp

theorem sum_map_eq_sum_range {β : Type} (l : List β) (g : β → α) (h : Nat → α)
    (hg : ∀ (r : Nat) (hr : r < l.length), h r = g l[r]) :
    ((List.range l.length).map h).sum = (l.map g).sum := by
  congr 1
  apply List.ext_getElem
  · simp
  · intro r h1 h2
    simp only [List.getElem_map, List.getElem_range]
    exact hg r (by simpa using h1)

omit [LinearOrderedField α] in
theorem table_congr (r c : Nat) (f g : Nat → Nat → α)
    (h : ∀ i < r, ∀ j < c, f i j = g i j) : table r c f = table r c g := by
  unfold table
  apply List.map_congr_left
  intro i hi
  apply List.map_congr_left
  intro j hj
  exact h i (List.mem_range.mp hi) j (List.mem_range.mp hj)

theorem design_row_length (pt : Point α) : (design_row pt).length = 6 := rfl

/-- On data points with two coordinates each, `fit()` inverts the table of
`X'X` and multiplies the result with the table of `X'y`. -/
theorem rs_fit_eq (s : ResponseSurface α) (hx : ∀ pt ∈ s.data_, pt.x.length = 2)
    (hd : s.data_ ≠ []) :
    s.fit abs = (match (linalg.inverse abs (normal_table s.data_)).bind fun XtX_inv =>
        (linalg.multiply XtX_inv (rhs_table s.data_)).bind fun B =>
          for_each (fun i : Nat => linalg.read B i 0) (List.range 6) with
      | .error e => (.error e, s)
      | .ok beta => (.ok (), { s with beta_ := beta })) := by
  have hn : 0 < s.data_.length := List.length_pos.mpr hd
  have hn0 : ¬ s.data_.length = 0 := by omega
  have hrows : for_each design_rows s.data_
      = .ok (s.data_.map fun pt => (design_row pt, [pt.y])) := by
    apply ResponseSurfaceQuadratic.for_each_ok_map
    intro pt hpt
    exact design_rows_ok pt (hx pt hpt)
  have hX : is_mat s.data_.length 6 (s.data_.map design_row) := by
    refine ⟨by simp, ?_⟩
    intro row hrow
    obtain ⟨pt, _, rfl⟩ := List.mem_map.mp hrow
    rfl
  have hY : is_mat s.data_.length 1 (s.data_.map fun pt => [pt.y]) := by
    refine ⟨by simp, ?_⟩
    intro row hrow
    obtain ⟨pt, _, rfl⟩ := List.mem_map.mp hrow
    rfl
  have hXe : ∀ (r : Nat) (hr : r < s.data_.length) (c : Nat),
      entry (s.data_.map design_row) r c = (design_row s.data_[r]).getD c 0 := by
    intro r hr c
    simp [entry, List.getD_eq_getElem?_getD, List.getElem?_map, List.getElem?_eq_getElem hr]
  have hYe : ∀ (r : Nat) (hr : r < s.data_.length),
      entry (s.data_.map fun pt => [pt.y]) r 0 = s.data_[r].y := by
    intro r hr
    simp [entry, List.getD_eq_getElem?_getD, List.getElem?_map, List.getElem?_eq_getElem hr]
  have hXtX : (table 6 6 fun i k => ((List.range s.data_.length).map fun j =>
      entry (table 6 s.data_.length fun j i => entry (s.data_.map design_row) i j) i j
        * entry (s.data_.map design_row) j k).sum) = normal_table s.data_ := by
    unfold normal_table
    apply table_congr
    intro i hi k _
    apply sum_map_eq_sum_range
    intro r hr
    rw [entry_table 6 _ _ i r hi hr, hXe r hr i, hXe r hr k]
  have hXtY : (table 6 1 fun i k => ((List.range s.data_.length).map fun j =>
      entry (table 6 s.data_.length fun j i => entry (s.data_.map design_row) i j) i j
        * entry (s.data_.map fun pt => [pt.y]) j k).sum) = rhs_table s.data_ := by
    unfold rhs_table
    apply table_congr
    intro i hi k hk
    have hk0 : k = 0 := by omega
    subst hk0
    apply sum_map_eq_sum_range
    intro r hr
    rw [entry_table 6 _ _ i r hi hr, hXe r hr i, hYe r hr]
  unfold fit
  rw [if_neg hn0, hrows]
  simp only [bind_ok, List.map_map, Function.comp_def]
  rw [transpose_ok s.data_.length 6 _ hX hn]
  simp only [bind_ok]
  rw [multiply_ok 6 s.data_.length 6 _ _ (is_mat_table _ _ _) hX (by decide) hn,
    multiply_ok 6 s.data_.length 1 _ _ (is_mat_table _ _ _) hY (by decide) hn]
  simp only [bind_ok]
  rw [hXtX, hXtY]

theorem to_matrix_normal_table (data : List (Point α)) :
    to_matrix 6 6 (normal_table data) = normal_matrix data := by
  ext i k
  unfold normal_table
  rw [to_matrix_table]
  rfl

/-- The outcome of `fit()` on data points with two coordinates each: the
"No data" error, the singular-matrix error, or six coefficients that form the
image of `X'y` under a left inverse of `X'X`. -/
theorem rs_fit_cases (s : ResponseSurface α) (hx : ∀ pt ∈ s.data_, pt.x.length = 2) :
    (s.data_ = [] ∧ s.fit abs = (.error (.runtime_error "No data"), s)) ∨
    (s.data_ ≠ [] ∧ s.fit abs = (.error (.runtime_error "Singular matrix"), s)) ∨
    (s.data_ ≠ [] ∧ ∃ (Iv : Matrix (Fin 6) (Fin 6) α) (beta : List α),
      Iv * normal_matrix s.data_ = 1 ∧ beta.length = 6 ∧
      (fun i : Fin 6 => beta.getD i.val 0) = Iv.mulVec (normal_rhs s.data_) ∧
      s.fit abs = (.ok (), { s with beta_ := beta })) := by
  by_cases hd : s.data_ = []
  · left
    refine ⟨hd, ?_⟩
    unfold fit
    rw [hd]
    rfl
  right
  rw [rs_fit_eq s hx hd]
  rcases inverse_cases 6 (normal_table s.data_) (is_mat_table _ _ _) with
    hinv | ⟨Iv, hinv, hIv, hleft⟩
  · left
    rw [hinv]
    exact ⟨hd, rfl⟩
  · right
    rw [hinv]
    simp only [bind_ok]
    rw [multiply_ok 6 6 1 Iv (rhs_table s.data_) hIv (is_mat_table _ _ _) (by decide)
      (by decide)]
    simp only [bind_ok]
    rw [ResponseSurfaceQuadratic.for_each_ok_map _
      (fun i => entry (table 6 1 fun i k =>
        ((List.range 6).map fun j => entry Iv i j * entry (rhs_table s.data_) j k).sum) i 0)
      (List.range 6) (fun i hi => read_ok 6 1 _ (is_mat_table _ _ _) i 0 (List.mem_range.mp hi)
        (by decide))]
    rw [to_matrix_normal_table] at hleft
    refine ⟨hd, to_matrix 6 6 Iv, _, hleft, by simp, ?_, rfl⟩
    ext i
    have hi := i.isLt
    rw [List.getD_eq_getElem?_getD, List.getElem?_map, List.getElem?_range hi]
    simp only [Option.map_some', Option.getD_some]
    rw [entry_table 6 1 _ i.val 0 hi (by decide), sum_range_eq_sum_fin 6]
    unfold Matrix.mulVec Matrix.dotProduct
    apply Finset.sum_congr rfl
    intro j _
    unfold rhs_table
    rw [entry_table 6 1 _ j.val 0 j.isLt (by decide)]
    rfl

end ResponseSurface

namespace ResponseSurface

variable {α : Type} [LinearOrderedField α]

omit [LinearOrderedField α] in
/-- Every data point held after `add_point` calls has two coordinates. -/
theorem after_points_two_coordinates (pts : List (List α × α)) :
    ∀ pt ∈ (after_points pts).data_, pt.x.length = 2 := by
  have key : ∀ (pts : List (List α × α)) (s : ResponseSurface α),
      (∀ pt ∈ s.data_, pt.x.length = 2) →
      ∀ pt ∈ (pts.foldl (fun s p => (s.add_point p.1 p.2).2) s).data_, pt.x.length = 2 := by
    intro pts
    induction pts with
    | nil => intro s hs; exact hs
    | cons p rest ih =>
      intro s hs
      rw [List.foldl_cons]
      apply ih
      unfold add_point
      by_cases hp : p.1.length ≠ 2
      · rw [if_pos hp]
        exact hs
      · rw [if_neg hp]
        intro pt hpt
        simp only [List.mem_append, List.mem_singleton] at hpt
        rcases hpt with hpt | rfl
        · exact hs pt hpt
        · exact not_not.mp hp
  exact key pts {} (by intro pt hpt; simp at hpt)

/-- The normal-equations matrix is `X'X` for the matrix `X` of the basis
rows. -/
theorem normal_matrix_eq (data : List (Point α)) :
    normal_matrix data
      = (Matrix.of fun (r : Fin data.length) (c : Fin 6) => basis (data.get r) c).transpose
        * (Matrix.of fun (r : Fin data.length) (c : Fin 6) => basis (data.get r) c) := by
  ext i j
  rw [Matrix.mul_apply]
  unfold normal_matrix
  have : data.map (fun pt => basis pt i * basis pt j)
      = List.ofFn (fun r : Fin data.length => basis (data.get r) i * basis (data.get r) j) := by
    apply List.ext_get
    · simp
    · intro n h1 h2
      simp
  rw [this, List.sum_ofFn]
  rfl

/-- With fewer than 6 data points the normal-equations matrix is singular. -/
theorem normal_matrix_det_zero (data : List (Point α)) (h : data.length < 6) :
    (normal_matrix data).det = 0 := by
  by_contra hdet
  have hunit : IsUnit (normal_matrix data) :=
    (Matrix.isUnit_iff_isUnit_det _).mpr (isUnit_iff_ne_zero.mpr hdet)
  have h6 : (normal_matrix data).rank = 6 := by
    rw [Matrix.rank_of_isUnit _ hunit]
    simp
  rw [normal_matrix_eq] at h6
  have h1 := Matrix.rank_mul_le_right
    (Matrix.of fun (r : Fin data.length) (c : Fin 6) => basis (data.get r) c).transpose
    (Matrix.of fun (r : Fin data.length) (c : Fin 6) => basis (data.get r) c)
  have h2 := Matrix.rank_le_card_height
    (Matrix.of fun (r : Fin data.length) (c : Fin 6) => basis (data.get r) c)
  rw [Fintype.card_fin] at h2
  omega

end ResponseSurface

/-! ## The usage example of `main.cpp` on the simple response surface -/

namespace linalg

theorem test_step_0 :
    inverse_step abs 6 0
      ([[6, 340, 665, 19450, 74125, 37725],
       [340, 19450, 37725, 1123000, 4209125, 2160625],
       [665, 37725, 74125, 2160625, 8307875, 4209125],
       [19450, 1123000, 2160625, 65421250, 241318125, 124903125],
       [74125, 4209125, 8307875, 241318125, 936030625, 472141875],
       [37725, 2160625, 4209125, 124903125, 472141875, 241318125]] : List (List ℝ))
      [[1, 0, 0, 0, 0, 0],
       [0, 1, 0, 0, 0, 0],
       [0, 0, 1, 0, 0, 0],
       [0, 0, 0, 1, 0, 0],
       [0, 0, 0, 0, 1, 0],
       [0, 0, 0, 0, 0, 1]]
    = .ok ([[1, (170 / 3), (665 / 6), (9725 / 3), (74125 / 6), (12575 / 2)],
           [0, (550 / 3), (125 / 3), (62500 / 3), (26125 / 3), 22875],
           [0, (125 / 3), (2525 / 6), (14750 / 3), (554125 / 6), (55875 / 2)],
           [0, (62500 / 3), (14750 / 3), (7112500 / 3), (3088750 / 3), 2611250],
           [0, (26125 / 3), (554125 / 6), (3088750 / 3), (121668125 / 6), (12161875 / 2)],
           [0, 22875, (55875 / 2), 2611250, (12161875 / 2), (8244375 / 2)]],
      [[(1 / 6), 0, 0, 0, 0, 0],
       [(-170 / 3), 1, 0, 0, 0, 0],
       [(-665 / 6), 0, 1, 0, 0, 0],
       [(-9725 / 3), 0, 0, 1, 0, 0],
       [(-74125 / 6), 0, 0, 0, 1, 0],
       [(-12575 / 2), 0, 0, 0, 0, 1]]) := by
  refine (inverse_step_ok 6 0 _ _ ?_ ?_ (by decide) ?_).trans ?_
  · exact ⟨rfl, by simp⟩
  · exact ⟨rfl, by simp⟩
  · simp only [entry, List.getD_cons_zero, List.getD_cons_succ]
    norm_num [abs_lt]
  simp only [table, entry, List.range_succ, List.range_zero, List.map_cons, List.map_nil,
    List.nil_append, List.cons_append, List.getD_cons_zero, List.getD_cons_succ]
  norm_num

theorem test_step_1 :
    inverse_step abs 6 1
      ([[1, (170 / 3), (665 / 6), (9725 / 3), (74125 / 6), (12575 / 2)],
       [0, (550 / 3), (125 / 3), (62500 / 3), (26125 / 3), 22875],
       [0, (125 / 3), (2525 / 6), (14750 / 3), (554125 / 6), (55875 / 2)],
       [0, (62500 / 3), (14750 / 3), (7112500 / 3), (3088750 / 3), 2611250],
       [0, (26125 / 3), (554125 / 6), (3088750 / 3), (121668125 / 6), (12161875 / 2)],
       [0, 22875, (55875 / 2), 2611250, (12161875 / 2), (8244375 / 2)]] : List (List ℝ))
      [[(1 / 6), 0, 0, 0, 0, 0],
       [(-170 / 3), 1, 0, 0, 0, 0],
       [(-665 / 6), 0, 1, 0, 0, 0],
       [(-9725 / 3), 0, 0, 1, 0, 0],
       [(-74125 / 6), 0, 0, 0, 1, 0],
       [(-12575 / 2), 0, 0, 0, 0, 1]]
    = .ok ([[1, 0, (2155 / 22), (-35175 / 11), (19325 / 2), (-17225 / 22)],
           [0, 1, (5 / 22), (1250 / 11), (95 / 2), (2745 / 22)],
           [0, 0, (4525 / 11), (2000 / 11), 90375, (250125 / 11)],
           [0, 0, (2000 / 11), (37500 / 11), 40000, (130000 / 11)],
           [0, 0, 90375, 40000, 19864375, 4994375],
           [0, 0, (250125 / 11), (130000 / 11), 4994375, (13948125 / 11)]],
      [[(389 / 22), (-17 / 55), 0, 0, 0, 0],
       [(-17 / 55), (3 / 550), 0, 0, 0, 0],
       [(-2155 / 22), (-5 / 22), 1, 0, 0, 0],
       [(35175 / 11), (-1250 / 11), 0, 1, 0, 0],
       [(-19325 / 2), (-95 / 2), 0, 0, 1, 0],
       [(17225 / 22), (-2745 / 22), 0, 0, 0, 1]]) := by
  refine (inverse_step_ok 6 1 _ _ ?_ ?_ (by decide) ?_).trans ?_
  · exact ⟨rfl, by simp⟩
  · exact ⟨rfl, by simp⟩
  · simp only [entry, List.getD_cons_zero, List.getD_cons_succ]
    norm_num [abs_lt]
  simp only [table, entry, List.range_succ, List.range_zero, List.map_cons, List.map_nil,
    List.nil_append, List.cons_append, List.getD_cons_zero, List.getD_cons_succ]
  norm_num

theorem test_step_2 :
    inverse_step abs 6 2
      ([[1, 0, (2155 / 22), (-35175 / 11), (19325 / 2), (-17225 / 22)],
       [0, 1, (5 / 22), (1250 / 11), (95 / 2), (2745 / 22)],
       [0, 0, (4525 / 11), (2000 / 11), 90375, (250125 / 11)],
       [0, 0, (2000 / 11), (37500 / 11), 40000, (130000 / 11)],
       [0, 0, 90375, 40000, 19864375, 4994375],
       [0, 0, (250125 / 11), (130000 / 11), 4994375, (13948125 / 11)]] : List (List ℝ))
      [[(389 / 22), (-17 / 55), 0, 0, 0, 0],
       [(-17 / 55), (3 / 550), 0, 0, 0, 0],
       [(-2155 / 22), (-5 / 22), 1, 0, 0, 0],
       [(35175 / 11), (-1250 / 11), 0, 1, 0, 0],
       [(-19325 / 2), (-95 / 2), 0, 0, 1, 0],
       [(17225 / 22), (-2745 / 22), 0, 0, 0, 1]]
    = .ok ([[1, 0, 0, (-586625 / 181), (-2146250 / 181), (-1121750 / 181)],
           [0, 1, 0, (20550 / 181), (-440 / 181), (20310 / 181)],
           [0, 0, 1, (80 / 181), (39765 / 181), (10005 / 181)],
           [0, 0, 0, (602500 / 181), (10000 / 181), (320000 / 181)],
           [0, 0, 0, (10000 / 181), (1690000 / 181), (-220000 / 181)],
           [0, 0, 0, (320000 / 181), (-220000 / 181), (2010000 / 181)]],
      [[(29689 / 724), (-923 / 3620), (-431 / 1810), 0, 0, 0],
       [(-923 / 3620), (101 / 18100), (-1 / 1810), 0, 0, 0],
       [(-431 / 1810), (-1 / 1810), (11 / 4525), 0, 0, 0],
       [(586625 / 181), (-20550 / 181), (-80 / 181), 1, 0, 0],
       [(2146250 / 181), (440 / 181), (-39765 / 181), 0, 1, 0],
       [(1121750 / 181), (-20310 / 181), (-10005 / 181), 0, 0, 1]]) := by
  refine (inverse_step_ok 6 2 _ _ ?_ ?_ (by decide) ?_).trans ?_
  · exact ⟨rfl, by simp⟩
  · exact ⟨rfl, by simp⟩
  · simp only [entry, List.getD_cons_zero, List.getD_cons_succ]
    norm_num [abs_lt]
  simp only [table, entry, List.range_succ, List.range_zero, List.map_cons, List.map_nil,
    List.nil_append, List.cons_append, List.getD_cons_zero, List.getD_cons_succ]
  norm_num

theorem test_step_3 :
    inverse_step abs 6 3
      ([[1, 0, 0, (-586625 / 181), (-2146250 / 181), (-1121750 / 181)],
       [0, 1, 0, (20550 / 181), (-440 / 181), (20310 / 181)],
       [0, 0, 1, (80 / 181), (39765 / 181), (10005 / 181)],
       [0, 0, 0, (602500 / 181), (10000 / 181), (320000 / 181)],
       [0, 0, 0, (10000 / 181), (1690000 / 181), (-220000 / 181)],
       [0, 0, 0, (320000 / 181), (-220000 / 181), (2010000 / 181)]] : List (List ℝ))
      [[(29689 / 724), (-923 / 3620), (-431 / 1810), 0, 0, 0],
       [(-923 / 3620), (101 / 18100), (-1 / 1810), 0, 0, 0],
       [(-431 / 1810), (-1 / 1810), (11 / 4525), 0, 0, 0],
       [(586625 / 181), (-20550 / 181), (-80 / 181), 1, 0, 0],
       [(2146250 / 181), (440 / 181), (-39765 / 181), 0, 1, 0],
       [(1121750 / 181), (-20310 / 181), (-10005 / 181), 0, 0, 1]]
    = .ok ([[1, 0, 0, 0, (-2844750 / 241), (-1078750 / 241)],
           [0, 1, 0, 0, (-1040 / 241), (12510 / 241)],
           [0, 0, 1, 0, (52945 / 241), (13265 / 241)],
           [0, 0, 0, 1, (4 / 241), (128 / 241)],
           [0, 0, 0, 0, (2250000 / 241), (-300000 / 241)],
           [0, 0, 0, 0, (-300000 / 241), (2450000 / 241)]],
      [[(1540777 / 482), (-534053 / 4820), (-1611 / 2410), (4693 / 4820), 0, 0],
       [(-534053 / 4820), (93461 / 24100), (7 / 482), (-411 / 12050), 0, 0],
       [(-1611 / 2410), (7 / 482), (3 / 1205), (-4 / 30125), 0, 0],
       [(4693 / 4820), (-411 / 12050), (-4 / 30125), (181 / 602500), 0, 0],
       [(2844750 / 241), (1040 / 241), (-52945 / 241), (-4 / 241), 1, 0],
       [(1078750 / 241), (-12510 / 241), (-13265 / 241), (-128 / 241), 0, 1]]) := by
  refine (inverse_step_ok 6 3 _ _ ?_ ?_ (by decide) ?_).trans ?_
  · exact ⟨rfl, by simp⟩
  · exact ⟨rfl, by simp⟩
  · simp only [entry, List.getD_cons_zero, List.getD_cons_succ]
    norm_num [abs_lt]
  simp only [table, entry, List.range_succ, List.range_zero, List.map_cons, List.map_nil,
    List.nil_append, List.cons_append, List.getD_cons_zero, List.getD_cons_succ]
  norm_num

theorem test_step_4 :
    inverse_step abs 6 4
      ([[1, 0, 0, 0, (-2844750 / 241), (-1078750 / 241)],
       [0, 1, 0, 0, (-1040 / 241), (12510 / 241)],
       [0, 0, 1, 0, (52945 / 241), (13265 / 241)],
       [0, 0, 0, 1, (4 / 241), (128 / 241)],
       [0, 0, 0, 0, (2250000 / 241), (-300000 / 241)],
       [0, 0, 0, 0, (-300000 / 241), (2450000 / 241)]] : List (List ℝ))
      [[(1540777 / 482), (-534053 / 4820), (-1611 / 2410), (4693 / 4820), 0, 0],
       [(-534053 / 4820), (93461 / 24100), (7 / 482), (-411 / 12050), 0, 0],
       [(-1611 / 2410), (7 / 482), (3 / 1205), (-4 / 30125), 0, 0],
       [(4693 / 4820), (-411 / 12050), (-4 / 30125), (181 / 602500), 0, 0],
       [(2844750 / 241), (1040 / 241), (-52945 / 241), (-4 / 241), 1, 0],
       [(1078750 / 241), (-12510 / 241), (-13265 / 241), (-128 / 241), 0, 1]]
    = .ok ([[1, 0, 0, 0, 0, (-6050)],
           [0, 1, 0, 0, 0, (154 / 3)],
           [0, 0, 1, 0, 0, (253 / 3)],
           [0, 0, 0, 1, 0, (8 / 15)],
           [0, 0, 0, 0, 1, (-2 / 15)],
           [0, 0, 0, 0, 0, 10000]],
      [[(72483 / 4), (-31603 / 300), (-167057 / 600), (1429 / 1500), (3793 / 3000), 0],
       [(-31603 / 300), (87301 / 22500), (-979 / 11250), (-1919 / 56250), (13 / 28125), 0],
       [(-167057 / 600), (-979 / 11250), (465481 / 90000), (29 / 112500), (-10589 / 450000), 0],
       [(1429 / 1500), (-1919 / 56250), (29 / 112500), (169 / 562500), (-1 / 562500), 0],
       [(3793 / 3000), (13 / 28125), (-10589 / 450000), (-1 / 562500), (241 / 2250000), 0],
       [6050, (-154 / 3), (-253 / 3), (-8 / 15), (2 / 15), 1]]) := by
  refine (inverse_step_ok 6 4 _ _ ?_ ?_ (by decide) ?_).trans ?_
  · exact ⟨rfl, by simp⟩
  · exact ⟨rfl, by simp⟩
  · simp only [entry, List.getD_cons_zero, List.getD_cons_succ]
    norm_num [abs_lt]
  simp only [table, entry, List.range_succ, List.range_zero, List.map_cons, List.map_nil,
    List.nil_append, List.cons_append, List.getD_cons_zero, List.getD_cons_succ]
  norm_num

theorem test_step_5 :
    inverse_step abs 6 5
      ([[1, 0, 0, 0, 0, (-6050)],
       [0, 1, 0, 0, 0, (154 / 3)],
       [0, 0, 1, 0, 0, (253 / 3)],
       [0, 0, 0, 1, 0, (8 / 15)],
       [0, 0, 0, 0, 1, (-2 / 15)],
       [0, 0, 0, 0, 0, 10000]] : List (List ℝ))
      [[(72483 / 4), (-31603 / 300), (-167057 / 600), (1429 / 1500), (3793 / 3000), 0],
       [(-31603 / 300), (87301 / 22500), (-979 / 11250), (-1919 / 56250), (13 / 28125), 0],
       [(-167057 / 600), (-979 / 11250), (465481 / 90000), (29 / 112500), (-10589 / 450000), 0],
       [(1429 / 1500), (-1919 / 56250), (29 / 112500), (169 / 562500), (-1 / 562500), 0],
       [(3793 / 3000), (13 / 28125), (-10589 / 450000), (-1 / 562500), (241 / 2250000), 0],
       [6050, (-154 / 3), (-253 / 3), (-8 / 15), (2 / 15), 1]]
    = .ok ([[1, 0, 0, 0, 0, 0],
           [0, 1, 0, 0, 0, 0],
           [0, 0, 1, 0, 0, 0],
           [0, 0, 0, 1, 0, 0],
           [0, 0, 0, 0, 1, 0],
           [0, 0, 0, 0, 0, 1]],
      [[21781, (-682 / 5), (-6589 / 20), (63 / 100), (269 / 200), (121 / 200)],
       [(-682 / 5), (9323 / 2250), (3113 / 9000), (-353 / 11250), (-1 / 4500), (-77 / 15000)],
       [(-6589 / 20), (3113 / 9000), (52949 / 9000), (107 / 22500), (-2219 / 90000), (-253 / 30000)],
       [(63 / 100), (-353 / 11250), (107 / 22500), (37 / 112500), (-1 / 112500), (-1 / 18750)],
       [(269 / 200), (-1 / 4500), (-2219 / 90000), (-1 / 112500), (49 / 450000), (1 / 75000)],
       [(121 / 200), (-77 / 15000), (-253 / 30000), (-1 / 18750), (1 / 75000), (1 / 10000)]]) := by
  refine (inverse_step_ok 6 5 _ _ ?_ ?_ (by decide) ?_).trans ?_
  · exact ⟨rfl, by simp⟩
  · exact ⟨rfl, by simp⟩
  · simp only [entry, List.getD_cons_zero, List.getD_cons_succ]
    norm_num [abs_lt]
  simp only [table, entry, List.range_succ, List.range_zero, List.map_cons, List.map_nil,
    List.nil_append, List.cons_append, List.getD_cons_zero, List.getD_cons_succ]
  norm_num

/-- The inverse `linalg::inverse` computes for the matrix `X'X` of the six
example points. -/
theorem test_inverse :
    inverse abs ([[6, 340, 665, 19450, 74125, 37725],
             [340, 19450, 37725, 1123000, 4209125, 2160625],
             [665, 37725, 74125, 2160625, 8307875, 4209125],
             [19450, 1123000, 2160625, 65421250, 241318125, 124903125],
             [74125, 4209125, 8307875, 241318125, 936030625, 472141875],
             [37725, 2160625, 4209125, 124903125, 472141875, 241318125]] : List (List ℝ))
    = .ok [[21781, (-682 / 5), (-6589 / 20), (63 / 100), (269 / 200), (121 / 200)],
          [(-682 / 5), (9323 / 2250), (3113 / 9000), (-353 / 11250), (-1 / 4500), (-77 / 15000)],
          [(-6589 / 20), (3113 / 9000), (52949 / 9000), (107 / 22500), (-2219 / 90000), (-253 / 30000)],
          [(63 / 100), (-353 / 11250), (107 / 22500), (37 / 112500), (-1 / 112500), (-1 / 18750)],
          [(269 / 200), (-1 / 4500), (-2219 / 90000), (-1 / 112500), (49 / 450000), (1 / 75000)],
          [(121 / 200), (-77 / 15000), (-253 / 30000), (-1 / 18750), (1 / 75000), (1 / 10000)]] := by
  have hI : ((List.range 6).map fun i : Nat => (List.range 6).map fun j : Nat =>
      if i = j then (1.0 : ℝ) else 0.0)
      = [[1, 0, 0, 0, 0, 0],
          [0, 1, 0, 0, 0, 0],
          [0, 0, 1, 0, 0, 0],
          [0, 0, 0, 1, 0, 0],
          [0, 0, 0, 0, 1, 0],
          [0, 0, 0, 0, 0, 1]] := by
    simp only [List.range_succ, List.range_zero, List.map_cons, List.map_nil, List.nil_append,
      List.cons_append]
    norm_num
  have hr : List.range 6 = [0, 1, 2, 3, 4, 5] := rfl
  unfold inverse
  simp only [List.length_cons, List.length_nil, Nat.zero_add, Nat.reduceAdd]
  rw [hI, hr]
  simp only [inverse_loop, test_step_0, test_step_1, test_step_2, test_step_3, test_step_4,
    test_step_5, bind_ok, map_ok]

end linalg

namespace ResponseSurface

open linalg

theorem test_points_data :
    (after_points (test_points ℝ)).data_
      = [⟨[50, 100], 12.3⟩, ⟨[60, 100], 13.1⟩, ⟨[50, 120], 11.9⟩, ⟨[60, 120], 13.5⟩,
         ⟨[55, 110], 12.8⟩, ⟨[65, 115], 13.7⟩] := by
  have h : (after_points (test_points ℝ)).data_
      = [⟨[50.0, 100.0], 12.3⟩, ⟨[60.0, 100.0], 13.1⟩, ⟨[50.0, 120.0], 11.9⟩,
         ⟨[60.0, 120.0], 13.5⟩, ⟨[55.0, 110.0], 12.8⟩, ⟨[65.0, 115.0], 13.7⟩] := rfl
  rw [h]
  norm_num

/-- On the six example points `fit()` succeeds and stores the coefficients
`(183/10, 89/375, -209/750, -19/3750, 1/3750, 1/250)`. -/
theorem test_points_fit :
    (after_points (test_points ℝ)).fit abs
      = (.ok (), { data_ := (after_points (test_points ℝ)).data_,
                   beta_ := [(183 / 10), (89 / 375), (-209 / 750), (-19 / 3750), (1 / 3750), (1 / 250)] }) := by
  have hA : normal_table (after_points (test_points ℝ)).data_
      = [[6, 340, 665, 19450, 74125, 37725],
          [340, 19450, 37725, 1123000, 4209125, 2160625],
          [665, 37725, 74125, 2160625, 8307875, 4209125],
          [19450, 1123000, 2160625, 65421250, 241318125, 124903125],
          [74125, 4209125, 8307875, 241318125, 936030625, 472141875],
          [37725, 2160625, 4209125, 124903125, 472141875, 241318125]] := by
    rw [test_points_data]
    simp only [normal_table, table, design_row, List.range_succ, List.range_zero, List.map_cons,
      List.map_nil, List.nil_append, List.cons_append, List.getD_cons_zero, List.getD_cons_succ,
      List.sum_cons, List.sum_nil]
    norm_num
  have hb : rhs_table (after_points (test_points ℝ)).data_
      = [[(773 / 10)],
          [(8801 / 2)],
          [(17143 / 2)],
          [(505725 / 2)],
          [(1911645 / 2)],
          [(977095 / 2)]] := by
    rw [test_points_data]
    simp only [rhs_table, table, design_row, List.range_succ, List.range_zero, List.map_cons,
      List.map_nil, List.nil_append, List.cons_append, List.getD_cons_zero, List.getD_cons_succ,
      List.sum_cons, List.sum_nil]
    norm_num
  rw [rs_fit_eq _ (after_points_two_coordinates _) (by rw [test_points_data]; simp), hA, hb,
    test_inverse]
  simp only [bind_ok]
  rw [multiply_ok 6 6 1
    ([[21781, (-682 / 5), (-6589 / 20), (63 / 100), (269 / 200), (121 / 200)],
     [(-682 / 5), (9323 / 2250), (3113 / 9000), (-353 / 11250), (-1 / 4500), (-77 / 15000)],
     [(-6589 / 20), (3113 / 9000), (52949 / 9000), (107 / 22500), (-2219 / 90000), (-253 / 30000)],
     [(63 / 100), (-353 / 11250), (107 / 22500), (37 / 112500), (-1 / 112500), (-1 / 18750)],
     [(269 / 200), (-1 / 4500), (-2219 / 90000), (-1 / 112500), (49 / 450000), (1 / 75000)],
     [(121 / 200), (-77 / 15000), (-253 / 30000), (-1 / 18750), (1 / 75000), (1 / 10000)]] : List (List ℝ))
    [[(773 / 10)],
    [(8801 / 2)],
    [(17143 / 2)],
    [(505725 / 2)],
    [(1911645 / 2)],
    [(977095 / 2)]]
    ⟨rfl, by simp⟩ ⟨rfl, by simp⟩ (by decide) (by decide)]
  simp only [bind_ok]
  rw [ResponseSurfaceQuadratic.for_each_ok_map _ _ (List.range 6)
    (fun i hi => read_ok 6 1 _ (is_mat_table _ _ _) i 0 (List.mem_range.mp hi) (by decide))]
  simp only [table, entry, List.range_succ, List.range_zero, List.map_cons, List.map_nil,
    List.nil_append, List.cons_append, List.getD_cons_zero, List.getD_cons_succ,
    List.sum_cons, List.sum_nil]
  norm_num

end ResponseSurface

/-! ## The binary64 model -/

namespace Binary64

theorem log2_step_spec (q w r e : Nat) (h1 : 1 ≤ r) (hr : r < 2 ^ (w + w))
    (hlo : r * 2 ^ e ≤ q) (hhi : q < (r + 1) * 2 ^ e) :
    1 ≤ (log2_step (r, e) w).1 ∧ (log2_step (r, e) w).1 < 2 ^ w ∧
      (log2_step (r, e) w).1 * 2 ^ (log2_step (r, e) w).2 ≤ q ∧
      q < ((log2_step (r, e) w).1 + 1) * 2 ^ (log2_step (r, e) w).2 := by
  have hw : 0 < 2 ^ w := Nat.two_pow_pos _
  unfold log2_step
  by_cases h : 2 ^ w ≤ r
  · rw [if_pos h]
    have hdm := Nat.div_add_mod r (2 ^ w)
    have hmod := Nat.mod_lt r hw
    refine ⟨(Nat.one_le_div_iff hw).mpr h, ?_, ?_, ?_⟩
    · apply Nat.div_lt_of_lt_mul
      rw [← pow_add]
      exact hr
    · show r / 2 ^ w * 2 ^ (e + w) ≤ q
      calc r / 2 ^ w * 2 ^ (e + w) = (2 ^ w * (r / 2 ^ w)) * 2 ^ e := by
            rw [pow_add]
            ring
        _ ≤ r * 2 ^ e := Nat.mul_le_mul_right _ (by omega)
        _ ≤ q := hlo
    · show q < (r / 2 ^ w + 1) * 2 ^ (e + w)
      calc q < (r + 1) * 2 ^ e := hhi
        _ ≤ (2 ^ w * (r / 2 ^ w) + 2 ^ w) * 2 ^ e := Nat.mul_le_mul_right _ (by omega)
        _ = (r / 2 ^ w + 1) * 2 ^ (e + w) := by
            rw [pow_add]
            ring
  · rw [if_neg h]
    exact ⟨h1, Nat.lt_of_not_le h, hlo, hhi⟩

theorem log2_fold_spec (q : Nat) (ws : List Nat) :
    ∀ (b r e : Nat), ws.foldr (fun w ok => fun c => c = w + w ∧ ok w) (fun c => c = 1) b →
      1 ≤ r → r < 2 ^ b → r * 2 ^ e ≤ q → q < (r + 1) * 2 ^ e →
      2 ^ (ws.foldl log2_step (r, e)).2 ≤ q ∧ q < 2 ^ ((ws.foldl log2_step (r, e)).2 + 1) := by
  induction ws with
  | nil =>
    intro b r e hb h1 hr hlo hhi
    have hb1 : b = 1 := hb
    rw [hb1, pow_one] at hr
    have hr1 : r = 1 := by omega
    rw [hr1] at hlo hhi
    simp only [List.foldl_nil]
    refine ⟨by simpa using hlo, ?_⟩
    rw [pow_succ, Nat.mul_comm]
    exact hhi
  | cons w ws ih =>
    intro b r e hb h1 hr hlo hhi
    rw [List.foldr_cons] at hb
    obtain ⟨hbw, hok⟩ := hb
    rw [hbw] at hr
    obtain ⟨a1, b1, c1, d1⟩ := log2_step_spec q w r e h1 hr hlo hhi
    rw [List.foldl_cons]
    exact ih w _ _ hok a1 b1 c1 d1

/-- Below `2^4096`, `log2_floor q` is the position of the leading bit of
`q`. -/
theorem log2_floor_spec (q : Nat) (h0 : 0 < q) (h : q < 2 ^ 4096) :
    2 ^ log2_floor q ≤ q ∧ q < 2 ^ (log2_floor q + 1) :=
  log2_fold_spec q [2048, 1024, 512, 256, 128, 64, 32, 16, 8, 4, 2, 1] 4096 q 0
    (by simp) h0 h (by simp) (by simp)

theorem isqrt_bits_spec (n : Nat) (i r : Nat) (hlo : r * r ≤ n)
    (hhi : n < (r + 2 ^ i) * (r + 2 ^ i)) :
    isqrt_bits n i r * isqrt_bits n i r ≤ n ∧
      n < (isqrt_bits n i r + 1) * (isqrt_bits n i r + 1) := by
  induction i generalizing r with
  | zero =>
    simp only [isqrt_bits]
    exact ⟨hlo, by simpa using hhi⟩
  | succ i ih =>
    unfold isqrt_bits
    by_cases h : (r + 2 ^ i) * (r + 2 ^ i) ≤ n
    · rw [if_pos h]
      apply ih _ h
      have e : r + 2 ^ i + 2 ^ i = r + 2 ^ (i + 1) := by
        rw [pow_succ]
        omega
      rw [e]
      exact hhi
    · rw [if_neg h]
      exact ih _ hlo (Nat.lt_of_not_le h)

/-- Below `2^4096`, `isqrt n` is the integer square root of `n`. -/
theorem isqrt_spec (n : Nat) (h : n < 2 ^ 4096) :
    isqrt n * isqrt n ≤ n ∧ n < (isqrt n + 1) * (isqrt n + 1) := by
  unfold isqrt
  apply isqrt_bits_spec n _ 0 (Nat.zero_le _)
  rw [Nat.zero_add, ← pow_add]
  rcases Nat.eq_zero_or_pos n with h0 | h0
  · rw [h0]
    exact Nat.two_pow_pos _
  · have hs := (log2_floor_spec n h0 h).2
    refine lt_of_lt_of_le hs (Nat.pow_le_pow_right (by norm_num) ?_)
    omega

end Binary64
namespace Binary64

theorem log2_floor_zero : log2_floor 0 = 0 := by
  have h : ∀ w e : Nat, log2_step (0, e) w = (0, e) := by
    intro w e
    unfold log2_step
    rw [if_neg (Nat.not_le.mpr (Nat.two_pow_pos w))]
  simp only [log2_floor, List.foldl_cons, List.foldl_nil, h]

/-- What `round` returns: with `k` the exponent of the unit in the last place
it chooses and `m` the significand it keeps, the result is `m * 2^k` (an
infinity from `2^1024` on), `m` has at most 53 bits (it is `2^53` only when
the rounding carries into the next binade), at least 53 bits unless the value
is below the normal range of `k = 0`, the result differs from `num / den` by
at most half of `2^k`, and in the case of a tie `m` is even. -/
theorem round_spec (s : Bool) (num den : Nat) (hden : 0 < den) (hq : num / den < 2 ^ 4096) :
    ∃ m k : Nat,
      round s num den
        = (if 2 ^ 2098 ≤ m * 2 ^ k then .infinite s else .finite s (m * 2 ^ k)) ∧
      m ≤ 2 ^ 53 ∧ (k = 0 ∨ 2 ^ 52 ≤ m) ∧
      2 * (m * 2 ^ k * den - num) ≤ den * 2 ^ k ∧ 2 * (num - m * 2 ^ k * den) ≤ den * 2 ^ k ∧
      ((2 * (m * 2 ^ k * den - num) = den * 2 ^ k ∨ 2 * (num - m * 2 ^ k * den) = den * 2 ^ k) →
        m % 2 = 0) := by
  have hk : 0 < 2 ^ (log2_floor (num / den) - 52) := Nat.two_pow_pos _
  have hulp : 0 < den * 2 ^ (log2_floor (num / den) - 52) := Nat.mul_pos hden hk
  have hm : num / (den * 2 ^ (log2_floor (num / den) - 52))
      = num / den / 2 ^ (log2_floor (num / den) - 52) := (Nat.div_div_eq_div_mul _ _ _).symm
  have hbits : num / (den * 2 ^ (log2_floor (num / den) - 52)) < 2 ^ 53 ∧
      (log2_floor (num / den) - 52 = 0 ∨
        2 ^ 52 ≤ num / (den * 2 ^ (log2_floor (num / den) - 52))) := by
    rw [hm]
    rcases Nat.eq_zero_or_pos (num / den) with h0 | h0
    · rw [h0, log2_floor_zero]
      exact ⟨by simp, Or.inl rfl⟩
    · obtain ⟨hlo, hhi⟩ := log2_floor_spec (num / den) h0 hq
      rcases Nat.lt_or_ge (log2_floor (num / den)) 53 with hL | hL
      · have hk0 : log2_floor (num / den) - 52 = 0 ∨ log2_floor (num / den) = 52 := by omega
        have hk0' : log2_floor (num / den) - 52 = 0 := by omega
        rw [hk0', pow_zero, Nat.div_one]
        exact ⟨lt_of_lt_of_le hhi (Nat.pow_le_pow_right (by norm_num) (by omega)), Or.inl rfl⟩
      · have hLk : log2_floor (num / den) = log2_floor (num / den) - 52 + 52 := by omega
        constructor
        · apply Nat.div_lt_of_lt_mul
          rw [← pow_add]
          refine lt_of_lt_of_le hhi (Nat.pow_le_pow_right (by norm_num) (by omega))
        · right
          rw [Nat.le_div_iff_mul_le hk, ← pow_add]
          refine le_trans (Nat.pow_le_pow_right (by norm_num) (by omega)) hlo
  have hdm := Nat.div_add_mod num (den * 2 ^ (log2_floor (num / den) - 52))
  have hmod := Nat.mod_lt num hulp
  unfold round
  simp only []
  generalize hkdef : log2_floor (num / den) - 52 = k at *
  generalize hudef : den * 2 ^ k = ulp at *
  generalize hmdef : num / ulp = m at *
  generalize hrdef : num % ulp = rem at *
  have hmul : ∀ x : Nat, x * 2 ^ k * den = ulp * x := by
    intro x
    rw [← hudef]
    ring
  by_cases h1 : 2 * rem < ulp
  · refine ⟨m, k, by rw [if_pos h1], le_of_lt hbits.1, ?_, ?_, ?_, ?_⟩
    · rcases hbits.2 with h | h
      · exact Or.inl h
      · exact Or.inr h
    · rw [hmul]
      omega
    · rw [hmul]
      omega
    · rw [hmul]
      omega
  · by_cases h2 : ulp < 2 * rem
    · refine ⟨m + 1, k, by rw [if_neg h1, if_pos h2], hbits.1, ?_, ?_, ?_, ?_⟩
      · rcases hbits.2 with h | h
        · exact Or.inl h
        · exact Or.inr (by omega)
      · rw [hmul, Nat.mul_add]
        omega
      · rw [hmul, Nat.mul_add]
        omega
      · rw [hmul, Nat.mul_add]
        omega
    · by_cases h3 : m % 2 = 0
      · refine ⟨m, k, by rw [if_neg h1, if_neg h2, if_pos h3], le_of_lt hbits.1, ?_, ?_, ?_,
          fun _ => h3⟩
        · rcases hbits.2 with h | h
          · exact Or.inl h
          · exact Or.inr h
        · rw [hmul]
          omega
        · rw [hmul]
          omega
      · refine ⟨m + 1, k, by rw [if_neg h1, if_neg h2, if_neg h3], hbits.1, ?_, ?_, ?_,
          fun _ => by omega⟩
        · rcases hbits.2 with h | h
          · exact Or.inl h
          · exact Or.inr (by omega)
        · rw [hmul, Nat.mul_add]
          omega
        · rw [hmul, Nat.mul_add]
          omega

end Binary64
namespace Binary64

/-- Values of the model at inputs whose binary64 results are well known: the
significand of `0.1`, `0.1 + 0.2`, `1/3`, `sqrt 2`, ties to even at `2^53`,
the smallest positive value and its half, overflow, and division by zero. -/
theorem known_values :
    (0.1 : Binary64) = .finite false (3602879701896397 * 2 ^ 1019) ∧
    (0.1 : Binary64) + 0.2 = 0.30000000000000004 ∧
    ¬ ((0.1 : Binary64) + 0.2 = 0.3) ∧
    (1.0 : Binary64) / 3.0 = 0.3333333333333333 ∧
    sqrt 2.0 = 1.4142135623730951 ∧
    sqrt 0.25 = 0.5 ∧
    (9007199254740992.0 : Binary64) + 1.0 = 9007199254740992.0 ∧
    (9007199254740994.0 : Binary64) + 1.0 = 9007199254740996.0 ∧
    (5e-324 : Binary64) = .finite false 1 ∧
    (5e-324 : Binary64) / 2.0 = .finite false 0 ∧
    (1e308 : Binary64) * 10.0 = .infinite false ∧
    (1.0 : Binary64) / 0.0 = .infinite false ∧
    (-1.0 : Binary64) / 0.0 = .infinite true ∧
    (0.0 : Binary64) / 0.0 = .nan ∧
    ¬ ((.nan : Binary64) ≤ .nan) ∧
    (-0.0 : Binary64) ≤ 0.0 ∧ ¬ ((-0.0 : Binary64) < 0.0) := by
  decide!

end Binary64

/-! ## Calls that do not reach `std::log`

The results below hold for every arithmetic: they only follow the control
flow of the functions. -/

namespace stat_util

section quantiles

variable {α : Type} [Add α] [Sub α] [Mul α] [Div α] [Neg α] [OfScientific α]
  [LT α] [LE α] [∀ a b : α, Decidable (a < b)] [∀ a b : α, Decidable (a ≤ b)]

/-- Outside the two tail regions `normal_quantile_approx` calls neither
`std::log` nor `std::sqrt`. -/
theorem normal_quantile_approx_log_free (sqrt log sqrt' log' : α → α) (p : α)
    (h : (p ≤ 0.0 ∨ p ≥ 1.0) ∨ (¬ p < 0.02425 ∧ ¬ p > 1.0 - 0.02425)) :
    normal_quantile_approx sqrt log p = normal_quantile_approx sqrt' log' p := by
  unfold normal_quantile_approx
  rcases h with h | ⟨h1, h2⟩
  · rw [if_pos h, if_pos h]
  · by_cases h0 : p ≤ 0.0 ∨ p ≥ 1.0
    · rw [if_pos h0, if_pos h0]
    · simp only [if_neg h0, if_neg h1, if_neg h2]

/-- The same for `student_t_quantile_approx`. -/
theorem student_t_quantile_approx_log_free (sqrt log sqrt' log' : α → α) (p df : α)
    (h : (p ≤ 0.0 ∨ p ≥ 1.0) ∨ (¬ p < 0.02425 ∧ ¬ p > 1.0 - 0.02425)) :
    student_t_quantile_approx sqrt log p df = student_t_quantile_approx sqrt' log' p df := by
  unfold student_t_quantile_approx
  rw [normal_quantile_approx_log_free sqrt log sqrt' log' p h]

end quantiles

variable {α : Type} [Add α] [Sub α] [Mul α] [Div α] [Neg α] [OfScientific α] [IntCast α]
  [LT α] [LE α] [∀ a b : α, Decidable (a < b)] [∀ a b : α, Decidable (a ≤ b)]

/-- The same for `anom_h_bonferroni_equal_n`, in the probability it passes
on. -/
theorem anom_h_bonferroni_equal_n_log_free (sqrt log log' : α → α) (alpha : α) (a n df : Int)
    (h : (1.0 - alpha / (a : α) / 2.0 ≤ 0.0 ∨ 1.0 - alpha / (a : α) / 2.0 ≥ 1.0) ∨
      (¬ 1.0 - alpha / (a : α) / 2.0 < 0.02425 ∧
        ¬ 1.0 - alpha / (a : α) / 2.0 > 1.0 - 0.02425)) :
    anom_h_bonferroni_equal_n sqrt log alpha a n df
      = anom_h_bonferroni_equal_n sqrt log' alpha a n df := by
  unfold anom_h_bonferroni_equal_n
  simp only [student_t_quantile_approx_log_free sqrt log sqrt log' _ (df : α) h]

/-- The same for `anom_tcrit_bonferroni`. -/
theorem anom_tcrit_bonferroni_log_free (sqrt log log' : α → α) (alpha : α) (a df : Int)
    (h : (1.0 - alpha / (a : α) / 2.0 ≤ 0.0 ∨ 1.0 - alpha / (a : α) / 2.0 ≥ 1.0) ∨
      (¬ 1.0 - alpha / (a : α) / 2.0 < 0.02425 ∧
        ¬ 1.0 - alpha / (a : α) / 2.0 > 1.0 - 0.02425)) :
    anom_tcrit_bonferroni sqrt log alpha a df = anom_tcrit_bonferroni sqrt log' alpha a df := by
  unfold anom_tcrit_bonferroni
  simp only [student_t_quantile_approx_log_free sqrt log sqrt log' _ (df : α) h]

end stat_util

namespace Anom

variable {α : Type} [Add α] [Sub α] [Mul α] [Div α] [Neg α] [OfScientific α] [IntCast α]
  [LT α] [LE α] [∀ a b : α, Decidable (a < b)] [∀ a b : α, Decidable (a ≤ b)]

/-- When the probability of the critical value lies outside the tail regions,
the critical values do not depend on `std::log`. -/
theorem critical_values_log_free (sqrt log log' : α → α) (opt : AnomOptions α) (a : Int)
    (h : (critical_probability opt a ≤ 0.0 ∨ critical_probability opt a ≥ 1.0) ∨
      (¬ critical_probability opt a < 0.02425 ∧
        ¬ critical_probability opt a > 1.0 - 0.02425))
    (equal_n : Bool) (n0 df_within : Int) :
    critical_values sqrt log opt equal_n a n0 df_within
      = critical_values sqrt log' opt equal_n a n0 df_within := by
  unfold critical_values
  unfold critical_probability at h
  cases hb : opt.bonferroni with
  | true =>
    rw [hb, if_pos rfl] at h
    simp only [if_true,
      stat_util.anom_h_bonferroni_equal_n_log_free sqrt log log' opt.alpha a n0 df_within h,
      stat_util.anom_tcrit_bonferroni_log_free sqrt log log' opt.alpha a df_within h]
  | false =>
    rw [hb, if_neg Bool.false_ne_true] at h
    simp only [Bool.false_eq_true, if_false,
      stat_util.student_t_quantile_approx_log_free sqrt log sqrt log' _ (df_within : α) h]

/-- A `fit()` whose critical probability lies outside the tail regions does
not depend on `std::log`. -/
theorem fit_log_free (sqrt log log' : α → α) (s : Anom α)
    (h : (critical_probability s.opt_ (s.groups_.length : Int) ≤ 0.0 ∨
        critical_probability s.opt_ (s.groups_.length : Int) ≥ 1.0) ∨
      (¬ critical_probability s.opt_ (s.groups_.length : Int) < 0.02425 ∧
        ¬ critical_probability s.opt_ (s.groups_.length : Int) > 1.0 - 0.02425)) :
    s.fit sqrt log = s.fit sqrt log' := by
  unfold fit
  simp only [critical_values_log_free sqrt log log' s.opt_ (s.groups_.length : Int) h]

end Anom

section doe_log_free

variable {α : Type} [Add α] [Sub α] [Mul α] [Div α] [Neg α] [OfScientific α] [IntCast α]
  [LT α] [LE α] [∀ a b : α, Decidable (a < b)] [∀ a b : α, Decidable (a ≤ b)]

omit [Add α] [Sub α] [Mul α] [Div α] [Neg α] [IntCast α] [LT α] [LE α]
  [∀ a b : α, Decidable (a < b)] [∀ a b : α, Decidable (a ≤ b)] in
/-- The level loop of `build_anom_for_factor` keeps the options of the
engine. -/
theorem add_level_groups_opt (factor_name : String) (level_values : List (List α))
    (levels : List Nat) (anom anom' : Anom α)
    (h : add_level_groups factor_name level_values levels anom = .ok anom') :
    anom'.opt_ = anom.opt_ := by
  induction levels generalizing anom with
  | nil =>
    simp only [add_level_groups, Except.ok.injEq] at h
    rw [← h]
  | cons lev rest ih =>
    unfold add_level_groups at h
    cases hs : subscript level_values (lev : Int) with
    | error e => simp [hs] at h
    | ok values =>
      simp only [hs] at h
      by_cases hv : values.isEmpty
      · rw [if_pos hv] at h
        exact ih anom h
      · rw [if_neg hv] at h
        have hadd : anom.add_group (factor_name ++ "_L" ++ toString ((lev : Int) + 1)) values
            = (.ok (), { anom with
                groups_ := anom.groups_ ++ [{ name := factor_name ++ "_L" ++ toString ((lev : Int) + 1), values := values }],
                computed_ := false }) := by
          unfold Anom.add_group
          rw [if_neg hv]
        rw [hadd] at h
        exact (ih _ h).trans rfl


omit [Add α] [Sub α] [Mul α] [Div α] [Neg α] [IntCast α] [LT α] [LE α]
  [∀ a b : α, Decidable (a < b)] [∀ a b : α, Decidable (a ≤ b)] in
/-- The engine `build_anom_for_factor` fits carries the options it was given. -/
theorem build_anom_groups_opt (oa : OrthogonalArray) (y : List α) (factor_idx : Int)
    (factor_name : String) (opt : AnomOptions α) (anom : Anom α)
    (h : build_anom_groups oa y factor_idx factor_name opt = .ok anom) : anom.opt_ = opt := by
  unfold build_anom_groups at h
  split_ifs at h
  cases hc : collect_level_values oa y factor_idx oa.levels (List.range oa.runs.toNat)
      (List.replicate oa.levels.toNat []) with
  | error e => simp [hc] at h
  | ok level_values =>
    simp only [hc] at h
    exact add_level_groups_opt _ _ _ _ _ h

/-- With `bonferroni` off and `1 - alpha/2` outside the tail regions,
`build_anom_for_factor` does not depend on `std::log`. -/
theorem build_anom_for_factor_log_free (sqrt log log' : α → α) (oa : OrthogonalArray)
    (y : List α) (factor_idx : Int) (factor_name : String) (opt : AnomOptions α)
    (hb : opt.bonferroni = false)
    (h : (1.0 - opt.alpha / 2.0 ≤ 0.0 ∨ 1.0 - opt.alpha / 2.0 ≥ 1.0) ∨
      (¬ 1.0 - opt.alpha / 2.0 < 0.02425 ∧ ¬ 1.0 - opt.alpha / 2.0 > 1.0 - 0.02425)) :
    build_anom_for_factor sqrt log oa y factor_idx factor_name opt
      = build_anom_for_factor sqrt log' oa y factor_idx factor_name opt := by
  unfold build_anom_for_factor
  cases hg : build_anom_groups oa y factor_idx factor_name opt with
  | error e => rfl
  | ok anom =>
    have hopt := build_anom_groups_opt oa y factor_idx factor_name opt anom hg
    have hp : Anom.critical_probability anom.opt_ (anom.groups_.length : Int)
        = 1.0 - opt.alpha / 2.0 := by
      unfold Anom.critical_probability
      rw [hopt, hb, if_neg Bool.false_ne_true]
    simp only [Anom.fit_log_free sqrt log log' anom (by rw [hp]; exact h)]

/-- The same for `build_anom_for_all_factors`. -/
theorem build_anom_for_all_factors_log_free (sqrt log log' : α → α) (oa : OrthogonalArray)
    (y : List α) (factor_names : List String) (opt : AnomOptions α)
    (hb : opt.bonferroni = false)
    (h : (1.0 - opt.alpha / 2.0 ≤ 0.0 ∨ 1.0 - opt.alpha / 2.0 ≥ 1.0) ∨
      (¬ 1.0 - opt.alpha / 2.0 < 0.02425 ∧ ¬ 1.0 - opt.alpha / 2.0 > 1.0 - 0.02425)) :
    build_anom_for_all_factors sqrt log oa y factor_names opt
      = build_anom_for_all_factors sqrt log' oa y factor_names opt := by
  unfold build_anom_for_all_factors
  simp only [build_anom_for_factor_log_free sqrt log log' oa y _ _ opt hb h]

end doe_log_free
/-! ## The claims -/

namespace Anom

variable {α : Type} [LinearOrderedField α]

/-- C1: after a successful `fit()`, `grand_mean()` returns the size-weighted
average of the group means `Σ mean_i n_i / Σ n_i`, and this is the sum of all
observations of all groups divided by the total number of observations. -/
theorem C1_grand_mean_is_weighted_and_pooled_mean (sqrt log : α → α) (opt : AnomOptions α)
    (cs : List (AnomCall α)) (s : Anom α) (hs : s = after sqrt log opt cs)
    (hfit : (s.fit sqrt log).1 = .ok ()) :
    (s.fit sqrt log).2.grand_mean
        = .ok (some ((s.groups_.map (fun g => g.mean * (g.values.length : α))).sum
            / (((s.groups_.map (fun g => g.values.length)).sum : ℕ) : α)))
    ∧ (s.groups_.map (fun g => g.mean * (g.values.length : α))).sum
            / (((s.groups_.map (fun g => g.values.length)).sum : ℕ) : α)
        = (s.groups_.map (fun g => g.values)).flatten.sum
            / (((s.groups_.map (fun g => g.values)).flatten.length : ℕ) : α) := by
  obtain ⟨_, _, _, _, _, hcomp, hgm, _, _⟩ := fit_ok_state sqrt log s hfit
  have hinv : ∀ g ∈ s.groups_, g.values ≠ [] := by
    rw [hs]
    exact (inv_after sqrt log opt cs).1
  constructor
  · simp [grand_mean, ensure_computed, hcomp, hgm, weighted_mean, n_total_cast]
  · rw [weighted_sum_eq_pooled_sum s.groups_ hinv, List.length_flatten, List.map_map]
    rfl

/-- Witness of C1 on the engine of `test_anom_equal_n_basic`: the grand mean is `151/15`. -/
theorem C1_witness :
    ((test_equal_n ℝ).fit Real.sqrt Real.log).1 = .ok () ∧
    ((test_equal_n ℝ).fit Real.sqrt Real.log).2.grand_mean = .ok (some (151 / 15 : ℝ)) := by
  have h := C1_grand_mean_is_weighted_and_pooled_mean Real.sqrt Real.log (test_options ℝ)
    (test_equal_n_calls ℝ) (test_equal_n ℝ) (test_equal_n_reached _ _) (test_equal_n_fit_ok _ _)
  refine ⟨test_equal_n_fit_ok _ _, ?_⟩
  rw [h.1, h.2]
  norm_num [test_equal_n]

/-- C2: after a successful `fit()`, `s_within()` returns the square root of
`Σ_i Σ_{x in group i} (x - mean_i)^2 / Σ_i (n_i - 1)`, with `mean_i` the
arithmetic mean of group `i`. -/
theorem C2_s_within_is_pooled_std (sqrt log : α → α) (s : Anom α)
    (hfit : (s.fit sqrt log).1 = .ok ()) :
    (s.fit sqrt log).2.s_within
      = .ok (some (sqrt
          ((s.groups_.map (fun g =>
              (g.values.map (fun x => (x - g.values.sum / (g.values.length : α)) ^ 2)).sum)).sum
            / (((s.groups_.map (fun g => (g.values.length : Int) - 1)).sum : Int) : α)))) := by
  obtain ⟨_, _, _, _, _, hcomp, _, hsw, _⟩ := fit_ok_state sqrt log s hfit
  simp only [s_within, ensure_computed, hcomp, hsw]
  rfl

/-- Witness of C2 on the engine of `test_anom_equal_n_basic`: the pooled
standard deviation is `sqrt(0.06 / 9)`. -/
theorem C2_witness :
    ((test_equal_n ℝ).fit Real.sqrt Real.log).1 = .ok () ∧
    ((test_equal_n ℝ).fit Real.sqrt Real.log).2.s_within
      = .ok (some (Real.sqrt (0.06 / 9))) := by
  have h := C2_s_within_is_pooled_std Real.sqrt Real.log (test_equal_n ℝ)
    (test_equal_n_fit_ok _ _)
  refine ⟨test_equal_n_fit_ok _ _, ?_⟩
  rw [h]
  norm_num [test_equal_n]

/-- C3: after a successful `fit()` with `a` groups, pooled degrees of freedom
`df = Σ (n_i - 1)` and pooled standard deviation `s`, every result has
`margin_i = c * s * sqrt(1/n_i)`, where `c` is `anom_h_bonferroni_equal_n(alpha,
a, n_0, df)` when `bonferroni` is on and the equal-n path holds
(`assume_equal_n` set and all group sizes equal), `anom_tcrit_bonferroni(alpha,
a, df)` when `bonferroni` is on and the equal-n path does not hold, and
`student_t_quantile_approx(1 - alpha/2, df)` when `bonferroni` is off. -/
theorem C3_margin_formula (sqrt log : α → α) (s : Anom α)
    (hfit : (s.fit sqrt log).1 = .ok ()) :
    ∃ sd rs, (s.fit sqrt log).2.s_within = .ok (some sd) ∧
      (s.fit sqrt log).2.results = .ok rs ∧
      (s.opt_.bonferroni = true → s.opt_.assume_equal_n = true → same_sizes s.groups_ →
        ∀ g0 ∈ s.groups_, ∃ c,
          stat_util.anom_h_bonferroni_equal_n sqrt log s.opt_.alpha (s.groups_.length : Int)
            (g0.values.length : Int) (df_pooled s.groups_) = .ok c ∧
          rs.map (fun r => r.margin)
            = s.groups_.map (fun g => some (c * sd * sqrt (1 / (g.values.length : α))))) ∧
      (s.opt_.bonferroni = true → ¬(s.opt_.assume_equal_n = true ∧ same_sizes s.groups_) →
        ∃ c,
          stat_util.anom_tcrit_bonferroni sqrt log s.opt_.alpha (s.groups_.length : Int)
            (df_pooled s.groups_) = .ok c ∧
          rs.map (fun r => r.margin)
            = s.groups_.map (fun g => some (c * sd * sqrt (1 / (g.values.length : α))))) ∧
      (s.opt_.bonferroni = false →
        ∃ c,
          stat_util.student_t_quantile_approx sqrt log (1 - s.opt_.alpha / 2)
            ((df_pooled s.groups_ : Int) : α) = .ok c ∧
          rs.map (fun r => r.margin)
            = s.groups_.map (fun g => some (c * sd * sqrt (1 / (g.values.length : α))))) := by
  obtain ⟨hne, _, h, tcrit, hc, hcomp, _, hsw, hres⟩ := fit_ok_state sqrt log s hfit
  obtain ⟨c, hcv, hm⟩ := critical_values_margin sqrt log s.opt_ _ _ _ _ h tcrit hc
  have hmargins : (s.fit sqrt log).2.results_.map (fun r => r.margin)
      = s.groups_.map (fun g => some (c * sqrt (ss_pooled s.groups_ /
          ((df_pooled s.groups_ : Int) : α)) * sqrt (1 / (g.values.length : α)))) := by
    rw [hres, List.map_map]
    apply List.map_congr_left
    intro g _
    simp only [Function.comp_apply, hm, Int.cast_natCast]
  refine ⟨_, _, by simp only [s_within, ensure_computed, hcomp, hsw]; rfl,
    by simp only [results, ensure_computed, hcomp]; rfl, ?_, ?_, ?_⟩
  · intro hb ha hsame g0 hg0
    have heq : (s.opt_.assume_equal_n &&
        all_equal (s.groups_.map (fun g => (g.values.length : Int)))) = true := by
      rw [ha, (all_equal_iff_same_sizes s.groups_).mpr hsame]
      rfl
    have hn0 : (s.groups_.map (fun g => (g.values.length : Int))).headD 0
        = (g0.values.length : Int) := by
      cases hgs : s.groups_ with
      | nil => exact absurd hgs hne
      | cons g gs =>
        simp only [List.map_cons, List.headD_cons]
        have := hsame g (by rw [hgs]; simp) g0 hg0
        exact_mod_cast this
    rw [hb, heq, hn0] at hcv
    exact ⟨c, by simpa using hcv, hmargins⟩
  · intro hb hnot
    have heq : (s.opt_.assume_equal_n &&
        all_equal (s.groups_.map (fun g => (g.values.length : Int)))) = false := by
      cases ha : s.opt_.assume_equal_n with
      | false => rfl
      | true =>
        cases hall : all_equal (s.groups_.map (fun g => (g.values.length : Int))) with
        | false => rfl
        | true => exact absurd ⟨ha, (all_equal_iff_same_sizes s.groups_).mp hall⟩ hnot
    rw [hb, heq] at hcv
    exact ⟨c, by simpa using hcv, hmargins⟩
  · intro hb
    rw [hb] at hcv
    exact ⟨c, by simpa using hcv, hmargins⟩

/-- Witness of C3 on the engine of `test_anom_equal_n_basic` (three groups of
four observations, `bonferroni` and `assume_equal_n` on): the equal-n factor
is used. -/
theorem C3_witness :
    ∃ sd rs c, ((test_equal_n ℝ).fit Real.sqrt Real.log).2.s_within = .ok (some sd) ∧
      ((test_equal_n ℝ).fit Real.sqrt Real.log).2.results = .ok rs ∧
      stat_util.anom_h_bonferroni_equal_n Real.sqrt Real.log (0.05 : ℝ) 3 4 9 = .ok c ∧
      rs.map (fun r => r.margin)
        = [some (c * sd * Real.sqrt (1 / 4)), some (c * sd * Real.sqrt (1 / 4)),
            some (c * sd * Real.sqrt (1 / 4))] := by
  obtain ⟨sd, rs, h1, h2, hA, _, _⟩ :=
    C3_margin_formula Real.sqrt Real.log (test_equal_n ℝ) (test_equal_n_fit_ok _ _)
  have hsame : same_sizes (test_equal_n ℝ).groups_ := by
    intro g hg g' hg'
    simp only [test_equal_n, List.mem_cons, List.mem_singleton, List.not_mem_nil, or_false] at hg hg'
    rcases hg with rfl | rfl | rfl <;> rcases hg' with rfl | rfl | rfl <;> rfl
  obtain ⟨c, hc, hm⟩ := hA rfl rfl hsame ⟨"G1", [10.0, 10.1, 9.9, 10.0]⟩ (by simp [test_equal_n])
  refine ⟨sd, rs, c, h1, h2, ?_, ?_⟩
  · simpa [test_equal_n, test_options, df_pooled] using hc
  · simpa [test_equal_n] using hm

/-- C4: for every result of a successful `fit()`, `UDL = grand_mean + margin`
and `LDL = grand_mean - margin`; `significant_high` holds exactly when
`mean > UDL` and `significant_low` exactly when `mean < LDL`, so a mean equal
to `UDL` is not flagged high and a mean equal to `LDL` is not flagged low (and
with a non-negative margin such a group carries neither flag). -/
theorem C4_limits_and_flags (sqrt log : α → α) (s : Anom α)
    (hfit : (s.fit sqrt log).1 = .ok ()) :
    ∃ gm rs, (s.fit sqrt log).2.grand_mean = .ok (some gm) ∧
      (s.fit sqrt log).2.results = .ok rs ∧
      ∀ r ∈ rs, ∃ mean margin, r.mean = some mean ∧ r.margin = some margin ∧
        r.UDL = some (gm + margin) ∧ r.LDL = some (gm - margin) ∧
        (r.significant_high = true ↔ mean > gm + margin) ∧
        (r.significant_low = true ↔ mean < gm - margin) ∧
        (mean = gm + margin → r.significant_high = false) ∧
        (mean = gm - margin → r.significant_low = false) ∧
        (0 ≤ margin → mean = gm + margin ∨ mean = gm - margin →
          r.significant_high = false ∧ r.significant_low = false) := by
  obtain ⟨_, _, h, tcrit, hc, hcomp, hgm, _, hres⟩ := fit_ok_state sqrt log s hfit
  obtain ⟨c, _, hm⟩ := critical_values_margin sqrt log s.opt_ _ _ _ _ h tcrit hc
  refine ⟨_, _, by simp only [grand_mean, ensure_computed, hcomp, hgm]; rfl,
    by simp only [results, ensure_computed, hcomp]; rfl, ?_⟩
  intro r hr
  rw [hres, List.mem_map] at hr
  obtain ⟨g, _, rfl⟩ := hr
  have hmg := hm (weighted_mean s.groups_)
    (sqrt (ss_pooled s.groups_ / ((df_pooled s.groups_ : Int) : α))) g.name
    (g.values.length : Int) g.mean
  obtain ⟨hU, hL, hH, hLo⟩ := group_result_fields sqrt (weighted_mean s.groups_)
    (sqrt (ss_pooled s.groups_ / ((df_pooled s.groups_ : Int) : α)))
    (s.opt_.assume_equal_n && all_equal (s.groups_.map (fun g => (g.values.length : Int))))
    h tcrit g.name (g.values.length : Int) g.mean _ hmg
  refine ⟨g.mean, _, rfl, hmg, hU, hL, hH, hLo, ?_, ?_, ?_⟩
  · intro he
    rw [Bool.eq_false_iff, Ne, hH]
    exact not_lt.mpr (le_of_eq he)
  · intro he
    rw [Bool.eq_false_iff, Ne, hLo]
    exact not_lt.mpr (le_of_eq he.symm)
  · intro hpos he
    rw [Bool.eq_false_iff, Bool.eq_false_iff, Ne, Ne, hH, hLo]
    rcases he with he | he <;> constructor <;> rw [he] <;> intro hlt <;> linarith

/-- Witness of C4 on the engine of `test_anom_equal_n_basic`. -/
theorem C4_witness :
    ((test_equal_n ℝ).fit Real.sqrt Real.log).1 = .ok () ∧
    ∃ gm rs, ((test_equal_n ℝ).fit Real.sqrt Real.log).2.grand_mean = .ok (some gm) ∧
      ((test_equal_n ℝ).fit Real.sqrt Real.log).2.results = .ok rs ∧
      ∀ r ∈ rs, ∃ mean margin, r.mean = some mean ∧ r.margin = some margin ∧
        r.UDL = some (gm + margin) ∧ r.LDL = some (gm - margin) ∧
        (r.significant_high = true ↔ mean > gm + margin) ∧
        (r.significant_low = true ↔ mean < gm - margin) ∧
        (mean = gm + margin → r.significant_high = false) ∧
        (mean = gm - margin → r.significant_low = false) ∧
        (0 ≤ margin → mean = gm + margin ∨ mean = gm - margin →
          r.significant_high = false ∧ r.significant_low = false) :=
  ⟨test_equal_n_fit_ok _ _,
    C4_limits_and_flags Real.sqrt Real.log (test_equal_n ℝ) (test_equal_n_fit_ok _ _)⟩

/-- C5 fails in binary64: on the groups of sizes 4, 6 and 3 with
`alpha = 0.15` the fit succeeds with the unequal-n margins, and the products
`margin_i * sqrt(n_i)` of the first two groups differ from that of the
third; whatever `std::log` returns. -/
theorem C5_counterexample :
    rounding_unequal_n.opt_.assume_equal_n = true ∧
    rounding_unequal_n.opt_.bonferroni = true ∧
    rounding_unequal_n.groups_.map (fun g => g.values.length) = [4, 6, 3] ∧
    (0.31458989149715905 : Binary64) < 0.3145898914971591 ∧
    ∀ log : Binary64 → Binary64,
      (rounding_unequal_n.fit Binary64.sqrt log).1 = .ok () ∧
      (rounding_unequal_n.fit Binary64.sqrt log).2.results_.map (fun r => r.margin)
        = [some 0.15729494574857955, some 0.12843078540092737, some 0.18162855854021995] ∧
      (rounding_unequal_n.fit Binary64.sqrt log).2.results_.map
          (fun r => r.margin.map fun m => m * Binary64.sqrt (r.n : Binary64))
        = [some 0.3145898914971591, some 0.3145898914971591, some 0.31458989149715905] := by
  refine ⟨rfl, rfl, by decide!, by decide!, fun log => ?_⟩
  rw [fit_log_free Binary64.sqrt log (fun x => x) rounding_unequal_n (by decide!)]
  exact ⟨by decide!, by decide!, by decide!⟩

/-- C5 (amended): in exact real arithmetic, with `bonferroni` on and groups
that do not all have the same size, a successful `fit()` uses, whatever
`assume_equal_n` is and so also when it is on, the unequal-n formula
`margin_i = anom_tcrit_bonferroni(alpha, a, df) * s * sqrt(1/n_i)` for every
group, so `margin_i * sqrt(n_i)` is the same value for all groups. -/
theorem C5_unequal_sizes_use_tcrit (opt : AnomOptions ℝ) (cs : List (AnomCall ℝ))
    (s : Anom ℝ) (hs : s = after Real.sqrt Real.log opt cs)
    (hb : opt.bonferroni = true)
    (hsz : ¬ same_sizes s.groups_) (hfit : (s.fit Real.sqrt Real.log).1 = .ok ()) :
    ∃ c sd rs,
      stat_util.anom_tcrit_bonferroni Real.sqrt Real.log opt.alpha (s.groups_.length : Int)
        (df_pooled s.groups_) = .ok c ∧
      (s.fit Real.sqrt Real.log).2.s_within = .ok (some sd) ∧
      (s.fit Real.sqrt Real.log).2.results = .ok rs ∧
      rs.map (fun r => r.margin)
        = s.groups_.map (fun g => some (c * sd * Real.sqrt (1 / (g.values.length : ℝ)))) ∧
      ∀ r ∈ rs, ∃ m, r.margin = some m ∧ m * Real.sqrt ((r.n : Int) : ℝ) = c * sd := by
  obtain ⟨hne, _, h, tcrit, hc, hcomp, _, hsw, hres⟩ :=
    fit_ok_state Real.sqrt Real.log s hfit
  have hopt : s.opt_ = opt := by rw [hs]; exact after_opt Real.sqrt Real.log opt cs
  have hinv : ∀ g ∈ s.groups_, g.values ≠ [] := by
    rw [hs]
    exact (inv_after Real.sqrt Real.log opt cs).1
  obtain ⟨c, hcv, hm⟩ := critical_values_margin Real.sqrt Real.log s.opt_ _ _ _ _ h tcrit hc
  have heq : (s.opt_.assume_equal_n &&
      all_equal (s.groups_.map (fun g => (g.values.length : Int)))) = false := by
    cases hall : all_equal (s.groups_.map (fun g => (g.values.length : Int))) with
    | false => simp
    | true => exact absurd ((all_equal_iff_same_sizes s.groups_).mp hall) hsz
  rw [heq, hopt, hb] at hcv
  refine ⟨c, _, _, by simpa using hcv, by simp only [s_within, ensure_computed, hcomp, hsw]; rfl,
    by simp only [results, ensure_computed, hcomp]; rfl, ?_, ?_⟩
  · rw [hres, List.map_map]
    apply List.map_congr_left
    intro g _
    simp only [Function.comp_apply, hm, Int.cast_natCast]
  · intro r hr
    rw [hres, List.mem_map] at hr
    obtain ⟨g, hg, rfl⟩ := hr
    refine ⟨_, hm _ _ _ _ _, ?_⟩
    have hn : 0 < g.values.length := List.length_pos.mpr (hinv g hg)
    have hrn : (group_result Real.sqrt (weighted_mean s.groups_)
        (Real.sqrt (ss_pooled s.groups_ / ((df_pooled s.groups_ : Int) : ℝ)))
        (s.opt_.assume_equal_n && all_equal (s.groups_.map (fun g => (g.values.length : Int))))
        h tcrit g.name (g.values.length : Int) g.mean).n = (g.values.length : Int) := rfl
    rw [hrn, Int.cast_natCast, mul_assoc, sqrt_inv_mul_sqrt _ hn, mul_one]

/-- Witness of C5 on the engine of `test_anom_unequal_n` (groups of sizes 4, 6
and 3). -/
theorem C5_witness :
    ∃ c sd rs,
      stat_util.anom_tcrit_bonferroni Real.sqrt Real.log (0.05 : ℝ) 3 10 = .ok c ∧
      ((test_unequal_n ℝ).fit Real.sqrt Real.log).2.s_within = .ok (some sd) ∧
      ((test_unequal_n ℝ).fit Real.sqrt Real.log).2.results = .ok rs ∧
      rs.map (fun r => r.margin)
        = [some (c * sd * Real.sqrt (1 / 4)), some (c * sd * Real.sqrt (1 / 6)),
            some (c * sd * Real.sqrt (1 / 3))] ∧
      ∀ r ∈ rs, ∃ m, r.margin = some m ∧ m * Real.sqrt ((r.n : Int) : ℝ) = c * sd := by
  have hsz : ¬ same_sizes (test_unequal_n ℝ).groups_ := by
    intro h
    have := h ⟨"A", [9.9, 10.1, 10.0, 9.8]⟩ (by simp [test_unequal_n])
      ⟨"C", [9.7, 9.6, 9.9]⟩ (by simp [test_unequal_n])
    simp at this
  obtain ⟨c, sd, rs, hc, h1, h2, hm, hall⟩ :=
    C5_unequal_sizes_use_tcrit (test_options ℝ) (test_unequal_n_calls ℝ) (test_unequal_n ℝ)
      (test_unequal_n_reached _ _) rfl hsz (test_unequal_n_fit_ok _ _)
  refine ⟨c, sd, rs, ?_, h1, h2, ?_, hall⟩
  · simpa [test_unequal_n, test_options, df_pooled] using hc
  · simpa [test_unequal_n] using hm

/-- C6: after a successful `fit()`, `results()` has exactly one entry per added
group, in the order the groups were added, the `i`-th entry carrying the
`i`-th group's name, its number of observations and the arithmetic mean of its
values. -/
theorem C6_one_result_per_group (sqrt log : α → α) (opt : AnomOptions α)
    (cs : List (AnomCall α)) (s : Anom α) (hs : s = after sqrt log opt cs)
    (hfit : (s.fit sqrt log).1 = .ok ()) :
    ∃ rs, (s.fit sqrt log).2.results = .ok rs ∧
      rs.length = (groups_added cs).length ∧
      rs.map (fun r => r.name) = (groups_added cs).map (fun g => g.name) ∧
      rs.map (fun r => r.n) = (groups_added cs).map (fun g => (g.values.length : Int)) ∧
      rs.map (fun r => r.mean)
        = (groups_added cs).map (fun g => some (g.values.sum / (g.values.length : α))) := by
  obtain ⟨_, _, h, tcrit, _, hcomp, _, _, hres⟩ := fit_ok_state sqrt log s hfit
  have hg : s.groups_ = groups_added cs := by rw [hs]; exact after_groups sqrt log opt cs
  rw [hg] at hres
  refine ⟨_, by simp only [results, ensure_computed, hcomp]; rfl, ?_, ?_, ?_, ?_⟩
  · rw [hres, List.length_map]
  · rw [hres, List.map_map]; rfl
  · rw [hres, List.map_map]; rfl
  · rw [hres, List.map_map]; rfl

/-- Witness of C6 on `test_anom_equal_n_basic`: three results named G1, G2, G3
with `n = 4` and `G3.mean < G1.mean < G2.mean`. -/
theorem C6_witness :
    ∃ r1 r2 r3 m1 m2 m3,
      ((test_equal_n ℝ).fit Real.sqrt Real.log).2.results = .ok [r1, r2, r3] ∧
      r1.name = "G1" ∧ r2.name = "G2" ∧ r3.name = "G3" ∧
      r1.n = 4 ∧ r2.n = 4 ∧ r3.n = 4 ∧
      r1.mean = some m1 ∧ r2.mean = some m2 ∧ r3.mean = some m3 ∧ m3 < m1 ∧ m1 < m2 := by
  obtain ⟨rs, hrs, hlen, hname, hn, hmean⟩ :=
    C6_one_result_per_group Real.sqrt Real.log (test_options ℝ) (test_equal_n_calls ℝ)
      (test_equal_n ℝ) (test_equal_n_reached _ _) (test_equal_n_fit_ok _ _)
  have hga : groups_added (test_equal_n_calls ℝ) = (test_equal_n ℝ).groups_ := rfl
  rw [hga] at hlen hname hn hmean
  match rs, hlen with
  | [r1, r2, r3], _ =>
    simp only [test_equal_n, List.map_cons, List.map_nil, List.cons.injEq, and_true] at hname hn hmean
    obtain ⟨n1, n2, n3⟩ := hname
    obtain ⟨k1, k2, k3⟩ := hn
    obtain ⟨e1, e2, e3⟩ := hmean
    refine ⟨r1, r2, r3, _, _, _, hrs, n1, n2, n3, by simpa using k1, by simpa using k2,
      by simpa using k3, e1, e2, e3, ?_, ?_⟩ <;> norm_num

/-- C7: after any sequence of `add_group`, `clear` and `fit` calls on a fresh
engine, each of the accessors `grand_mean()`, `s_within()` and `results()`
succeeds if and only if the most recent call that succeeded was a `fit`. -/
theorem C7_accessors_ok_iff_last_ok_is_fit (sqrt log : α → α) (opt : AnomOptions α)
    (cs : List (AnomCall α)) :
    ((after sqrt log opt cs).grand_mean.isOk = true ↔ last_ok sqrt log opt cs = some .fit) ∧
    ((after sqrt log opt cs).s_within.isOk = true ↔ last_ok sqrt log opt cs = some .fit) ∧
    ((after sqrt log opt cs).results.isOk = true ↔ last_ok sqrt log opt cs = some .fit) := by
  have h := after_computed_iff sqrt log opt cs
  cases hc : (after sqrt log opt cs).computed_ with
  | false =>
    rw [hc] at h
    simp only [grand_mean, s_within, results, ensure_computed, hc]
    simpa [Except.isOk, Except.toBool] using h
  | true =>
    rw [hc] at h
    simp only [grand_mean, s_within, results, ensure_computed, hc]
    simpa [Except.isOk, Except.toBool] using h

/-- C8: on an engine reached by any call sequence, `fit()` fails when no groups
are held and fails when the pooled degrees of freedom `Σ (n_i - 1)` are
`≤ 0` (which, for a non-empty set of groups, is the case exactly when every
group has one observation); after such a failure the three accessors fail. -/
theorem C8_fit_fails_without_groups_or_df (sqrt log : α → α) (opt : AnomOptions α)
    (cs : List (AnomCall α)) (s : Anom α) (hs : s = after sqrt log opt cs)
    (h : s.groups_ = [] ∨ df_pooled s.groups_ ≤ 0) :
    (s.fit sqrt log).1 = .error (if s.groups_.isEmpty then "Anom::fit: no groups to fit"
      else "Anom::fit: insufficient degrees of freedom") ∧
    (s.fit sqrt log).2.grand_mean = .error "Anom: fit() has not been called" ∧
    (s.fit sqrt log).2.s_within = .error "Anom: fit() has not been called" ∧
    (s.fit sqrt log).2.results = .error "Anom: fit() has not been called" ∧
    (df_pooled s.groups_ ≤ 0 ↔ ∀ g ∈ s.groups_, g.values.length = 1) := by
  have hinv : Inv sqrt log s := by rw [hs]; exact inv_after sqrt log opt cs
  have herr : (s.fit sqrt log).1 = .error (if s.groups_.isEmpty then "Anom::fit: no groups to fit"
      else "Anom::fit: insufficient degrees of freedom") := by
    rcases fit_cases sqrt log s with ⟨hg, hf⟩ | ⟨hg, _, hf⟩ | ⟨hg, hdf, _⟩ | ⟨hg, hdf, _⟩
    · rw [hf, hg]; rfl
    · rw [hf]
      cases hgs : s.groups_ with
      | nil => exact absurd hgs hg
      | cons _ _ => rfl
    · rcases h with h | h
      · exact absurd h hg
      · exact absurd hdf (not_lt.mpr h)
    · rcases h with h | h
      · exact absurd h hg
      · exact absurd hdf (not_lt.mpr h)
  have hcomp := fit_error_not_computed sqrt log s hinv _ herr
  refine ⟨herr, ?_, ?_, ?_, (df_pooled_nonpos_iff s.groups_ hinv.1).2⟩ <;>
    simp only [grand_mean, s_within, results, ensure_computed, hcomp] <;> rfl

/-- Witness of C8: two groups of one observation each. -/
theorem C8_witness :
    ((single_observation_groups ℝ).fit Real.sqrt Real.log).1
      = .error "Anom::fit: insufficient degrees of freedom" ∧
    ((single_observation_groups ℝ).fit Real.sqrt Real.log).2.results
      = .error "Anom: fit() has not been called" := by
  have h := C8_fit_fails_without_groups_or_df Real.sqrt Real.log (test_options ℝ)
    [.add_group "A" [1.0], .add_group "B" [2.0]] (single_observation_groups ℝ) rfl
    (Or.inr (by simp [single_observation_groups, df_pooled]))
  exact ⟨h.1, h.2.2.2.1⟩

/-- C9: `add_group(name, values)` fails if and only if `values` is empty; when
it fails the engine state is unchanged, and when it succeeds the group is
appended after the existing groups with its values unchanged and the accessors
fail (the engine is no longer fitted). -/
theorem C9_add_group (s : Anom α) (name : String) (values : List α) (x : α) (xs : List α) :
    ((s.add_group name values).1.isOk = false ↔ values = []) ∧
    s.add_group name [] = (.error ("Anom::add_group: group has no values: " ++ name), s) ∧
    s.add_group name (x :: xs) =
      (.ok (), { s with groups_ := s.groups_ ++ [{ name := name, values := x :: xs }],
                        computed_ := false }) ∧
    (s.add_group name (x :: xs)).2.grand_mean = .error "Anom: fit() has not been called" ∧
    (s.add_group name (x :: xs)).2.s_within = .error "Anom: fit() has not been called" ∧
    (s.add_group name (x :: xs)).2.results = .error "Anom: fit() has not been called" := by
  refine ⟨?_, rfl, rfl, rfl, rfl, rfl⟩
  cases values with
  | nil => simp [add_group, Except.isOk, Except.toBool]
  | cons y ys => simp [add_group, Except.isOk, Except.toBool]

/-- C10: `clear()` succeeds from any state and leaves the state of a freshly
constructed engine with the same options: no groups, no results, `fit()` fails
for lack of groups, the accessors fail, and any later calls behave as on a
fresh engine, so that the groups held are exactly those added after the
clear. -/
theorem C10_clear_resets (sqrt log : α → α) (s : Anom α) (cs : List (AnomCall α)) :
    s.clear = (.ok (), new s.opt_) ∧
    s.clear.2.opt_ = s.opt_ ∧ s.clear.2.groups_ = [] ∧ s.clear.2.results_ = [] ∧
    s.clear.2.fit sqrt log = (.error "Anom::fit: no groups to fit", s.clear.2) ∧
    s.clear.2.results = .error "Anom: fit() has not been called" ∧
    (exec sqrt log s.clear.2 none cs).1 = after sqrt log s.opt_ cs ∧
    (exec sqrt log s.clear.2 none cs).1.groups_ = groups_added cs := by
  have h : s.clear = (.ok (), new s.opt_) := rfl
  refine ⟨h, rfl, rfl, rfl, rfl, rfl, ?_, ?_⟩
  · rw [h]; rfl
  · rw [h]
    exact after_groups sqrt log s.opt_ cs

end Anom

namespace Anom

variable {α : Type} [LinearOrderedField α]

/-- C11 at the failing input: with `bonferroni` off and `alpha = 1.5` (groups of
`test_anom_equal_n_basic`, pooled degrees of freedom 9) `fit()` does not fail:
it succeeds and the accessors return values. -/
theorem C11_fit_accepts_alpha_out_of_range :
    (alpha_out_of_range ℝ).groups_.length = 3 ∧
    df_pooled (alpha_out_of_range ℝ).groups_ = 9 ∧
    ¬((0 : ℝ) < (alpha_out_of_range ℝ).opt_.alpha ∧ (alpha_out_of_range ℝ).opt_.alpha < 1) ∧
    ((alpha_out_of_range ℝ).fit Real.sqrt Real.log).1 = .ok () ∧
    ((alpha_out_of_range ℝ).fit Real.sqrt Real.log).2.results.isOk = true := by
  have hdf : df_pooled (alpha_out_of_range ℝ).groups_ = 9 := by
    simp [alpha_out_of_range, df_pooled]
  have hfit : ((alpha_out_of_range ℝ).fit Real.sqrt Real.log).1 = .ok () := by
    apply fit_ok_of_critical
    · simp [alpha_out_of_range]
    · rw [hdf]; norm_num
    · rw [critical_values_no_bonferroni Real.sqrt Real.log _ _ _ _ _ rfl (by rw [hdf]; norm_num)]
      norm_num [alpha_out_of_range]
  refine ⟨rfl, hdf, ?_, hfit, ?_⟩
  · norm_num [alpha_out_of_range]
  · have hc := fit_ok_computed Real.sqrt Real.log _ hfit
    simp [results, ensure_computed, hc, Except.isOk, Except.toBool]

end Anom

namespace stat_util

variable {α : Type} [LinearOrderedField α]

/-- C12: `normal_quantile_approx(p)` fails if and only if `p <= 0` or `p >= 1`,
and returns a value exactly for `0 < p < 1`. -/
theorem C12_normal_quantile_fails_iff (sqrt log : α → α) (p : α) :
    (normal_quantile_approx sqrt log p = .error "normal_quantile_approx: p must be in (0,1)"
      ↔ p ≤ 0 ∨ p ≥ 1) ∧
    ((normal_quantile_approx sqrt log p).isOk = false ↔ p ≤ 0 ∨ p ≥ 1) ∧
    ((∃ z, normal_quantile_approx sqrt log p = .ok z) ↔ 0 < p ∧ p < 1) := by
  by_cases h : p ≤ 0 ∨ p ≥ 1
  · have he := normal_quantile_approx_error sqrt log p h
    have hn : ¬(0 < p ∧ p < 1) := by
      rintro ⟨h0, h1⟩
      rcases h with h | h
      · exact absurd h0 (not_lt.mpr h)
      · exact absurd h1 (not_lt.mpr h)
    simp [he, h, hn, Except.isOk, Except.toBool]
  · have h' : 0 < p ∧ p < 1 := by
      push_neg at h
      exact h
    obtain ⟨z, hz⟩ := normal_quantile_approx_ok sqrt log p h'.1 h'.2
    simp [hz, h, h', Except.isOk, Except.toBool]

/-- C13 fails in binary64: `p = 1e-20` lies in `(0,1)` and
`normal_quantile_approx(p)` returns a value, but `1 - p` is rounded to 1, so
`normal_quantile_approx(1 - p)` throws; whatever `std::log` returns. -/
theorem C13_counterexample :
    (0 : Binary64) < 1e-20 ∧ (1e-20 : Binary64) < 1 ∧ (1 : Binary64) - 1e-20 = 1 ∧
    ∀ log : Binary64 → Binary64,
      (∃ z, normal_quantile_approx Binary64.sqrt log 1e-20 = .ok z) ∧
      normal_quantile_approx Binary64.sqrt log (1 - 1e-20)
        = .error "normal_quantile_approx: p must be in (0,1)" := by
  refine ⟨by decide!, by decide!, by decide!, fun log => ⟨?_, ?_⟩⟩
  · unfold normal_quantile_approx
    rw [if_neg (by decide!)]
    simp only [if_pos (show (1e-20 : Binary64) < 0.02425 by decide!)]
    exact ⟨_, rfl⟩
  · exact (normal_quantile_approx_log_free Binary64.sqrt log Binary64.sqrt (fun x => x) _
      (by decide!)).trans (by decide!)

/-- C13 (amended): in exact arithmetic (over every linearly ordered field),
for every `p` in `(0,1)`, `normal_quantile_approx(1 - p)` is the negative of
`normal_quantile_approx(p)`, and `normal_quantile_approx(0.5) = 0`. -/
theorem C13_normal_quantile_symmetry (sqrt log : α → α) (p : α) (h0 : 0 < p) (h1 : p < 1) :
    (∃ z, normal_quantile_approx sqrt log p = .ok z ∧
      normal_quantile_approx sqrt log (1 - p) = .ok (-z)) ∧
    normal_quantile_approx sqrt log 0.5 = .ok 0 := by
  have h0' : 0 < 1 - p := by linarith
  have h1' : 1 - p < 1 := by linarith
  constructor
  · refine ⟨_, normal_quantile_approx_eq sqrt log p h0 h1, ?_⟩
    rw [normal_quantile_approx_eq sqrt log (1 - p) h0' h1']
    congr 1
    by_cases hlo : p < 0.02425
    · have hn : ¬(1 - p < 0.02425) := by
        norm_num at hlo ⊢
        linarith
      have hu : 1 - p > 1 - 0.02425 := by linarith
      rw [if_pos hlo, if_neg hn, if_pos hu, sub_sub_cancel]
    · by_cases hup : p > 1 - 0.02425
      · have hl : 1 - p < 0.02425 := by linarith
        rw [if_neg hlo, if_pos hup, if_pos hl, neg_neg]
      · have hn1 : ¬(1 - p < 0.02425) := by
          intro h
          apply hup
          linarith
        have hn2 : ¬(1 - p > 1 - 0.02425) := by
          intro h
          apply hlo
          linarith
        rw [if_neg hlo, if_neg hup, if_neg hn1, if_neg hn2, ← central_ratio_neg]
        congr 1
        norm_num
        ring
  · rw [normal_quantile_approx_eq sqrt log 0.5 (by norm_num) (by norm_num)]
    have hn1 : ¬((0.5 : α) < 0.02425) := by norm_num
    have hn2 : ¬((0.5 : α) > 1 - 0.02425) := by norm_num
    rw [if_neg hn1, if_neg hn2, sub_self, central_ratio_zero]

/-- Witness of C13 at `p = 0.25`. -/
theorem C13_witness :
    ∃ z, normal_quantile_approx Real.sqrt Real.log (0.25 : ℝ) = .ok z ∧
      normal_quantile_approx Real.sqrt Real.log (1 - 0.25 : ℝ) = .ok (-z) :=
  (C13_normal_quantile_symmetry Real.sqrt Real.log (0.25 : ℝ) (by norm_num) (by norm_num)).1

/-- C14 fails in binary64: `0.21878159977561393 < 0.21878159977561404` are
both in the central region, and the value for the smaller one is the larger;
whatever `std::log` returns. -/
theorem C14_counterexample :
    (0 : Binary64) < 0.21878159977561393 ∧
    (0.21878159977561393 : Binary64) < 0.21878159977561404 ∧
    (0.21878159977561404 : Binary64) < 1 ∧
    (-0.7763146925158833 : Binary64) < -0.776314692515883 ∧
    ∀ log : Binary64 → Binary64,
      normal_quantile_approx Binary64.sqrt log 0.21878159977561393
        = .ok (-0.776314692515883) ∧
      normal_quantile_approx Binary64.sqrt log 0.21878159977561404
        = .ok (-0.7763146925158833) := by
  refine ⟨by decide!, by decide!, by decide!, by decide!, fun log => ⟨?_, ?_⟩⟩
  · exact (normal_quantile_approx_log_free Binary64.sqrt log Binary64.sqrt (fun x => x) _
      (by decide!)).trans (by decide!)
  · exact (normal_quantile_approx_log_free Binary64.sqrt log Binary64.sqrt (fun x => x) _
      (by decide!)).trans (by decide!)

/-- C14 (amended): in exact real arithmetic, `normal_quantile_approx` is
strictly increasing on `(0,1)`: for `0 < p1 < p2 < 1` both calls return a value
and the first is smaller, also when `p1` and `p2` lie in different regions. -/
theorem C14_normal_quantile_strictly_increasing (p1 p2 : ℝ) (h0 : 0 < p1) (h12 : p1 < p2)
    (h1 : p2 < 1) :
    ∃ z1 z2, normal_quantile_approx Real.sqrt Real.log p1 = .ok z1 ∧
      normal_quantile_approx Real.sqrt Real.log p2 = .ok z2 ∧ z1 < z2 :=
  ⟨_, _, normal_quantile_approx_eq Real.sqrt Real.log p1 h0 (lt_trans h12 h1),
    normal_quantile_approx_eq Real.sqrt Real.log p2 (lt_trans h0 h12) h1,
    quantile_branches_strict_mono p1 p2 h0 h12 h1⟩

/-- Witness of C14 across the lower region boundary: `p1 = 0.02` (lower tail)
and `p2 = 0.03` (central region). -/
theorem C14_witness :
    ∃ z1 z2, normal_quantile_approx Real.sqrt Real.log (0.02 : ℝ) = .ok z1 ∧
      normal_quantile_approx Real.sqrt Real.log (0.03 : ℝ) = .ok z2 ∧ z1 < z2 :=
  C14_normal_quantile_strictly_increasing 0.02 0.03 (by norm_num) (by norm_num) (by norm_num)

/-- C15: `student_t_quantile_approx(p, df)` fails if `df <= 0` and fails if `p`
is not in `(0,1)`; otherwise, with `z = normal_quantile_approx(p)`, it returns
`z` when `df > 30` and `z + (z^3 + z) / (4 df)` when `0 < df <= 30`. -/
theorem C15_student_t_quantile (sqrt log : α → α) (p df : α) :
    (df ≤ 0 → student_t_quantile_approx sqrt log p df
      = .error "student_t_quantile_approx: df must be > 0") ∧
    (0 < df → p ≤ 0 ∨ p ≥ 1 → student_t_quantile_approx sqrt log p df
      = .error "normal_quantile_approx: p must be in (0,1)") ∧
    (0 < df → 0 < p → p < 1 → ∃ z, normal_quantile_approx sqrt log p = .ok z ∧
      (30 < df → student_t_quantile_approx sqrt log p df = .ok z) ∧
      (df ≤ 30 → student_t_quantile_approx sqrt log p df = .ok (z + (z ^ 3 + z) / (4 * df)))) := by
  refine ⟨student_t_quantile_approx_df_error sqrt log p df,
    student_t_quantile_approx_p_error sqrt log p df, ?_⟩
  intro hdf h0 h1
  obtain ⟨z, hz⟩ := normal_quantile_approx_ok sqrt log p h0 h1
  refine ⟨z, hz, ?_, ?_⟩
  · intro h
    rw [student_t_quantile_approx_eq sqrt log p df z hdf hz, if_pos h]
  · intro h
    rw [student_t_quantile_approx_eq sqrt log p df z hdf hz, if_neg (not_lt.mpr h)]

/-- Witness of C15 at `p = 0.75` with `df = 9` and `df = 40`. -/
theorem C15_witness :
    ∃ z, normal_quantile_approx Real.sqrt Real.log (0.75 : ℝ) = .ok z ∧
      student_t_quantile_approx Real.sqrt Real.log 0.75 40 = .ok z ∧
      student_t_quantile_approx Real.sqrt Real.log 0.75 9 = .ok (z + (z ^ 3 + z) / (4 * 9)) := by
  obtain ⟨z, hz, _, h9⟩ := (C15_student_t_quantile Real.sqrt Real.log (0.75 : ℝ) 9).2.2
    (by norm_num) (by norm_num) (by norm_num)
  obtain ⟨z', hz', h40, _⟩ := (C15_student_t_quantile Real.sqrt Real.log (0.75 : ℝ) 40).2.2
    (by norm_num) (by norm_num) (by norm_num)
  rw [hz] at hz'
  cases hz'
  exact ⟨z, hz, h40 (by norm_num), h9 (by norm_num)⟩

end stat_util

namespace stat_util

variable {α : Type} [LinearOrderedField α]

/-- C16 fails at `p = 0.75`: at `df = 30` the correction term is still applied
and the Student-t quantile differs from the normal quantile by more than
`1e-9` (by more than `0.005`). -/
theorem C16_counterexample :
    ∃ t z, student_t_quantile_approx Real.sqrt Real.log (0.75 : ℝ) 30 = .ok t ∧
      normal_quantile_approx Real.sqrt Real.log (0.75 : ℝ) = .ok z ∧
      ¬(|t - z| ≤ 1e-9) := by
  have hz := normal_quantile_approx_eq Real.sqrt Real.log (0.75 : ℝ) (by norm_num) (by norm_num)
  have hn1 : ¬((0.75 : ℝ) < 0.02425) := by norm_num
  have hn2 : ¬((0.75 : ℝ) > 1 - 0.02425) := by norm_num
  rw [if_neg hn1, if_neg hn2] at hz
  have ht := student_t_quantile_approx_eq Real.sqrt Real.log (0.75 : ℝ) 30 _ (by norm_num) hz
  rw [if_neg (by norm_num)] at ht
  refine ⟨_, _, ht, hz, ?_⟩
  have hlow : (1 / 2 : ℝ) ≤ central_ratio (0.75 - 0.5 : ℝ) := by
    unfold central_ratio
    norm_num
  generalize central_ratio (0.75 - 0.5 : ℝ) = z at hlow
  have hz3 : 0 ≤ z ^ 3 := by positivity
  rw [add_sub_cancel_left, abs_of_nonneg (by positivity)]
  norm_num
  linarith

/-- C16 as amended: for every `p` in `(0,1)` and every `df > 30` the Student-t
quantile is the normal quantile itself (so they agree within `1e-9`), while at
`df = 30` the corrected value `z + (z^3 + z) / 120` is returned. -/
theorem C16_student_t_equals_normal_above_30 (sqrt log : α → α) (p df : α)
    (h0 : 0 < p) (h1 : p < 1) (hdf : 30 < df) :
    ∃ z t, normal_quantile_approx sqrt log p = .ok z ∧
      student_t_quantile_approx sqrt log p df = .ok t ∧ t = z ∧ |t - z| ≤ 1e-9 ∧
      student_t_quantile_approx sqrt log p 30 = .ok (z + (z ^ 3 + z) / 120) := by
  obtain ⟨z, hz⟩ := normal_quantile_approx_ok sqrt log p h0 h1
  refine ⟨z, z, hz, ?_, rfl, ?_, ?_⟩
  · rw [student_t_quantile_approx_eq sqrt log p df z (by linarith) hz, if_pos hdf]
  · rw [sub_self, abs_zero]
    norm_num
  · rw [student_t_quantile_approx_eq sqrt log p 30 z (by norm_num) hz, if_neg (by norm_num)]
    norm_num

/-- Witness of the amended C16 at `p = 0.75`, `df = 31`. -/
theorem C16_witness :
    ∃ z t, normal_quantile_approx Real.sqrt Real.log (0.75 : ℝ) = .ok z ∧
      student_t_quantile_approx Real.sqrt Real.log (0.75 : ℝ) 31 = .ok t ∧ t = z ∧
      |t - z| ≤ 1e-9 ∧
      student_t_quantile_approx Real.sqrt Real.log (0.75 : ℝ) 30
        = .ok (z + (z ^ 3 + z) / 120) :=
  C16_student_t_equals_normal_above_30 Real.sqrt Real.log (0.75 : ℝ) 31
    (by norm_num) (by norm_num) (by norm_num)

end stat_util

namespace stat_util

variable {α : Type} [LinearOrderedField α]

/-- C17: for valid inputs (`0 < alpha < 1`, `a > 1`, `n > 0`, `df > 0`),
`anom_tcrit_bonferroni(alpha, a, df)` is `student_t_quantile_approx(1 -
(alpha/a)/2, df)` with no further scaling, `anom_h_bonferroni_equal_n(alpha, a,
n, df)` is that value times `sqrt((a-1)/a)`, and it does not depend on `n`. -/
theorem C17_bonferroni_critical_values (sqrt log : α → α) (alpha : α) (a n df : Int)
    (h0 : 0 < alpha) (h1 : alpha < 1) (ha : 1 < a) (hn : 0 < n) (hdf : 0 < df) :
    ∃ t, student_t_quantile_approx sqrt log (1 - alpha / (a : α) / 2) (df : α) = .ok t ∧
      anom_tcrit_bonferroni sqrt log alpha a df = .ok t ∧
      anom_h_bonferroni_equal_n sqrt log alpha a n df
        = .ok (t * sqrt ((((a - 1 : Int) : α)) / (a : α))) ∧
      ∀ n' : Int, 0 < n' → anom_h_bonferroni_equal_n sqrt log alpha a n' df
        = anom_h_bonferroni_equal_n sqrt log alpha a n df := by
  have hc1 : ¬(alpha ≤ 0.0 ∨ alpha ≥ 1.0) := by
    norm_num
    exact ⟨h0, h1⟩
  have hc2 : ¬(a ≤ 1 ∨ df ≤ 0) := by
    push_neg
    exact ⟨ha, hdf⟩
  have hc3 : ∀ m : Int, 0 < m → ¬(a ≤ 1 ∨ m ≤ 0 ∨ df ≤ 0) := by
    intro m hm
    push_neg
    exact ⟨ha, hm, hdf⟩
  have e1 : (1.0 : α) = 1 := by norm_num
  have e2 : (2.0 : α) = 2 := by norm_num
  have hp := bonferroni_p_range alpha a h0 h1 ha
  rw [e1, e2] at hp
  have hdf' : (0 : α) < (df : α) := by exact_mod_cast hdf
  obtain ⟨t, ht⟩ := student_t_quantile_approx_ok sqrt log _ _ hp.1 hp.2 hdf'
  have hh : ∀ m : Int, 0 < m → anom_h_bonferroni_equal_n sqrt log alpha a m df
      = .ok (t * sqrt ((((a - 1 : Int) : α)) / (a : α))) := by
    intro m hm
    unfold anom_h_bonferroni_equal_n
    rw [if_neg hc1, if_neg (hc3 m hm)]
    simp only [e1, e2, ht]
  refine ⟨t, ht, ?_, hh n hn, ?_⟩
  · unfold anom_tcrit_bonferroni
    rw [if_neg hc1, if_neg hc2]
    simp only [e1, e2, ht]
  · intro n' hn'
    rw [hh n' hn', hh n hn]

/-- Witness of C17 at `alpha = 0.05`, `a = 3`, `n = 4`, `df = 9`. -/
theorem C17_witness :
    ∃ t, student_t_quantile_approx Real.sqrt Real.log (1 - 0.05 / ((3 : Int) : ℝ) / 2)
        ((9 : Int) : ℝ) = .ok t ∧
      anom_tcrit_bonferroni Real.sqrt Real.log (0.05 : ℝ) 3 9 = .ok t ∧
      anom_h_bonferroni_equal_n Real.sqrt Real.log (0.05 : ℝ) 3 4 9
        = .ok (t * Real.sqrt ((((3 - 1 : Int) : ℝ)) / ((3 : Int) : ℝ))) ∧
      ∀ n' : Int, 0 < n' → anom_h_bonferroni_equal_n Real.sqrt Real.log (0.05 : ℝ) 3 n' 9
        = anom_h_bonferroni_equal_n Real.sqrt Real.log (0.05 : ℝ) 3 4 9 :=
  C17_bonferroni_critical_values Real.sqrt Real.log (0.05 : ℝ) 3 4 9
    (by norm_num) (by norm_num) (by norm_num) (by norm_num) (by norm_num)

/-- C18 fails in binary64: `alpha = 1e-17`, `a = 2`, `n = 4`, `df = 10` pass
both guards, but `1 - (alpha/a)/2` is rounded to 1 and the inner
`normal_quantile_approx` throws; whatever `std::log` returns. -/
theorem C18_counterexample :
    (0 : Binary64) < 1e-17 ∧ (1e-17 : Binary64) < 1 ∧
    ∀ log : Binary64 → Binary64,
      anom_h_bonferroni_equal_n Binary64.sqrt log 1e-17 2 4 10
        = .error "normal_quantile_approx: p must be in (0,1)" ∧
      anom_tcrit_bonferroni Binary64.sqrt log 1e-17 2 10
        = .error "normal_quantile_approx: p must be in (0,1)" := by
  refine ⟨by decide!, by decide!, fun log => ⟨?_, ?_⟩⟩
  · exact (anom_h_bonferroni_equal_n_log_free Binary64.sqrt log (fun x => x) _ _ _ _
      (by decide!)).trans (by decide!)
  · exact (anom_tcrit_bonferroni_log_free Binary64.sqrt log (fun x => x) _ _ _
      (by decide!)).trans (by decide!)

/-- C18 (amended): in exact arithmetic (over every linearly ordered field),
`anom_h_bonferroni_equal_n(alpha, a, n, df)` fails if and only if `alpha <= 0`
or `alpha >= 1` or `a <= 1` or `n <= 0` or `df <= 0`, and
`anom_tcrit_bonferroni(alpha, a, df)` fails if and only if `alpha <= 0` or
`alpha >= 1` or `a <= 1` or `df <= 0`; on all other inputs both return a
value. -/
theorem C18_bonferroni_failures (sqrt log : α → α) (alpha : α) (a n df : Int) :
    ((anom_h_bonferroni_equal_n sqrt log alpha a n df).isOk = false
      ↔ alpha ≤ 0 ∨ alpha ≥ 1 ∨ a ≤ 1 ∨ n ≤ 0 ∨ df ≤ 0) ∧
    ((∃ h, anom_h_bonferroni_equal_n sqrt log alpha a n df = .ok h)
      ↔ ¬(alpha ≤ 0 ∨ alpha ≥ 1 ∨ a ≤ 1 ∨ n ≤ 0 ∨ df ≤ 0)) ∧
    ((anom_tcrit_bonferroni sqrt log alpha a df).isOk = false
      ↔ alpha ≤ 0 ∨ alpha ≥ 1 ∨ a ≤ 1 ∨ df ≤ 0) ∧
    ((∃ t, anom_tcrit_bonferroni sqrt log alpha a df = .ok t)
      ↔ ¬(alpha ≤ 0 ∨ alpha ≥ 1 ∨ a ≤ 1 ∨ df ≤ 0)) := by
  have hH : (anom_h_bonferroni_equal_n sqrt log alpha a n df).isOk = false
      ↔ alpha ≤ 0 ∨ alpha ≥ 1 ∨ a ≤ 1 ∨ n ≤ 0 ∨ df ≤ 0 := by
    by_cases hα : alpha ≤ 0.0 ∨ alpha ≥ 1.0
    · have hα' : alpha ≤ 0 ∨ alpha ≥ 1 := by
        norm_num at hα
        exact hα
      unfold anom_h_bonferroni_equal_n
      rw [if_pos hα]
      constructor
      · intro _
        rcases hα' with h | h
        · exact Or.inl h
        · exact Or.inr (Or.inl h)
      · intro _
        rfl
    · by_cases hi : a ≤ 1 ∨ n ≤ 0 ∨ df ≤ 0
      · unfold anom_h_bonferroni_equal_n
        rw [if_neg hα, if_pos hi]
        constructor
        · intro _
          exact Or.inr (Or.inr hi)
        · intro _
          rfl
      · have hα' : 0 < alpha ∧ alpha < 1 := by
          norm_num at hα
          exact hα
        have hi' : 1 < a ∧ 0 < n ∧ 0 < df := by
          push_neg at hi
          exact hi
        obtain ⟨h, hh⟩ := anom_h_bonferroni_equal_n_ok sqrt log alpha a n df hα'.1 hα'.2
          hi'.1 hi'.2.1 hi'.2.2
        rw [hh]
        constructor
        · intro hf
          simp [Except.isOk, Except.toBool] at hf
        · intro hor
          rcases hor with h | h | h | h | h
          · exact absurd hα'.1 (not_lt.mpr h)
          · exact absurd hα'.2 (not_lt.mpr h)
          · exact absurd hi'.1 (not_lt.mpr h)
          · exact absurd hi'.2.1 (not_lt.mpr h)
          · exact absurd hi'.2.2 (not_lt.mpr h)
  have hT : (anom_tcrit_bonferroni sqrt log alpha a df).isOk = false
      ↔ alpha ≤ 0 ∨ alpha ≥ 1 ∨ a ≤ 1 ∨ df ≤ 0 := by
    by_cases hα : alpha ≤ 0.0 ∨ alpha ≥ 1.0
    · have hα' : alpha ≤ 0 ∨ alpha ≥ 1 := by
        norm_num at hα
        exact hα
      unfold anom_tcrit_bonferroni
      rw [if_pos hα]
      constructor
      · intro _
        rcases hα' with h | h
        · exact Or.inl h
        · exact Or.inr (Or.inl h)
      · intro _
        rfl
    · by_cases hi : a ≤ 1 ∨ df ≤ 0
      · unfold anom_tcrit_bonferroni
        rw [if_neg hα, if_pos hi]
        constructor
        · intro _
          exact Or.inr (Or.inr hi)
        · intro _
          rfl
      · have hα' : 0 < alpha ∧ alpha < 1 := by
          norm_num at hα
          exact hα
        have hi' : 1 < a ∧ 0 < df := by
          push_neg at hi
          exact hi
        obtain ⟨t, ht⟩ := anom_tcrit_bonferroni_ok sqrt log alpha a df hα'.1 hα'.2
          hi'.1 hi'.2
        rw [ht]
        constructor
        · intro hf
          simp [Except.isOk, Except.toBool] at hf
        · intro hor
          rcases hor with h | h | h | h
          · exact absurd hα'.1 (not_lt.mpr h)
          · exact absurd hα'.2 (not_lt.mpr h)
          · exact absurd hi'.1 (not_lt.mpr h)
          · exact absurd hi'.2 (not_lt.mpr h)
  have hok : ∀ (r : Except String α), (∃ v, r = .ok v) ↔ ¬(r.isOk = false) := by
    intro r
    cases r with
    | error e => simp [Except.isOk, Except.toBool]
    | ok v => simp [Except.isOk, Except.toBool]
  refine ⟨hH, ?_, hT, ?_⟩
  · rw [hok, hH]
  · rw [hok, hT]

end stat_util

section design_claims

variable {α : Type}

/-- C19: when the build succeeds, the design matrix has `oa.runs` rows and one
column per selected factor (`oa.factors` columns when no subset is given), and
its entry `[r][j]` is `levels[f_j][oa.at(r, f_j)]`, `f_j` being the `j`-th
selected factor (a successful build has made every access in bounds, so the
well-formedness of the array need not be assumed). -/
theorem C19_design_matrix_shape_and_entries (oa : OrthogonalArray)
    (levels : List (FactorLevels α)) (factor_indices : List Int)
    (design design_sub : List (List α)) :
    (build_design_from_orthogonal_array oa levels = .ok design →
      (design.length : Int) = oa.runs ∧
      (∀ row ∈ design, (row.length : Int) = oa.factors) ∧
      ∀ r f : Nat, (r : Int) < oa.runs → (f : Int) < oa.factors →
        ∃ row v li fl, design[r]? = some row ∧ row[f]? = some v ∧
          oa.at_ (r : Int) (f : Int) = .ok li ∧ subscript levels (f : Int) = .ok fl ∧
          subscript fl.levels li = .ok v) ∧
    (build_design_from_orthogonal_array_for_factors oa levels factor_indices = .ok design_sub →
      (design_sub.length : Int) = oa.runs ∧
      (∀ row ∈ design_sub, row.length = factor_indices.length) ∧
      ∀ (r j : Nat) (f_j : Int), (r : Int) < oa.runs → factor_indices[j]? = some f_j →
        ∃ row v li fl, design_sub[r]? = some row ∧ row[j]? = some v ∧
          oa.at_ (r : Int) f_j = .ok li ∧ subscript levels f_j = .ok fl ∧
          subscript fl.levels li = .ok v) := by
  constructor
  · intro hall
    unfold build_design_from_orthogonal_array at hall
    split at hall
    · cases hall
    · split at hall
      · cases hall
      · rename_i _ hneg
        push_neg at hneg
        have hlen := for_each_ok_length _ _ _ hall
        rw [List.length_range] at hlen
        refine ⟨by omega, ?_, ?_⟩
        · intro row hrow
          obtain ⟨r, _, hr⟩ := for_each_ok_mem _ _ _ hall row hrow
          have := for_each_ok_length _ _ _ hr
          rw [List.length_range] at this
          omega
        · intro r f hr hf
          have hr' : (List.range oa.runs.toNat)[r]? = some r :=
            List.getElem?_range (by omega)
          obtain ⟨row, hrow, hbody⟩ := for_each_ok_get _ _ _ hall r r hr'
          have hf' : (List.range oa.factors.toNat)[f]? = some f :=
            List.getElem?_range (by omega)
          obtain ⟨v, hv, hentry⟩ := for_each_ok_get _ _ _ hbody f f hf'
          obtain ⟨li, fl, h1, h2, h3⟩ := (design_entry_ok_iff _ _ _ _ _ _).mp hentry
          exact ⟨row, v, li, fl, hrow, hv, h1, h2, h3⟩
  · intro hsub
    unfold build_design_from_orthogonal_array_for_factors at hsub
    cases hfi : factor_indices with
    | nil => rw [hfi] at hsub; cases hsub
    | cons i0 rest =>
      rw [hfi] at hsub
      simp only [] at hsub
      split at hsub
      · cases hsub
      · split at hsub
        · cases hsub
        · split at hsub
          · cases hsub
          · rename_i _ _ hneg
            have hlen := for_each_ok_length _ _ _ hsub
            rw [List.length_range] at hlen
            refine ⟨by omega, ?_, ?_⟩
            · intro row hrow
              obtain ⟨r, _, hr⟩ := for_each_ok_mem _ _ _ hsub row hrow
              exact for_each_ok_length _ _ _ hr
            · intro r j f_j hr hj
              have hr' : (List.range oa.runs.toNat)[r]? = some r :=
                List.getElem?_range (by omega)
              obtain ⟨row, hrow, hbody⟩ := for_each_ok_get _ _ _ hsub r r hr'
              obtain ⟨v, hv, hentry⟩ := for_each_ok_get _ _ _ hbody j f_j hj
              obtain ⟨li, fl, h1, h2, h3⟩ := (design_entry_ok_iff _ _ _ _ _ _).mp hentry
              exact ⟨row, v, li, fl, hrow, hv, h1, h2, h3⟩

/-- Witness of C19 on `test_orthogonal_array_design`: `OA_L4_2_3` with every
factor coded `{-1, +1}` gives four rows of three columns, row 0 being
`(-1,-1,-1)` and row 3 `(+1,+1,-1)`; the subset `(0, 2)` gives two columns. -/
theorem C19_witness :
    ∃ design design_sub : List (List ℝ),
      build_design_from_orthogonal_array OA_L4_2_3 (test_levels ℝ) = .ok design ∧
      build_design_from_orthogonal_array_for_factors OA_L4_2_3 (test_levels ℝ) [0, 2]
        = .ok design_sub ∧
      design[0]? = some ([-1.0, -1.0, -1.0] : List ℝ) ∧
      design[3]? = some ([1.0, 1.0, -1.0] : List ℝ) ∧
      (design.length : Int) = 4 ∧ (∀ row ∈ design, (row.length : Int) = 3) ∧
      (design_sub.length : Int) = 4 ∧ (∀ row ∈ design_sub, row.length = 2) := by
  have h := C19_design_matrix_shape_and_entries OA_L4_2_3 (test_levels ℝ) [0, 2]
    [[-1.0, -1.0, -1.0], [-1.0, 1.0, 1.0], [1.0, -1.0, 1.0], [1.0, 1.0, -1.0]]
    [[-1.0, -1.0], [-1.0, 1.0], [1.0, 1.0], [1.0, -1.0]]
  exact ⟨_, _, rfl, rfl, rfl, rfl, (h.1 rfl).1, (h.1 rfl).2.1, (h.2 rfl).1, (h.2 rfl).2.1⟩

/-- C20: for a well-formed orthogonal array, the all-factors build throws if
and only if fewer `FactorLevels` entries are supplied than the array has
factors, or some run's level index for some factor is negative or not below
the size of that factor's level table; otherwise it returns a design. -/
theorem C20_build_fails_iff (oa : OrthogonalArray) (levels : List (FactorLevels α))
    (hwf : oa.well_formed) :
    ((∃ msg, build_design_from_orthogonal_array oa levels = .error (.runtime_error msg)) ↔
      ((levels.length : Int) < oa.factors ∨
        ∃ r f : Nat, (r : Int) < oa.runs ∧ (f : Int) < oa.factors ∧ ∃ li fl,
          oa.at_ (r : Int) (f : Int) = .ok li ∧ subscript levels (f : Int) = .ok fl ∧
          (li < 0 ∨ li ≥ (fl.levels.length : Int)))) ∧
    ((∃ design, build_design_from_orthogonal_array oa levels = .ok design) ↔
      ¬((levels.length : Int) < oa.factors ∨
        ∃ r f : Nat, (r : Int) < oa.runs ∧ (f : Int) < oa.factors ∧ ∃ li fl,
          oa.at_ (r : Int) (f : Int) = .ok li ∧ subscript levels (f : Int) = .ok fl ∧
          (li < 0 ∨ li ≥ (fl.levels.length : Int)))) ∧
    build_design_from_orthogonal_array oa levels ≠ .error .length_error ∧
    build_design_from_orthogonal_array oa levels ≠ .error .out_of_bounds := by
  obtain ⟨hruns, hfactors, hdata⟩ := hwf
  have hwf : oa.well_formed := ⟨hruns, hfactors, hdata⟩
  by_cases hsize : (levels.length : Int) < oa.factors
  · have hb : build_design_from_orthogonal_array oa levels = .error (.runtime_error
        "build_design_from_orthogonal_array: not enough FactorLevels") := by
      unfold build_design_from_orthogonal_array
      rw [if_pos hsize]
    rw [hb]
    refine ⟨⟨fun _ => Or.inl hsize, fun _ => ⟨_, rfl⟩⟩, ⟨?_, ?_⟩, by simp, by simp⟩
    · rintro ⟨d, hd⟩
      cases hd
    · intro hn
      exact absurd (Or.inl hsize) hn
  · have hneg : ¬(oa.factors < 0 ∨ oa.runs < 0) := by
      push_neg
      exact ⟨hfactors, hruns⟩
    have hb : build_design_from_orthogonal_array oa levels =
        for_each (fun r : Nat =>
          for_each (fun f : Nat =>
            design_entry "build_design_from_orthogonal_array: level index out of range"
              oa levels (r : Int) (f : Int))
            (List.range oa.factors.toNat))
          (List.range oa.runs.toNat) := by
      unfold build_design_from_orthogonal_array
      rw [if_neg hsize, if_neg hneg]
    -- every entry of the table can be read, and every factor has a level table
    have hread : ∀ r f : Nat, (r : Int) < oa.runs → (f : Int) < oa.factors →
        ∃ li fl, oa.at_ (r : Int) (f : Int) = .ok li ∧ subscript levels (f : Int) = .ok fl := by
      intro r f hr hf
      obtain ⟨li, hli⟩ := at_ok_of_well_formed oa hwf r f hr hf
      obtain ⟨fl, hfl⟩ := subscript_ok_of_lt levels (f : Int) (by positivity) (by omega)
      exact ⟨li, fl, hli, hfl⟩
    by_cases hbad : ∃ r f : Nat, (r : Int) < oa.runs ∧ (f : Int) < oa.factors ∧ ∃ li fl,
          oa.at_ (r : Int) (f : Int) = .ok li ∧ subscript levels (f : Int) = .ok fl ∧
          (li < 0 ∨ li ≥ (fl.levels.length : Int))
    · -- some entry is out of range: its row throws, and so does the build
      have hthrow : build_design_from_orthogonal_array oa levels = .error (.runtime_error
          "build_design_from_orthogonal_array: level index out of range") := by
        rw [hb]
        cases hres : for_each (fun r : Nat =>
          for_each (fun f : Nat =>
            design_entry "build_design_from_orthogonal_array: level index out of range"
              oa levels (r : Int) (f : Int))
            (List.range oa.factors.toNat))
          (List.range oa.runs.toNat) with
        | error e =>
          obtain ⟨r, hr, hrow⟩ := for_each_error_mem _ _ _ hres
          obtain ⟨f, hf, hentry⟩ := for_each_error_mem _ _ _ hrow
          rw [List.mem_range] at hr hf
          obtain ⟨li, fl, hli, hfl⟩ := hread r f (by omega) (by omega)
          rcases design_entry_cases
            "build_design_from_orthogonal_array: level index out of range"
            oa levels r f li fl hli hfl with ⟨_, he⟩ | ⟨_, v, hv⟩
          · rw [he] at hentry
            cases hentry
            rfl
          · rw [hv] at hentry
            cases hentry
        | ok design =>
          obtain ⟨r, f, hr, hf, li, fl, hli, hfl, hout⟩ := hbad
          have hr' : (List.range oa.runs.toNat)[r]? = some r :=
            List.getElem?_range (by omega)
          obtain ⟨row, _, hbody⟩ := for_each_ok_get _ _ _ hres r r hr'
          have hf' : (List.range oa.factors.toNat)[f]? = some f :=
            List.getElem?_range (by omega)
          obtain ⟨v, _, hentry⟩ := for_each_ok_get _ _ _ hbody f f hf'
          rcases design_entry_cases
            "build_design_from_orthogonal_array: level index out of range"
            oa levels r f li fl hli hfl with ⟨_, he⟩ | ⟨hgood, _⟩
          · rw [he] at hentry
            cases hentry
          · exact absurd hout hgood
      rw [hthrow]
      refine ⟨⟨fun _ => Or.inr hbad, fun _ => ⟨_, rfl⟩⟩, ⟨?_, ?_⟩, by simp, by simp⟩
      · rintro ⟨d, hd⟩
        cases hd
      · intro hn
        exact absurd (Or.inr hbad) hn
    · -- every entry is in range: every row and the build succeed
      have hok : ∃ design, build_design_from_orthogonal_array oa levels = .ok design := by
        rw [hb]
        apply for_each_ok_of_forall
        intro r hr
        apply for_each_ok_of_forall
        intro f hf
        rw [List.mem_range] at hr hf
        obtain ⟨li, fl, hli, hfl⟩ := hread r f (by omega) (by omega)
        rcases design_entry_cases
          "build_design_from_orthogonal_array: level index out of range"
          oa levels r f li fl hli hfl with ⟨hout, _⟩ | ⟨_, hv⟩
        · exact absurd ⟨r, f, by omega, by omega, li, fl, hli, hfl, hout⟩ hbad
        · exact hv
      obtain ⟨d, hd⟩ := hok
      rw [hd]
      refine ⟨⟨?_, ?_⟩, ⟨fun _ => ?_, fun _ => ⟨_, rfl⟩⟩, by simp, by simp⟩
      · rintro ⟨msg, hm⟩
        cases hm
      · rintro (h | h)
        · exact absurd h hsize
        · exact absurd h hbad
      · rintro (h | h)
        · exact absurd h hsize
        · exact absurd h hbad

/-- Witness of C20: `OA_L4_2_3` is well-formed; with the three `{-1, +1}`
tables the build returns a design, with only two tables it throws. -/
theorem C20_witness :
    (∃ design, build_design_from_orthogonal_array OA_L4_2_3 (test_levels ℝ) = .ok design) ∧
    (∃ msg, build_design_from_orthogonal_array OA_L4_2_3 ((test_levels ℝ).take 2)
      = .error (.runtime_error msg)) := by
  have hwf : OA_L4_2_3.well_formed := by
    refine ⟨by decide, by decide, by decide⟩
  have h3 := C20_build_fails_iff OA_L4_2_3 (test_levels ℝ) hwf
  have h2 := C20_build_fails_iff OA_L4_2_3 ((test_levels ℝ).take 2) hwf
  refine ⟨⟨_, rfl⟩, h2.1.mpr (Or.inl ?_)⟩
  simp [test_levels, OA_L4_2_3]

end design_claims

section subset_index_claim

/-- C21 (violated by the code): the factor-subset build compares only the
largest requested index with the factor count and with the number of level
tables. An index at or above the factor count is refused with the index error
before any lookup, but a negative index passes both comparisons: for the subset
`[0, -1]` of `OA_L4_2_3` the build goes on to the array lookup
`oa.at(0, -1)`, an access outside the table, and ends with that fault and not
with an index error. -/
theorem C21_negative_index_reaches_lookup :
    build_design_from_orthogonal_array_for_factors OA_L4_2_3 (test_levels ℝ) [0, -1]
      = .error .out_of_bounds ∧
    OA_L4_2_3.at_ 0 (-1) = .error .out_of_bounds ∧
    OA_L4_2_3.at_ 1 (-1) = .ok 0 ∧
    subscript (test_levels ℝ) (-1) = .error .out_of_bounds ∧
    (∀ oa : OrthogonalArray, ∀ all_levels : List (FactorLevels ℝ), ∀ factor_indices : List Int,
      (∃ i ∈ factor_indices, oa.factors ≤ i) →
      build_design_from_orthogonal_array_for_factors oa all_levels factor_indices
        = .error (.runtime_error
            "build_design_from_orthogonal_array_for_factors: factor index out of OA range")) := by
  refine ⟨rfl, rfl, rfl, rfl, ?_⟩
  intro oa all_levels factor_indices ⟨i, hi, hle⟩
  cases factor_indices with
  | nil => simp at hi
  | cons i0 rest =>
    have hmax : oa.factors ≤ max_element i0 rest := by
      rcases List.mem_cons.mp hi with rfl | h
      · exact le_trans hle (le_max_element _ rest).1
      · exact le_trans hle ((le_max_element i0 rest).2 i h)
    unfold build_design_from_orthogonal_array_for_factors
    simp only [ge_iff_le, if_pos hmax]

end subset_index_claim

namespace ResponseSurfaceQuadratic

variable {α : Type} [LinearOrderedField α]

/-- C22: for every point `x` of length `k` the basis row built by `fit` and the
one built by `predict` are the same sequence: the constant 1, then the entries
of `x`, then their squares, then the products `x_i * x_j` for `i < j` in
lexicographic order; its length is `1 + k + k + k(k-1)/2`. After a successful
fit, whose solve returns one coefficient per column of the basis matrix,
`coefficients()` is the solution for the matrix of these rows and has that
length for `k = num_factors()`. -/
theorem C22_basis_row_order_and_length (qr_solve : List (List α) → List α → List α)
    (s : ResponseSurfaceQuadratic α) (design : List (List α)) (y x : List α)
    (hfit : (fit qr_solve s design y).1 = .ok true)
    (hsolve : (qr_solve (design.map quadratic_basis) y).length
      = ((design.map quadratic_basis).headD []).length) :
    basis_row (x.length : Int) x
      = .ok (1 :: (x ++ x.map (fun v => v * v) ++ cross_terms x)) ∧
    predict_basis (x.length : Int) x
      = .ok (1 :: (x ++ x.map (fun v => v * v) ++ cross_terms x)) ∧
    ((1 :: (x ++ x.map (fun v => v * v) ++ cross_terms x)).length : Int)
      = 1 + (x.length : Int) + (x.length : Int)
        + Int.tdiv ((x.length : Int) * ((x.length : Int) - 1)) 2 ∧
    (fit qr_solve s design y).2.coefficients
      = qr_solve (design.map (fun row => 1 :: (row ++ row.map (fun v => v * v) ++ cross_terms row)))
          y ∧
    ((fit qr_solve s design y).2.coefficients.length : Int)
      = 1 + (fit qr_solve s design y).2.num_factors + (fit qr_solve s design y).2.num_factors
        + Int.tdiv ((fit qr_solve s design y).2.num_factors
            * ((fit qr_solve s design y).2.num_factors - 1)) 2 := by
  refine ⟨basis_row_eq x, predict_basis_eq x, quadratic_basis_length x, ?_, ?_⟩
  · rcases rsq_fit_cases qr_solve s design y with ⟨_, h⟩ | ⟨_, _, h⟩ | ⟨_, _, _, h⟩ |
      ⟨_, _, _, h⟩
    · rw [h] at hfit
      cases hfit
    · rw [h] at hfit
      cases hfit
    · rw [h] at hfit
      cases hfit
    · rw [h]
      rfl
  · rcases rsq_fit_cases qr_solve s design y with ⟨_, h⟩ | ⟨_, _, h⟩ | ⟨_, _, _, h⟩ |
      ⟨hne, _, _, h⟩
    · rw [h] at hfit
      cases hfit
    · rw [h] at hfit
      cases hfit
    · rw [h] at hfit
      cases hfit
    · rw [h]
      simp only [coefficients, num_factors]
      rw [hsolve]
      cases design with
      | nil => exact absurd rfl hne
      | cons x0 rest =>
        simp only [List.map_cons, List.headD_cons]
        exact quadratic_basis_length x0

/-- C22 at the point `(2, 3, 5)` and for a fit on the single design point
`(2, 3)` with a solve that returns one zero per column. -/
theorem C22_witness :
    (fit (fun Phi _ => (Phi.headD []).map (fun _ => (0 : ℝ))) {} [[2, 3]] [1]).1 = .ok true ∧
    basis_row 3 ([2, 3, 5] : List ℝ) = .ok [1, 2, 3, 5, 2 * 2, 3 * 3, 5 * 5, 2 * 3, 2 * 5, 3 * 5] ∧
    predict_basis 3 ([2, 3, 5] : List ℝ)
      = .ok [1, 2, 3, 5, 2 * 2, 3 * 3, 5 * 5, 2 * 3, 2 * 5, 3 * 5] ∧
    ((fit (fun Phi _ => (Phi.headD []).map (fun _ => (0 : ℝ))) {} [[2, 3]]
      [1]).2.coefficients.length : Int) = 6 := by
  have h := C22_basis_row_order_and_length (fun Phi _ => (Phi.headD []).map (fun _ => (0 : ℝ)))
    {} [[2, 3]] [1] [2, 3, 5] rfl rfl
  refine ⟨rfl, h.1, h.2.1, ?_⟩
  have h5 := h.2.2.2.2
  have hk : (fit (fun Phi _ => (Phi.headD []).map (fun _ => (0 : ℝ))) {} [[2, 3]] [1]).2.num_factors
      = 2 := rfl
  rw [hk] at h5
  exact h5.trans (by decide)

end ResponseSurfaceQuadratic

namespace ResponseSurfaceQuadratic

variable {α : Type} [LinearOrderedField α]

/-- C23 (as stated, refuted): `fit` also returns `false` for a non-empty design
whose rows all have the same length when the response vector has another
length than the design; here one design row and no response. -/
theorem C23_counterexample :
    (fit (fun _ _ => []) ({} : ResponseSurfaceQuadratic ℝ) [[1, 2]] []).1 = .ok false ∧
    ([[1, 2]] : List (List ℝ)) ≠ [] ∧
    ∀ row ∈ ([[1, 2]] : List (List ℝ)), ∀ row' ∈ ([[1, 2]] : List (List ℝ)),
      row.length = row'.length := by
  refine ⟨rfl, by simp, ?_⟩
  intro row hrow row' hrow'
  rw [List.mem_singleton.mp hrow, List.mem_singleton.mp hrow']

/-- C23 (amended): `fit(design, y)` never raises; it returns `false` exactly
when the design has no rows, or the response vector has another length than
the design, or two design rows differ in length, and returns `true` in every
other case. -/
theorem C23_fit_returns_false_iff (qr_solve : List (List α) → List α → List α)
    (s : ResponseSurfaceQuadratic α) (design : List (List α)) (y : List α) :
    ((fit qr_solve s design y).1 = .ok false ↔
      (design = [] ∨ y.length ≠ design.length ∨
        ∃ row ∈ design, ∃ row' ∈ design, row.length ≠ row'.length)) ∧
    ((fit qr_solve s design y).1 = .ok true ↔
      ¬(design = [] ∨ y.length ≠ design.length ∨
        ∃ row ∈ design, ∃ row' ∈ design, row.length ≠ row'.length)) ∧
    ((fit qr_solve s design y).1 = .ok false ∨ (fit qr_solve s design y).1 = .ok true) := by
  have hhead : design ≠ [] → design.headD [] ∈ design := by
    intro hne
    cases design with
    | nil => exact absurd rfl hne
    | cons x0 rest => simp
  rcases rsq_fit_cases qr_solve s design y with ⟨h0, h⟩ | ⟨_, hy, h⟩ | ⟨hne, _, hrow, h⟩ |
    ⟨hne, hy, hrect, h⟩
  · rw [h]
    refine ⟨⟨fun _ => Or.inl h0, fun _ => rfl⟩, ⟨?_, ?_⟩, Or.inl rfl⟩
    · intro hc
      cases hc
    · intro hn
      exact absurd (Or.inl h0) hn
  · rw [h]
    refine ⟨⟨fun _ => Or.inr (Or.inl hy), fun _ => rfl⟩, ⟨?_, ?_⟩, Or.inl rfl⟩
    · intro hc
      cases hc
    · intro hn
      exact absurd (Or.inr (Or.inl hy)) hn
  · rw [h]
    obtain ⟨row, hmem, hlen⟩ := hrow
    have hd : ∃ row ∈ design, ∃ row' ∈ design, row.length ≠ row'.length :=
      ⟨row, hmem, design.headD [], hhead hne, hlen⟩
    refine ⟨⟨fun _ => Or.inr (Or.inr hd), fun _ => rfl⟩, ⟨?_, ?_⟩, Or.inl rfl⟩
    · intro hc
      cases hc
    · intro hn
      exact absurd (Or.inr (Or.inr hd)) hn
  · rw [h]
    have hn : ¬(design = [] ∨ y.length ≠ design.length ∨
        ∃ row ∈ design, ∃ row' ∈ design, row.length ≠ row'.length) := by
      rintro (h0 | hy' | ⟨row, hmem, row', hmem', hlen⟩)
      · exact hne h0
      · exact hy' hy
      · exact hlen ((hrect row hmem).trans (hrect row' hmem').symm)
    refine ⟨⟨?_, fun hc => absurd hc hn⟩, ⟨fun _ => hn, fun _ => rfl⟩, Or.inr rfl⟩
    intro hc
    cases hc

/-- C24 (violated by the code): after a successful fit with two factors, a fit
call that fails on a row-length mismatch has already overwritten `k_` with 1
while the six coefficients stay. `predict` for a point of length 1 then passes
both of its checks and takes the dot product of the stored coefficients with a
basis row of three entries: whenever the first solve returned six coefficients
this is a product of vectors of different sizes, not a prediction. -/
theorem C24_predict_after_failed_fit (qr_solve : List (List ℝ) → List ℝ → List ℝ) :
    (fit qr_solve {} [[0, 0]] [1]).1 = .ok true ∧
    (fit qr_solve (fit qr_solve {} [[0, 0]] [1]).2 [[1], [1, 2]] [1, 2]).1 = .ok false ∧
    predict (fit qr_solve (fit qr_solve {} [[0, 0]] [1]).2 [[1], [1, 2]] [1, 2]).2 [5]
      = dot (qr_solve [[1, 0, 0, 0 * 0, 0 * 0, 0 * 0]] [1]) [1, 5, 5 * 5] ∧
    ((qr_solve [[1, 0, 0, 0 * 0, 0 * 0, 0 * 0]] [1]).length = 6 →
      predict (fit qr_solve (fit qr_solve {} [[0, 0]] [1]).2 [[1], [1, 2]] [1, 2]).2 [5]
        = .error .out_of_bounds) := by
  have hp : predict (fit qr_solve (fit qr_solve {} [[0, 0]] [1]).2 [[1], [1, 2]] [1, 2]).2 [5]
      = dot (qr_solve [[1, 0, 0, 0 * 0, 0 * 0, 0 * 0]] [1]) [1, 5, 5 * 5] := by
    have h1 := rsq_fit_ok qr_solve {} [[0, 0]] [1] (by simp) rfl (by simp)
    have hb : (fit qr_solve (fit qr_solve {} [[0, 0]] [1]).2 [[1], [1, 2]] [1, 2]).2.beta_
        = qr_solve [[1, 0, 0, 0 * 0, 0 * 0, 0 * 0]] [1] := by
      rw [h1]
      rfl
    rw [predict_eq _ [5] rfl rfl, hb]
    rfl
  refine ⟨rfl, rfl, hp, ?_⟩
  intro hlen
  rw [hp]
  apply dot_length_error
  rw [hlen]
  decide

/-- C27 (violated by the code): `fit` assigns `k_` from the first design row
before it compares the lengths of the other rows, so a fit call that fails on
that comparison changes `num_factors()`. After a successful fit with two
factors, the failing call `fit([[1], [1, 2]], [1, 2])` leaves the flag and the
coefficients but sets `num_factors()` to 1; when the first solve returned six
coefficients the model is then fitted with a coefficient count other than
`1 + k + k + k(k-1)/2`. -/
theorem C27_failed_fit_changes_num_factors (qr_solve : List (List ℝ) → List ℝ → List ℝ) :
    (∀ s : ResponseSurfaceQuadratic ℝ,
      fit qr_solve s [[1], [1, 2]] [1, 2] = (.ok false, { s with k_ := 1 })) ∧
    (fit qr_solve {} [[0, 0]] [1]).1 = .ok true ∧
    (fit qr_solve {} [[0, 0]] [1]).2.num_factors = 2 ∧
    (fit qr_solve (fit qr_solve {} [[0, 0]] [1]).2 [[1], [1, 2]] [1, 2]).1 = .ok false ∧
    (fit qr_solve (fit qr_solve {} [[0, 0]] [1]).2 [[1], [1, 2]] [1, 2]).2.num_factors = 1 ∧
    (fit qr_solve (fit qr_solve {} [[0, 0]] [1]).2 [[1], [1, 2]] [1, 2]).2.fitted_ = true ∧
    (fit qr_solve (fit qr_solve {} [[0, 0]] [1]).2 [[1], [1, 2]] [1, 2]).2.coefficients
      = (fit qr_solve {} [[0, 0]] [1]).2.coefficients ∧
    (((fit qr_solve {} [[0, 0]] [1]).2.coefficients.length : Int) = num_columns 2 →
      ((fit qr_solve (fit qr_solve {} [[0, 0]] [1]).2 [[1], [1, 2]] [1, 2]).2.coefficients.length
          : Int)
        ≠ num_columns
            (fit qr_solve (fit qr_solve {} [[0, 0]] [1]).2 [[1], [1, 2]] [1, 2]).2.num_factors) := by
  refine ⟨fun s => rfl, rfl, rfl, rfl, rfl, rfl, rfl, ?_⟩
  intro h
  have h2 : (fit qr_solve (fit qr_solve {} [[0, 0]] [1]).2 [[1], [1, 2]] [1, 2]).2.coefficients
      = (fit qr_solve {} [[0, 0]] [1]).2.coefficients := rfl
  have h3 : (fit qr_solve (fit qr_solve {} [[0, 0]] [1]).2 [[1], [1, 2]] [1, 2]).2.num_factors
      = 1 := rfl
  rw [h2, h3, h]
  decide

end ResponseSurfaceQuadratic

namespace ResponseSurfaceQuadratic

variable {α : Type} [LinearOrderedField α]

/-- C25: round trip of the quadratic fit. For a non-empty design of points of
length `k` whose quadratic basis matrix has full column rank, and a coefficient
vector `b` with one entry per basis column, fitting the noiseless responses
`y_r = basis(x_r) . b` with a solve that returns a least-squares solution
returns `true` with `coefficients()` equal to `b`, and then `predict(x)` is
`basis(x) . b` for every `x` of length `k`. -/
theorem C25_noiseless_round_trip (qr_solve : List (List α) → List α → List α)
    (s : ResponseSurfaceQuadratic α) (design : List (List α)) (b : List α) (k : Nat)
    (hne : design ≠ []) (hk : ∀ row ∈ design, row.length = k)
    (hb : (b.length : Int) = num_columns (k : Int))
    (hrank : full_column_rank (design.map quadratic_basis))
    (hls : is_least_squares (design.map quadratic_basis)
      (design.map (fun x_r => dot_sum (quadratic_basis x_r) b))
      (qr_solve (design.map quadratic_basis)
        (design.map (fun x_r => dot_sum (quadratic_basis x_r) b)))) :
    (fit qr_solve s design (design.map (fun x_r => dot_sum (quadratic_basis x_r) b))).1
      = .ok true ∧
    (fit qr_solve s design
      (design.map (fun x_r => dot_sum (quadratic_basis x_r) b))).2.coefficients = b ∧
    (fit qr_solve s design
      (design.map (fun x_r => dot_sum (quadratic_basis x_r) b))).2.num_factors = (k : Int) ∧
    ∀ x : List α, x.length = k →
      predict (fit qr_solve s design
        (design.map (fun x_r => dot_sum (quadratic_basis x_r) b))).2 x
        = .ok (dot_sum (quadratic_basis x) b) := by
  have hhead : (design.headD []).length = k := by
    cases design with
    | nil => exact absurd rfl hne
    | cons x0 rest => exact hk x0 (List.mem_cons_self _ _)
  have hrect : ∀ row ∈ design, row.length = (design.headD []).length := by
    intro row hrow
    rw [hk row hrow, hhead]
  have hcols : ((design.map quadratic_basis).headD []).length = b.length := by
    cases design with
    | nil => exact absurd rfl hne
    | cons x0 rest =>
      simp only [List.map_cons, List.headD_cons]
      have h1 := quadratic_basis_length x0
      rw [hk x0 (List.mem_cons_self _ _), ← hb] at h1
      exact_mod_cast h1
  have hy : design.map (fun x_r => dot_sum (quadratic_basis x_r) b)
      = (design.map quadratic_basis).map (fun row => dot_sum row b) := by
    rw [List.map_map]
    rfl
  have hbeta : qr_solve (design.map quadratic_basis)
      (design.map (fun x_r => dot_sum (quadratic_basis x_r) b)) = b := by
    apply least_squares_noiseless (design.map quadratic_basis) b _ hcols.symm hrank
    rw [← hy]
    exact hls
  have hfit := rsq_fit_ok qr_solve s design
    (design.map (fun x_r => dot_sum (quadratic_basis x_r) b)) hne (by simp) hrect
  rw [hfit, hbeta, hhead]
  refine ⟨rfl, rfl, rfl, ?_⟩
  intro x hx
  rw [predict_eq _ x rfl (by simp [hx])]
  have hlen : b.length = (quadratic_basis x).length := by
    have h1 := quadratic_basis_length x
    rw [hx, ← hb] at h1
    exact_mod_cast h1.symm
  simp only []
  rw [dot_eq b (quadratic_basis x) hlen, dot_sum_comm]

/-- C26: for every non-empty rectangular design with a response vector of the
same length, `fit` returns `true`, whatever the rank of the basis matrix, and
stores the result of the solve for the basis matrix and the responses
unchanged: with a solve that returns a least-squares solution, the stored
coefficients minimise the residual sum of squares over all coefficient
vectors. -/
theorem C26_fit_stores_least_squares_solution (qr_solve : List (List α) → List α → List α)
    (s : ResponseSurfaceQuadratic α) (design : List (List α)) (y : List α)
    (hne : design ≠ [])
    (hrect : ∀ row ∈ design, ∀ row' ∈ design, row.length = row'.length)
    (hy : y.length = design.length)
    (hls : is_least_squares (design.map quadratic_basis) y
      (qr_solve (design.map quadratic_basis) y)) :
    (fit qr_solve s design y).1 = .ok true ∧
    (fit qr_solve s design y).2.fitted_ = true ∧
    (fit qr_solve s design y).2.coefficients = qr_solve (design.map quadratic_basis) y ∧
    (fit qr_solve s design y).2.coefficients.length
      = ((design.map quadratic_basis).headD []).length ∧
    ∀ beta : List α, beta.length = (fit qr_solve s design y).2.coefficients.length →
      residual_sq (design.map quadratic_basis) y (fit qr_solve s design y).2.coefficients
        ≤ residual_sq (design.map quadratic_basis) y beta := by
  have hhead : design.headD [] ∈ design := by
    cases design with
    | nil => exact absurd rfl hne
    | cons x0 rest => simp
  rw [rsq_fit_ok qr_solve s design y hne hy (fun row hrow => hrect row hrow _ hhead)]
  exact ⟨rfl, rfl, rfl, hls.1, hls.2⟩

end ResponseSurfaceQuadratic

namespace ResponseSurfaceQuadratic

/-- C25 on the grid of `test_response_surface_quadratic_fit`, with the
coefficients `(10, 2, -1, 0.5, -0.3, 1.2)` and the prediction at
`(0.7, -0.4)`. -/
theorem C25_witness :
    test_grid ℝ ≠ [] ∧ (∀ row ∈ test_grid ℝ, row.length = 2) ∧
    full_column_rank ((test_grid ℝ).map quadratic_basis) ∧
    (fit (fun _ _ => test_coefficients ℝ) {} (test_grid ℝ)
      ((test_grid ℝ).map (fun x_r => dot_sum (quadratic_basis x_r) (test_coefficients ℝ)))).1
      = .ok true ∧
    (fit (fun _ _ => test_coefficients ℝ) {} (test_grid ℝ)
      ((test_grid ℝ).map (fun x_r => dot_sum (quadratic_basis x_r)
        (test_coefficients ℝ)))).2.coefficients = [10.0, 2.0, -1.0, 0.5, -0.3, 1.2] ∧
    predict (fit (fun _ _ => test_coefficients ℝ) {} (test_grid ℝ)
      ((test_grid ℝ).map (fun x_r => dot_sum (quadratic_basis x_r)
        (test_coefficients ℝ)))).2 [0.7, -0.4] = .ok 11.661 := by
  have hne : test_grid ℝ ≠ [] := by simp [test_grid]
  have hk : ∀ row ∈ test_grid ℝ, row.length = 2 := by
    intro row hrow
    simp only [test_grid, List.mem_flatMap, List.mem_map] at hrow
    obtain ⟨i, _, j, _, rfl⟩ := hrow
    rfl
  have hmem : ∀ i ∈ ([-2, -1, 0, 1, 2] : List Int), ∀ j ∈ ([-2, -1, 0, 1, 2] : List Int),
      quadratic_basis [(i : ℝ) * 0.5, (j : ℝ) * 0.5] ∈ (test_grid ℝ).map quadratic_basis := by
    intro i hi j hj
    simp only [test_grid, List.mem_map, List.mem_flatMap]
    exact ⟨_, ⟨i, hi, j, hj, rfl⟩, rfl⟩
  have hrank : full_column_rank ((test_grid ℝ).map quadratic_basis) := by
    intro v hv hrows
    have hcols : ((test_grid ℝ).map quadratic_basis).headD [] = quadratic_basis
        [((-2 : Int) : ℝ) * 0.5, ((-2 : Int) : ℝ) * 0.5] := rfl
    rw [hcols] at hv
    match v, hv with
    | [a, b, c, d, e, f], _ =>
      have h00 := hrows _ (hmem 0 (by simp) 0 (by simp))
      have h20 := hrows _ (hmem 2 (by simp) 0 (by simp))
      have hm0 := hrows _ (hmem (-2) (by simp) 0 (by simp))
      have h02 := hrows _ (hmem 0 (by simp) 2 (by simp))
      have h0m := hrows _ (hmem 0 (by simp) (-2) (by simp))
      have h22 := hrows _ (hmem 2 (by simp) 2 (by simp))
      simp only [quadratic_basis, cross_terms, dot_sum, List.map_cons, List.map_nil,
        List.cons_append, List.nil_append, List.append_nil, List.zipWith_cons_cons,
        List.zipWith_nil_right, List.sum_cons, List.sum_nil] at h00 h20 hm0 h02 h0m h22
      norm_num at h00 h20 hm0 h02 h0m h22
      have ha : a = 0 := h00
      have hb : b = 0 := by linarith
      have hd : d = 0 := by linarith
      have hc : c = 0 := by linarith
      have he : e = 0 := by linarith
      have hf : f = 0 := by linarith
      intro t ht
      simp only [List.mem_cons, List.mem_singleton, List.not_mem_nil, or_false] at ht
      rcases ht with rfl | rfl | rfl | rfl | rfl | rfl <;> assumption
  have h := C25_noiseless_round_trip (fun _ _ => test_coefficients ℝ) {} (test_grid ℝ)
    (test_coefficients ℝ) 2 hne hk (by decide) hrank
    (is_least_squares_noiseless (test_grid ℝ) (test_coefficients ℝ) rfl)
  refine ⟨hne, hk, hrank, h.1, ?_, ?_⟩
  · rw [h.2.1]
    rfl
  · rw [h.2.2.2 [0.7, -0.4] rfl]
    simp only [quadratic_basis, cross_terms, dot_sum, test_coefficients, List.map_cons,
      List.map_nil, List.cons_append, List.nil_append, List.append_nil, List.zipWith_cons_cons,
      List.zipWith_nil_right, List.sum_cons, List.sum_nil]
    norm_num

/-- C26 on a design whose basis matrix has rank 2 with 3 columns: the points
`-1` and `1` of one factor, whose squared column repeats the constant one. -/
theorem C26_witness :
    ¬ full_column_rank (([[-1], [1]] : List (List ℝ)).map quadratic_basis) ∧
    (fit (fun _ _ => [1, 1, 0]) ({} : ResponseSurfaceQuadratic ℝ) [[-1], [1]] [0, 2]).1
      = .ok true ∧
    (fit (fun _ _ => [1, 1, 0]) ({} : ResponseSurfaceQuadratic ℝ) [[-1], [1]]
      [0, 2]).2.coefficients = [1, 1, 0] ∧
    ∀ beta : List ℝ, beta.length = 3 →
      residual_sq (([[-1], [1]] : List (List ℝ)).map quadratic_basis) [0, 2]
        (fit (fun _ _ => [1, 1, 0]) ({} : ResponseSurfaceQuadratic ℝ) [[-1], [1]]
          [0, 2]).2.coefficients
        ≤ residual_sq (([[-1], [1]] : List (List ℝ)).map quadratic_basis) [0, 2] beta := by
  have hres : residual_sq (([[-1], [1]] : List (List ℝ)).map quadratic_basis) [0, 2] [1, 1, 0]
      = 0 := by
    simp only [residual_sq, quadratic_basis, cross_terms, dot_sum, List.map_cons, List.map_nil,
      List.cons_append, List.nil_append, List.append_nil, List.zipWith_cons_cons,
      List.zipWith_nil_right, List.zip_cons_cons, List.zip_nil_right, List.sum_cons,
      List.sum_nil]
    norm_num
  have h := C26_fit_stores_least_squares_solution (fun _ _ => ([1, 1, 0] : List ℝ)) {}
    [[-1], [1]] [0, 2] (by simp)
    (by
      intro row hrow row' hrow'
      simp only [List.mem_cons, List.mem_singleton, List.not_mem_nil, or_false] at hrow hrow'
      rcases hrow with rfl | rfl <;> rcases hrow' with rfl | rfl <;> rfl)
    rfl
    ⟨rfl, fun beta _ => by
      rw [hres]
      exact residual_sq_nonneg _ _ _⟩
  refine ⟨?_, h.1, h.2.2.1, h.2.2.2.2⟩
  intro hfull
  have hz := hfull [1, 0, -1] rfl (by
    intro row hrow
    simp only [List.map_cons, List.map_nil, List.mem_cons, List.mem_singleton,
      List.not_mem_nil, or_false] at hrow
    rcases hrow with rfl | rfl <;>
      simp [quadratic_basis, cross_terms, dot_sum]) 1 (by simp)
  norm_num at hz

end ResponseSurfaceQuadratic

section doe_analysis_claims

variable {α : Type} [LinearOrderedField α]

/-- C28: when the number of responses differs from the run count of the array,
`run_doe_full_analysis` and `build_anom_for_all_factors` throw their
"y size must match oa.runs" error and `build_anom_for_factor` throws either its
factor-index error or its "y size must match oa.runs" error; none of them
returns a value. -/
theorem C28_response_count_mismatch_fails (qr_solve : List (List α) → List α → List α)
    (sqrt log : α → α) (oa : OrthogonalArray) (all_levels : List (FactorLevels α))
    (factor_indices_for_rs : List Int) (y : List α) (factor_idx : Int) (factor_name : String)
    (factor_names : List String) (opt : AnomOptions α) (hy : (y.length : Int) ≠ oa.runs) :
    run_doe_full_analysis qr_solve sqrt log oa all_levels factor_indices_for_rs y factor_names opt
      = .error (.runtime_error "run_doe_full_analysis: y size must match oa.runs") ∧
    build_anom_for_all_factors sqrt log oa y factor_names opt
      = .error (.runtime_error "build_anom_for_all_factors: y size must match oa.runs") ∧
    (build_anom_for_factor sqrt log oa y factor_idx factor_name opt
        = .error (.runtime_error "build_anom_for_factor: factor_idx out of range") ∨
      build_anom_for_factor sqrt log oa y factor_idx factor_name opt
        = .error (.runtime_error "build_anom_for_factor: y size must match oa.runs")) := by
  refine ⟨?_, ?_, ?_⟩
  · unfold run_doe_full_analysis
    rw [if_pos hy]
  · unfold build_anom_for_all_factors
    rw [if_pos hy]
  · unfold build_anom_for_factor build_anom_groups
    by_cases hidx : factor_idx < 0 ∨ factor_idx ≥ oa.factors
    · left
      rw [if_pos hidx]
    · right
      rw [if_neg hidx, if_pos hy]

/-- C28 on `OA_L8_2_7` (8 runs) with 3 responses. -/
theorem C28_witness :
    ((([1, 2, 3] : List ℝ).length : Int) ≠ OA_L8_2_7.runs) ∧
    run_doe_full_analysis (fun _ _ => []) Real.sqrt Real.log OA_L8_2_7 (test_levels_L8 ℝ) [0, 1]
        [1, 2, 3] [] (Anom.test_options ℝ)
      = .error (.runtime_error "run_doe_full_analysis: y size must match oa.runs") ∧
    build_anom_for_all_factors Real.sqrt Real.log OA_L8_2_7 [1, 2, 3] [] (Anom.test_options ℝ)
      = .error (.runtime_error "build_anom_for_all_factors: y size must match oa.runs") ∧
    build_anom_for_factor Real.sqrt Real.log OA_L8_2_7 [1, 2, 3] 0 "A" (Anom.test_options ℝ)
      = .error (.runtime_error "build_anom_for_factor: y size must match oa.runs") := by
  have h := C28_response_count_mismatch_fails (fun _ _ => []) Real.sqrt Real.log OA_L8_2_7
    (test_levels_L8 ℝ) [0, 1] ([1, 2, 3] : List ℝ) 0 "A" [] (Anom.test_options ℝ) (by decide)
  exact ⟨by decide, h.1, h.2.1, rfl⟩

/-- C29: for a factor of an array of the declared shape whose entries are level
indices, and one response per run, `build_anom_for_factor` adds exactly one
group for every level that has at least one run, in increasing level order and
skipping the levels without runs; the group of the 0-based level `l` is named
`<factor_name>_L<l+1>` and holds the responses of the runs at that level in run
order. The function then returns the result of `fit()` on this engine, so a
returned engine holds these groups. -/
theorem C29_one_group_per_occupied_level (sqrt log : α → α) (oa : OrthogonalArray)
    (y : List α) (f : Nat) (factor_name : String) (opt : AnomOptions α)
    (hwf : oa.well_formed) (hL : 0 ≤ oa.levels)
    (hdata : ∀ v ∈ oa.data, 0 ≤ v ∧ v < oa.levels)
    (hf : (f : Int) < oa.factors) (hy : (y.length : Int) = oa.runs) :
    build_anom_groups oa y (f : Int) factor_name opt
      = .ok { opt_ := opt,
              groups_ := (List.range oa.levels.toNat).filterMap fun l : Nat =>
                if (level_responses oa y (f : Int) l (List.range oa.runs.toNat)).isEmpty
                then none
                else some { name := factor_name ++ "_L" ++ toString ((l : Int) + 1),
                            values := level_responses oa y (f : Int) l
                              (List.range oa.runs.toNat) } } ∧
    (∀ anom, build_anom_for_factor sqrt log oa y (f : Int) factor_name opt = .ok anom ↔
      Anom.fit sqrt log { opt_ := opt, groups_ := level_groups oa y (f : Int) factor_name }
        = (.ok (), anom)) ∧
    (∀ anom, build_anom_for_factor sqrt log oa y (f : Int) factor_name opt = .ok anom →
      anom.groups_ = (List.range oa.levels.toNat).filterMap fun l : Nat =>
        if (level_responses oa y (f : Int) l (List.range oa.runs.toNat)).isEmpty then none
        else some { name := factor_name ++ "_L" ++ toString ((l : Int) + 1),
                    values := level_responses oa y (f : Int) l (List.range oa.runs.toNat) }) := by
  have hg := build_anom_groups_ok oa y f factor_name opt hwf hL hdata hf hy
  have hiff : ∀ anom, build_anom_for_factor sqrt log oa y (f : Int) factor_name opt = .ok anom ↔
      Anom.fit sqrt log { opt_ := opt, groups_ := level_groups oa y (f : Int) factor_name }
        = (.ok (), anom) := by
    intro anom
    rw [build_anom_for_factor_ok_iff, hg]
    simp
  refine ⟨hg, hiff, ?_⟩
  intro anom hanom
  have h2 := (Anom.fit_groups sqrt log
    ({ opt_ := opt, groups_ := level_groups oa y (f : Int) factor_name } : Anom α)).1
  rw [(hiff anom).mp hanom] at h2
  exact h2

/-- C29 for factor A of `OA_L8_2_7`: the groups `A_L1` and `A_L2` of four
responses each, and an engine is returned. -/
theorem C29_witness :
    OA_L8_2_7.well_formed ∧ (∀ v ∈ OA_L8_2_7.data, 0 ≤ v ∧ v < OA_L8_2_7.levels) ∧
    ∃ anom, build_anom_for_factor Real.sqrt Real.log OA_L8_2_7 (test_responses ℝ) 0 "A"
        (Anom.test_options ℝ) = .ok anom ∧
      anom.groups_ = [{ name := "A_L1", values := [10.1, 9.9, 10.2, 9.8] },
                      { name := "A_L2", values := [12.1, 11.9, 12.2, 11.8] }] := by
  have hwf : OA_L8_2_7.well_formed := by
    unfold OrthogonalArray.well_formed
    decide
  have hdata : ∀ v ∈ OA_L8_2_7.data, 0 ≤ v ∧ v < OA_L8_2_7.levels := by decide
  have h := C29_one_group_per_occupied_level Real.sqrt Real.log OA_L8_2_7 (test_responses ℝ) 0
    "A" (Anom.test_options ℝ) hwf (by decide) hdata (by decide) rfl
  obtain ⟨anom, hanom⟩ := test_L8_factor_ok 0 (by decide) "A"
  exact ⟨hwf, hdata, anom, hanom, h.2.2 anom hanom⟩

end doe_analysis_claims

section full_analysis_claim

variable {α : Type} [LinearOrderedField α]

/-- C30: whenever `run_doe_full_analysis` returns an analysis, with a solve that
returns one coefficient per basis column, `factor_anoms` holds exactly one
entry per factor of the array, in factor order: entry `j` carries the `j`-th
supplied factor name, or the one-letter name `'A' + j` when no names are
supplied, and its engine is the fitted one `build_anom_for_factor` returns for
factor `j`; `rs_model` is fitted, its `num_factors()` is the number `k` of
response-surface indices and it has `1 + 2k + k(k-1)/2` coefficients. -/
theorem C30_full_analysis_contents (qr_solve : List (List α) → List α → List α)
    (sqrt log : α → α) (oa : OrthogonalArray) (all_levels : List (FactorLevels α))
    (factor_indices_for_rs : List Int) (y : List α) (factor_names : List String)
    (anom_opt : AnomOptions α) (out : DoeFullAnalysis α)
    (hsolve : ∀ Phi Y, (qr_solve Phi Y).length = (Phi.headD []).length)
    (hrun : run_doe_full_analysis qr_solve sqrt log oa all_levels factor_indices_for_rs y
      factor_names anom_opt = .ok out) :
    (out.factor_anoms.length : Int) = oa.factors ∧
    (∀ j : Nat, (j : Int) < oa.factors → ∃ fa, out.factor_anoms[j]? = some fa ∧
      fa.factor_name
        = (if factor_names.isEmpty then String.singleton (Char.ofNat ((65 + j) % 256))
           else factor_names.getD j "") ∧
      fa.anom.computed_ = true ∧
      build_anom_for_factor sqrt log oa y (j : Int) fa.factor_name anom_opt = .ok fa.anom) ∧
    out.rs_model.fitted_ = true ∧
    out.rs_model.num_factors = (factor_indices_for_rs.length : Int) ∧
    (out.rs_model.coefficients.length : Int)
      = 1 + 2 * (factor_indices_for_rs.length : Int)
        + Int.tdiv ((factor_indices_for_rs.length : Int)
            * ((factor_indices_for_rs.length : Int) - 1)) 2 := by
  unfold run_doe_full_analysis at hrun
  by_cases hy : (y.length : Int) ≠ oa.runs
  · rw [if_pos hy] at hrun
    cases hrun
  rw [if_neg hy] at hrun
  cases hd : build_design_from_orthogonal_array_for_factors oa all_levels
      factor_indices_for_rs with
  | error e =>
    rw [hd] at hrun
    cases hrun
  | ok design =>
    rw [hd] at hrun
    simp only at hrun
    have hrows := for_factors_row_length oa all_levels factor_indices_for_rs design hd
    rcases ResponseSurfaceQuadratic.rsq_fit_cases qr_solve {} design y with
      ⟨_, h⟩ | ⟨_, _, h⟩ | ⟨_, _, _, h⟩ | ⟨hne, _, _, h⟩
    · rw [h] at hrun
      cases hrun
    · rw [h] at hrun
      cases hrun
    · rw [h] at hrun
      cases hrun
    · rw [h] at hrun
      simp only at hrun
      cases ha : build_anom_for_all_factors sqrt log oa y factor_names anom_opt with
      | error e =>
        rw [ha] at hrun
        cases hrun
      | ok all =>
        rw [ha] at hrun
        simp only [Except.ok.injEq] at hrun
        subst hrun
        obtain ⟨_, _, hlen, hall⟩ := build_anom_for_all_factors_ok sqrt log oa y factor_names
          anom_opt all ha
        have hhead : (design.headD []).length = factor_indices_for_rs.length := by
          cases design with
          | nil => exact absurd rfl hne
          | cons x0 rest => exact hrows x0 (List.mem_cons_self _ _)
        refine ⟨hlen, ?_, rfl, ?_, ?_⟩
        · intro j hj
          obtain ⟨fa, hfa, hname, hbuild⟩ := hall j hj
          refine ⟨fa, hfa, hname, ?_, hbuild⟩
          obtain ⟨anom0, _, hfit⟩ := (build_anom_for_factor_ok_iff _ _ _ _ _ _ _ _).mp hbuild
          have hc := Anom.fit_ok_computed sqrt log anom0 (by rw [hfit])
          rw [hfit] at hc
          exact hc
        · simp only [ResponseSurfaceQuadratic.num_factors, hhead]
        · simp only [ResponseSurfaceQuadratic.coefficients]
          rw [hsolve]
          cases design with
          | nil => exact absurd rfl hne
          | cons x0 rest =>
            simp only [List.map_cons, List.headD_cons]
            have h1 := ResponseSurfaceQuadratic.quadratic_basis_length x0
            rw [hrows x0 (List.mem_cons_self _ _)] at h1
            rw [h1]
            unfold ResponseSurfaceQuadratic.num_columns
            ring

/-- C30 for `test_doe_full_analysis`: `OA_L8_2_7` with the response-surface
indices `{0, 1}` and the names A to G gives 7 engines, `num_factors() = 2` and
6 coefficients. -/
theorem C30_witness :
    ∃ out, run_doe_full_analysis (fun Phi _ => (Phi.headD []).map (fun _ => (0 : ℝ)))
        Real.sqrt Real.log OA_L8_2_7 (test_levels_L8 ℝ) [0, 1] (test_responses ℝ)
        ["A", "B", "C", "D", "E", "F", "G"] (Anom.test_options ℝ) = .ok out ∧
      (out.factor_anoms.length : Int) = 7 ∧
      out.factor_anoms.map (fun fa => fa.factor_name) = ["A", "B", "C", "D", "E", "F", "G"] ∧
      out.rs_model.num_factors = 2 ∧ (out.rs_model.coefficients.length : Int) = 6 := by
  obtain ⟨all, hall⟩ := build_anom_for_all_factors_ok_of Real.sqrt Real.log OA_L8_2_7
    (test_responses ℝ) ["A", "B", "C", "D", "E", "F", "G"] (Anom.test_options ℝ) rfl
    (by decide) (Or.inr rfl)
    (fun j hj name => test_L8_factor_ok j (by
      have : OA_L8_2_7.factors = ((7 : Nat) : Int) := rfl
      rw [this] at hj
      exact_mod_cast hj) name)
  have hrun : run_doe_full_analysis (fun Phi _ => (Phi.headD []).map (fun _ => (0 : ℝ)))
      Real.sqrt Real.log OA_L8_2_7 (test_levels_L8 ℝ) [0, 1] (test_responses ℝ)
      ["A", "B", "C", "D", "E", "F", "G"] (Anom.test_options ℝ)
      = .ok { rs_model := (ResponseSurfaceQuadratic.fit
                (fun Phi _ => (Phi.headD []).map (fun _ => (0 : ℝ))) {}
                [[-1.0, -1.0], [-1.0, -1.0], [-1.0, 1.0], [-1.0, 1.0],
                 [1.0, -1.0], [1.0, -1.0], [1.0, 1.0], [1.0, 1.0]] (test_responses ℝ)).2,
              factor_anoms := all } := by
    unfold run_doe_full_analysis
    rw [hall]
    rfl
  have h := C30_full_analysis_contents _ Real.sqrt Real.log OA_L8_2_7 (test_levels_L8 ℝ) [0, 1]
    (test_responses ℝ) ["A", "B", "C", "D", "E", "F", "G"] (Anom.test_options ℝ) _
    (fun Phi _ => List.length_map _ _) hrun
  refine ⟨_, hrun, h.1, ?_, h.2.2.2.1, h.2.2.2.2⟩
  obtain ⟨hlen, hnames, _⟩ := h
  have hlen' : all.length = 7 := by
    have h7 : (all.length : Int) = ((7 : Nat) : Int) := hlen
    exact_mod_cast h7
  apply List.ext_getElem?
  intro j
  by_cases hj : j < 7
  · obtain ⟨fa, hfa, hname, _⟩ := hnames j (by
      have : OA_L8_2_7.factors = ((7 : Nat) : Int) := rfl
      rw [this]
      exact_mod_cast hj)
    have hfa' : all[j]? = some fa := hfa
    rw [List.getElem?_map, hfa', Option.map_some', hname]
    interval_cases j <;> rfl
  · have h1 : all.length ≤ j := by omega
    rw [List.getElem?_map, List.getElem?_eq_none h1]
    simp only [Option.map_none']
    symm
    apply List.getElem?_eq_none
    simp only [List.length_cons, List.length_nil]
    omega

end full_analysis_claim

section propagation_claims

variable {α : Type} [LinearOrderedField α]

/-- C31: a per-factor ANOM failure is not skipped. If for a factor `j` of the
array the groups are built and `fit()` on them fails with the message `msg`,
then `build_anom_for_factor` throws that error for factor `j`, and
`build_anom_for_all_factors` and `run_doe_full_analysis` end with an error and
return no value. -/
theorem C31_factor_failure_propagates (qr_solve : List (List α) → List α → List α)
    (sqrt log : α → α) (oa : OrthogonalArray) (all_levels : List (FactorLevels α))
    (factor_indices_for_rs : List Int) (y : List α) (factor_names : List String)
    (opt : AnomOptions α) (j : Nat) (anom0 : Anom α) (msg : String)
    (hj : (j : Int) < oa.factors)
    (hgroups : build_anom_groups oa y (j : Int)
      (if factor_names.isEmpty then default_factor_name j else factor_names.getD j "") opt
        = .ok anom0)
    (hfit : (anom0.fit sqrt log).1 = .error msg) :
    build_anom_for_factor sqrt log oa y (j : Int)
      (if factor_names.isEmpty then default_factor_name j else factor_names.getD j "") opt
        = .error (.runtime_error msg) ∧
    (∃ e, build_anom_for_all_factors sqrt log oa y factor_names opt = .error e) ∧
    (∃ e, run_doe_full_analysis qr_solve sqrt log oa all_levels factor_indices_for_rs y
      factor_names opt = .error e) := by
  have hfac : build_anom_for_factor sqrt log oa y (j : Int)
      (if factor_names.isEmpty then default_factor_name j else factor_names.getD j "") opt
        = .error (.runtime_error msg) := by
    unfold build_anom_for_factor
    rw [hgroups]
    rcases hf : anom0.fit sqrt log with ⟨r, a⟩
    rw [hf] at hfit
    simp only at hfit
    subst hfit
    simp only [hf]
  have hall : ∃ e, build_anom_for_all_factors sqrt log oa y factor_names opt = .error e := by
    cases h : build_anom_for_all_factors sqrt log oa y factor_names opt with
    | error e => exact ⟨e, rfl⟩
    | ok all =>
      obtain ⟨_, _, _, hper⟩ := build_anom_for_all_factors_ok sqrt log oa y factor_names opt all h
      obtain ⟨fa, _, hname, hbuild⟩ := hper j hj
      rw [hname, hfac] at hbuild
      cases hbuild
  refine ⟨hfac, hall, ?_⟩
  cases h : run_doe_full_analysis qr_solve sqrt log oa all_levels factor_indices_for_rs y
      factor_names opt with
  | error e => exact ⟨e, rfl⟩
  | ok out =>
    obtain ⟨e, he⟩ := hall
    rw [run_doe_full_analysis_ok_all qr_solve sqrt log oa all_levels factor_indices_for_rs y
      factor_names opt out h] at he
    cases he

/-- C31 on a two-run array whose single factor has one run per level: the
pooled degrees of freedom are 0, `fit()` fails, and so do both functions. -/
theorem C31_witness :
    build_anom_for_factor Real.sqrt Real.log test_two_run_array ([1, 2] : List ℝ) 0 "A"
        (Anom.test_options ℝ)
      = .error (.runtime_error "Anom::fit: insufficient degrees of freedom") ∧
    (∃ e, build_anom_for_all_factors Real.sqrt Real.log test_two_run_array ([1, 2] : List ℝ) []
      (Anom.test_options ℝ) = .error e) ∧
    (∃ e, run_doe_full_analysis (fun _ _ => []) Real.sqrt Real.log test_two_run_array
      [⟨[-1.0, 1.0]⟩] [0] ([1, 2] : List ℝ) [] (Anom.test_options ℝ) = .error e) :=
  C31_factor_failure_propagates (fun _ _ => []) Real.sqrt Real.log test_two_run_array
    [⟨[-1.0, 1.0]⟩] [0] ([1, 2] : List ℝ) [] (Anom.test_options ℝ) 0
    { opt_ := Anom.test_options ℝ,
      groups_ := [{ name := "A_L1", values := [1] }, { name := "A_L2", values := [2] }] }
    "Anom::fit: insufficient degrees of freedom" (by decide) rfl rfl

/-- C38 fails in binary64: on `OA_L8_2_7` with the responses `0.1, ..., 0.8`
the analysis of all factors succeeds, and the grand mean reported for the
third factor differs from the one reported for the others; whatever
`std::log` returns. -/
theorem C38_counterexample :
    OA_L8_2_7.well_formed ∧ OA_L8_2_7.entries_in_range ∧
    ¬ ((0.44999999999999996 : Binary64) = 0.45) ∧
    ∀ log : Binary64 → Binary64,
      (build_anom_for_all_factors Binary64.sqrt log OA_L8_2_7 rounding_responses []
          rounding_options).map (fun rs => rs.map fun r => r.anom.grand_mean_)
        = .ok [some 0.45, some 0.45, some 0.44999999999999996, some 0.45, some 0.45,
            some 0.45, some 0.45] := by
  refine ⟨by unfold OrthogonalArray.well_formed; decide,
    by unfold OrthogonalArray.entries_in_range; decide, by decide!, fun log => ?_⟩
  rw [build_anom_for_all_factors_log_free Binary64.sqrt log (fun x => x) _ _ _ _ rfl
    (by decide!)]
  decide!

/-- C38 (amended): whenever `build_anom_for_all_factors` returns on an array
of the declared shape whose entries are level indices, the values of the groups
built for each factor are the responses up to order, and in exact arithmetic
(over every linearly ordered field) every returned engine reports the same
grand mean, the sum of all responses divided by the run count; the same holds
for the engines of a returned `run_doe_full_analysis`. -/
theorem C38_common_grand_mean (qr_solve : List (List α) → List α → List α)
    (sqrt log : α → α) (oa : OrthogonalArray) (all_levels : List (FactorLevels α))
    (factor_indices_for_rs : List Int) (y : List α) (factor_names : List String)
    (opt : AnomOptions α) (all : List (FactorAnomResult α))
    (hwf : oa.well_formed) (hL : 0 ≤ oa.levels) (hdata : oa.entries_in_range)
    (hall : build_anom_for_all_factors sqrt log oa y factor_names opt = .ok all) :
    (all.length : Int) = oa.factors ∧
    (∀ fa ∈ all, List.Perm (fa.anom.groups_.map (fun g => g.values)).flatten y ∧
      fa.anom.grand_mean = .ok (some (y.sum / (oa.runs : α)))) ∧
    (∀ out, run_doe_full_analysis qr_solve sqrt log oa all_levels factor_indices_for_rs y
        factor_names opt = .ok out →
      ∀ fa ∈ out.factor_anoms, fa.anom.grand_mean = .ok (some (y.sum / (oa.runs : α)))) := by
  obtain ⟨hy, _, hlen, hper⟩ := build_anom_for_all_factors_ok sqrt log oa y factor_names opt
    all hall
  have hmain : ∀ fa ∈ all, List.Perm (fa.anom.groups_.map (fun g => g.values)).flatten y ∧
      fa.anom.grand_mean = .ok (some (y.sum / (oa.runs : α))) := by
    intro fa hfa
    obtain ⟨j, hjlt, hjget⟩ := List.getElem_of_mem hfa
    have hj : (j : Int) < oa.factors := by omega
    obtain ⟨fa', hfa', _, hbuild⟩ := hper j hj
    rw [List.getElem?_eq_getElem hjlt, hjget] at hfa'
    cases hfa'
    obtain ⟨anom0, hg0, hfit0⟩ := (build_anom_for_factor_ok_iff _ _ _ _ _ _ _ _).mp hbuild
    rw [build_anom_groups_ok oa y j fa.factor_name opt hwf hL hdata hj hy] at hg0
    have hg0' := Except.ok.inj hg0
    have hgroups0 : anom0.groups_ = level_groups oa y (j : Int) fa.factor_name := by
      rw [← hg0']
    have hfit1 : (anom0.fit sqrt log).1 = .ok () := by rw [hfit0]
    obtain ⟨_, _, _, _, _, hcomp, hgm, _, _⟩ := Anom.fit_ok_state sqrt log anom0 hfit1
    rw [hfit0] at hcomp hgm
    rw [hgroups0] at hgm
    have hgr := (Anom.fit_groups sqrt log anom0).1
    rw [hfit0, hgroups0] at hgr
    simp only at hgr hgm hcomp
    have hperm := level_groups_perm oa y j fa.factor_name hwf hL hdata hj hy
    refine ⟨by rw [hgr]; exact hperm, ?_⟩
    simp only [Anom.grand_mean, Anom.ensure_computed, hcomp, hgm]
    have hne := level_groups_nonempty oa y (j : Int) fa.factor_name
    have hw : Anom.weighted_mean (level_groups oa y (j : Int) fa.factor_name)
        = y.sum / (oa.runs : α) := by
      have hlenf : ((level_groups oa y (j : Int) fa.factor_name).map
          (fun g => g.values.length)).sum = y.length := by
        rw [← hperm.length_eq, List.length_flatten, List.map_map]
        rfl
      unfold Anom.weighted_mean
      rw [Anom.weighted_sum_eq_pooled_sum _ hne, hperm.sum_eq, Anom.n_total_cast, hlenf, ← hy]
      simp
    rw [hw]
    rfl
  refine ⟨hlen, hmain, ?_⟩
  intro out hout fa hfa
  have h2 := run_doe_full_analysis_ok_all qr_solve sqrt log oa all_levels
    factor_indices_for_rs y factor_names opt out hout
  rw [hall] at h2
  cases h2
  exact (hmain fa hfa).2

/-- C38 on `OA_L8_2_7` with the responses 10.1, 9.9, 10.2, 9.8, 12.1, 11.9,
12.2, 11.8: all seven engines report the grand mean `88 / 8 = 11`. -/
theorem C38_witness :
    ∃ all, build_anom_for_all_factors Real.sqrt Real.log OA_L8_2_7 (test_responses ℝ) []
        (Anom.test_options ℝ) = .ok all ∧
      (all.length : Int) = 7 ∧
      ∀ fa ∈ all, fa.anom.grand_mean = .ok (some 11) := by
  obtain ⟨all, hall⟩ := build_anom_for_all_factors_ok_of Real.sqrt Real.log OA_L8_2_7
    (test_responses ℝ) [] (Anom.test_options ℝ) rfl (by decide) (Or.inl rfl)
    (fun j hj name => test_L8_factor_ok j (by
      have : OA_L8_2_7.factors = ((7 : Nat) : Int) := rfl
      rw [this] at hj
      exact_mod_cast hj) name)
  have h := C38_common_grand_mean (fun _ _ => []) Real.sqrt Real.log OA_L8_2_7
    (test_levels_L8 ℝ) [0, 1] (test_responses ℝ) [] (Anom.test_options ℝ) all
    (by unfold OrthogonalArray.well_formed; decide) (by decide)
    (by unfold OrthogonalArray.entries_in_range; decide) hall
  refine ⟨all, hall, h.1, ?_⟩
  intro fa hfa
  rw [(h.2.1 fa hfa).2]
  have e : (test_responses ℝ).sum / ((OA_L8_2_7.runs : Int) : ℝ) = 11 := by
    have : ((OA_L8_2_7.runs : Int) : ℝ) = 8 := by
      norm_num [OA_L8_2_7]
    rw [this]
    norm_num [test_responses]
  rw [e]

end propagation_claims

namespace Anom

variable {α : Type} [LinearOrderedField α]

/-- C32 fails in binary64: for the two groups `{1, 1}` and `{1 + 2^-52,
1 + 2^-52}` of two observations each (`alpha = 0.05`, `bonferroni` off) the
fit succeeds with grand mean 1 and margin 0; the group with
the higher mean is flagged significant-high and the group with the lower mean
is not flagged significant-low; whatever `std::log` returns. -/
theorem C32_counterexample :
    rounding_two_groups.groups_.map (fun g => g.values.length) = [2, 2] ∧
    ∀ log : Binary64 → Binary64,
      (rounding_two_groups.fit Binary64.sqrt log).1 = .ok () ∧
      (rounding_two_groups.fit Binary64.sqrt log).2.grand_mean_ = some 1.0 ∧
      (rounding_two_groups.fit Binary64.sqrt log).2.results_.map
          (fun r => (r.n, r.mean, r.margin, r.significant_high, r.significant_low))
        = [(2, some 1.0, some 0.0, false, false),
           (2, some 1.0000000000000002, some 0.0, true, false)] := by
  refine ⟨rfl, fun log => ?_⟩
  rw [fit_log_free Binary64.sqrt log (fun x => x) rounding_two_groups (by decide!)]
  exact ⟨by decide!, by decide!, by decide!⟩

/-- C32 (amended): in exact arithmetic (over every linearly ordered field),
after a successful `fit()` on exactly two groups of equal size, both results
carry the same margin `m`, and for each order of the two groups: the
second is flagged significant-high if and only if half the difference
`(mean_2 - mean_1) / 2` exceeds `m`, and exactly in that case the first is
flagged significant-low (and likewise with the two groups exchanged). -/
theorem C32_two_equal_groups_flags (sqrt log : α → α) (s : Anom α) (g1 g2 : Group α)
    (hg : s.groups_ = [g1, g2]) (hn : g1.values.length = g2.values.length)
    (hfit : (s.fit sqrt log).1 = .ok ()) :
    ∃ r1 r2 m, (s.fit sqrt log).2.results = .ok [r1, r2] ∧
      (s.fit sqrt log).2.grand_mean = .ok (some ((g1.mean + g2.mean) / 2)) ∧
      r1.mean = some g1.mean ∧ r2.mean = some g2.mean ∧
      r1.margin = some m ∧ r2.margin = some m ∧
      (r2.significant_high = true ↔ (g2.mean - g1.mean) / 2 > m) ∧
      (r1.significant_low = true ↔ (g2.mean - g1.mean) / 2 > m) ∧
      (r1.significant_high = true ↔ (g1.mean - g2.mean) / 2 > m) ∧
      (r2.significant_low = true ↔ (g1.mean - g2.mean) / 2 > m) := by
  obtain ⟨_, hdf, h, tcrit, hc, hcomp, hgm, _, hres⟩ := fit_ok_state sqrt log s hfit
  obtain ⟨c, _, hm⟩ := critical_values_margin sqrt log s.opt_ _ _ _ _ h tcrit hc
  rw [hg] at hres hgm hdf hm
  have hnpos : 0 < g1.values.length := by
    simp only [df_pooled, List.map_cons, List.map_nil, List.sum_cons, List.sum_nil] at hdf
    omega
  have hnα : ((g1.values.length : ℕ) : α) ≠ 0 := by
    exact_mod_cast (Nat.pos_iff_ne_zero.mp hnpos)
  have hwm : weighted_mean [g1, g2] = (g1.mean + g2.mean) / 2 := by
    simp only [weighted_mean, n_total, List.map_cons, List.map_nil, List.sum_cons, List.sum_nil,
      ← hn]
    push_cast
    field_simp
    ring
  simp only [List.map_cons, List.map_nil] at hres hm
  rw [← hn] at hres hm
  have hm1 := hm (weighted_mean [g1, g2])
    (sqrt (ss_pooled [g1, g2] / ((df_pooled [g1, g2] : Int) : α))) g1.name
    (g1.values.length : Int) g1.mean
  have hm2 := hm (weighted_mean [g1, g2])
    (sqrt (ss_pooled [g1, g2] / ((df_pooled [g1, g2] : Int) : α))) g2.name
    (g1.values.length : Int) g2.mean
  obtain ⟨_, _, hH1, hL1⟩ := group_result_fields sqrt _ _ _ h tcrit g1.name
    (g1.values.length : Int) g1.mean _ hm1
  obtain ⟨_, _, hH2, hL2⟩ := group_result_fields sqrt _ _ _ h tcrit g2.name
    (g1.values.length : Int) g2.mean _ hm2
  refine ⟨_, _, c * sqrt (ss_pooled [g1, g2] / ((df_pooled [g1, g2] : Int) : α))
      * sqrt (1 / (((g1.values.length : Int) : α))),
    by simp only [results, ensure_computed, hcomp, hres]; rfl,
    by simp only [grand_mean, ensure_computed, hcomp, hgm, hwm]; rfl, rfl, rfl, hm1, hm2,
    ?_, ?_, ?_, ?_⟩
  · rw [hH2, hwm]
    constructor <;> intro hlt <;> linarith
  · rw [hL1, hwm]
    constructor <;> intro hlt <;> linarith
  · rw [hH1, hwm]
    constructor <;> intro hlt <;> linarith
  · rw [hL2, hwm]
    constructor <;> intro hlt <;> linarith

/-- C32 on the two level groups of factor A of `OA_L8_2_7` (four responses
each, means 10 and 12): both flags are raised exactly when the margin is
below 1. -/
theorem C32_witness :
    ((test_two_level ℝ).fit Real.sqrt Real.log).1 = .ok () ∧
    ∃ r1 r2 m, ((test_two_level ℝ).fit Real.sqrt Real.log).2.results = .ok [r1, r2] ∧
      ((test_two_level ℝ).fit Real.sqrt Real.log).2.grand_mean = .ok (some 11) ∧
      r1.margin = some m ∧ r2.margin = some m ∧
      (r2.significant_high = true ↔ 1 > m) ∧ (r1.significant_low = true ↔ 1 > m) := by
  have hfit : ((test_two_level ℝ).fit Real.sqrt Real.log).1 = .ok () := by
    apply fit_ok_of
    · simp [test_two_level]
    · simp [test_two_level]
    · simp [test_two_level, df_pooled]
    · norm_num [test_two_level, test_options]
    · norm_num [test_two_level, test_options]
  obtain ⟨r1, r2, m, hrs, hgm, _, _, hm1, hm2, hH, hL, _, _⟩ :=
    C32_two_equal_groups_flags Real.sqrt Real.log (test_two_level ℝ)
      ⟨"A_L1", [10.1, 9.9, 10.2, 9.8]⟩ ⟨"A_L2", [12.1, 11.9, 12.2, 11.8]⟩ rfl rfl hfit
  have e1 : (Group.mean (⟨"A_L1", [10.1, 9.9, 10.2, 9.8]⟩ : Group ℝ)) = 10 := by
    norm_num [Group.mean]
  have e2 : (Group.mean (⟨"A_L2", [12.1, 11.9, 12.2, 11.8]⟩ : Group ℝ)) = 12 := by
    norm_num [Group.mean]
  rw [e1, e2] at hgm hH hL
  refine ⟨hfit, r1, r2, m, hrs, ?_, hm1, hm2, ?_, ?_⟩
  · rw [hgm]
    norm_num
  · rw [hH]
    norm_num
  · rw [hL]
    norm_num

end Anom

section catalog_claims

set_option maxRecDepth 100000 in
/-- C33: each of the four catalog arrays `OA_L4_2_3`, `OA_L8_2_7`,
`OA_L9_3_4` and `OA_L18_2_1_3_7` has exactly `runs * factors` entries (4x3,
8x7, 9x4, 18x8), every entry is a level index `0 <= v < levels`, and `at(r, f)`
is an access inside the table that returns such an index for every run `r` and
factor `f`. -/
theorem C33_catalog_arrays_well_formed :
    (OA_L4_2_3.well_formed ∧ OA_L4_2_3.data.length = 4 * 3 ∧ OA_L4_2_3.entries_in_range ∧
      OA_L4_2_3.runs = 4 ∧ OA_L4_2_3.factors = 3) ∧
    (OA_L8_2_7.well_formed ∧ OA_L8_2_7.data.length = 8 * 7 ∧ OA_L8_2_7.entries_in_range ∧
      OA_L8_2_7.runs = 8 ∧ OA_L8_2_7.factors = 7) ∧
    (OA_L9_3_4.well_formed ∧ OA_L9_3_4.data.length = 9 * 4 ∧ OA_L9_3_4.entries_in_range ∧
      OA_L9_3_4.runs = 9 ∧ OA_L9_3_4.factors = 4) ∧
    (OA_L18_2_1_3_7.well_formed ∧ OA_L18_2_1_3_7.data.length = 18 * 8 ∧
      OA_L18_2_1_3_7.entries_in_range ∧
      OA_L18_2_1_3_7.runs = 18 ∧ OA_L18_2_1_3_7.factors = 8) ∧
    ∀ oa : OrthogonalArray,
      oa = OA_L4_2_3 ∨ oa = OA_L8_2_7 ∨ oa = OA_L9_3_4 ∨ oa = OA_L18_2_1_3_7 →
      ∀ r f : Nat, (r : Int) < oa.runs → (f : Int) < oa.factors →
        ∃ v, oa.at_ (r : Int) (f : Int) = .ok v ∧ 0 ≤ v ∧ v < oa.levels := by
  have h4 : OA_L4_2_3.well_formed ∧ OA_L4_2_3.entries_in_range := by
    unfold OrthogonalArray.well_formed OrthogonalArray.entries_in_range
    decide
  have h8 : OA_L8_2_7.well_formed ∧ OA_L8_2_7.entries_in_range := by
    unfold OrthogonalArray.well_formed OrthogonalArray.entries_in_range
    decide
  have h9 : OA_L9_3_4.well_formed ∧ OA_L9_3_4.entries_in_range := by
    unfold OrthogonalArray.well_formed OrthogonalArray.entries_in_range
    decide
  have h18 : OA_L18_2_1_3_7.well_formed ∧ OA_L18_2_1_3_7.entries_in_range := by
    unfold OrthogonalArray.well_formed OrthogonalArray.entries_in_range
    decide
  refine ⟨⟨h4.1, rfl, h4.2, rfl, rfl⟩, ⟨h8.1, rfl, h8.2, rfl, rfl⟩, ⟨h9.1, rfl, h9.2, rfl, rfl⟩,
    ⟨h18.1, rfl, h18.2, rfl, rfl⟩, ?_⟩
  intro oa hoa r f hr hf
  have hw : oa.well_formed ∧ oa.entries_in_range := by
    rcases hoa with rfl | rfl | rfl | rfl
    · exact h4
    · exact h8
    · exact h9
    · exact h18
  obtain ⟨v, hv⟩ := at_ok_of_well_formed oa hw.1 r f hr hf
  exact ⟨v, hv, hw.2 v (at_mem_data oa _ _ v hv)⟩

set_option maxRecDepth 100000 in
/-- C34: each of the four catalog arrays is pairwise balanced: for every two
distinct factor columns, every combination of a level used in the first column
with a level used in the second column occurs in the same number of runs. -/
theorem C34_catalog_arrays_balanced :
    OA_L4_2_3.balanced ∧ OA_L8_2_7.balanced ∧ OA_L9_3_4.balanced ∧
      OA_L18_2_1_3_7.balanced := by
  refine ⟨balanced_of_check _ ?_ ?_, balanced_of_check _ ?_ ?_, balanced_of_check _ ?_ ?_,
    balanced_of_check _ ?_ ?_⟩
  all_goals first
    | (unfold OrthogonalArray.entries_in_range; decide)
    | decide

end catalog_claims

namespace ResponseSurface

section exact_arithmetic

variable {α : Type} [LinearOrderedField α]

/-- In exact arithmetic, on data points with two coordinates each (as
`add_point` admits): with no point `fit()` fails with the "No data" error;
with at least one point it fails with the singular-matrix error whenever the
normal-equations matrix `X'X` is not invertible, in particular whenever fewer
than 6 points were added; and whenever it succeeds `X'X` is invertible, six
coefficients are stored and they satisfy `X'X * beta = X'y`. A failing `fit()`
leaves the object unchanged. -/
theorem fit_exact_singular_or_normal_equations (s : ResponseSurface α)
    (hx : ∀ pt ∈ s.data_, pt.x.length = 2) :
    (s.data_ = [] → s.fit abs = (.error (.runtime_error "No data"), s)) ∧
    (s.data_ ≠ [] → singular s.data_ →
      s.fit abs = (.error (.runtime_error "Singular matrix"), s)) ∧
    (s.data_ ≠ [] → s.data_.length < 6 →
      singular s.data_ ∧ s.fit abs = (.error (.runtime_error "Singular matrix"), s)) ∧
    ((s.fit abs).1 = .ok () →
      ¬ singular s.data_ ∧ (s.fit abs).2.data_ = s.data_ ∧ (s.fit abs).2.beta_.length = 6 ∧
      solves_normal_equations s.data_ (s.fit abs).2.beta_) := by
  have hsing : s.data_ ≠ [] → singular s.data_ →
      s.fit abs = (.error (.runtime_error "Singular matrix"), s) := by
    intro hne hdet
    rcases rs_fit_cases s hx with ⟨h0, _⟩ | ⟨_, h⟩ | ⟨_, Iv, beta, hleft, _, _, _⟩
    · exact absurd h0 hne
    · exact h
    · exact absurd hdet (Matrix.det_ne_zero_of_left_inverse hleft)
  refine ⟨?_, hsing, ?_, ?_⟩
  · intro h0
    rcases rs_fit_cases s hx with ⟨_, h⟩ | ⟨hne, _⟩ | ⟨hne, _⟩
    · exact h
    · exact absurd h0 hne
    · exact absurd h0 hne
  · intro hne hlt
    exact ⟨normal_matrix_det_zero _ hlt, hsing hne (normal_matrix_det_zero _ hlt)⟩
  · intro hok
    rcases rs_fit_cases s hx with ⟨_, h⟩ | ⟨_, h⟩ | ⟨_, Iv, beta, hleft, hlen, hbeta, h⟩
    · rw [h] at hok
      cases hok
    · rw [h] at hok
      cases hok
    · rw [h]
      have hdet : (normal_matrix s.data_).det ≠ 0 := Matrix.det_ne_zero_of_left_inverse hleft
      refine ⟨hdet, rfl, hlen, ?_⟩
      show (normal_matrix s.data_).mulVec (fun i : Fin 6 => beta.getD i.val 0) = _
      rw [hbeta, Matrix.mulVec_mulVec, Matrix.mul_eq_one_comm.mp hleft, Matrix.one_mulVec]

/-- The exact computation on the six points of the usage example of
`main.cpp`: `fit()` succeeds and the stored coefficients satisfy the normal
equations. -/
theorem fit_exact_on_test_points :
    ((after_points (test_points ℝ)).fit abs).1 = .ok () ∧
    ((after_points (test_points ℝ)).fit abs).2.beta_
      = [183 / 10, 89 / 375, -209 / 750, -19 / 3750, 1 / 3750, 1 / 250] ∧
    ¬ singular (after_points (test_points ℝ)).data_ ∧
    solves_normal_equations (after_points (test_points ℝ)).data_
      ((after_points (test_points ℝ)).fit abs).2.beta_ := by
  have h := fit_exact_singular_or_normal_equations (after_points (test_points ℝ))
    (after_points_two_coordinates _)
  have hok : ((after_points (test_points ℝ)).fit abs).1 = .ok () := by rw [test_points_fit]
  have h4 := h.2.2.2 hok
  refine ⟨hok, ?_, h4.1, h4.2.2.2⟩
  rw [test_points_fit]

end exact_arithmetic

/-- C35 (defect of the code): the first three points of the usage example of
`main.cpp` give a normal-equations matrix `X'X` that is not invertible, and in
exact arithmetic `fit()` throws the singular-matrix error on them; computed in
binary64, the pivots that are zero in exact arithmetic are rounding residues
above the threshold `1e-12`, no error is thrown and `fit()` stores the
coefficients `8192, -48, -192, -2, 0.25, 3`. -/
theorem C35_singular_matrix_not_detected :
    (after_points ((test_points Binary64).take 3)).data_
      = [⟨[50.0, 100.0], 12.3⟩, ⟨[60.0, 100.0], 13.1⟩, ⟨[50.0, 120.0], 11.9⟩] ∧
    ((after_points ((test_points Binary64).take 3)).fit Binary64.abs).1 = .ok () ∧
    ((after_points ((test_points Binary64).take 3)).fit Binary64.abs).2.beta_
      = [8192.0, -48.0, -192.0, -2.0, 0.25, 3.0] ∧
    singular (after_points ((test_points ℝ).take 3)).data_ ∧
    (after_points ((test_points ℝ).take 3)).fit abs
      = (.error (.runtime_error "Singular matrix"), after_points ((test_points ℝ).take 3)) := by
  have hne : (after_points ((test_points ℝ).take 3)).data_ ≠ [] := by
    simp [after_points, add_point, test_points]
  have hlt : (after_points ((test_points ℝ).take 3)).data_.length < 6 := by
    simp [after_points, add_point, test_points]
  have h := (fit_exact_singular_or_normal_equations (after_points ((test_points ℝ).take 3))
    (after_points_two_coordinates _)).2.2.1 hne hlt
  exact ⟨rfl, by decide!, by decide!, h.1, h.2⟩

end ResponseSurface

namespace Anom

variable {α : Type} [LinearOrderedField α]

/-- C36: on an engine reached by any call sequence that holds exactly one group,
with `bonferroni` on, `fit()` fails; when the group has two or more
observations (positive pooled degrees of freedom) and `alpha` is in `(0,1)`,
the failure is the "invalid a" error of the critical-value function in use,
which rejects a group count of 1. After the failure the three accessors fail. -/
theorem C36_single_group_bonferroni_fails (sqrt log : α → α) (opt : AnomOptions α)
    (cs : List (AnomCall α)) (s : Anom α) (hs : s = after sqrt log opt cs)
    (hone : s.groups_.length = 1) (hb : opt.bonferroni = true) :
    (∃ e, (s.fit sqrt log).1 = .error e) ∧
    (0 < df_pooled s.groups_ → 0 < opt.alpha → opt.alpha < 1 →
      (s.fit sqrt log).1
        = .error (if opt.assume_equal_n = true then "anom_h_bonferroni_equal_n: invalid a/n/df"
                  else "anom_tcrit_bonferroni: invalid a/df")) ∧
    (s.fit sqrt log).2.grand_mean = .error "Anom: fit() has not been called" ∧
    (s.fit sqrt log).2.s_within = .error "Anom: fit() has not been called" ∧
    (s.fit sqrt log).2.results = .error "Anom: fit() has not been called" := by
  have hinv : Inv sqrt log s := by rw [hs]; exact inv_after sqrt log opt cs
  have hopt : s.opt_ = opt := by rw [hs]; exact after_opt sqrt log opt cs
  have ha : (s.groups_.length : Int) = 1 := by rw [hone]; rfl
  have heq : (s.opt_.assume_equal_n &&
      all_equal (s.groups_.map (fun g => (g.values.length : Int)))) = opt.assume_equal_n := by
    rw [hopt]
    match hg : s.groups_, hone with
    | [g], _ => simp [all_equal]
  obtain ⟨e0, he0, hmsg⟩ := critical_values_single_group sqrt log s.opt_
    (s.opt_.assume_equal_n && all_equal (s.groups_.map (fun g => (g.values.length : Int))))
    ((s.groups_.map (fun g => (g.values.length : Int))).headD 0) (df_pooled s.groups_)
    (by rw [hopt]; exact hb)
  have herr : ∃ e, (s.fit sqrt log).1 = .error e := by
    rcases fit_cases sqrt log s with ⟨_, h⟩ | ⟨_, _, h⟩ | ⟨_, _, e, _, h⟩ | ⟨_, _, h', t', hc, _⟩
    · exact ⟨_, by rw [h]⟩
    · exact ⟨_, by rw [h]⟩
    · exact ⟨e, by rw [h]⟩
    · rw [ha, he0] at hc
      cases hc
  obtain ⟨e, he⟩ := herr
  have hcomp := fit_error_not_computed sqrt log s hinv e he
  refine ⟨⟨e, he⟩, ?_, ?_, ?_, ?_⟩
  · intro hdf h0 h1
    rcases fit_cases sqrt log s with ⟨hg, _⟩ | ⟨_, hdf', _⟩ | ⟨_, _, e', hc, h⟩ |
      ⟨_, _, h', t', hc, _⟩
    · rw [hg] at hone
      cases hone
    · exact absurd hdf (not_lt.mpr hdf')
    · rw [ha, he0] at hc
      cases hc
      rw [h, hmsg (by rw [hopt]; exact h0) (by rw [hopt]; exact h1), heq]
    · rw [ha, he0] at hc
      cases hc
  all_goals (simp only [grand_mean, s_within, results, ensure_computed, hcomp]; rfl)

/-- C36 on an engine with the single group `{1, 2, 3}` and the options of the
tests (`alpha = 0.05`, `bonferroni` and `assume_equal_n` on). -/
theorem C36_witness :
    (after Real.sqrt Real.log (test_options ℝ) [.add_group "G1" [1.0, 2.0, 3.0]]).groups_.length
      = 1 ∧
    ((after Real.sqrt Real.log (test_options ℝ) [.add_group "G1" [1.0, 2.0, 3.0]]).fit
      Real.sqrt Real.log).1 = .error "anom_h_bonferroni_equal_n: invalid a/n/df" ∧
    ((after Real.sqrt Real.log (test_options ℝ) [.add_group "G1" [1.0, 2.0, 3.0]]).fit
      Real.sqrt Real.log).2.results = .error "Anom: fit() has not been called" := by
  have h := C36_single_group_bonferroni_fails Real.sqrt Real.log (test_options ℝ)
    [.add_group "G1" [1.0, 2.0, 3.0]] _ rfl rfl rfl
  refine ⟨rfl, ?_, h.2.2.2.2⟩
  exact h.2.1 (by decide) (by norm_num [test_options]) (by norm_num [test_options])

end Anom

namespace ResponseSurfaceQuadratic

variable {α : Type} [LinearOrderedField α]

/-- C39: for a non-empty design with `k >= 1` columns whose entries are all -1
or +1 and a response vector of the same length, `fit` builds with its four
loops a basis matrix `Phi` in which every squared-term column equals the
constant column, returns `true` and stores the solver's result for `Phi`.
`Phi` does not have full column rank: every coefficient vector for its
`1 + k + k + k(k-1)/2` columns has a different one of the same length with the
same fitted values on all rows, hence with the same residual and the same
value of `predict` at every design point, so also a least-squares solution
stored by `fit` is not the only one. -/
theorem C39_two_level_design_aliases_squares (qr_solve : List (List α) → List α → List α)
    (s : ResponseSurfaceQuadratic α) (design : List (List α)) (y : List α) (k : Nat)
    (hk : 1 ≤ k) (hne : design ≠ []) (hrows : ∀ row ∈ design, row.length = k)
    (hpm : ∀ row ∈ design, ∀ v ∈ row, v = -1 ∨ v = 1) (hy : y.length = design.length) :
    ∃ Phi : List (List α),
      for_each (basis_row (k : Int)) design = .ok Phi ∧
      fit qr_solve s design y
        = (.ok true, { k_ := (k : Int), fitted_ := true, beta_ := qr_solve Phi y }) ∧
      Phi.length = design.length ∧
      (∀ row ∈ Phi, (row.length : Int) = num_columns (k : Int) ∧
        ∀ i : Nat, i < k → row[0]? = some 1 ∧ row[1 + k + i]? = some 1) ∧
      ¬ full_column_rank Phi ∧
      (∀ beta : List α, (beta.length : Int) = num_columns (k : Int) →
        ∃ beta' : List α, beta'.length = beta.length ∧ beta' ≠ beta ∧
          (∀ row ∈ Phi, dot_sum row beta' = dot_sum row beta) ∧
          residual_sq Phi y beta' = residual_sq Phi y beta ∧
          (is_least_squares Phi y beta → is_least_squares Phi y beta') ∧
          ∀ x ∈ design,
            predict { k_ := (k : Int), fitted_ := true, beta_ := beta' } x
              = predict { k_ := (k : Int), fitted_ := true, beta_ := beta } x) ∧
      (is_least_squares Phi y (fit qr_solve s design y).2.coefficients →
        ∃ beta' : List α, beta' ≠ (fit qr_solve s design y).2.coefficients ∧
          is_least_squares Phi y beta' ∧
          ∀ x ∈ design,
            predict { k_ := (k : Int), fitted_ := true, beta_ := beta' } x
              = predict (fit qr_solve s design y).2 x) := by
  obtain ⟨x0, rest, rfl⟩ : ∃ x0 rest, design = x0 :: rest := by
    cases design with
    | nil => exact absurd rfl hne
    | cons x0 rest => exact ⟨x0, rest, rfl⟩
  have hx0 : x0.length = k := hrows x0 (List.mem_cons_self _ _)
  have hPhi : for_each (basis_row (k : Int)) (x0 :: rest)
      = .ok ((x0 :: rest).map quadratic_basis) := by
    apply for_each_ok_map
    intro x hx
    rw [← hrows x hx]
    exact basis_row_eq x
  have hfit : fit qr_solve s (x0 :: rest) y
      = (.ok true, { k_ := (k : Int), fitted_ := true,
                     beta_ := qr_solve ((x0 :: rest).map quadratic_basis) y }) := by
    rw [rsq_fit_ok qr_solve s (x0 :: rest) y hne hy (fun row hrow => by
      rw [hrows row hrow, List.headD_cons, hx0]), List.headD_cons, hx0]
  have hrowlen : ∀ row ∈ (x0 :: rest).map quadratic_basis,
      (row.length : Int) = num_columns (k : Int) := by
    intro row hrow
    obtain ⟨x, hx, rfl⟩ := List.mem_map.mp hrow
    rw [← hrows x hx]
    exact quadratic_basis_length x
  have hcolsI : ((1 + k + k + (cross_terms x0).length : Nat) : Int) = num_columns (k : Int) := by
    have h := quadratic_basis_length x0
    rw [hx0] at h
    rw [← h]
    simp only [quadratic_basis, List.length_cons, List.length_append, List.length_map, hx0]
    push_cast
    ring
  have hvlen : (alias_vector α k (cross_terms x0).length).length
      = 1 + k + k + (cross_terms x0).length := alias_vector_length k _ hk
  have hvrow : ∀ row ∈ (x0 :: rest).map quadratic_basis,
      dot_sum row (alias_vector α k (cross_terms x0).length) = 0 := by
    intro row hrow
    obtain ⟨x, hx, rfl⟩ := List.mem_map.mp hrow
    have hxk := hrows x hx
    cases x with
    | nil =>
      rw [List.length_nil] at hxk
      omega
    | cons a xs =>
      have hk' : k = xs.length + 1 := by rw [← hxk, List.length_cons]
      rw [hk']
      exact dot_sum_alias_vector a xs _ (hpm _ hx a (List.mem_cons_self _ _))
  have hhead : (((x0 :: rest).map quadratic_basis).headD []).length
      = 1 + k + k + (cross_terms x0).length := by
    simp only [List.map_cons, List.headD_cons, quadratic_basis, List.length_cons,
      List.length_append, List.length_map, hx0]
    omega
  have hrank : ¬ full_column_rank ((x0 :: rest).map quadratic_basis) := by
    intro hfull
    have h1 := hfull (alias_vector α k (cross_terms x0).length) (by rw [hvlen, hhead]) hvrow 1
      (by simp [alias_vector])
    exact one_ne_zero h1
  have hother : ∀ beta : List α, beta.length = 1 + k + k + (cross_terms x0).length →
      ∃ beta' : List α, beta'.length = beta.length ∧ beta' ≠ beta ∧
        (∀ row ∈ (x0 :: rest).map quadratic_basis, dot_sum row beta' = dot_sum row beta) ∧
        residual_sq ((x0 :: rest).map quadratic_basis) y beta'
          = residual_sq ((x0 :: rest).map quadratic_basis) y beta ∧
        (is_least_squares ((x0 :: rest).map quadratic_basis) y beta →
          is_least_squares ((x0 :: rest).map quadratic_basis) y beta') ∧
        ∀ x ∈ x0 :: rest,
          predict { k_ := (k : Int), fitted_ := true, beta_ := beta' } x
            = predict { k_ := (k : Int), fitted_ := true, beta_ := beta } x := by
    intro beta hbeta
    have hbv : beta.length = (alias_vector α k (cross_terms x0).length).length := by
      rw [hbeta, hvlen]
    have hlen : (List.zipWith (fun u w => u + w) beta
        (alias_vector α k (cross_terms x0).length)).length = beta.length := by
      rw [List.length_zipWith, ← hbv, min_self]
    have hsame : ∀ row ∈ (x0 :: rest).map quadratic_basis,
        dot_sum row (List.zipWith (fun u w => u + w) beta
          (alias_vector α k (cross_terms x0).length)) = dot_sum row beta := by
      intro row hrow
      rw [dot_sum_add row beta _ hbv, hvrow row hrow, add_zero]
    have hres := residual_sq_congr ((x0 :: rest).map quadratic_basis) y _ beta hsame
    refine ⟨_, hlen, ?_, hsame, hres, ?_, ?_⟩
    · cases beta with
      | nil =>
        rw [List.length_nil] at hbeta
        omega
      | cons b0 bs =>
        intro heq
        simp only [alias_vector, List.zipWith_cons_cons, List.cons.injEq] at heq
        have := heq.1
        linarith
    · rintro ⟨h1, h2⟩
      refine ⟨by rw [hlen]; exact h1, ?_⟩
      intro beta'' hb''
      rw [hres]
      exact h2 beta'' (by rw [hb'', hlen])
    · intro x hx
      have hxk : (x.length : Int) = (k : Int) := by rw [hrows x hx]
      have hql : (quadratic_basis x).length = beta.length := by
        have h1 := hrowlen (quadratic_basis x) (List.mem_map.mpr ⟨x, hx, rfl⟩)
        have h2 : ((quadratic_basis x).length : Int) = (beta.length : Int) := by
          rw [h1, hbeta, hcolsI]
        exact_mod_cast h2
      rw [predict_eq _ x rfl hxk, predict_eq _ x rfl hxk,
        dot_eq _ _ (by rw [hlen, hql]), dot_eq _ _ hql.symm,
        dot_sum_comm, hsame _ (List.mem_map.mpr ⟨x, hx, rfl⟩), dot_sum_comm]
  have hcast : ∀ beta : List α, (beta.length : Int) = num_columns (k : Int) →
      beta.length = 1 + k + k + (cross_terms x0).length := by
    intro beta hb
    rw [← hcolsI] at hb
    exact_mod_cast hb
  refine ⟨(x0 :: rest).map quadratic_basis, hPhi, hfit, List.length_map _ _, ?_, hrank, ?_, ?_⟩
  · intro row hrow
    refine ⟨hrowlen row hrow, ?_⟩
    intro i hi
    obtain ⟨x, hx, rfl⟩ := List.mem_map.mp hrow
    have hr := hrows x hx
    have h := quadratic_basis_squared_entry x (hpm x hx) i (by rw [hr]; exact hi)
    rw [hr] at h
    exact h
  · intro beta hb
    exact hother beta (hcast beta hb)
  · intro hls
    rw [hfit] at hls ⊢
    have hlen : (qr_solve ((x0 :: rest).map quadratic_basis) y).length
        = 1 + k + k + (cross_terms x0).length := by
      rw [← hhead]
      exact hls.1
    obtain ⟨beta', _, hne', _, _, hls', hpred⟩ := hother _ hlen
    exact ⟨beta', hne', hls' hls, hpred⟩

/-- C39 on the design of `test_doe_full_analysis` (columns A and B of
`OA_L8_2_7` coded -1 and +1, `k = 2`, six basis columns) with the solve that
returns zeros: `fit` returns `true`, the basis matrix it builds has eight rows
and no full column rank, and another coefficient vector gives the same fitted
values and the same predictions at the design points. -/
theorem C39_witness :
    ∃ Phi : List (List ℝ),
      for_each (basis_row 2) (test_design_L8 ℝ) = .ok Phi ∧
      (fit (fun Phi _ => (Phi.headD []).map (fun _ => (0 : ℝ))) {} (test_design_L8 ℝ)
        (test_responses ℝ)).1 = .ok true ∧
      Phi.length = 8 ∧ ¬ full_column_rank Phi ∧
      ∃ beta' : List ℝ, beta'.length = 6 ∧ beta' ≠ [0, 0, 0, 0, 0, 0] ∧
        (∀ row ∈ Phi, dot_sum row beta' = dot_sum row [0, 0, 0, 0, 0, 0]) ∧
        ∀ x ∈ test_design_L8 ℝ,
          predict { k_ := 2, fitted_ := true, beta_ := beta' } x
            = predict { k_ := 2, fitted_ := true, beta_ := ([0, 0, 0, 0, 0, 0] : List ℝ) } x := by
  obtain ⟨Phi, h1, h2, h3, _, h5, h6, _⟩ := C39_two_level_design_aliases_squares
    (fun Phi _ => (Phi.headD []).map (fun _ => (0 : ℝ))) {} (test_design_L8 ℝ)
    (test_responses ℝ) 2 (by decide) (by simp [test_design_L8])
    (by
      intro row hrow
      simp only [test_design_L8, List.mem_cons, List.mem_singleton, List.not_mem_nil,
        or_false] at hrow
      rcases hrow with rfl | rfl | rfl | rfl | rfl | rfl | rfl | rfl <;> rfl)
    (by
      intro row hrow v hv
      simp only [test_design_L8, List.mem_cons, List.mem_singleton, List.not_mem_nil,
        or_false] at hrow
      rcases hrow with rfl | rfl | rfl | rfl | rfl | rfl | rfl | rfl <;>
        simp only [List.mem_cons, List.mem_singleton, List.not_mem_nil, or_false] at hv <;>
        rcases hv with rfl | rfl <;> norm_num)
    rfl
  obtain ⟨beta', hb1, hb2, hb3, _, _, hb6⟩ := h6 [0, 0, 0, 0, 0, 0] (by
    simp only [List.length_cons, List.length_nil]
    rfl)
  refine ⟨Phi, h1, by rw [h2], ?_, h5, beta', hb1, hb2, hb3, hb6⟩
  rw [h3]
  rfl

end ResponseSurfaceQuadratic
